import Mathlib

/-!
# Survival game: inventory model and inventory actions

A shallow embedding of the inventory code of `src/game.go`
(`addToInventory`, `hasItem`, `removeItem`, and the cook / eat branches of
`Game.Update`) together with the properties proved about it.

Conventions of the embedding

* `g.inventory` is `[8][8]InventorySlot`.  It is represented by the list of its
  slots in row-major order (index `8*y + x`), which is exactly the order in which
  the nested `for y ... for x ...` loops of the source visit the grid.  The loop
  functions below are written for a list of any length; the grid has length 64.
* Go `int` is taken to be the 64-bit two's-complement integer.  Counts are `Int`
  and every addition that can leave the 64-bit range is wrapped with `wrapInt`.
  Subtractions that stay in range for every 64-bit operand are left unwrapped and
  the reason is given next to them.
* `time.Time` is an `Int` number of nanoseconds; `float64` bars are exact rationals.
-/

namespace SurvivalGame

/-! ## Data model (`src/structs.go`) -/

/-- One cell of the inventory grid: `type InventorySlot struct { Item string; Count int }`. -/
structure InventorySlot where
  Item : String
  Count : Int
deriving DecidableEq

/-- The grid `[8][8]InventorySlot`, flattened row-major. -/
abbrev Inventory := List InventorySlot

/-- The zero value of `InventorySlot`. -/
def zeroSlot : InventorySlot := ⟨"", 0⟩

/-- The zero value of `[8][8]InventorySlot`: the inventory of a fresh `Game`. -/
def initialInventory : Inventory := List.replicate 64 zeroSlot

/-- Largest value of a 64-bit Go `int`. -/
def maxInt : Int := 9223372036854775807

/-- Smallest value of a 64-bit Go `int`. -/
def minInt : Int := -9223372036854775808

/-- Two's-complement wrap-around of a mathematical integer into the 64-bit range:
the value a Go `int` holds after an arithmetic operation whose exact result is `x`. -/
def wrapInt (x : Int) : Int :=
  (x + 9223372036854775808) % 18446744073709551616 - 9223372036854775808

/-! ## `addToInventory` -/

/-- The local `maxPerCell := 5; if item == "Wood" { maxPerCell = 5 }`. -/
def maxPerCell (item : String) : Int := if item = "Wood" then 5 else 5

/-- First pair of loops of `addToInventory` ("try to stack first").  The result is
the grid, the remaining `count`, and whether the `return` inside the loop was taken.
`slot.Count+add` can overflow and is wrapped; `maxPerCell - slot.Count` and
`count -= add` cannot (here `0 < slot.Count < 5`, and `add` is either `count` or,
when the wrapped sum exceeds 5, a value in `1..4` below a positive `count`). -/
def stackLoop (item : String) : Inventory → Int → Inventory × Int × Bool
  | [], count => ([], count, false)
  | slot :: rest, count =>
    if slot.Item = item ∧ slot.Count > 0 ∧ slot.Count < maxPerCell item then
      let add := if wrapInt (slot.Count + count) > maxPerCell item
        then maxPerCell item - slot.Count else count
      let slot1 : InventorySlot := ⟨slot.Item, wrapInt (slot.Count + add)⟩
      let count1 := count - add
      if count1 ≤ 0 then (slot1 :: rest, count1, true)
      else
        let r := stackLoop item rest count1
        (slot1 :: r.1, r.2.1, r.2.2)
    else
      let r := stackLoop item rest count
      (slot :: r.1, r.2.1, r.2.2)

/-- Second pair of loops of `addToInventory` ("find first empty slot(s)"); both loop
headers carry the condition `count > 0`. -/
def fillLoop (item : String) : Inventory → Int → Inventory
  | [], _ => []
  | slot :: rest, count =>
    if count > 0 then
      if slot.Item = "" ∨ slot.Count = 0 then
        let add := if count > maxPerCell item then maxPerCell item else count
        (⟨item, add⟩ : InventorySlot) :: fillLoop item rest (count - add)
      else slot :: fillLoop item rest count
    else slot :: rest

/-- The method `func (g *Game) addToInventory(item string, count int)`, as a function
from the grid before the call to the grid after it. -/
def addToInventory (item : String) (count : Int) (inv : Inventory) : Inventory :=
  let r := stackLoop item inv count
  if r.2.2 then r.1 else fillLoop item r.1 r.2.1

/-! ## `hasItem` -/

/-- The loops of `hasItem` with the running `total` as an accumulator;
`total += slot.Count` is wrapped. -/
def hasItemLoop (item : String) (count : Int) : Inventory → Int → Bool
  | [], _ => false
  | slot :: rest, total =>
    if slot.Item = item then
      let total1 := wrapInt (total + slot.Count)
      if total1 ≥ count then true else hasItemLoop item count rest total1
    else hasItemLoop item count rest total

/-- The method `func (g *Game) hasItem(item string, count int) bool`. -/
def hasItem (item : String) (count : Int) (inv : Inventory) : Bool :=
  hasItemLoop item count inv 0

/-! ## `removeItem` -/

/-- The method `func (g *Game) removeItem(item string, count int)`.  Neither
subtraction can overflow: `slot.Count -= count` runs with `0 < count < slot.Count`
and `count -= slot.Count` with `0 < slot.Count ≤ count`. -/
def removeItem (item : String) : Inventory → Int → Inventory
  | [], _ => []
  | slot :: rest, count =>
    if count > 0 then
      if slot.Item = item ∧ slot.Count > 0 then
        if slot.Count > count then
          (⟨slot.Item, slot.Count - count⟩ : InventorySlot) :: rest
        else
          (⟨"", 0⟩ : InventorySlot) :: removeItem item rest (count - slot.Count)
      else slot :: removeItem item rest count
    else slot :: rest

/-! ## Quantities used to state the properties -/

/-- Sum of the counts of all slots whose name is `item`. -/
def totalCount (item : String) : Inventory → Int
  | [] => 0
  | s :: rest => (if s.Item = item then s.Count else 0) + totalCount item rest

/-- The emptiness test of `addToInventory`: `slot.Item == "" || slot.Count == 0`. -/
def isEmptySlot (s : InventorySlot) : Prop := s.Item = "" ∨ s.Count = 0

instance (s : InventorySlot) : Decidable (isEmptySlot s) := by
  unfold isEmptySlot; infer_instance

/-- Room left on the stacks `addToInventory` tops up: the sum of `5 - n` over the
slots holding `item` with `0 < n < 5`. -/
def stackRoom (item : String) : Inventory → Int
  | [] => 0
  | s :: rest =>
    (if s.Item = item ∧ 0 < s.Count ∧ s.Count < 5 then 5 - s.Count else 0)
      + stackRoom item rest

/-- Room in empty slots: 5 for each slot with empty name or zero count. -/
def emptyRoom : Inventory → Int
  | [] => 0
  | s :: rest => (if s.Item = "" ∨ s.Count = 0 then 5 else 0) + emptyRoom rest

/-- Free room for `item`: partial stacks of `item` plus empty slots. -/
def freeRoom (item : String) (inv : Inventory) : Int :=
  stackRoom item inv + emptyRoom inv

/-- Index of the first empty slot in row-major order (the length when there is none). -/
def firstEmpty (inv : Inventory) : Nat :=
  inv.findIdx (fun s => decide (isEmptySlot s))

/-- The slot invariant: a slot with a non-empty name has a count between 1 and 5. -/
def SlotInv (s : InventorySlot) : Prop := s.Item ≠ "" → 1 ≤ s.Count ∧ s.Count ≤ 5

/-- The slot invariant for a whole inventory. -/
def InvOK (inv : Inventory) : Prop := ∀ s ∈ inv, SlotInv s

/-- Every slot count is non-negative. -/
def NonNeg (inv : Inventory) : Prop := ∀ s ∈ inv, 0 ≤ s.Count

/-- How the stacking loops may change one slot: not at all, or by raising the count
of a slot of `item` to at most 5. -/
def StackStep (item : String) (s t : InventorySlot) : Prop :=
  t = s ∨ (s.Item = item ∧ t.Item = item ∧ 0 < s.Count ∧ s.Count < 5 ∧
    s.Count ≤ t.Count ∧ t.Count ≤ 5)

/-- How the filling loops may change one slot: not at all, or by writing a stack of
`item` of size 1 to 5 over an empty slot. -/
def FillStep (item : String) (s t : InventorySlot) : Prop :=
  t = s ∨ (isEmptySlot s ∧ t.Item = item ∧ 1 ≤ t.Count ∧ t.Count ≤ 5)

/-- How `addToInventory` may change one slot: a stacking step followed by a filling step. -/
def AddStep (item : String) (s t : InventorySlot) : Prop :=
  ∃ m, StackStep item s m ∧ FillStep item m t

/-- How `removeItem` may change one slot: not at all, or by lowering or draining a
slot of `item` with a positive count; a drained slot loses its name. -/
def RemoveStep (item : String) (s t : InventorySlot) : Prop :=
  t = s ∨ (s.Item = item ∧ 0 < s.Count ∧
    (t = ⟨"", 0⟩ ∨ (t.Item = s.Item ∧ 0 < t.Count ∧ t.Count < s.Count)))

/-- Every slot named `item` has a non-negative count. -/
def NonNegOf (item : String) (inv : Inventory) : Prop :=
  ∀ s ∈ inv, s.Item = item → 0 ≤ s.Count

/-- Every slot count is a value of the 64-bit Go `int`. -/
def IsInt64 (inv : Inventory) : Prop := ∀ s ∈ inv, minInt ≤ s.Count ∧ s.Count ≤ maxInt

/-- Row-major removal, slot by slot: what removing `count` of `item` leaves in a slot
`s` when the slots before it hold `p` of `item`.  The slot gives up what is still
owed, `count - p`, as far as it can; a slot drained to zero becomes `{"", 0}`. -/
def removedSlot (item : String) (count p : Int) (s : InventorySlot) : InventorySlot :=
  if s.Item = item ∧ 0 < s.Count ∧ p < count then
    if p + s.Count ≤ count then ⟨"", 0⟩ else ⟨s.Item, s.Count - (count - p)⟩
  else s

/-- Every slot count lies in `0..5`. -/
def CountsUpTo5 (inv : Inventory) : Prop := ∀ s ∈ inv, 0 ≤ s.Count ∧ s.Count ≤ 5

/-- No slot holds `item` with a positive count. -/
def Absent (item : String) (inv : Inventory) : Prop :=
  ∀ s ∈ inv, ¬ (s.Item = item ∧ 0 < s.Count)

/-- Every empty slot (empty name or zero count) is the zero slot `{"", 0}`. -/
def CleanEmpties (inv : Inventory) : Prop := ∀ s ∈ inv, isEmptySlot s → s = ⟨"", 0⟩

/-- Inventories reachable from the initial one by calls of `addToInventory` (with
`0 ≤ count` and `count + 4` inside the 64-bit range) and of `removeItem`. -/
inductive Reachable : Inventory → Prop
  | init : Reachable initialInventory
  | add (item : String) (count : Int) (inv : Inventory) :
      Reachable inv → 0 ≤ count → count ≤ 9223372036854775803 →
      Reachable (addToInventory item count inv)
  | remove (item : String) (count : Int) (inv : Inventory) :
      Reachable inv → Reachable (removeItem item inv count)

instance (s : InventorySlot) : Decidable (SlotInv s) := by
  unfold SlotInv; infer_instance

instance (inv : Inventory) : Decidable (InvOK inv) := by
  unfold InvOK; infer_instance

instance (inv : Inventory) : Decidable (NonNeg inv) := by
  unfold NonNeg; infer_instance

instance (item : String) (inv : Inventory) : Decidable (NonNegOf item inv) := by
  unfold NonNegOf; infer_instance

instance (inv : Inventory) : Decidable (CountsUpTo5 inv) := by
  unfold CountsUpTo5; infer_instance

instance (item : String) (inv : Inventory) : Decidable (Absent item inv) := by
  unfold Absent; infer_instance

instance (inv : Inventory) : Decidable (CleanEmpties inv) := by
  unfold CleanEmpties; infer_instance

instance (inv : Inventory) : Decidable (IsInt64 inv) := by
  unfold IsInt64; infer_instance

/-! ## The inventory block of `Game.Update` -/

/-- The fields of `Game` that the inventory block of `Update` reads or writes.
Times are nanoseconds; `hunger` is the `float64` bar, taken as an exact rational. -/
structure Game where
  inventory : Inventory
  inventoryOpen : Bool
  lastInventoryTime : Int
  lastChatEnd : Int
  hunger : ℚ
deriving DecidableEq

/-- The answers of `ebiten.IsKeyPressed` for the keys the inventory block asks about. -/
structure Keys where
  space : Bool
  keyC : Bool
  keyE : Bool
deriving DecidableEq

/-- The constant `inventoryInputDelay = 200 * time.Millisecond`, in nanoseconds. -/
def inventoryInputDelay : Int := 200 * 1000000

/-- The body of the cook branch: `if g.hasItem("Fish", 1) && g.hasItem("Wood", 1) { ... }`
followed by `g.lastInventoryTime = now`. -/
def cook (g : Game) (now : Int) : Game :=
  let g1 : Game :=
    if hasItem "Fish" 1 g.inventory = true ∧ hasItem "Wood" 1 g.inventory = true then
      { g with
        inventory :=
          addToInventory "Cooked Fish" 1
            (removeItem "Wood" (removeItem "Fish" g.inventory 1) 1)
        lastChatEnd := now }
    else g
  { g1 with lastInventoryTime := now }

/-- The body of the eat branch: `if g.hasItem("Cooked Fish", 1) { ... }` followed by
`g.lastInventoryTime = now`. -/
def eat (g : Game) (now : Int) : Game :=
  let g1 : Game :=
    if hasItem "Cooked Fish" 1 g.inventory = true then
      let h : ℚ := g.hunger + 1 / 10
      { g with
        inventory := removeItem "Cooked Fish" g.inventory 1
        hunger := if h > 1 then 1 else h }
    else g
  { g1 with lastInventoryTime := now }

/-- The block `if g.inventoryOpen { ... }` of `Update` (after the label
`skipInventoryOpen`), with `now` the value of `time.Now()` read before it.  The result
is `none` when the inventory is closed and `Update` goes on to the movement code, and
the state with which `Update` returns otherwise.  `now.Sub(t) > d` is the comparison
`now - t > d` on nanoseconds (`Sub` saturates at the ends of the `Duration` range,
which does not change a comparison with 200 ms). -/
def inventoryInteraction (g : Game) (keys : Keys) (now : Int) : Option Game :=
  if g.inventoryOpen = true then
    if keys.space = true ∧ now - g.lastInventoryTime > inventoryInputDelay then
      some { g with inventoryOpen := false, lastInventoryTime := now }
    else if keys.keyC = true ∧ now - g.lastInventoryTime > inventoryInputDelay then
      some (cook g now)
    else if keys.keyE = true ∧ now - g.lastInventoryTime > inventoryInputDelay then
      some (eat g now)
    else some g
  else none

/-- The cook branch is the one taken: the inventory is open, C is pressed more than
200 ms after the last inventory action, and the close branch (Space) before it is not
taken. -/
def cookAccepted (g : Game) (keys : Keys) (now : Int) : Prop :=
  g.inventoryOpen = true ∧ keys.space = false ∧ keys.keyC = true ∧
    now - g.lastInventoryTime > inventoryInputDelay

/-- The eat branch is the one taken: the inventory is open, E is pressed more than
200 ms after the last inventory action, and the close (Space) and cook (C) branches
before it are not taken. -/
def eatAccepted (g : Game) (keys : Keys) (now : Int) : Prop :=
  g.inventoryOpen = true ∧ keys.space = false ∧ keys.keyC = false ∧ keys.keyE = true ∧
    now - g.lastInventoryTime > inventoryInputDelay

instance (g : Game) (keys : Keys) (now : Int) : Decidable (cookAccepted g keys now) := by
  unfold cookAccepted; infer_instance

instance (g : Game) (keys : Keys) (now : Int) : Decidable (eatAccepted g keys now) := by
  unfold eatAccepted; infer_instance

/-! ## The whole state of the game (`src/structs.go`) -/

/-- The constant `tileSize = 15` of `src/main.go`. -/
def tileSize : Int := 15

/-- Go `a + b` on `int`. -/
def addInt (a b : Int) : Int := wrapInt (a + b)

/-- Go `a - b` on `int`. -/
def subInt (a b : Int) : Int := wrapInt (a - b)

/-- Go `a * b` on `int`. -/
def mulInt (a b : Int) : Int := wrapInt (a * b)

/-- Go `a / b` on `int`: the quotient truncated toward zero. -/
def quoInt (a b : Int) : Int := wrapInt (Int.tdiv a b)

/-- Go `a % b` on `int`: the remainder with the sign of `a`. -/
def remInt (a b : Int) : Int := Int.tmod a b

/-- The standard library type `image.Point`. -/
structure Point where
  X : Int
  Y : Int
deriving DecidableEq

/-- The standard library type `image.Rectangle`. -/
structure Rectangle where
  Min : Point
  Max : Point
deriving DecidableEq

/-- The standard library function `image.Rect`: the rectangle with the given corners,
the coordinates swapped where needed so that `Min ≤ Max`. -/
def Rect (x0 y0 x1 y1 : Int) : Rectangle :=
  { Min := ⟨if x0 > x1 then x1 else x0, if y0 > y1 then y1 else y0⟩
    Max := ⟨if x0 > x1 then x0 else x1, if y0 > y1 then y0 else y1⟩ }

/-- The standard library method `Rectangle.Empty`. -/
def Rectangle.Empty (r : Rectangle) : Bool :=
  decide (r.Min.X ≥ r.Max.X) || decide (r.Min.Y ≥ r.Max.Y)

/-- The standard library method `Rectangle.Overlaps`: the two rectangles have a
non-empty intersection. -/
def Rectangle.Overlaps (r s : Rectangle) : Bool :=
  !r.Empty && !s.Empty &&
    decide (r.Min.X < s.Max.X) && decide (s.Min.X < r.Max.X) &&
    decide (r.Min.Y < s.Max.Y) && decide (s.Min.Y < r.Max.Y)

/-- The tile-sized rectangle of an actor at `p`:
`image.Rect(p.X, p.Y, p.X+tileSize, p.Y+tileSize)`. -/
def actorRect (p : Point) : Rectangle :=
  Rect p.X p.Y (addInt p.X tileSize) (addInt p.Y tileSize)

/-- The struct `NPC` without its sprite. -/
structure NPC where
  pos : Point
  dir : Int
  name : String
  anim : Int
  animTick : Int
  moveTick : Int
  target : Point
  moving : Bool
deriving DecidableEq

/-- The struct `ConversationChoice`; `Next` is a reference into the arena of nodes,
`none` for the nil pointer. -/
structure ConversationChoice where
  Text : String
  Next : Option Nat
deriving DecidableEq

/-- The struct `ConversationNode`. -/
structure ConversationNode where
  Text : String
  Choices : List ConversationChoice
deriving DecidableEq

/-- What the code reads of a `*tiled.LayerTile`: whether its `Tileset` is non-nil. -/
structure LayerTile where
  Tileset : Bool
deriving DecidableEq

/-- What the code reads of a `*tiled.Layer`: name, visibility and the tiles, one
optional tile per cell in row-major order (`none` for a nil tile). -/
structure Layer where
  Name : String
  Visible : Bool
  Tiles : List (Option LayerTile)
deriving DecidableEq

/-- What the code reads of the `*tiled.Map`. -/
structure TiledMap where
  Width : Int
  Height : Int
  Layers : List Layer
deriving DecidableEq

/-- The struct `Game` in full, extending the fields of the inventory block.  Pointers
to NPCs and to layers are indices into `npcs` and `mapData.Layers`; pointers to
conversation nodes are indices into the arena `nodes`; `conversations` is `none` for
the nil map.  Sprites, images and the music fields are left out: `Update` only uses
them in its music block, which touches nothing else. -/
structure GameState extends Game where
  mapData : TiledMap
  playerPos : Point
  treesLayer : Option Nat
  playerDir : Int
  playerAnim : Int
  playerAnimTick : Int
  moving : Bool
  npcs : List NPC
  gameOver : Bool
  chatting : Bool
  chatNPC : Option Nat
  chatChoice : Int
  conversations : Option (List (String × Nat))
  convNode : Option Nat
  nodes : List ConversationNode
  lastChoiceTime : Int
  pendingTreeLayer : Option Nat
  pendingTreeTileIdx : Int
  health : ℚ
  social : ℚ
  gameMinutes : Int
  lastTick : Int
  lastDrain : Int
deriving DecidableEq

/-- One entry of the shuffled direction table of the NPC wander step. -/
structure Dir where
  dx : Int
  dy : Int
  dir : Int
deriving DecidableEq

/-- The random draws one idle NPC makes in one `Update`: the value of `rand.Intn(30)`
and the direction table after `rand.Shuffle`. -/
structure NPCRand where
  intn : Int
  dirs : List Dir
deriving DecidableEq

/-- Everything `Update` reads from outside the game state: the keys and the mouse
button as `ebiten` reports them, the five readings of `time.Now()` in program order
(clock tick, chat block, inventory code, `time.Since` of the interaction, start of a
conversation), and the random draws, one entry per NPC in the order of `g.npcs`. -/
structure Input where
  space : Bool
  enter : Bool
  mouseLeft : Bool
  arrowUp : Bool
  arrowDown : Bool
  arrowLeft : Bool
  arrowRight : Bool
  keyC : Bool
  keyE : Bool
  tickNow : Int
  chatNow : Int
  invNow : Int
  sinceNow : Int
  talkNow : Int
  rand : List NPCRand
deriving DecidableEq

/-- The ways `Update` can fail to return: a nil pointer dereference, an index out of
range, and, in the model only, the drain loop still running when the fuel is spent. -/
inductive Fault where
  | nilDeref
  | indexOutOfRange
  | outOfFuel
deriving DecidableEq

/-! ## Clock and drain (`Update`, "In-game time and bar drain logic") -/

/-- The zero `time.Time` (1 January of year 1, UTC) in nanoseconds before the Unix
epoch; `t.IsZero()` is `t = zeroTime`. -/
def zeroTime : Int := -62135596800000000000

/-- The value of `now.Sub(t)`: the difference in nanoseconds, saturated to the range
of `time.Duration`. -/
def timeSub (now t : Int) : Int := max minInt (min maxInt (now - t))

/-- The local `gameMinAdvance := int(elapsed / realSecondsPerGameMinute)` for an elapsed
`time.Duration` in nanoseconds: `elapsed.Seconds() / (10.0/60.0)` truncated toward
zero, with the `float64` arithmetic taken exactly. -/
def gameMinAdvance (elapsed : Int) : Int := Int.tdiv (elapsed * 6) 1000000000

/-- The clock part of `Update`, with `now` the value of `time.Now()`: `lastTick` is set
when zero, and when at least one in-game minute has passed `gameMinutes` moves on
modulo `24 * 60` and `lastTick` by the duration of the minutes counted. -/
def clockTick (now : Int) (g : GameState) : GameState :=
  let lastTick := if g.lastTick = zeroTime then now else g.lastTick
  let adv := gameMinAdvance (timeSub now lastTick)
  if adv > 0 then
    { g with
      gameMinutes := remInt (addInt g.gameMinutes adv) (24 * 60)
      lastTick := lastTick + Int.tdiv (adv * 1000000000) 6 }
  else { g with lastTick := lastTick }

/-- The local `drainPerMinute := 0.5 / 1440.0`. -/
def drainPerMinute : ℚ := (1 / 2) / 1440

/-- One pass through the body of the drain loop on `(hunger, social, lastDrain)`. -/
def drainBody (b : ℚ × ℚ × Int) : ℚ × ℚ × Int :=
  let hunger := b.1 - drainPerMinute
  let social := b.2.1 - drainPerMinute
  (if hunger < 0 then 0 else hunger, if social < 0 then 0 else social,
    remInt (addInt b.2.2 1) (24 * 60))

/-- The loop `for g.lastDrain != g.gameMinutes { ... }` on `(hunger, social, lastDrain)`;
`none` when the fuel is spent before the loop ends. -/
def drainLoop (gameMinutes : Int) : Nat → ℚ × ℚ × Int → Option (ℚ × ℚ × Int)
  | 0, b => if b.2.2 = gameMinutes then some b else none
  | fuel + 1, b =>
    if b.2.2 = gameMinutes then some b else drainLoop gameMinutes fuel (drainBody b)

/-- The drain part of `Update`: `if g.lastDrain == 0 { g.lastDrain = g.gameMinutes }`
followed by the drain loop. -/
def drain (fuel : Nat) (g : GameState) : Except Fault GameState :=
  let lastDrain := if g.lastDrain = 0 then g.gameMinutes else g.lastDrain
  match drainLoop g.gameMinutes fuel (g.hunger, g.social, lastDrain) with
  | none => .error .outOfFuel
  | some b => .ok { g with hunger := b.1, social := b.2.1, lastDrain := b.2.2 }

/-! ## Slices, tiles and rectangles used by `Update` -/

/-- Reading `s[i]` of a Go slice with an `int` index: a panic when out of range. -/
def sliceGet {α : Type} (s : List α) (i : Int) : Except Fault α :=
  if i < 0 then .error .indexOutOfRange
  else match s[i.toNat]? with
    | some a => .ok a
    | none => .error .indexOutOfRange

/-- Writing `s[i] = a` of a Go slice with an `int` index: a panic when out of range. -/
def sliceSet {α : Type} (s : List α) (i : Int) (a : α) : Except Fault (List α) :=
  if i < 0 then .error .indexOutOfRange
  else if i.toNat < s.length then .ok (s.set i.toNat a)
  else .error .indexOutOfRange

/-- The test `tile != nil && tile.Tileset != nil`. -/
def occupied (t : Option LayerTile) : Bool :=
  match t with
  | some t => t.Tileset
  | none => false

/-- The cell `(centerX / tileSize, centerY / tileSize)` under the centre of a
tile-sized actor at `(x, y)`, computed as in the source with
`size := tileSize; offset := (tileSize - size) / 2; centerX := x + offset + size/2`. -/
def centerCell (x y : Int) : Int × Int :=
  let size := tileSize
  let offset := quoInt (subInt tileSize size) 2
  let centerX := addInt (addInt x offset) (quoInt size 2)
  let centerY := addInt (addInt y offset) (quoInt size 2)
  (quoInt centerX tileSize, quoInt centerY tileSize)

/-- The bounds test `x >= 0 && x < Width && y >= 0 && y < Height` on a cell. -/
def inMap (m : TiledMap) (x y : Int) : Bool :=
  decide (x ≥ 0) && decide (x < m.Width) && decide (y ≥ 0) && decide (y < m.Height)

/-- The read `layer.Tiles[y*Width+x]`. -/
def tileAt (m : TiledMap) (layer : Layer) (x y : Int) : Except Fault (Option LayerTile) :=
  sliceGet layer.Tiles (addInt (mulInt y m.Width) x)

/-- A loop `for _, layer := range g.mapData.Layers` that skips the layers `consult`
rejects and stops with `true` at the first one with an occupied tile at the cell
`(x, y)` inside the map; `false` when the loop runs to its end. -/
def layersBlocked (consult : Layer → Bool) (m : TiledMap) (x y : Int) :
    List Layer → Except Fault Bool
  | [] => .ok false
  | layer :: rest =>
    if consult layer && inMap m x y then
      match tileAt m layer x y with
      | .error e => .error e
      | .ok tile => if occupied tile then .ok true else layersBlocked consult m x y rest
    else layersBlocked consult m x y rest

/-- The keys of the local map `collidableLayers`: the names of the layers with
`layer.Name != "Base ground" && layer.Visible`. -/
def collidableLayers (layers : List Layer) : List String :=
  (layers.filter (fun l => decide (l.Name ≠ "Base ground") && l.Visible)).map Layer.Name

/-- The layer test of the NPC wander step: `layer.Name == "Base ground" || !layer.Visible`
skips the layer. -/
def npcConsults (layer : Layer) : Bool :=
  !(decide (layer.Name = "Base ground") || !layer.Visible)

/-- The layer test of the player movement: `!collidableLayers[layer.Name]` skips the
layer. -/
def playerConsults (m : TiledMap) (layer : Layer) : Bool :=
  decide (layer.Name ∈ collidableLayers m.Layers)

/-- The function `isFacingNPC` of `src/helper.go`, on the player position and the NPC. -/
def isFacingNPC (playerPos : Point) (npc : NPC) : Bool :=
  (actorRect playerPos).Overlaps
    (Rect (subInt npc.pos.X (quoInt tileSize 2)) (subInt npc.pos.Y (quoInt tileSize 2))
      (addInt npc.pos.X (quoInt (mulInt tileSize 3) 2))
      (addInt npc.pos.Y (quoInt (mulInt tileSize 3) 2)))

/-- The cell in front of the player: the centre cell moved by the `switch g.playerDir`
(`0: y++`, `1: x--`, `2: x++`, `3: y--`). -/
def interactCell (playerPos : Point) (playerDir : Int) : Int × Int :=
  let c := centerCell playerPos.X playerPos.Y
  if playerDir = 0 then (c.1, addInt c.2 1)
  else if playerDir = 1 then (subInt c.1 1, c.2)
  else if playerDir = 2 then (addInt c.1 1, c.2)
  else if playerDir = 3 then (c.1, subInt c.2 1)
  else c

/-- A loop over the layers that looks, in the layers whose name is in `names`, for an
occupied tile at the cell `(x, y)` inside the map; the index of the first such layer. -/
def findOccupied (names : List String) (m : TiledMap) (x y : Int) :
    Nat → List Layer → Except Fault (Option Nat)
  | _, [] => .ok none
  | i, layer :: rest =>
    if decide (layer.Name ∈ names) && inMap m x y then
      match tileAt m layer x y with
      | .error e => .error e
      | .ok tile => if occupied tile then .ok (some i) else findOccupied names m x y (i + 1) rest
    else findOccupied names m x y (i + 1) rest

/-! ## The NPC loop (`Update`, "NPC movement and animation logic") -/

/-- The table `dirs` of the wander step before the shuffle. -/
def wanderDirs : List Dir :=
  [⟨0, -tileSize, 3⟩, ⟨0, tileSize, 0⟩, ⟨-tileSize, 0, 2⟩, ⟨tileSize, 0, 1⟩]

/-- The function `abs` of `src/helper.go`. -/
def absInt (x : Int) : Int := if x < 0 then subInt 0 x else x

/-- The function `sign` of `src/helper.go`. -/
def sign (x : Int) : Int := if x < 0 then -1 else if x > 0 then 1 else 0

/-- The loop `for _, other := range g.npcs` of the wander step: some NPC other than the
one at index `i` has a tile rectangle overlapping `r`. -/
def othersOverlap (r : Rectangle) (i : Nat) (npcs : List NPC) : Bool :=
  npcs.enum.any (fun jo => decide (jo.1 ≠ i) && r.Overlaps (actorRect jo.2.pos))

/-- The loop `for _, d := range dirs` of the wander step for the NPC at index `i`: the
target and direction code of the first direction that stays inside the map bounds and
is blocked neither by a layer nor by the player nor by another NPC. -/
def tryDirs (g : GameState) (npcs : List NPC) (i : Nat) (npc : NPC) :
    List Dir → Except Fault (Option (Point × Int))
  | [] => .ok none
  | d :: rest =>
    let newX := addInt npc.pos.X d.dx
    let newY := addInt npc.pos.Y d.dy
    if newX < 0 ∨ newY < 0 ∨
        newX > subInt (mulInt g.mapData.Width tileSize) (quoInt tileSize 4) ∨
        newY > subInt (mulInt g.mapData.Height tileSize) (quoInt tileSize 4) then
      tryDirs g npcs i npc rest
    else
      let c := centerCell newX newY
      match layersBlocked npcConsults g.mapData c.1 c.2 g.mapData.Layers with
      | .error e => .error e
      | .ok blockedByLayer =>
        let npcRect := Rect newX newY (addInt newX tileSize) (addInt newY tileSize)
        let blocked := blockedByLayer || npcRect.Overlaps (actorRect g.playerPos)
          || othersOverlap npcRect i npcs
        if blocked then tryDirs g npcs i npc rest
        else .ok (some (⟨newX, newY⟩, d.dir))

/-- The "Animate NPC sprite" lines at the end of the loop body. -/
def animateNPC (npc : NPC) : NPC :=
  let tick := addInt npc.animTick 1
  if tick > 15 then { npc with anim := remInt (addInt npc.anim 1) 4, animTick := 0 }
  else { npc with animTick := tick }

/-- One coordinate of the "move smoothly toward target" step (`step := 2`). -/
def stepToward (pos target : Int) : Int :=
  let d := subInt target pos
  if d ≠ 0 then
    if absInt d < 2 then target else addInt pos (mulInt 2 (sign d))
  else pos

/-- The body of the NPC loop for the NPC at index `i`, with `npcs` the NPCs as the
earlier passes of the loop have left them. -/
def npcTurn (inp : Input) (g : GameState) (npcs : List NPC) (i : Nat) (npc : NPC) :
    Except Fault NPC :=
  if g.chatting then .ok { npc with moving := false }
  else if npc.moving = false then
    let moveTick := addInt npc.moveTick 1
    let r := inp.rand.getD i ⟨0, wanderDirs⟩
    if moveTick > addInt 30 r.intn then
      match tryDirs g npcs i npc r.dirs with
      | .error e => .error e
      | .ok none => .ok (animateNPC { npc with moveTick := 0 })
      | .ok (some td) =>
        .ok (animateNPC { npc with moveTick := 0, target := td.1, dir := td.2, moving := true })
    else .ok (animateNPC { npc with moveTick := moveTick })
  else
    let pos : Point := ⟨stepToward npc.pos.X npc.target.X, stepToward npc.pos.Y npc.target.Y⟩
    .ok (animateNPC { npc with pos := pos, moving := if pos = npc.target then false else npc.moving })

/-- The loop `for _, npc := range g.npcs` from index `i` on, `k` NPCs to go. -/
def npcLoop (inp : Input) (g : GameState) : Nat → Nat → List NPC → Except Fault (List NPC)
  | 0, _, npcs => .ok npcs
  | k + 1, i, npcs =>
    match npcs[i]? with
    | none => .ok npcs
    | some npc =>
      match npcTurn inp g npcs i npc with
      | .error e => .error e
      | .ok npc2 => npcLoop inp g k (i + 1) (npcs.set i npc2)

/-- The whole NPC loop of `Update`. -/
def npcPhase (inp : Input) (g : GameState) : Except Fault (List NPC) :=
  npcLoop inp g g.npcs.length 0 g.npcs

/-! ## The chat block (`Update`, "NPC interaction logic") -/

/-- The constant `chatInputDelay = 200 * time.Millisecond`, in nanoseconds. -/
def chatInputDelay : Int := 200 * 1000000

/-- The synthetic choice `{Text: "Goodbye", Next: nil}`. -/
def goodbyeChoice : ConversationChoice := ⟨"Goodbye", none⟩

/-- The repair `if g.convNode != nil && len(g.convNode.Choices) == 0 { ... }` for the
current node `node` at `id`. -/
def chatRepair (id : Nat) (node : ConversationNode) (g : GameState) : GameState :=
  if node.Choices.length = 0 then
    { g with nodes := g.nodes.set id { node with Choices := [goodbyeChoice] }, chatChoice := 0 }
  else g

/-- The up-arrow branch, with `n = len(g.convNode.Choices)`; `n - 1` cannot overflow
because a length is never negative. -/
def chatUp (inp : Input) (n : Int) (g : GameState) : GameState :=
  if inp.arrowUp = true ∧ inp.chatNow - g.lastChoiceTime > chatInputDelay then
    let c := subInt g.chatChoice 1
    { g with chatChoice := if c < 0 then n - 1 else c, lastChoiceTime := inp.chatNow }
  else g

/-- The down-arrow branch, with `n = len(g.convNode.Choices)`. -/
def chatDown (inp : Input) (n : Int) (g : GameState) : GameState :=
  if inp.arrowDown = true ∧ inp.chatNow - g.lastChoiceTime > chatInputDelay then
    let c := addInt g.chatChoice 1
    { g with chatChoice := if c ≥ n then 0 else c, lastChoiceTime := inp.chatNow }
  else g

/-- The tree side effect of a commit: with a pending tree, on the node
"You cut down the tree." and the choice "Okay", the pending tile is set to nil, the
pending record is cleared and 10 Wood are added. -/
def treeEffect (nodeText : String) (choice : ConversationChoice) (g : GameState) :
    Except Fault GameState :=
  match g.pendingTreeLayer with
  | none => .ok g
  | some li =>
    if nodeText = "You cut down the tree." ∧ choice.Text = "Okay" then
      match g.mapData.Layers[li]? with
      | none => .error .nilDeref
      | some layer =>
        match sliceSet layer.Tiles g.pendingTreeTileIdx none with
        | .error e => .error e
        | .ok tiles =>
          .ok { g with
            mapData := { g.mapData with
              Layers := g.mapData.Layers.set li { layer with Tiles := tiles } }
            pendingTreeLayer := none
            pendingTreeTileIdx := 0
            inventory := addToInventory "Wood" 10 g.inventory }
    else .ok g

/-- The fishing side effect of a commit: on the node
"You cast your line... (Nothing bites yet!)" and the choice "Okay", 1 Fish is added. -/
def fishEffect (nodeText : String) (choice : ConversationChoice) (g : GameState) : GameState :=
  if nodeText = "You cast your line... (Nothing bites yet!)" ∧ choice.Text = "Okay" then
    { g with inventory := addToInventory "Fish" 1 g.inventory }
  else g

/-- The end of a commit: the conversation ends on "Goodbye" or a nil `Next`, and moves
to `choice.Next` otherwise. -/
def chatAdvance (now : Int) (choice : ConversationChoice) (g : GameState) : GameState :=
  if choice.Text = "Goodbye" ∨ choice.Next = none then
    let social := g.social + 1 / 10
    { g with
      chatting := false
      chatNPC := none
      convNode := none
      lastChatEnd := now
      social := if social > 1 then 1 else social }
  else { g with convNode := choice.Next, chatChoice := 0 }

/-- The confirm (Space) branch on the node text and choice list of the current node. -/
def chatConfirm (inp : Input) (nodeText : String) (choices : List ConversationChoice)
    (g : GameState) : Except Fault GameState :=
  if inp.space = true ∧ inp.chatNow - g.lastChoiceTime > chatInputDelay then
    match sliceGet choices g.chatChoice with
    | .error e => .error e
    | .ok choice =>
      match treeEffect nodeText choice g with
      | .error e => .error e
      | .ok g1 =>
        .ok { chatAdvance inp.chatNow choice (fishEffect nodeText choice g1) with
          lastChoiceTime := inp.chatNow }
  else .ok g

/-- The choice list of a node after the repair. -/
def repairedChoices (node : ConversationNode) : List ConversationChoice :=
  if node.Choices.length = 0 then [goodbyeChoice] else node.Choices

/-- The block `if g.chatting { ... return nil }` of `Update`.  With a nil current
node the repair is skipped and `len(g.convNode.Choices)` panics. -/
def chatStep (inp : Input) (g : GameState) : Except Fault GameState :=
  match g.convNode with
  | none => .error .nilDeref
  | some id =>
    match g.nodes[id]? with
    | none => .error .nilDeref
    | some node =>
      let choices := repairedChoices node
      if choices.length > 0 then
        chatConfirm inp node.Text choices
          (chatDown inp choices.length (chatUp inp choices.length (chatRepair id node g)))
      else .ok (chatRepair id node g)

/-! ## Opening the inventory, moving, starting a conversation -/

/-- The constant `inventoryBlockAfterAction = time.Second`, in nanoseconds. -/
def inventoryBlockAfterAction : Int := 1000000000

/-- The block "Inventory open/close logic with delay and block after action": whether
`Update` opens the inventory and returns. -/
def inventoryOpens (inp : Input) (g : GameState) : Except Fault Bool :=
  if inp.space = true ∧ g.inventoryOpen = false ∧
      inp.invNow - g.lastInventoryTime > inventoryInputDelay ∧
      ¬ (inp.invNow - g.lastChatEnd < inventoryBlockAfterAction) then
    if g.npcs.any (isFacingNPC g.playerPos) then .ok false
    else
      let c := interactCell g.playerPos g.playerDir
      match findOccupied ["Water", "Trees", "Doors"] g.mapData c.1 c.2 0 g.mapData.Layers with
      | .error e => .error e
      | .ok found => .ok found.isNone
  else .ok false

/-- The position the direction keys ask for (`moveSpeed = 1`), before clamping. -/
def intendedPos (inp : Input) (p : Point) : Point :=
  let x1 := if inp.arrowLeft then subInt p.X 1 else p.X
  let x2 := if inp.arrowRight then addInt x1 1 else x1
  let y1 := if inp.arrowUp then subInt p.Y 1 else p.Y
  let y2 := if inp.arrowDown then addInt y1 1 else y1
  ⟨x2, y2⟩

/-- The facing code after the four key tests (left 1, right 2, up 3, down 0, the last
pressed key in that order winning). -/
def facingAfterKeys (inp : Input) (dir : Int) : Int :=
  let d1 := if inp.arrowLeft then 1 else dir
  let d2 := if inp.arrowRight then 2 else d1
  let d3 := if inp.arrowUp then 3 else d2
  if inp.arrowDown then 0 else d3

/-- The clamp of the intended position to the map bounds. -/
def clampPos (m : TiledMap) (p : Point) : Point :=
  let maxX := subInt (mulInt m.Width tileSize) tileSize
  let maxY := subInt (mulInt m.Height tileSize) tileSize
  let x1 := if p.X < 0 then 0 else p.X
  let y1 := if p.Y < 0 then 0 else p.Y
  ⟨if x1 > maxX then maxX else x1, if y1 > maxY then maxY else y1⟩

/-- Whether the player is blocked at `p`: by an occupied tile of a collidable layer
under its centre, or by the tile rectangle of an NPC. -/
def playerBlocked (g : GameState) (p : Point) : Except Fault Bool :=
  let c := centerCell p.X p.Y
  match layersBlocked (playerConsults g.mapData) g.mapData c.1 c.2 g.mapData.Layers with
  | .error e => .error e
  | .ok blockedByLayer =>
    .ok (blockedByLayer || g.npcs.any (fun npc => (actorRect p).Overlaps (actorRect npc.pos)))

/-- The player animation lines. -/
def animatePlayer (g : GameState) : GameState :=
  if g.moving = true then
    let tick := addInt g.playerAnimTick 1
    if tick > 10 then
      { g with playerAnim := remInt (addInt g.playerAnim 1) 4, playerAnimTick := 0 }
    else { g with playerAnimTick := tick }
  else { g with playerAnim := 0, playerAnimTick := 0 }

/-- The block "Player movement logic" up to the animation. -/
def moveStep (inp : Input) (g : GameState) : Except Fault GameState :=
  let newPos := clampPos g.mapData (intendedPos inp g.playerPos)
  let g1 : GameState :=
    { g with
      playerDir := facingAfterKeys inp g.playerDir
      moving := g.moving || inp.arrowLeft || inp.arrowRight || inp.arrowUp || inp.arrowDown }
  match playerBlocked g1 newPos with
  | .error e => .error e
  | .ok blocked =>
    .ok (animatePlayer (if blocked then g1 else { g1 with playerPos := newPos }))

/-- The conversation nodes `initConversations` builds, in one arena starting at index
`b`, with the `Next` references as they are after the "set below" assignments:
Kid (`b` to `b+4`: end, joke, favourite game, how are you, root), Merchant (`b+5` to
`b+10`: end, wares, trade, news, where from, root) and Alchemist (`b+11` to `b+15`:
end, teach, work, magic, root). -/
def conversationNodes (b : Nat) : List ConversationNode :=
  [ ⟨"See you later!",
      [⟨"Goodbye", none⟩,
       ⟨"How interesting, I wanted to ask you about something else...", some (b + 4)⟩]⟩,
    ⟨"Why did the chicken cross the playground? To get to the other slide!",
      [⟨"Haha! Got any more?", some b⟩, ⟨"That's silly.", some b⟩,
       ⟨"How interesting, I wanted to ask you about something else...", some (b + 4)⟩,
       ⟨"Goodbye", none⟩]⟩,
    ⟨"I love playing tag! What's your favorite game?",
      [⟨"Hide and seek!", some b⟩, ⟨"Chess.", some b⟩,
       ⟨"How interesting, I wanted to ask you about something else...", some (b + 4)⟩,
       ⟨"Goodbye", none⟩]⟩,
    ⟨"I'm great! It's a fun day.",
      [⟨"Glad to hear!", some b⟩, ⟨"Tell me a joke!", some (b + 1)⟩,
       ⟨"How interesting, I wanted to ask you about something else...", some (b + 4)⟩,
       ⟨"Goodbye", none⟩]⟩,
    ⟨"Hi! I'm the Kid. What do you want to talk about?",
      [⟨"Tell me a joke!", some (b + 1)⟩, ⟨"What's your favorite game?", some (b + 2)⟩,
       ⟨"How are you?", some (b + 3)⟩, ⟨"Goodbye", none⟩]⟩,
    ⟨"Safe travels, friend!",
      [⟨"Goodbye", none⟩,
       ⟨"How interesting, I wanted to ask you about something else...", some (b + 10)⟩]⟩,
    ⟨"Mostly potions and trinkets.",
      [⟨"Sounds interesting!", some (b + 5)⟩, ⟨"Can I see your wares?", none⟩,
       ⟨"How interesting, I wanted to ask you about something else...", some (b + 10)⟩,
       ⟨"Goodbye", none⟩]⟩,
    ⟨"Sorry, my shop is closed today.",
      [⟨"Oh, that's too bad.", some (b + 5)⟩, ⟨"What do you sell?", some (b + 6)⟩,
       ⟨"How interesting, I wanted to ask you about something else...", some (b + 10)⟩,
       ⟨"Goodbye", some (b + 10)⟩]⟩,
    ⟨"The harvest festival is coming soon.",
      [⟨"Will there be games?", some (b + 5)⟩, ⟨"Will you have a booth?", some (b + 5)⟩,
       ⟨"How interesting, I wanted to ask you about something else...", some (b + 10)⟩,
       ⟨"Goodbye", none⟩]⟩,
    ⟨"From the city to the east.",
      [⟨"Do you miss it?", some (b + 5)⟩, ⟨"Why did you move?", some (b + 5)⟩,
       ⟨"How interesting, I wanted to ask you about something else...", some (b + 10)⟩,
       ⟨"Goodbye", none⟩]⟩,
    ⟨"Welcome! How can I help you?",
      [⟨"Can I buy something?", some (b + 7)⟩, ⟨"Any news?", some (b + 8)⟩,
       ⟨"Where are you from?", some (b + 9)⟩, ⟨"Goodbye", none⟩]⟩,
    ⟨"Farewell, may your path be clear.",
      [⟨"Goodbye", none⟩,
       ⟨"How interesting, I wanted to ask you about something else...", some (b + 15)⟩]⟩,
    ⟨"Alchemy is a lifelong pursuit. Start with herbs.",
      [⟨"Which herbs?", some (b + 11)⟩, ⟨"Is it dangerous?", some (b + 11)⟩,
       ⟨"How interesting, I wanted to ask you about something else...", some (b + 15)⟩,
       ⟨"Goodbye", none⟩]⟩,
    ⟨"A potion for better memory.",
      [⟨"Can I try it?", some (b + 11)⟩, ⟨"Does it work?", some (b + 11)⟩,
       ⟨"How interesting, I wanted to ask you about something else...", some (b + 15)⟩,
       ⟨"Goodbye", none⟩]⟩,
    ⟨"Of course. Magic is everywhere.",
      [⟨"Show me!", some (b + 11)⟩, ⟨"I don't believe you.", some (b + 11)⟩,
       ⟨"How interesting, I wanted to ask you about something else...", some (b + 15)⟩,
       ⟨"Goodbye", none⟩]⟩,
    ⟨"Greetings, traveler. What knowledge do you seek?",
      [⟨"Can you teach me alchemy?", some (b + 12)⟩, ⟨"What are you working on?", some (b + 13)⟩,
       ⟨"Do you believe in magic?", some (b + 14)⟩, ⟨"Goodbye", none⟩]⟩ ]

/-- The method `initConversations`: the new nodes are allocated after the existing
ones and the map gets the three roots. -/
def initConversations (g : GameState) : GameState :=
  let b := g.nodes.length
  { g with
    nodes := g.nodes ++ conversationNodes b
    conversations := some [("Kid", b + 4), ("Merchant", b + 10), ("Alchemist", b + 15)] }

/-- The read `g.conversations[name]` of the map, `none` for the nil pointer a missing
key gives. -/
def conversationRoot (conversations : Option (List (String × Nat))) (name : String) :
    Option Nat :=
  match conversations with
  | none => none
  | some entries => entries.lookup name

/-- The first NPC, from index `i` on, that `isFacingNPC` accepts. -/
def firstFacing (playerPos : Point) : Nat → List NPC → Option (Nat × NPC)
  | _, [] => none
  | i, npc :: rest =>
    if isFacingNPC playerPos npc then some (i, npc) else firstFacing playerPos (i + 1) rest

/-- The "Face each other" lines: the new direction codes of the player and of the NPC. -/
def faceEachOther (playerPos : Point) (playerDir : Int) (npc : NPC) : Int × Int :=
  if playerPos.X < npc.pos.X then (2, 1)
  else if playerPos.X > npc.pos.X then (1, 2)
  else if playerPos.Y < npc.pos.Y then (0, 3)
  else if playerPos.Y > npc.pos.Y then (3, 0)
  else (playerDir, npc.dir)

/-- The body of `if isFacingNPC(g, npc) { ... return nil }` for the NPC at index `i`. -/
def startChat (inp : Input) (g : GameState) (i : Nat) (npc : NPC) : GameState :=
  let f := faceEachOther g.playerPos g.playerDir npc
  let g1 : GameState :=
    { g with
      lastChoiceTime := inp.talkNow
      chatting := true
      chatNPC := some i
      chatChoice := 0
      playerDir := f.1
      npcs := g.npcs.set i { npc with dir := f.2 } }
  let g2 := if g1.conversations = none then initConversations g1 else g1
  { g2 with convNode := conversationRoot g2.conversations npc.name }

/-- The body of the water interaction: a fresh two-node dialogue. -/
def startFishing (inp : Input) (g : GameState) : GameState :=
  let b := g.nodes.length
  { g with
    chatting := true
    chatNPC := none
    chatChoice := 0
    convNode := some b
    nodes := g.nodes ++
      [⟨"You are at the water. Would you like to fish?",
          [⟨"Yes, fish!", some (b + 1)⟩, ⟨"No, walk away.", none⟩]⟩,
       ⟨"You cast your line... (Nothing bites yet!)", [⟨"Okay", none⟩]⟩]
    lastChoiceTime := inp.talkNow }

/-- The body of the tree interaction for the layer at index `li` and the tile index
`tileIdx`: a fresh two-node dialogue and the pending record. -/
def startTreeCut (inp : Input) (g : GameState) (li : Nat) (tileIdx : Int) : GameState :=
  let b := g.nodes.length
  { g with
    chatting := true
    chatNPC := none
    chatChoice := 0
    convNode := some b
    nodes := g.nodes ++
      [⟨"You are facing a tree. Cut it down?",
          [⟨"Yes, cut it down.", some (b + 1)⟩, ⟨"No, leave it.", none⟩]⟩,
       ⟨"You cut down the tree.", [⟨"Okay", none⟩]⟩]
    lastChoiceTime := inp.talkNow
    pendingTreeLayer := some li
    pendingTreeTileIdx := tileIdx }

/-- The block "Check for NPC or layer interaction". -/
def interactStep (inp : Input) (g : GameState) : Except Fault GameState :=
  if inp.space = true ∧ g.chatting = false then
    if inp.sinceNow - g.lastChatEnd < 1000000000 then .ok g
    else
      match firstFacing g.playerPos 0 g.npcs with
      | some (i, npc) => .ok (startChat inp g i npc)
      | none =>
        let c := interactCell g.playerPos g.playerDir
        match findOccupied ["Water"] g.mapData c.1 c.2 0 g.mapData.Layers with
        | .error e => .error e
        | .ok (some _) => .ok (startFishing inp g)
        | .ok none =>
          match findOccupied ["Trees"] g.mapData c.1 c.2 0 g.mapData.Layers with
          | .error e => .error e
          | .ok (some li) =>
            .ok (startTreeCut inp g li (addInt (mulInt c.2 g.mapData.Width) c.1))
          | .ok none => .ok g
  else .ok g

/-! ## `Update` -/

/-- The method `restart`. -/
def restart (g : GameState) : GameState :=
  { g with
    playerPos :=
      ⟨quoInt (subInt (mulInt g.mapData.Width tileSize) tileSize) 2,
       quoInt (subInt (mulInt g.mapData.Height tileSize) tileSize) 2⟩
    playerAnim := 0
    playerAnimTick := 0
    moving := false
    gameOver := false }

/-- The lines "Find the "Trees" layer if not already cached". -/
def cacheTreesLayer (g : GameState) : GameState :=
  match g.treesLayer with
  | some _ => g
  | none => { g with treesLayer := g.mapData.Layers.findIdx? (fun l => decide (l.Name = "Trees")) }

/-- The keys the inventory block asks about. -/
def inventoryKeys (inp : Input) : Keys := ⟨inp.space, inp.keyC, inp.keyE⟩

/-- The part of `Update` after the chat block, for a state that is not chatting:
opening the inventory, the inventory block, movement and interaction. -/
def exploreStep (inp : Input) (g : GameState) : Except Fault GameState :=
  match inventoryOpens inp g with
  | .error e => .error e
  | .ok true => .ok { g with inventoryOpen := true, lastInventoryTime := inp.invNow }
  | .ok false =>
    match inventoryInteraction g.toGame (inventoryKeys inp) inp.invNow with
    | some game => .ok { g with toGame := game }
    | none =>
      match moveStep inp g with
      | .error e => .error e
      | .ok g1 => interactStep inp g1

/-- The method `func (g *Game) Update() error` up to its music block, as a function of
the inputs and the state before; `fuel` bounds the passes of the drain loop. -/
def Update (fuel : Nat) (inp : Input) (g : GameState) : Except Fault GameState :=
  if g.gameOver = true then
    .ok (if inp.space = true ∨ inp.enter = true ∨ inp.mouseLeft = true then restart g else g)
  else
    let g1 := cacheTreesLayer g
    match npcPhase inp g1 with
    | .error e => .error e
    | .ok npcs =>
      match drain fuel (clockTick inp.tickNow { g1 with npcs := npcs }) with
      | .error e => .error e
      | .ok g2 => if g2.chatting = true then chatStep inp g2 else exploreStep inp g2

/-! ## Quantities used to state the properties of `Update` -/

/-- The in-game minutes the clock part of `Update` counts at the time reading `now`:
the value of the local `gameMinAdvance`. -/
def minutesAdvanced (now : Int) (g : GameState) : Int :=
  gameMinAdvance (timeSub now (if g.lastTick = zeroTime then now else g.lastTick))

/-- Health, social and hunger all lie in `[0, 1]`. -/
def BarsOK (g : GameState) : Prop :=
  (0 ≤ g.health ∧ g.health ≤ 1) ∧ (0 ≤ g.social ∧ g.social ≤ 1) ∧
    (0 ≤ g.hunger ∧ g.hunger ≤ 1)

/-- The minute counter lies in `0..1439`. -/
def MinutesOK (g : GameState) : Prop := 0 ≤ g.gameMinutes ∧ g.gameMinutes < 1440

/-- What the parts of `Update` after the clock may do to the clock and the bars: the
minute counter and health stay, social and hunger stay inside `[0, 1]`. -/
def Tame (g g2 : GameState) : Prop :=
  g2.gameMinutes = g.gameMinutes ∧ g2.health = g.health ∧
    (0 ≤ g.social ∧ g.social ≤ 1 → 0 ≤ g2.social ∧ g2.social ≤ 1) ∧
    (0 ≤ g.hunger ∧ g.hunger ≤ 1 → 0 ≤ g2.hunger ∧ g2.hunger ≤ 1)

/-- The states reached from `g0` by `Update` steps that return, with any inputs. -/
inductive UpdateReachable (g0 : GameState) : GameState → Prop
  | start : UpdateReachable g0 g0
  | step (fuel : Nat) (inp : Input) (g g2 : GameState) :
      UpdateReachable g0 g → Update fuel inp g = .ok g2 → UpdateReachable g0 g2

/-- A small map for the examples: 4 by 4 cells, a full ground layer, a "Trees" layer
with one tree at cell (3, 2) and a "Water" layer with water at cell (0, 3). -/
def sampleMap : TiledMap :=
  { Width := 4
    Height := 4
    Layers :=
      [⟨"Base ground", true, List.replicate 16 (some ⟨true⟩)⟩,
       ⟨"Trees", true, (List.replicate 16 none).set 11 (some ⟨true⟩)⟩,
       ⟨"Water", true, (List.replicate 16 none).set 12 (some ⟨true⟩)⟩] }

/-- A state for the examples: the fresh game of `main` on `sampleMap` (player in the
middle of the map, full bars, 08:00) with the Kid at cell (0, 0) and the Merchant at
cell (2, 0). -/
def sampleGame : GameState :=
  { inventory := initialInventory
    inventoryOpen := false
    lastInventoryTime := zeroTime
    lastChatEnd := zeroTime
    hunger := 1
    mapData := sampleMap
    playerPos := ⟨22, 22⟩
    treesLayer := none
    playerDir := 0
    playerAnim := 0
    playerAnimTick := 0
    moving := false
    npcs :=
      [⟨⟨0, 0⟩, 0, "Kid", 0, 0, 0, ⟨0, 0⟩, false⟩,
       ⟨⟨30, 0⟩, 0, "Merchant", 0, 0, 0, ⟨0, 0⟩, false⟩]
    gameOver := false
    chatting := false
    chatNPC := none
    chatChoice := 0
    conversations := none
    convNode := none
    nodes := []
    lastChoiceTime := zeroTime
    pendingTreeLayer := none
    pendingTreeTileIdx := 0
    health := 1
    social := 1
    gameMinutes := 8 * 60
    lastTick := zeroTime
    lastDrain := 0 }

/-- No key pressed, every clock reading at `now`, and for every NPC the draw
`rand.Intn(30) = 0` with the direction table unshuffled. -/
def idleInput (now : Int) : Input :=
  { space := false
    enter := false
    mouseLeft := false
    arrowUp := false
    arrowDown := false
    arrowLeft := false
    arrowRight := false
    keyC := false
    keyE := false
    tickNow := now
    chatNow := now
    invNow := now
    sinceNow := now
    talkNow := now
    rand := [] }

/-- The map is well formed: its sizes are non-negative, the number of cells fits an
`int`, and every layer has one tile entry per cell. -/
def MapOK (m : TiledMap) : Prop :=
  0 ≤ m.Width ∧ 0 ≤ m.Height ∧ m.Width * m.Height ≤ 9223372036854775807 ∧
    ∀ l ∈ m.Layers, (l.Tiles.length : Int) = m.Width * m.Height

/-- The references of a chatting state are valid: the current node exists, the
highlighted index points into its choice list (after the repair of an empty list),
whose length fits an `int`, and a pending tree names a tile of a layer of the map. -/
def ChatOK (g : GameState) : Prop :=
  (∃ nid node, g.convNode = some nid ∧ g.nodes[nid]? = some node ∧
    (node.Choices.length : Int) ≤ 9223372036854775807 ∧
    (node.Choices ≠ [] → 0 ≤ g.chatChoice ∧ g.chatChoice < node.Choices.length)) ∧
  (∀ li, g.pendingTreeLayer = some li →
    ∃ layer, g.mapData.Layers[li]? = some layer ∧
      0 ≤ g.pendingTreeTileIdx ∧ g.pendingTreeTileIdx < layer.Tiles.length)

/-- The state is one on which `Update` returns: a well-formed map, the minute
counter and `lastDrain` in `0..1439`, and valid references while chatting. -/
def WellFormed (g : GameState) : Prop :=
  MapOK g.mapData ∧ MinutesOK g ∧ (0 ≤ g.lastDrain ∧ g.lastDrain < 1440) ∧
    (g.chatting = true → ChatOK g)

/-- What the NPC loop, the clock and the drain leave untouched: every field other than
`npcs`, `treesLayer`, `gameMinutes`, `lastTick`, `lastDrain`, `hunger` and `social`. -/
def SameButClock (g g1 : GameState) : Prop :=
  g1.mapData = g.mapData ∧ g1.chatting = g.chatting ∧ g1.convNode = g.convNode ∧
  g1.nodes = g.nodes ∧ g1.chatChoice = g.chatChoice ∧ g1.lastChoiceTime = g.lastChoiceTime ∧
  g1.pendingTreeLayer = g.pendingTreeLayer ∧ g1.pendingTreeTileIdx = g.pendingTreeTileIdx ∧
  g1.inventory = g.inventory ∧ g1.chatNPC = g.chatNPC ∧ g1.lastChatEnd = g.lastChatEnd ∧
  g1.playerPos = g.playerPos ∧ g1.playerDir = g.playerDir ∧
  g1.inventoryOpen = g.inventoryOpen ∧ g1.lastInventoryTime = g.lastInventoryTime ∧
  g1.gameOver = g.gameOver ∧ g1.conversations = g.conversations ∧ g1.moving = g.moving ∧
  g1.playerAnim = g.playerAnim ∧ g1.playerAnimTick = g.playerAnimTick ∧ g1.health = g.health

/-- The example state at midnight with the draining caught up: `gameMinutes` and
`lastDrain` both 0, the last clock tick at time 0. -/
def midnightGame : GameState :=
  { sampleGame with gameMinutes := 0, lastTick := 0, lastDrain := 0 }

/-- The up input is accepted by the chat block: Up is pressed more than 200 ms after
the last accepted chat input. -/
def upAccepted (inp : Input) (g : GameState) : Prop :=
  inp.arrowUp = true ∧ inp.chatNow - g.lastChoiceTime > chatInputDelay

/-- The down input is accepted by the chat block: Down is pressed more than 200 ms
after the last accepted chat input and the up branch before it has not just taken
the input (Up is not pressed). -/
def downAccepted (inp : Input) (g : GameState) : Prop :=
  inp.arrowDown = true ∧ inp.arrowUp = false ∧
    inp.chatNow - g.lastChoiceTime > chatInputDelay

/-- The confirm input is accepted by the chat block: Space is pressed more than 200 ms
after the last accepted chat input and neither the up nor the down branch before it
has just taken the input (neither key is pressed). -/
def confirmAccepted (inp : Input) (g : GameState) : Prop :=
  inp.space = true ∧ inp.arrowUp = false ∧ inp.arrowDown = false ∧
    inp.chatNow - g.lastChoiceTime > chatInputDelay

/-- A pending tree, when recorded, names a tile of a layer of the map. -/
def PendingValid (g : GameState) : Prop :=
  ∀ li, g.pendingTreeLayer = some li →
    ∃ layer, g.mapData.Layers[li]? = some layer ∧
      0 ≤ g.pendingTreeTileIdx ∧ g.pendingTreeTileIdx < layer.Tiles.length

/-- What the navigation branches of the chat block leave untouched: every field the
commit reads or writes other than the highlighted index and `lastChoiceTime`. -/
def SameTalk (g g1 : GameState) : Prop :=
  g1.nodes = g.nodes ∧ g1.convNode = g.convNode ∧ g1.chatting = g.chatting ∧
  g1.chatNPC = g.chatNPC ∧ g1.social = g.social ∧ g1.lastChatEnd = g.lastChatEnd ∧
  g1.mapData = g.mapData ∧ g1.inventory = g.inventory ∧
  g1.pendingTreeLayer = g.pendingTreeLayer ∧ g1.pendingTreeTileIdx = g.pendingTreeTileIdx

/-! ## Example states of a conversation -/

/-- The Kid's closing node as `initConversations` builds it on the example state. -/
def seeYouLater : ConversationNode :=
  ⟨"See you later!",
    [⟨"Goodbye", none⟩,
     ⟨"How interesting, I wanted to ask you about something else...", some 4⟩]⟩

/-- The example state in a conversation with the Kid, on the node "See you later!"
with the second choice highlighted; the last chat input was accepted at time 0. -/
def kidChat : GameState :=
  { initConversations sampleGame with
    chatting := true
    chatNPC := some 0
    convNode := some 0
    chatChoice := 1
    lastChoiceTime := 0 }

/-- The example state in a conversation whose current node has no choice. -/
def emptyChat : GameState :=
  { sampleGame with
    chatting := true
    convNode := some 0
    nodes := [⟨"...", []⟩]
    lastChoiceTime := 0 }

/-- The "Trees" layer of `sampleMap`. -/
def sampleTrees : Layer := ⟨"Trees", true, (List.replicate 16 none).set 11 (some ⟨true⟩)⟩

/-- The example state after the tree interaction on the tree of `sampleMap` (layer 1,
tile index 11) and the choice "Yes, cut it down.": on the node "You cut down the tree."
with the pending tree recorded. -/
def treeChat : GameState :=
  { startTreeCut (idleInput 0) sampleGame 1 11 with convNode := some 1 }

/-- The input with only Space pressed, every clock reading at `now`. -/
def confirmInput (now : Int) : Input := { idleInput now with space := true }

/-- The input with only Down pressed, every clock reading at `now`. -/
def downInput (now : Int) : Input := { idleInput now with arrowDown := true }

/-! ## Example states and inputs of the movement -/

/-- The input with only Left pressed, every clock reading at `now`. -/
def leftInput (now : Int) : Input := { idleInput now with arrowLeft := true }

/-- The input with Left and Space pressed, every clock reading at `now`. -/
def leftSpaceInput (now : Int) : Input :=
  { idleInput now with arrowLeft := true, space := true }

/-- The NPC stands exactly one tile from the point `p` along one axis. -/
def OneTileAway (p : Point) (n : NPC) : Prop :=
  (n.pos.X = p.X + tileSize ∧ n.pos.Y = p.Y) ∨ (n.pos.X = p.X - tileSize ∧ n.pos.Y = p.Y) ∨
  (n.pos.X = p.X ∧ n.pos.Y = p.Y + tileSize) ∨ (n.pos.X = p.X ∧ n.pos.Y = p.Y - tileSize)

/-- The coordinates of the point are far from the ends of the `int` range. -/
def SmallPoint (p : Point) : Prop :=
  -4611686018427387904 ≤ p.X ∧ p.X ≤ 4611686018427387904 ∧
  -4611686018427387904 ≤ p.Y ∧ p.Y ≤ 4611686018427387904

/-- The example state with the player between the two NPCs: one tile right of the Kid
and one tile left of the Merchant. -/
def betweenGame : GameState := { sampleGame with playerPos := ⟨15, 0⟩ }

/-- The example state with the player one tile below the Kid. -/
def belowKidGame : GameState := { sampleGame with playerPos := ⟨0, 15⟩ }

/-! ## Example states and inputs of the NPC loop -/

/-- A sequence of `Update` steps, one per input, stopping at the first failure. -/
def runUpdates (fuel : Nat) : List Input → GameState → Except Fault GameState
  | [], g => .ok g
  | inp :: rest, g =>
    match Update fuel inp g with
    | .error e => .error e
    | .ok g2 => runUpdates fuel rest g2

/-- The example state with both NPCs idle for 60 ticks, so that each attempts a wander
step in the next `Update`: the Kid at (0, 0) and the Merchant at (30, 0), the cell
between them free. -/
def crowdedGame : GameState :=
  { sampleGame with
    npcs :=
      [⟨⟨0, 0⟩, 0, "Kid", 0, 0, 60, ⟨0, 0⟩, false⟩,
       ⟨⟨30, 0⟩, 0, "Merchant", 0, 0, 60, ⟨0, 0⟩, false⟩] }

/-- No key pressed, every clock reading at `now`, and the shuffles putting the step to
the right first for the Kid and the step to the left first for the Merchant. -/
def wanderInput (now : Int) : Input :=
  { idleInput now with
    rand :=
      [⟨0, [⟨tileSize, 0, 1⟩, ⟨0, -tileSize, 3⟩, ⟨0, tileSize, 0⟩, ⟨-tileSize, 0, 2⟩]⟩,
       ⟨0, [⟨-tileSize, 0, 2⟩, ⟨0, -tileSize, 3⟩, ⟨0, tileSize, 0⟩, ⟨tileSize, 0, 1⟩]⟩] }

/-- No two actors of the state have overlapping tile rectangles. -/
def actorsApart (g : GameState) : Bool :=
  g.npcs.all (fun n => !(actorRect n.pos).Overlaps (actorRect g.playerPos)) &&
  g.npcs.enum.all (fun a => g.npcs.enum.all (fun b =>
    decide (a.1 = b.1) || !(actorRect a.2.pos).Overlaps (actorRect b.2.pos)))

/-! ## Quantities used to state the frame properties of `Update` -/

/-- The NPC after the line `npc.moving = false` of the chat freeze. -/
def frozen (n : NPC) : NPC := { n with moving := false }

/-- What the chat block leaves untouched: the player (position, facing, animation), the
NPCs, the inventory flags, the game-over flag and the size of the map. -/
def SameActors (g g2 : GameState) : Prop :=
  g2.playerPos = g.playerPos ∧ g2.playerDir = g.playerDir ∧ g2.npcs = g.npcs ∧
  g2.inventoryOpen = g.inventoryOpen ∧ g2.lastInventoryTime = g.lastInventoryTime ∧
  g2.gameOver = g.gameOver ∧ g2.mapData.Width = g.mapData.Width ∧
  g2.mapData.Height = g.mapData.Height ∧ g2.moving = g.moving ∧
  g2.playerAnim = g.playerAnim ∧ g2.playerAnimTick = g.playerAnimTick

/-! ## Example runs for the animation and the map bounds -/

/-- The example state with the player at (0, 30), facing down to the water at cell
(0, 3), and one idle NPC, the Kid, tile-aligned at (30, 0) and about to wander. -/
def shoreGame : GameState :=
  { sampleGame with
    playerPos := ⟨0, 30⟩
    npcs := [⟨⟨30, 0⟩, 0, "Kid", 0, 0, 60, ⟨0, 0⟩, false⟩] }

/-- The inputs of a run from `shoreGame`: the Kid picks the cell to its right; Space
starts the fishing dialogue while the Kid is on its way; Down and then Space choose
"No, walk away."; then `n` steps with no key pressed.  The shuffle puts the step to the
right first throughout. -/
def shoreRun (n : Nat) : List Input :=
  [wanderInput 1000000000,
   { wanderInput 1300000000 with space := true },
   { wanderInput 1600000000 with arrowDown := true },
   { wanderInput 1900000000 with space := true }] ++
  List.replicate n (wanderInput 1900000000)

/-! ## Music (`src/music.go`) -/

/-- The function `nextMusicFile` of `src/music.go` on the values of `*files` and
`*played`; the result is the returned name and the new value of `*played`.  `intn` is
`rand.Intn` at this call.  The set `playedSet` is read through membership in the list
it is built from.  (`rand.Intn` panics on an argument that is not positive; here its
argument is the length of a list, and with length 0 the index fails.) -/
def nextMusicFile (intn : Int → Int) (files played : List String) :
    Except Fault (String × List String) :=
  if files.length = 0 then .ok ("", played)
  else
    let played1 : List String := if played.length = files.length then [] else played
    let remaining := files.filter (fun f => decide (f ∉ played1))
    let remaining2 := if remaining.length = 0 then files else remaining
    let played2 : List String := if remaining.length = 0 then [] else played1
    match sliceGet remaining2 (intn remaining2.length) with
    | .error e => .error e
    | .ok next => .ok (next, played2 ++ [next])

/-- Consecutive calls of `nextMusicFile` on the same `files`, one per entry of `draws`
(the `rand.Intn` of that call): the names returned, in order, and the last value of
`*played`. -/
def musicRun (files : List String) :
    List (Int → Int) → List String → Except Fault (List String × List String)
  | [], played => .ok ([], played)
  | intn :: rest, played =>
    match nextMusicFile intn files played with
    | .error e => .error e
    | .ok r =>
      match musicRun files rest r.2 with
      | .error e => .error e
      | .ok out => .ok (r.1 :: out.1, out.2)

/-- The contract of `rand.Intn`: for a positive `n` the result lies in `[0, n)`. -/
def IntnOK (intn : Int → Int) : Prop := ∀ n : Int, 0 < n → 0 ≤ intn n ∧ intn n < n

/-! ## Example map with two layers of the same name -/

/-- A map of 2 by 1 cells with two layers named "Trees": the visible one is empty, the
invisible one holds a tile at cell (1, 0). -/
def twinLayersMap : TiledMap :=
  { Width := 2
    Height := 1
    Layers :=
      [⟨"Base ground", true, [some ⟨true⟩, some ⟨true⟩]⟩,
       ⟨"Trees", true, [none, none]⟩,
       ⟨"Trees", false, [none, some ⟨true⟩]⟩] }

/-! ## One moving NPC -/

/-- The branch "Move smoothly toward target" of the NPC loop followed by the animation
lines: what the loop body does to an NPC with `moving` true when the game is not
chatting. -/
def npcAdvance (npc : NPC) : NPC :=
  let pos : Point := ⟨stepToward npc.pos.X npc.target.X, stepToward npc.pos.Y npc.target.Y⟩
  animateNPC { npc with pos := pos, moving := if pos = npc.target then false else npc.moving }

/-- A moving NPC whose target is so far to its right that `target.X - pos.X` does not
fit an `int`. -/
def farNPC : NPC :=
  ⟨⟨-6917529027641081856, 0⟩, 1, "Kid", 0, 0, 0, ⟨6917529027641081856, 0⟩, true⟩

/-- The coordinates of the NPC and of its target are values of the 64-bit `int`, and on
each axis the distance to the target is at most `2^63 - 1`, so that `target - pos` and
its absolute value are computed without wrapping. -/
def StepFits (n : NPC) : Prop :=
  (-9223372036854775808 ≤ n.pos.X ∧ n.pos.X ≤ 9223372036854775807) ∧
  (-9223372036854775808 ≤ n.pos.Y ∧ n.pos.Y ≤ 9223372036854775807) ∧
  (-9223372036854775808 ≤ n.target.X ∧ n.target.X ≤ 9223372036854775807) ∧
  (-9223372036854775808 ≤ n.target.Y ∧ n.target.Y ≤ 9223372036854775807) ∧
  (-9223372036854775807 ≤ n.target.X - n.pos.X ∧ n.target.X - n.pos.X ≤ 9223372036854775807) ∧
  (-9223372036854775807 ≤ n.target.Y - n.pos.Y ∧ n.target.Y - n.pos.Y ≤ 9223372036854775807)

/-- A moving NPC at (0, 0) whose target is the cell to its right. -/
def walker : NPC := ⟨⟨0, 0⟩, 1, "Kid", 0, 0, 0, ⟨15, 0⟩, true⟩

/-! ## Example positions for `isFacingNPC` -/

/-- An NPC at the origin. -/
def originNPC : NPC := ⟨⟨0, 0⟩, 0, "Kid", 0, 0, 0, ⟨0, 0⟩, false⟩

/-- A position 7 units from the largest `int` on the x axis. -/
def edgePoint : Point := ⟨9223372036854775800, 0⟩

/-! ## The cell probed by the inventory guard -/

/-- The cell `(interactX, interactY)` of the block "Only open inventory if not
interacting with NPC, water, trees, or doors": the centre cell moved by its
`switch g.playerDir`. -/
def guardCell (playerPos : Point) (playerDir : Int) : Int × Int :=
  let c := centerCell playerPos.X playerPos.Y
  match playerDir with
  | 0 => (c.1, addInt c.2 1)
  | 1 => (subInt c.1 1, c.2)
  | 2 => (addInt c.1 1, c.2)
  | 3 => (c.1, subInt c.2 1)
  | _ => c

/-! ## States and inputs for the drain loop and the game-over flag -/

/-- The example state with hunger and social at 0. -/
def starvedGame : GameState := { sampleGame with hunger := 0, social := 0 }

/-- The value of `lastDrain` after `k` passes of the drain loop. -/
def lastDrainAfter (k : Nat) (b : ℚ × ℚ × Int) : Int := (drainBody^[k] b).2.2

/-! ## Word wrap (`wrapText`, `src/helper.go`) -/

/-- The test `unicode.IsSpace` of the Go library on a rune: tab, line feed, vertical
tab, form feed, carriage return, space, U+0085, U+00A0 and the Unicode space
separators. -/
def isSpace (c : Char) : Bool :=
  let n := c.toNat
  (9 ≤ n && n ≤ 13) || n = 32 || n = 133 || n = 160 || n = 5760 ||
    (8192 ≤ n && n ≤ 8202) || n = 8232 || n = 8233 || n = 8239 || n = 8287 || n = 12288

/-- The scan of `strings.Fields` over the runes still to read, with `word` the runes
of the field being read: the maximal runs of runes that are not white space. -/
def fieldsLoop : List Char → List Char → List String
  | [], word => if word = [] then [] else [String.mk word]
  | c :: rest, word =>
    if isSpace c then
      if word = [] then fieldsLoop rest [] else String.mk word :: fieldsLoop rest []
    else fieldsLoop rest (word ++ [c])

/-- The library function `strings.Fields`: the text split around each run of white
space, an empty list for a text of white space only.  A text is taken as the sequence
of its runes. -/
def Fields (text : String) : List String := fieldsLoop text.data []

/-- The loop `for _, word := range words` of `wrapText` on `(lines, current)`;
`len([]rune(s))` is the number of runes of `s`, and the sum of two lengths and 1 is
far from the range of `int`. -/
def wrapLoop (maxWidth : Int) : List String → List String → String → List String × String
  | [], lines, current => (lines, current)
  | word :: rest, lines, current =>
    if (current.length : Int) + (word.length : Int) + 1 > maxWidth then
      wrapLoop maxWidth rest (lines ++ [current]) word
    else
      wrapLoop maxWidth rest lines ((if current ≠ "" then current ++ " " else current) ++ word)

/-- The function `wrapText` of `src/helper.go`. -/
def wrapText (text : String) (maxWidth : Int) : List String :=
  let r := wrapLoop maxWidth (Fields text) [] ""
  if r.2 ≠ "" then r.1 ++ [r.2] else r.1

/-! ## Reachable dialogue nodes -/

/-- The nodes reached from `root` by following `Next` references of choices in the
arena `nodes` (those of "Goodbye" choices included, which a commit never follows). -/
inductive NodeReach (nodes : List ConversationNode) (root : Nat) : Nat → Prop
  | root : NodeReach nodes root root
  | next (n m : Nat) (node : ConversationNode) (c : ConversationChoice) :
      NodeReach nodes root n → nodes[n]? = some node → c ∈ node.Choices →
      c.Next = some m → NodeReach nodes root m

/-- The text of the choice that leads back to the root of a dialogue. -/
def somethingElse : String := "How interesting, I wanted to ask you about something else..."

/-- The root of the dialogue the node at offset `k` of `conversationNodes b` belongs
to: the Kid's for the first five nodes, the Merchant's for the next six, the
Alchemist's for the last five. -/
def groupRoot (b k : Nat) : Nat := if k < 5 then b + 4 else if k < 11 then b + 10 else b + 15

/-! ## The initial state of `main` and the dialogue invariant -/

/-- The table `positions` of `spawnNPCs`: name, sprite file, x and y. -/
def spawnPositions : List (String × String × Int × Int) :=
  [("Kid", "assets/Kid01_idle.png", 2 * tileSize, 2 * tileSize),
   ("Merchant", "assets/Merchant_idle.png", 5 * tileSize, 5 * tileSize),
   ("Alchemist", "assets/Alchemist_idle.png", 8 * tileSize, 8 * tileSize)]

/-- The method `spawnNPCs`, with `loads` telling of which sprite files the load
succeeds: an entry whose sprite fails to load is skipped. -/
def spawnNPCs (loads : String → Bool) (g : GameState) : GameState :=
  { g with
    npcs := (spawnPositions.filter (fun p => loads p.2.1)).map
      (fun p => ⟨⟨p.2.2.1, p.2.2.2⟩, 0, p.1, 0, 0, 0, ⟨0, 0⟩, false⟩) }

/-- The `Game` literal of `main` on the map `m`: the player at the centre of the map,
full bars, 08:00, every other field at its zero value. -/
def newGame (m : TiledMap) : GameState :=
  { inventory := initialInventory
    inventoryOpen := false
    lastInventoryTime := zeroTime
    lastChatEnd := zeroTime
    hunger := 1
    mapData := m
    playerPos :=
      ⟨quoInt (subInt (mulInt m.Width tileSize) tileSize) 2,
       quoInt (subInt (mulInt m.Height tileSize) tileSize) 2⟩
    treesLayer := none
    playerDir := 0
    playerAnim := 0
    playerAnimTick := 0
    moving := false
    npcs := []
    gameOver := false
    chatting := false
    chatNPC := none
    chatChoice := 0
    conversations := none
    convNode := none
    nodes := []
    lastChoiceTime := zeroTime
    pendingTreeLayer := none
    pendingTreeTileIdx := 0
    health := 1
    social := 1
    gameMinutes := 8 * 60
    lastTick := zeroTime
    lastDrain := 0 }

/-- The state `main` hands to the game loop: the `Game` literal followed by
`game.spawnNPCs()`. -/
def initialGame (m : TiledMap) (loads : String → Bool) : GameState := spawnNPCs loads (newGame m)

/-- The names `spawnNPCs` gives, the keys of the map of `initConversations`. -/
def npcNames : List String := ["Kid", "Merchant", "Alchemist"]

/-- Every `Next` reference of the arena points into the arena, and no node has more
than four choices. -/
def NodesClosed (nodes : List ConversationNode) : Prop :=
  ∀ node ∈ nodes, node.Choices.length ≤ 4 ∧
    ∀ c ∈ node.Choices, ∀ m, c.Next = some m → m < nodes.length

/-- The invariant of the dialogue fields: the arena is closed, every NPC has one of
the three names, the map of roots (once built) has a root in the arena for each name,
and while chatting the current node exists and the highlighted index points into its
choice list unless that list is empty. -/
def TalkInv (g : GameState) : Prop :=
  NodesClosed g.nodes ∧ (∀ npc ∈ g.npcs, npc.name ∈ npcNames) ∧
  (g.conversations ≠ none → ∀ name ∈ npcNames,
    ∃ r, conversationRoot g.conversations name = some r ∧ r < g.nodes.length) ∧
  (g.chatting = true → ∃ nid node, g.convNode = some nid ∧ g.nodes[nid]? = some node ∧
    (node.Choices ≠ [] → 0 ≤ g.chatChoice ∧ g.chatChoice < node.Choices.length))

/-- The dialogue fields of `g2` are those of `g`, the NPCs compared by name. -/
def SameDialogue (g g2 : GameState) : Prop :=
  g2.nodes = g.nodes ∧ g2.conversations = g.conversations ∧
  g2.npcs.map (fun n => n.name) = g.npcs.map (fun n => n.name) ∧
  g2.chatting = g.chatting ∧ g2.convNode = g.convNode ∧ g2.chatChoice = g.chatChoice

/-- A 10 by 10 map without layers, on which the player starts within reach of the
Merchant. -/
def openMap : TiledMap := ⟨10, 10, []⟩

/-! ## Map bounds of the actors -/

/-- The bounds of the player clamp on a map of `w` by `h` tiles:
`0 ≤ x ≤ w*tileSize - tileSize` and `0 ≤ y ≤ h*tileSize - tileSize`. -/
def InPlayerBounds (w h : Int) (p : Point) : Prop :=
  0 ≤ p.X ∧ p.X ≤ w * tileSize - tileSize ∧ 0 ≤ p.Y ∧ p.Y ≤ h * tileSize - tileSize

/-- The bounds of the test "Check map bounds" of the NPC wander step on a map of `w` by
`h` tiles: `0 ≤ x ≤ w*tileSize - tileSize/4` and `0 ≤ y ≤ h*tileSize - tileSize/4`. -/
def InNPCBounds (w h : Int) (p : Point) : Prop :=
  0 ≤ p.X ∧ p.X ≤ w * tileSize - tileSize / 4 ∧ 0 ≤ p.Y ∧ p.Y ≤ h * tileSize - tileSize / 4

/-- Both coordinates are multiples of `tileSize`. -/
def TileAligned (p : Point) : Prop := p.X % tileSize = 0 ∧ p.Y % tileSize = 0

/-- The map has at least one tile each way and its size in units fits an `int`. -/
def MapFits (w h : Int) : Prop :=
  1 ≤ w ∧ 1 ≤ h ∧ w * tileSize ≤ 9223372036854775807 ∧ h * tileSize ≤ 9223372036854775807

/-- A start in which the player and all NPCs are tile-aligned inside the map, and so is
the target of every NPC that is on its way. -/
def AlignedStart (g : GameState) : Prop :=
  MapFits g.mapData.Width g.mapData.Height ∧
  TileAligned g.playerPos ∧ InPlayerBounds g.mapData.Width g.mapData.Height g.playerPos ∧
  ∀ npc ∈ g.npcs,
    TileAligned npc.pos ∧ InPlayerBounds g.mapData.Width g.mapData.Height npc.pos ∧
    (npc.moving = true →
      TileAligned npc.target ∧ InPlayerBounds g.mapData.Width g.mapData.Height npc.target)

/-- The actors of `g` are inside a map of `w` by `h` tiles: the player within the
bounds of its clamp, every NPC, and the target of every NPC on its way, within the
bounds of the NPC test. -/
def ActorsInside (w h : Int) (g : GameState) : Prop :=
  g.mapData.Width = w ∧ g.mapData.Height = h ∧ InPlayerBounds w h g.playerPos ∧
  ∀ npc ∈ g.npcs, InNPCBounds w h npc.pos ∧ (npc.moving = true → InNPCBounds w h npc.target)

/-- A map of one row without layers whose width in units, `614891469123651722 * 15`,
is past the range of `int`. -/
def wideMap : TiledMap := ⟨614891469123651722, 1, []⟩

/-- The fresh example game on `wideMap`, without NPCs, the player at (0, 0). -/
def wideGame : GameState := { sampleGame with mapData := wideMap, playerPos := ⟨0, 0⟩, npcs := [] }

end SurvivalGame

namespace SurvivalGame

/-! ## Basic facts -/

theorem maxPerCell_eq (item : String) : maxPerCell item = 5 := by
  unfold maxPerCell; split <;> rfl

theorem wrapInt_of_range (x : Int) (h1 : -9223372036854775808 ≤ x)
    (h2 : x ≤ 9223372036854775807) : wrapInt x = x := by
  unfold wrapInt; omega

theorem stackRoom_nonneg (item : String) (inv : Inventory) : 0 ≤ stackRoom item inv := by
  induction inv with
  | nil => simp [stackRoom]
  | cons s rest ih =>
    simp only [stackRoom]
    split <;> omega

theorem emptyRoom_nonneg (inv : Inventory) : 0 ≤ emptyRoom inv := by
  induction inv with
  | nil => simp [emptyRoom]
  | cons s rest ih =>
    simp only [emptyRoom]
    split <;> omega

theorem forall₂_getElem? {R : InventorySlot → InventorySlot → Prop} {l l2 : Inventory}
    (h : List.Forall₂ R l l2) (i : Nat) (s : InventorySlot) (hs : l[i]? = some s) :
    ∃ t, l2[i]? = some t ∧ R s t := by
  induction h generalizing i with
  | nil => simp at hs
  | cons hab _ ih =>
    cases i with
    | zero =>
      simp at hs
      subst hs
      exact ⟨_, by simp, hab⟩
    | succ j =>
      simp at hs
      simpa using ih j hs

theorem forall₂_refl_of {R : InventorySlot → InventorySlot → Prop} (hR : ∀ s, R s s)
    (l : Inventory) : List.Forall₂ R l l := by
  induction l with
  | nil => exact List.Forall₂.nil
  | cons s rest ih => exact List.Forall₂.cons (hR s) ih

/-! ## The stacking loops -/

theorem stackLoop_cons_skip (item : String) (slot : InventorySlot) (rest : Inventory)
    (count : Int) (h : ¬ (slot.Item = item ∧ 0 < slot.Count ∧ slot.Count < 5)) :
    stackLoop item (slot :: rest) count
      = (slot :: (stackLoop item rest count).1, (stackLoop item rest count).2.1,
          (stackLoop item rest count).2.2) := by
  simp only [stackLoop, maxPerCell_eq, gt_iff_lt]
  rw [if_neg h]

theorem stackLoop_cons_fits (item : String) (slot : InventorySlot) (rest : Inventory)
    (count : Int) (h : slot.Item = item) (hc : 0 < slot.Count) (hc5 : slot.Count < 5)
    (h0 : 0 ≤ count) (hfit : count ≤ 5 - slot.Count) :
    stackLoop item (slot :: rest) count
      = ((⟨slot.Item, slot.Count + count⟩ : InventorySlot) :: rest, 0, true) := by
  have hw : wrapInt (slot.Count + count) = slot.Count + count :=
    wrapInt_of_range _ (by omega) (by omega)
  have h5 : ¬ (5 < slot.Count + count) := by omega
  simp only [stackLoop, maxPerCell_eq, gt_iff_lt, hw, h5, if_false]
  rw [if_pos ⟨h, hc, hc5⟩]
  simp

theorem stackLoop_cons_over (item : String) (slot : InventorySlot) (rest : Inventory)
    (count : Int) (h : slot.Item = item) (hc : 0 < slot.Count) (hc5 : slot.Count < 5)
    (h1 : count ≤ 9223372036854775803) (hover : 5 - slot.Count < count) :
    stackLoop item (slot :: rest) count
      = ((⟨slot.Item, 5⟩ : InventorySlot)
            :: (stackLoop item rest (count - (5 - slot.Count))).1,
          (stackLoop item rest (count - (5 - slot.Count))).2.1,
          (stackLoop item rest (count - (5 - slot.Count))).2.2) := by
  have hw : wrapInt (slot.Count + count) = slot.Count + count :=
    wrapInt_of_range _ (by omega) (by omega)
  have hw5 : wrapInt (slot.Count + (5 - slot.Count)) = 5 := by
    rw [wrapInt_of_range _ (by omega) (by omega)]; omega
  have h5 : 5 < slot.Count + count := by omega
  simp only [stackLoop, maxPerCell_eq, gt_iff_lt, hw, h5, if_true, hw5]
  rw [if_pos ⟨h, hc, hc5⟩, if_neg (by omega)]

theorem stackStep_refl (item : String) (s : InventorySlot) : StackStep item s s := Or.inl rfl

theorem fillStep_refl (item : String) (s : InventorySlot) : FillStep item s s := Or.inl rfl

/-- What the stacking loops do when `0 ≤ count` and `count + 4` fits a 64-bit `int`:
they consume `min count (stackRoom item inv)`, add it to the total of `item`,
leave the empty slots as they are, and `return` only with nothing left. -/
theorem stackLoop_spec (item : String) (inv : Inventory) (count : Int)
    (h0 : 0 ≤ count) (h1 : count ≤ 9223372036854775803) :
    (stackLoop item inv count).2.1 = count - min count (stackRoom item inv) ∧
    ((stackLoop item inv count).2.2 = true → (stackLoop item inv count).2.1 = 0) ∧
    totalCount item (stackLoop item inv count).1
      = totalCount item inv + min count (stackRoom item inv) ∧
    emptyRoom (stackLoop item inv count).1 = emptyRoom inv ∧
    List.Forall₂ (StackStep item) inv (stackLoop item inv count).1 := by
  induction inv generalizing count with
  | nil =>
    simp only [stackLoop, stackRoom, totalCount, emptyRoom]
    refine ⟨by omega, by simp, by omega, trivial, List.Forall₂.nil⟩
  | cons slot rest ih =>
    have hpr := stackRoom_nonneg item rest
    by_cases hm : slot.Item = item ∧ 0 < slot.Count ∧ slot.Count < 5
    · obtain ⟨h, hc, hc5⟩ := hm
      by_cases hfit : count ≤ 5 - slot.Count
      · rw [stackLoop_cons_fits item slot rest count h hc hc5 h0 hfit]
        have e1 : ¬ (slot.Count + count = 0) := by omega
        have e2 : ¬ (slot.Count = 0) := by omega
        simp only [stackRoom, totalCount, emptyRoom, h, hc, hc5, and_self, if_true, e1, e2]
        refine ⟨by omega, fun _ => trivial, by omega, trivial, ?_⟩
        exact List.Forall₂.cons (Or.inr ⟨h, rfl, hc, hc5, by simp only; omega, by simp only; omega⟩)
          (forall₂_refl_of (stackStep_refl item) rest)
      · have hover : 5 - slot.Count < count := by omega
        rw [stackLoop_cons_over item slot rest count h hc hc5 h1 hover]
        obtain ⟨i1, i2, i3, i4, i5⟩ := ih (count - (5 - slot.Count)) (by omega) (by omega)
        have e1 : ¬ ((5 : Int) = 0) := by omega
        have e2 : ¬ (slot.Count = 0) := by omega
        simp only [stackRoom, totalCount, emptyRoom, h, hc, hc5, and_self, if_true, e1, e2]
        refine ⟨by rw [i1]; omega, i2, by rw [i3]; omega, by rw [i4], ?_⟩
        exact List.Forall₂.cons (Or.inr ⟨h, rfl, hc, hc5, by simp only; omega, by simp only; omega⟩) i5
    · rw [stackLoop_cons_skip item slot rest count hm]
      obtain ⟨i1, i2, i3, i4, i5⟩ := ih count h0 h1
      simp only [stackRoom, totalCount, emptyRoom, hm, if_false]
      refine ⟨by rw [i1]; omega, i2, by rw [i3]; omega, by rw [i4], ?_⟩
      exact List.Forall₂.cons (Or.inl rfl) i5

/-! ## The filling loops -/

theorem fillLoop_of_nonpos (item : String) (inv : Inventory) (count : Int) (h : count ≤ 0) :
    fillLoop item inv count = inv := by
  cases inv with
  | nil => rfl
  | cons s rest => simp only [fillLoop, gt_iff_lt]; rw [if_neg (by omega)]

/-- What the filling loops do for a non-empty item name and `0 ≤ count`: they add
`min count (emptyRoom inv)` to the total of `item`. -/
theorem fillLoop_spec (item : String) (hne : item ≠ "") (inv : Inventory) (count : Int)
    (h0 : 0 ≤ count) :
    totalCount item (fillLoop item inv count)
      = totalCount item inv + min count (emptyRoom inv) := by
  induction inv generalizing count with
  | nil => simp only [fillLoop, totalCount, emptyRoom]; omega
  | cons slot rest ih =>
    have her := emptyRoom_nonneg rest
    by_cases hpos : count > 0
    · by_cases he : slot.Item = "" ∨ slot.Count = 0
      · have hz : (if slot.Item = item then slot.Count else 0) = 0 := by
          rcases he with he | he
          · rw [if_neg (by rw [he]; exact fun h => hne h.symm)]
          · split <;> simp [he]
        simp only [fillLoop, maxPerCell_eq, if_pos hpos, if_pos he, totalCount, emptyRoom,
          if_true, hz]
        by_cases h5 : count > 5
        · simp only [if_pos h5]
          rw [ih (count - 5) (by omega)]; omega
        · simp only [if_neg h5]
          rw [ih (count - count) (by omega)]; omega
      · simp only [fillLoop, if_pos hpos, if_neg he, totalCount, emptyRoom]
        rw [ih count h0]; omega
    · rw [fillLoop_of_nonpos item _ count (by omega)]
      simp only [totalCount, emptyRoom]
      split <;> omega

theorem fillLoop_step (item : String) (inv : Inventory) (count : Int) :
    List.Forall₂ (FillStep item) inv (fillLoop item inv count) := by
  induction inv generalizing count with
  | nil => exact List.Forall₂.nil
  | cons slot rest ih =>
    by_cases hpos : count > 0
    · by_cases he : slot.Item = "" ∨ slot.Count = 0
      · simp only [fillLoop, maxPerCell_eq, if_pos hpos, if_pos he]
        refine List.Forall₂.cons (Or.inr ⟨he, rfl, ?_, ?_⟩) (ih _)
        · simp only; split <;> omega
        · simp only; split <;> omega
      · simp only [fillLoop, if_pos hpos, if_neg he]
        exact List.Forall₂.cons (Or.inl rfl) (ih _)
    · rw [fillLoop_of_nonpos item _ count (by omega)]
      exact forall₂_refl_of (fillStep_refl item) _

/-! ## `addToInventory` as a whole -/

theorem forall₂_comp {R S : InventorySlot → InventorySlot → Prop} {l1 l2 l3 : Inventory}
    (h12 : List.Forall₂ R l1 l2) (h23 : List.Forall₂ S l2 l3) :
    List.Forall₂ (fun a c => ∃ b, R a b ∧ S b c) l1 l3 := by
  induction h12 generalizing l3 with
  | nil => cases h23; exact List.Forall₂.nil
  | cons hab _ ih =>
    cases h23 with
    | cons hbc hrest => exact List.Forall₂.cons ⟨_, hab, hbc⟩ (ih hrest)

theorem forall₂_transfer {R : InventorySlot → InventorySlot → Prop}
    {P Q : InventorySlot → Prop} {l l2 : Inventory} (h : List.Forall₂ R l l2)
    (hP : ∀ s ∈ l, P s) (hstep : ∀ s t, P s → R s t → Q t) : ∀ t ∈ l2, Q t := by
  induction h with
  | nil => intro t ht; simp at ht
  | cons hab _ ih =>
    intro t ht
    rcases List.mem_cons.1 ht with rfl | ht
    · exact hstep _ _ (hP _ (List.mem_cons_self _ _)) hab
    · exact ih (fun s hs => hP s (List.mem_cons_of_mem _ hs)) t ht

theorem addToInventory_step (item : String) (count : Int) (inv : Inventory)
    (h0 : 0 ≤ count) (h1 : count ≤ 9223372036854775803) :
    List.Forall₂ (AddStep item) inv (addToInventory item count inv) := by
  obtain ⟨_, _, _, _, hst⟩ := stackLoop_spec item inv count h0 h1
  unfold addToInventory
  simp only
  split
  · exact forall₂_comp hst (forall₂_refl_of (fillStep_refl item) _)
  · exact forall₂_comp hst (fillLoop_step item _ _)

theorem addToInventory_length (item : String) (count : Int) (inv : Inventory)
    (h0 : 0 ≤ count) (h1 : count ≤ 9223372036854775803) :
    (addToInventory item count inv).length = inv.length :=
  (addToInventory_step item count inv h0 h1).length_eq.symm

theorem addToInventory_totalCount (item : String) (hne : item ≠ "") (count : Int)
    (inv : Inventory) (h0 : 0 ≤ count) (h1 : count ≤ 9223372036854775803) :
    totalCount item (addToInventory item count inv)
      = totalCount item inv + min count (freeRoom item inv) := by
  obtain ⟨e1, e2, e3, e4, _⟩ := stackLoop_spec item inv count h0 h1
  have hpr := stackRoom_nonneg item inv
  have her := emptyRoom_nonneg inv
  unfold addToInventory freeRoom
  simp only
  split
  · rename_i hret
    have hz := e2 hret
    rw [e3]; omega
  · have hrem : 0 ≤ (stackLoop item inv count).2.1 := by rw [e1]; omega
    rw [fillLoop_spec item hne _ _ hrem, e3, e4, e1]; omega

/-- A slot that holds another item (non-empty name, positive count) is not touched
by a step of `addToInventory item`. -/
theorem addStep_foreign (item : String) (s t : InventorySlot) (h : AddStep item s t)
    (hname : s.Item ≠ "") (hother : s.Item ≠ item) (hpos : 0 < s.Count) : t = s := by
  obtain ⟨m, hsm, hmt⟩ := h
  have hm : m = s := by
    rcases hsm with h | h
    · exact h
    · exact absurd h.1 hother
  subst hm
  rcases hmt with h | h
  · exact h
  · rcases h.1 with h | h
    · exact absurd h hname
    · omega

/-- A step of `addToInventory` keeps the slot invariant. -/
theorem addStep_slotInv (item : String) (s t : InventorySlot) (hs : SlotInv s)
    (h : AddStep item s t) : SlotInv t := by
  obtain ⟨m, hsm, hmt⟩ := h
  have hm : SlotInv m := by
    rcases hsm with h | h
    · rw [h]; exact hs
    · intro _; omega
  rcases hmt with h | h
  · rw [h]; exact hm
  · intro _; exact ⟨h.2.2.1, h.2.2.2⟩

/-! ## `removeItem` -/

theorem removeItem_of_nonpos (item : String) (inv : Inventory) (count : Int) (h : count ≤ 0) :
    removeItem item inv count = inv := by
  cases inv with
  | nil => rfl
  | cons s rest => simp only [removeItem, gt_iff_lt]; rw [if_neg (by omega)]

theorem removeStep_refl (item : String) (s : InventorySlot) : RemoveStep item s s := Or.inl rfl

theorem removeItem_step (item : String) (inv : Inventory) (count : Int) :
    List.Forall₂ (RemoveStep item) inv (removeItem item inv count) := by
  induction inv generalizing count with
  | nil => exact List.Forall₂.nil
  | cons slot rest ih =>
    by_cases hpos : count > 0
    · by_cases hm : slot.Item = item ∧ slot.Count > 0
      · by_cases hgt : slot.Count > count
        · simp only [removeItem, if_pos hpos, if_pos hm, if_pos hgt]
          refine List.Forall₂.cons (Or.inr ⟨hm.1, hm.2, Or.inr ⟨rfl, ?_, ?_⟩⟩)
            (forall₂_refl_of (removeStep_refl item) rest)
          · simp only; omega
          · simp only; omega
        · simp only [removeItem, if_pos hpos, if_pos hm, if_neg hgt]
          exact List.Forall₂.cons (Or.inr ⟨hm.1, hm.2, Or.inl rfl⟩) (ih _)
      · simp only [removeItem, if_pos hpos, if_neg hm]
        exact List.Forall₂.cons (Or.inl rfl) (ih _)
    · rw [removeItem_of_nonpos item _ count (by omega)]
      exact forall₂_refl_of (removeStep_refl item) _

theorem nonNegOf_tail {item : String} {s : InventorySlot} {rest : Inventory}
    (h : NonNegOf item (s :: rest)) : NonNegOf item rest :=
  fun t ht => h t (List.mem_cons_of_mem _ ht)

theorem totalCount_nonneg (item : String) (inv : Inventory) (h : NonNegOf item inv) :
    0 ≤ totalCount item inv := by
  induction inv with
  | nil => simp [totalCount]
  | cons s rest ih =>
    have hr := ih (nonNegOf_tail h)
    have hs := h s (List.mem_cons_self _ _)
    simp only [totalCount]
    split
    · rename_i he; have := hs he; omega
    · omega

/-- The amount `removeItem` takes: `min count total`, when the slots of `item` have
non-negative counts and `0 ≤ count`. -/
theorem removeItem_totalCount (item : String) (inv : Inventory) (count : Int)
    (hnn : NonNegOf item inv) (h0 : 0 ≤ count) :
    totalCount item (removeItem item inv count)
      = totalCount item inv - min count (totalCount item inv) := by
  induction inv generalizing count with
  | nil => simp only [removeItem, totalCount]; omega
  | cons slot rest ih =>
    have hr := totalCount_nonneg item rest (nonNegOf_tail hnn)
    have hs := hnn slot (List.mem_cons_self _ _)
    by_cases hpos : count > 0
    · by_cases hm : slot.Item = item ∧ slot.Count > 0
      · by_cases hgt : slot.Count > count
        · simp only [removeItem, if_pos hpos, if_pos hm, if_pos hgt]
          simp only [totalCount, hm.1, if_true]
          omega
        · simp only [removeItem, if_pos hpos, if_pos hm, if_neg hgt]
          simp only [totalCount, hm.1, if_true]
          rw [ih _ (nonNegOf_tail hnn) (by omega)]
          split <;> omega
      · simp only [removeItem, if_pos hpos, if_neg hm, totalCount]
        rw [ih _ (nonNegOf_tail hnn) h0]
        split
        · rename_i he
          have h1 := hs he
          have h2 : slot.Count = 0 := by
            by_contra hne
            exact hm ⟨he, by omega⟩
          omega
        · omega
    · rw [removeItem_of_nonpos item _ count (by omega)]
      have := totalCount_nonneg item _ hnn
      omega

theorem removedSlot_shift (item : String) (count c p : Int) (s : InventorySlot) :
    removedSlot item (count - c) p s = removedSlot item count (c + p) s := by
  unfold removedSlot
  by_cases h1 : s.Item = item ∧ 0 < s.Count ∧ p < count - c
  · have h1b : s.Item = item ∧ 0 < s.Count ∧ c + p < count := ⟨h1.1, h1.2.1, by omega⟩
    rw [if_pos h1, if_pos h1b]
    by_cases h2 : p + s.Count ≤ count - c
    · have h2b : c + p + s.Count ≤ count := by omega
      rw [if_pos h2, if_pos h2b]
    · have h2b : ¬ (c + p + s.Count ≤ count) := by omega
      rw [if_neg h2, if_neg h2b]
      have e : s.Count - (count - c - p) = s.Count - (count - (c + p)) := by omega
      rw [e]
  · have h1b : ¬ (s.Item = item ∧ 0 < s.Count ∧ c + p < count) :=
      fun h => h1 ⟨h.1, h.2.1, by omega⟩
    rw [if_neg h1, if_neg h1b]

/-- Slot by slot, `removeItem` is row-major removal. -/
theorem removeItem_getElem? (item : String) (inv : Inventory) (count : Int)
    (hnn : NonNegOf item inv) (h0 : 0 ≤ count) (i : Nat) (s : InventorySlot)
    (hs : inv[i]? = some s) :
    (removeItem item inv count)[i]?
      = some (removedSlot item count (totalCount item (inv.take i)) s) := by
  induction inv generalizing count i with
  | nil => simp at hs
  | cons slot rest ih =>
    have hslot := hnn slot (List.mem_cons_self _ _)
    cases i with
    | zero =>
      simp at hs
      subst hs
      simp only [List.take_zero, totalCount, removedSlot, zero_add, sub_zero]
      by_cases hpos : count > 0
      · by_cases hm : slot.Item = item ∧ slot.Count > 0
        · by_cases hgt : slot.Count > count
          · simp only [removeItem, if_pos hpos, if_pos hm, if_pos hgt]
            rw [if_pos ⟨hm.1, hm.2, hpos⟩, if_neg (by omega)]
            simp
          · simp only [removeItem, if_pos hpos, if_pos hm, if_neg hgt]
            rw [if_pos ⟨hm.1, hm.2, hpos⟩, if_pos (by omega)]
            simp
        · simp only [removeItem, if_pos hpos, if_neg hm]
          rw [if_neg (fun h => hm ⟨h.1, h.2.1⟩)]
          simp
      · rw [removeItem_of_nonpos item _ count (by omega), if_neg (fun h => hpos h.2.2)]
        simp
    | succ j =>
      simp only [List.getElem?_cons_succ] at hs
      have hp := totalCount_nonneg item (rest.take j)
        (fun t ht => nonNegOf_tail hnn t (List.mem_of_mem_take ht))
      simp only [List.take_succ_cons, totalCount]
      by_cases hpos : count > 0
      · by_cases hm : slot.Item = item ∧ slot.Count > 0
        · by_cases hgt : slot.Count > count
          · simp only [removeItem, if_pos hpos, if_pos hm, if_pos hgt]
            simp only [List.getElem?_cons_succ, hs, hm.1, if_true, removedSlot]
            rw [if_neg (fun h => by omega)]
          · simp only [removeItem, if_pos hpos, if_pos hm, if_neg hgt]
            simp only [List.getElem?_cons_succ, hm.1, if_true]
            rw [ih _ (nonNegOf_tail hnn) (by omega) j hs, removedSlot_shift]
        · simp only [removeItem, if_pos hpos, if_neg hm, List.getElem?_cons_succ]
          rw [ih _ (nonNegOf_tail hnn) h0 j hs]
          have hz : (if slot.Item = item then slot.Count else 0) = 0 := by
            split
            · rename_i he
              by_contra hne
              exact hm ⟨he, by have := hslot he; omega⟩
            · rfl
          rw [hz, zero_add]
      · rw [removeItem_of_nonpos item _ count (by omega)]
        simp only [List.getElem?_cons_succ, hs, removedSlot]
        rw [if_neg (fun h => by
          have : 0 ≤ (if slot.Item = item then slot.Count else 0) := by
            split
            · rename_i he; exact hslot he
            · omega
          omega)]

/-! ## `hasItem` -/

/-- With non-negative counts whose sum fits a 64-bit `int`, the running total never
wraps and `hasItem` compares the sum with `count`. -/
theorem hasItemLoop_iff (item : String) (count : Int) (inv : Inventory) (t : Int)
    (hnn : NonNegOf item inv) (ht0 : 0 ≤ t) (htc : t < count)
    (hmax : t + totalCount item inv ≤ 9223372036854775807) :
    hasItemLoop item count inv t = true ↔ count ≤ t + totalCount item inv := by
  induction inv generalizing t with
  | nil => simp only [hasItemLoop, totalCount]; constructor
           · intro h; cases h
           · intro h; omega
  | cons slot rest ih =>
    have hr := totalCount_nonneg item rest (nonNegOf_tail hnn)
    by_cases he : slot.Item = item
    · have hs := hnn slot (List.mem_cons_self _ _) he
      simp only [totalCount, if_pos he] at hmax ⊢
      have hw : wrapInt (t + slot.Count) = t + slot.Count :=
        wrapInt_of_range _ (by omega) (by omega)
      simp only [hasItemLoop, if_pos he, hw, ge_iff_le]
      by_cases hge : count ≤ t + slot.Count
      · rw [if_pos hge]; constructor
        · intro _; omega
        · intro _; rfl
      · rw [if_neg hge, ih (t + slot.Count) (nonNegOf_tail hnn) (by omega) (by omega)
          (by omega)]
        constructor <;> intro h <;> omega
    · simp only [totalCount, if_neg he, zero_add] at hmax ⊢
      simp only [hasItemLoop, if_neg he]
      exact ih t (nonNegOf_tail hnn) ht0 htc hmax

/-- When every slot named `item` has count zero, `hasItem` finds nothing. -/
theorem hasItemLoop_of_all_zero (item : String) (count : Int) (inv : Inventory)
    (hz : ∀ s ∈ inv, s.Item = item → s.Count = 0) (hc : 1 ≤ count) :
    hasItemLoop item count inv 0 = false := by
  induction inv with
  | nil => rfl
  | cons slot rest ih =>
    have hrest := ih (fun s hs => hz s (List.mem_cons_of_mem _ hs))
    by_cases he : slot.Item = item
    · have h0 := hz slot (List.mem_cons_self _ _) he
      have hw : wrapInt (0 + slot.Count) = 0 := by rw [h0]; rfl
      simp only [hasItemLoop, if_pos he, hw, ge_iff_le]
      rw [if_neg (by omega)]
      exact hrest
    · simp only [hasItemLoop, if_neg he]
      exact hrest

/-- Asking for one item: with non-negative 64-bit counts `hasItem item 1` says
whether the total is at least 1, whatever the size of the counts. -/
theorem hasItem_one_iff (item : String) (inv : Inventory) (hnn : NonNegOf item inv)
    (hmax : ∀ s ∈ inv, s.Item = item → s.Count ≤ 9223372036854775807) :
    hasItem item 1 inv = true ↔ 1 ≤ totalCount item inv := by
  unfold hasItem
  induction inv with
  | nil => simp [hasItemLoop, totalCount]
  | cons slot rest ih =>
    have hr := totalCount_nonneg item rest (nonNegOf_tail hnn)
    have ih2 := ih (nonNegOf_tail hnn) (fun s hs => hmax s (List.mem_cons_of_mem _ hs))
    by_cases he : slot.Item = item
    · have hs := hnn slot (List.mem_cons_self _ _) he
      have hm := hmax slot (List.mem_cons_self _ _) he
      have hw : wrapInt (0 + slot.Count) = slot.Count := by
        rw [zero_add]; exact wrapInt_of_range _ (by omega) hm
      simp only [hasItemLoop, if_pos he, hw, ge_iff_le, totalCount]
      by_cases hge : 1 ≤ slot.Count
      · rw [if_pos hge]; constructor
        · intro _; omega
        · intro _; rfl
      · have h0 : slot.Count = 0 := by omega
        rw [if_neg hge, h0, ih2]
        constructor <;> intro h <;> omega
    · simp only [hasItemLoop, if_neg he, totalCount, zero_add]
      exact ih2

/-! ## One partial stack and otherwise empty slots -/

theorem stackLoop_no_match (item : String) (l : Inventory) (count : Int)
    (h : ∀ s ∈ l, ¬ (s.Item = item ∧ 0 < s.Count ∧ s.Count < 5)) :
    stackLoop item l count = (l, count, false) := by
  induction l with
  | nil => rfl
  | cons slot rest ih =>
    rw [stackLoop_cons_skip item slot rest count (h slot (List.mem_cons_self _ _)),
      ih (fun s hs => h s (List.mem_cons_of_mem _ hs))]

theorem stackLoop_unique (item : String) (c : Int) (inv : Inventory) (k : Int) (i : Nat)
    (hs : inv[i]? = some ⟨item, c⟩)
    (hoth : ∀ j s, inv[j]? = some s → j ≠ i → ¬ (s.Item = item ∧ 0 < s.Count ∧ s.Count < 5))
    (hc : 0 < c) (hc5 : c < 5) (hover : 5 - c < k) (h1 : k ≤ 9223372036854775803) :
    stackLoop item inv k = (inv.set i ⟨item, 5⟩, k - (5 - c), false) := by
  induction inv generalizing i with
  | nil => simp at hs
  | cons slot rest ih =>
    cases i with
    | zero =>
      simp at hs
      subst hs
      rw [stackLoop_cons_over item _ rest k rfl hc hc5 h1 hover]
      have hrest : ∀ s ∈ rest, ¬ (s.Item = item ∧ 0 < s.Count ∧ s.Count < 5) := by
        intro s hmem
        obtain ⟨n, hn, hget⟩ := List.getElem_of_mem hmem
        exact hoth (n + 1) s (by simp [List.getElem?_eq_getElem hn, hget]) (by omega)
      rw [stackLoop_no_match item rest _ hrest]
      simp
    | succ j =>
      simp only [List.getElem?_cons_succ] at hs
      have hhead : ¬ (slot.Item = item ∧ 0 < slot.Count ∧ slot.Count < 5) :=
        hoth 0 slot (by simp) (by omega)
      rw [stackLoop_cons_skip item slot rest k hhead,
        ih j hs (fun n s hn hne => hoth (n + 1) s (by simpa using hn) (by omega))]
      simp

theorem fillLoop_small (item : String) (l : Inventory) (r : Int) (h0 : 0 < r) (h5 : r ≤ 5) :
    fillLoop item l r = l.set (firstEmpty l) ⟨item, r⟩ := by
  induction l with
  | nil => rfl
  | cons slot rest ih =>
    have hpos : r > 0 := h0
    by_cases he : slot.Item = "" ∨ slot.Count = 0
    · have hb : decide (isEmptySlot slot) = true := decide_eq_true he
      have hfe : firstEmpty (slot :: rest) = 0 := by
        simp only [firstEmpty, List.findIdx_cons, hb, cond_true]
      have hn5 : ¬ (r > 5) := by omega
      simp only [fillLoop, maxPerCell_eq, if_pos hpos, if_pos he, if_neg hn5, hfe,
        List.set_cons_zero]
      rw [fillLoop_of_nonpos item rest _ (by omega)]
    · have hb : decide (isEmptySlot slot) = false := decide_eq_false he
      have hfe : firstEmpty (slot :: rest) = firstEmpty rest + 1 := by
        simp only [firstEmpty, List.findIdx_cons, hb, cond_false]
      simp only [fillLoop, if_pos hpos, if_neg he, hfe, List.set_cons_succ, ih]

/-- C1. In a 64-slot inventory whose only non-empty slot is slot `i`, holding
`{X, c}` with `1 ≤ c < 5`, `addToInventory(X, k)` with `5 - c < k ≤ 10 - c` raises
slot `i` to `{X, 5}`, writes `{X, c + k - 5}` into the first empty slot in row-major
order (slot 0, or slot 1 when `i = 0`), and leaves every other slot as it was. -/
theorem addToInventory_tops_up_then_spills (X : String) (c k : Int) (inv : Inventory)
    (i : Nat) (hlen : inv.length = 64) (hslot : inv[i]? = some ⟨X, c⟩)
    (hothers : ∀ j s, inv[j]? = some s → (isEmptySlot s ↔ j ≠ i))
    (hc1 : 1 ≤ c) (hc5 : c < 5) (hk1 : 5 - c < k) (hk2 : k ≤ 10 - c) :
    firstEmpty inv = (if i = 0 then 1 else 0) ∧
    addToInventory X k inv = (inv.set i ⟨X, 5⟩).set (firstEmpty inv) ⟨X, c + k - 5⟩ ∧
    (addToInventory X k inv)[i]? = some ⟨X, 5⟩ ∧
    (addToInventory X k inv)[firstEmpty inv]? = some ⟨X, c + k - 5⟩ ∧
    (∀ j, j ≠ i → j ≠ firstEmpty inv → (addToInventory X k inv)[j]? = inv[j]?) := by
  have hne : ¬ isEmptySlot ⟨X, c⟩ := fun h => (hothers i _ hslot).1 h rfl
  have hX : X ≠ "" := fun h => hne (Or.inl h)
  have hi : i < inv.length := by
    by_contra hge
    rw [List.getElem?_eq_none (by omega)] at hslot
    cases hslot
  have hstack : stackLoop X inv k = (inv.set i ⟨X, 5⟩, k - (5 - c), false) := by
    refine stackLoop_unique X c inv k i hslot ?_ (by omega) hc5 hk1 (by omega)
    intro j s hj hji hmatch
    rcases (hothers j s hj).2 hji with h | h
    · exact hX (hmatch.1 ▸ h)
    · omega
  have hfe : firstEmpty inv = (if i = 0 then 1 else 0) ∧
      firstEmpty (inv.set i ⟨X, 5⟩) = firstEmpty inv := by
    match inv, hlen with
    | a :: b :: rest, _ =>
      have hb5 : decide (isEmptySlot ⟨X, 5⟩) = false :=
        decide_eq_false (fun h => by rcases h with h | h; exact hX h; simp at h)
      cases i with
      | zero =>
        simp at hslot
        subst hslot
        have ha : decide (isEmptySlot ⟨X, c⟩) = false := decide_eq_false hne
        have hb : decide (isEmptySlot b) = true :=
          decide_eq_true ((hothers 1 b (by simp)).2 (by omega))
        simp only [firstEmpty, List.findIdx_cons, List.set_cons_zero, ha, hb, hb5, cond_true,
          cond_false, if_true]
        exact ⟨trivial, trivial⟩
      | succ j =>
        have ha : decide (isEmptySlot a) = true :=
          decide_eq_true ((hothers 0 a (by simp)).2 (by omega))
        simp only [firstEmpty, List.findIdx_cons, List.set_cons_succ, ha, cond_true]
        simp
  have hr0 : 0 < k - (5 - c) := by omega
  have hr5 : k - (5 - c) ≤ 5 := by omega
  have hrem : k - (5 - c) = c + k - 5 := by omega
  have hfi : firstEmpty inv ≠ i := by
    rw [hfe.1]; split <;> omega
  have hfl : firstEmpty inv < inv.length := by
    rw [hfe.1, hlen]; split <;> omega
  have hres : addToInventory X k inv
      = (inv.set i ⟨X, 5⟩).set (firstEmpty inv) ⟨X, c + k - 5⟩ := by
    unfold addToInventory
    simp only [hstack]
    rw [if_neg (by simp), fillLoop_small X _ _ hr0 hr5, hfe.2, hrem]
  refine ⟨hfe.1, hres, ?_, ?_, ?_⟩
  · rw [hres, List.getElem?_set_ne hfi, List.getElem?_set_self hi]
  · rw [hres, List.getElem?_set_self (by simpa using hfl)]
  · intro j hji hjf
    rw [hres, List.getElem?_set_ne (Ne.symm hjf), List.getElem?_set_ne (Ne.symm hji)]

/-- C1, the scenario of the specification: one slot `{"Wood", 3}` and
`addToInventory("Wood", 4)`. -/
theorem addToInventory_tops_up_then_spills_witness :
    firstEmpty (⟨"Wood", 3⟩ :: List.replicate 63 zeroSlot) = (if (0 : Nat) = 0 then 1 else 0) ∧
    addToInventory "Wood" 4 (⟨"Wood", 3⟩ :: List.replicate 63 zeroSlot)
      = ((⟨"Wood", 3⟩ :: List.replicate 63 zeroSlot).set 0 ⟨"Wood", 5⟩).set
          (firstEmpty (⟨"Wood", 3⟩ :: List.replicate 63 zeroSlot)) ⟨"Wood", 3 + 4 - 5⟩ ∧
    (addToInventory "Wood" 4 (⟨"Wood", 3⟩ :: List.replicate 63 zeroSlot))[0]?
      = some ⟨"Wood", 5⟩ ∧
    (addToInventory "Wood" 4 (⟨"Wood", 3⟩ :: List.replicate 63 zeroSlot))[
        firstEmpty (⟨"Wood", 3⟩ :: List.replicate 63 zeroSlot)]? = some ⟨"Wood", 3 + 4 - 5⟩ ∧
    (∀ j, j ≠ 0 → j ≠ firstEmpty (⟨"Wood", 3⟩ :: List.replicate 63 zeroSlot) →
      (addToInventory "Wood" 4 (⟨"Wood", 3⟩ :: List.replicate 63 zeroSlot))[j]?
        = (⟨"Wood", 3⟩ :: List.replicate 63 zeroSlot)[j]?) :=
  addToInventory_tops_up_then_spills "Wood" 3 4 (⟨"Wood", 3⟩ :: List.replicate 63 zeroSlot) 0
    (by decide) (by decide)
    (by
      intro j s hj
      cases j with
      | zero =>
        simp at hj
        subst hj
        simp [isEmptySlot]
      | succ n =>
        simp only [List.getElem?_cons_succ] at hj
        have hmem : s ∈ List.replicate 63 zeroSlot := List.getElem?_mem hj
        rw [List.eq_of_mem_replicate hmem]
        simp [isEmptySlot, zeroSlot])
    (by decide) (by decide) (by decide) (by decide)

/-! ## Adding and then removing -/

theorem removeItem_of_absent (item : String) (inv : Inventory) (count : Int)
    (h : Absent item inv) : removeItem item inv count = inv := by
  induction inv generalizing count with
  | nil => rfl
  | cons slot rest ih =>
    by_cases hpos : count > 0
    · have hm : ¬ (slot.Item = item ∧ slot.Count > 0) := h slot (List.mem_cons_self _ _)
      simp only [removeItem, if_pos hpos, if_neg hm]
      rw [ih count (fun s hs => h s (List.mem_cons_of_mem _ hs))]
    · exact removeItem_of_nonpos item _ count (by omega)

theorem removeItem_fillLoop (item : String) (inv : Inventory) (c d : Int) (hcd : c ≤ d)
    (habs : Absent item inv) (hclean : CleanEmpties inv) :
    removeItem item (fillLoop item inv c) d = inv := by
  induction inv generalizing c d with
  | nil => rfl
  | cons slot rest ih =>
    have habs2 : Absent item rest := fun s hs => habs s (List.mem_cons_of_mem _ hs)
    have hclean2 : CleanEmpties rest := fun s hs => hclean s (List.mem_cons_of_mem _ hs)
    by_cases hpos : c > 0
    · have hdpos : d > 0 := by omega
      by_cases he : slot.Item = "" ∨ slot.Count = 0
      · have hz : slot = ⟨"", 0⟩ := hclean slot (List.mem_cons_self _ _) he
        simp only [fillLoop, maxPerCell_eq, if_pos hpos, if_pos he]
        by_cases h5 : c > 5
        · simp only [if_pos h5, removeItem, if_pos hdpos]
          rw [if_pos ⟨trivial, by omega⟩, if_neg (by omega), ih (c - 5) (d - 5) (by omega) habs2 hclean2,
            hz]
        · simp only [if_neg h5, removeItem, if_pos hdpos]
          rw [if_pos ⟨trivial, hpos⟩, if_neg (by omega), ih (c - c) (d - c) (by omega) habs2 hclean2,
            hz]
      · have hm : ¬ (slot.Item = item ∧ slot.Count > 0) := habs slot (List.mem_cons_self _ _)
        simp only [fillLoop, if_pos hpos, if_neg he, removeItem, if_pos hdpos, if_neg hm]
        rw [ih c d hcd habs2 hclean2]
    · rw [fillLoop_of_nonpos item _ c (by omega)]
      exact removeItem_of_absent item _ d habs

/-- C2, counterexample.  After one tree has been cut the inventory is
`[{Wood,5}, {Wood,5}, empty ...]`; adding 3 Wood starts a third stack, removing 3 Wood
takes them from the first stack, and the inventory is not the one before the add. -/
theorem roundtrip_fails_when_item_present :
    addToInventory "Wood" 10 initialInventory
      = ⟨"Wood", 5⟩ :: ⟨"Wood", 5⟩ :: List.replicate 62 zeroSlot ∧
    removeItem "Wood"
        (addToInventory "Wood" 3 (⟨"Wood", 5⟩ :: ⟨"Wood", 5⟩ :: List.replicate 62 zeroSlot)) 3
      = ⟨"Wood", 2⟩ :: ⟨"Wood", 5⟩ :: ⟨"Wood", 3⟩ :: List.replicate 61 zeroSlot ∧
    ¬ (∀ (item : String) (count : Int) (inv : Inventory), inv.length = 64 → count ≤ 320 →
        removeItem item (addToInventory item count inv) count = inv) := by
  refine ⟨by decide, by decide, ?_⟩
  intro h
  have h2 := h "Wood" 3 (⟨"Wood", 5⟩ :: ⟨"Wood", 5⟩ :: List.replicate 62 zeroSlot)
    (by decide) (by decide)
  revert h2
  decide

/-- C2, amended.  When no slot holds `item` with a positive count and every empty
slot is `{"", 0}`, `removeItem(item, count)` after `addToInventory(item, count)`
restores the inventory exactly, for every count (also beyond the capacity, where
the overflow is dropped by the add and the remove finds nothing more to take). -/
theorem removeItem_addToInventory_roundtrip (item : String) (count : Int) (inv : Inventory)
    (habs : Absent item inv) (hclean : CleanEmpties inv) :
    removeItem item (addToInventory item count inv) count = inv := by
  have hstack : stackLoop item inv count = (inv, count, false) :=
    stackLoop_no_match item inv count (fun s hs hm => habs s hs ⟨hm.1, hm.2.1⟩)
  unfold addToInventory
  simp only [hstack]
  rw [if_neg (by simp)]
  exact removeItem_fillLoop item inv count count (le_refl _) habs hclean

/-- C2, amended: an instance (7 Fish into an inventory holding 10 Wood). -/
theorem removeItem_addToInventory_roundtrip_witness :
    removeItem "Fish"
        (addToInventory "Fish" 7 (⟨"Wood", 5⟩ :: ⟨"Wood", 5⟩ :: List.replicate 62 zeroSlot)) 7
      = ⟨"Wood", 5⟩ :: ⟨"Wood", 5⟩ :: List.replicate 62 zeroSlot :=
  removeItem_addToInventory_roundtrip "Fish" 7
    (⟨"Wood", 5⟩ :: ⟨"Wood", 5⟩ :: List.replicate 62 zeroSlot) (by decide) (by decide)

/-! ## `hasItem` after adding and after removing -/

theorem totalCount_le (item : String) (inv : Inventory) (h : CountsUpTo5 inv) :
    totalCount item inv ≤ 5 * inv.length := by
  induction inv with
  | nil => simp [totalCount]
  | cons s rest ih =>
    have hr := ih (fun t ht => h t (List.mem_cons_of_mem _ ht))
    have hs := h s (List.mem_cons_self _ _)
    simp only [totalCount, List.length_cons, Nat.cast_add, Nat.cast_one]
    split <;> omega

theorem addStep_countsUpTo5 (item : String) (s t : InventorySlot)
    (hs : 0 ≤ s.Count ∧ s.Count ≤ 5) (h : AddStep item s t) : 0 ≤ t.Count ∧ t.Count ≤ 5 := by
  obtain ⟨m, hsm, hmt⟩ := h
  have hm : 0 ≤ m.Count ∧ m.Count ≤ 5 := by
    rcases hsm with h | h
    · rw [h]; exact hs
    · omega
  rcases hmt with h | h
  · rw [h]; exact hm
  · omega

/-- C3, counterexample.  With 64 full stacks of Wood (32 trees cut) there is no room:
one added Fish is dropped and `hasItem("Fish", 1)` is false.  With `N = 0` `hasItem`
is false in an inventory without the item.  With the empty item name the second pass
overwrites the slot the first pass has just topped up: from `{"", 4}` adding 3 leaves
`{"", 2}` and `hasItem("", 3)` is false. -/
theorem hasItem_after_add_fails_without_room :
    addToInventory "Fish" 1 (List.replicate 64 ⟨"Wood", 5⟩) = List.replicate 64 ⟨"Wood", 5⟩ ∧
    hasItem "Fish" 1 (addToInventory "Fish" 1 (List.replicate 64 ⟨"Wood", 5⟩)) = false ∧
    hasItem "Wood" 0 (addToInventory "Wood" 0 initialInventory) = false ∧
    addToInventory "" 3 (⟨"", 4⟩ :: List.replicate 63 ⟨"Wood", 5⟩)
      = ⟨"", 2⟩ :: List.replicate 63 ⟨"Wood", 5⟩ ∧
    hasItem "" 3 (addToInventory "" 3 (⟨"", 4⟩ :: List.replicate 63 ⟨"Wood", 5⟩)) = false ∧
    ¬ (∀ (item : String) (inv : Inventory) (N : Int), inv.length = 64 → N ≤ 320 →
        hasItem item N (addToInventory item N inv) = true) := by
  refine ⟨by decide, by decide, by decide, by decide, by decide, ?_⟩
  intro h
  have h2 := h "Fish" (List.replicate 64 ⟨"Wood", 5⟩) 1 (by decide) (by decide)
  revert h2
  decide

/-- C3, amended.  For a non-empty item name, a 64-slot inventory with slot counts in
`0..5` and `1 ≤ N ≤ 320` with `N` at most the free room for the item,
`hasItem(item, N)` is true right after `addToInventory(item, N)`. -/
theorem hasItem_after_addToInventory (item : String) (hne : item ≠ "") (inv : Inventory)
    (N : Int) (hlen : inv.length = 64) (hcounts : CountsUpTo5 inv) (h1 : 1 ≤ N)
    (h320 : N ≤ 320) (hroom : N ≤ freeRoom item inv) :
    hasItem item N (addToInventory item N inv) = true := by
  have hstep := addToInventory_step item N inv (by omega) (by omega)
  have hcounts2 : CountsUpTo5 (addToInventory item N inv) :=
    forall₂_transfer hstep hcounts (fun s t hs hst => addStep_countsUpTo5 item s t hs hst)
  have hlen2 : (addToInventory item N inv).length = 64 := by
    rw [addToInventory_length item N inv (by omega) (by omega), hlen]
  have htot := addToInventory_totalCount item hne N inv (by omega) (by omega)
  have hle := totalCount_le item _ hcounts2
  have hnn : NonNegOf item inv := fun s hs _ => (hcounts s hs).1
  have ht0 := totalCount_nonneg item inv hnn
  rw [hlen2] at hle
  unfold hasItem
  rw [hasItemLoop_iff item N _ 0 (fun s hs _ => (hcounts2 s hs).1) (le_refl _) (by omega)
    (by omega), htot]
  omega

/-- C3, amended: an instance (4 Wood onto a stack of 3). -/
theorem hasItem_after_addToInventory_witness :
    hasItem "Wood" 4 (addToInventory "Wood" 4 (⟨"Wood", 3⟩ :: List.replicate 63 zeroSlot))
      = true :=
  hasItem_after_addToInventory "Wood" (by decide) (⟨"Wood", 3⟩ :: List.replicate 63 zeroSlot) 4
    (by decide) (by decide) (by decide) (by decide) (by decide)

theorem removeStep_nonneg (item : String) (s t : InventorySlot) (hs : 0 ≤ s.Count)
    (h : RemoveStep item s t) : 0 ≤ t.Count := by
  rcases h with h | ⟨_, _, h | h⟩
  · rw [h]; exact hs
  · rw [h]
  · omega

theorem totalCount_eq_zero (item : String) (inv : Inventory) (hnn : NonNegOf item inv)
    (h0 : totalCount item inv = 0) : ∀ s ∈ inv, s.Item = item → s.Count = 0 := by
  induction inv with
  | nil => intro s hs; simp at hs
  | cons slot rest ih =>
    have hr := totalCount_nonneg item rest (nonNegOf_tail hnn)
    have hslot := hnn slot (List.mem_cons_self _ _)
    simp only [totalCount] at h0
    intro s hs he
    rcases List.mem_cons.1 hs with rfl | hs
    · rw [if_pos he] at h0
      have := hslot he
      omega
    · refine ih (nonNegOf_tail hnn) ?_ s hs he
      split at h0
      · rename_i hh; have := hslot hh; omega
      · omega

/-- C4. For an inventory with non-negative slot counts, after `removeItem(item, c)`
with `c` at least the total held, `hasItem(item, n)` is false for every `n ≥ 1`. -/
theorem hasItem_false_after_removing_all (item : String) (inv : Inventory) (c n : Int)
    (hnn : NonNeg inv) (hc : totalCount item inv ≤ c) (hn : 1 ≤ n) :
    hasItem item n (removeItem item inv c) = false := by
  have hnn1 : NonNegOf item inv := fun s hs _ => hnn s hs
  have ht0 := totalCount_nonneg item inv hnn1
  have htot := removeItem_totalCount item inv c hnn1 (by omega)
  have hnn2 : NonNegOf item (removeItem item inv c) := fun t ht _ =>
    forall₂_transfer (removeItem_step item inv c) hnn
      (fun s t hs hst => removeStep_nonneg item s t hs hst) t ht
  have hzero : totalCount item (removeItem item inv c) = 0 := by rw [htot]; omega
  exact hasItemLoop_of_all_zero item n _ (totalCount_eq_zero item _ hnn2 hzero) hn

/-- C4: an instance (removing 9 Wood where 8 are held). -/
theorem hasItem_false_after_removing_all_witness :
    hasItem "Wood" 1
      (removeItem "Wood" (⟨"Wood", 5⟩ :: ⟨"Wood", 3⟩ :: List.replicate 62 zeroSlot) 9) = false :=
  hasItem_false_after_removing_all "Wood"
    (⟨"Wood", 5⟩ :: ⟨"Wood", 3⟩ :: List.replicate 62 zeroSlot) 9 1
    (by decide) (by decide) (by decide)

/-! ## How much `addToInventory` adds -/

/-- C5, counterexample.  With a stack `{Wood, 4}` and `count = 2^63 - 1` the sum
`slot.Count + add` wraps to a negative number, the cap test `> maxPerCell` fails, and
the whole count is added to the slot: the total of Wood becomes `-(2^63) + 3`, where
the claim gives `4 + min(count, free) = 320`. -/
theorem addToInventory_wraps_near_maxInt :
    addToInventory "Wood" 9223372036854775807 (⟨"Wood", 4⟩ :: List.replicate 63 zeroSlot)
      = ⟨"Wood", -9223372036854775805⟩ :: List.replicate 63 zeroSlot ∧
    totalCount "Wood" (⟨"Wood", 4⟩ :: List.replicate 63 zeroSlot)
      + min 9223372036854775807 (freeRoom "Wood" (⟨"Wood", 4⟩ :: List.replicate 63 zeroSlot))
      = 320 ∧
    ¬ (∀ (item : String) (count : Int) (inv : Inventory), item ≠ "" → 0 ≤ count →
        count ≤ maxInt → inv.length = 64 → CountsUpTo5 inv →
        totalCount item (addToInventory item count inv)
          = totalCount item inv + min count (freeRoom item inv)) := by
  refine ⟨by decide, by decide, ?_⟩
  intro h
  have h2 := h "Wood" 9223372036854775807 (⟨"Wood", 4⟩ :: List.replicate 63 zeroSlot)
    (by decide) (by decide) (by decide) (by decide) (by decide)
  revert h2
  decide

/-- C5, amended.  For a non-empty item name and `0 ≤ count ≤ 2^63 - 5` (so that
`slot.Count + count` cannot wrap), in every inventory `addToInventory(item, count)`
raises the total of `item` by exactly `min(count, free)`, keeps the number of slots,
and changes no slot that holds a different item with a positive count. -/
theorem addToInventory_adds_min_count_free (item : String) (hne : item ≠ "") (count : Int)
    (inv : Inventory) (h0 : 0 ≤ count) (h1 : count ≤ 9223372036854775803) :
    totalCount item (addToInventory item count inv)
      = totalCount item inv + min count (freeRoom item inv) ∧
    (addToInventory item count inv).length = inv.length ∧
    (∀ (i : Nat) (s : InventorySlot), inv[i]? = some s → s.Item ≠ "" → s.Item ≠ item →
      0 < s.Count →
      (addToInventory item count inv)[i]? = some s) := by
  refine ⟨addToInventory_totalCount item hne count inv h0 h1,
    addToInventory_length item count inv h0 h1, ?_⟩
  intro i s hs hname hother hpos
  obtain ⟨t, ht, hst⟩ := forall₂_getElem? (addToInventory_step item count inv h0 h1) i s hs
  rw [ht, addStep_foreign item s t hst hname hother hpos]

/-- C5, amended: an instance (400 Fish into an inventory holding one full stack of
Wood: 315 fit, 85 are dropped, the Wood is untouched). -/
theorem addToInventory_adds_min_count_free_witness :
    totalCount "Fish" (addToInventory "Fish" 400 (⟨"Wood", 5⟩ :: List.replicate 63 zeroSlot))
      = totalCount "Fish" (⟨"Wood", 5⟩ :: List.replicate 63 zeroSlot)
        + min 400 (freeRoom "Fish" (⟨"Wood", 5⟩ :: List.replicate 63 zeroSlot)) ∧
    (addToInventory "Fish" 400 (⟨"Wood", 5⟩ :: List.replicate 63 zeroSlot)).length
      = (⟨"Wood", 5⟩ :: List.replicate 63 zeroSlot).length ∧
    (∀ (i : Nat) (s : InventorySlot),
      (⟨"Wood", 5⟩ :: List.replicate 63 zeroSlot)[i]? = some s → s.Item ≠ "" →
      s.Item ≠ "Fish" → 0 < s.Count →
      (addToInventory "Fish" 400 (⟨"Wood", 5⟩ :: List.replicate 63 zeroSlot))[i]? = some s) :=
  addToInventory_adds_min_count_free "Fish" (by decide) 400
    (⟨"Wood", 5⟩ :: List.replicate 63 zeroSlot) (by decide) (by decide)

/-! ## What `hasItem` decides -/

/-- C6, counterexample.  Two stacks of `2^62` Wood are non-negative 64-bit counts whose
sum is `2^63`; the running total wraps to `-(2^63)` and `hasItem("Wood", 2^63 - 1)` is
false although the sum of the counts is at least `2^63 - 1`. -/
theorem hasItem_wraps_on_large_counts :
    NonNeg (⟨"Wood", 4611686018427387904⟩ :: ⟨"Wood", 4611686018427387904⟩
      :: List.replicate 62 zeroSlot) ∧
    IsInt64 (⟨"Wood", 4611686018427387904⟩ :: ⟨"Wood", 4611686018427387904⟩
      :: List.replicate 62 zeroSlot) ∧
    totalCount "Wood" (⟨"Wood", 4611686018427387904⟩ :: ⟨"Wood", 4611686018427387904⟩
      :: List.replicate 62 zeroSlot) = 9223372036854775808 ∧
    hasItem "Wood" 9223372036854775807 (⟨"Wood", 4611686018427387904⟩
      :: ⟨"Wood", 4611686018427387904⟩ :: List.replicate 62 zeroSlot) = false ∧
    ¬ (∀ (item : String) (count : Int) (inv : Inventory), inv.length = 64 → IsInt64 inv →
        NonNeg inv → 1 ≤ count → count ≤ maxInt →
        (hasItem item count inv = true ↔ count ≤ totalCount item inv)) := by
  refine ⟨by decide, by decide, by decide, by decide, ?_⟩
  intro h
  have h2 := h "Wood" 9223372036854775807 (⟨"Wood", 4611686018427387904⟩
    :: ⟨"Wood", 4611686018427387904⟩ :: List.replicate 62 zeroSlot)
    (by decide) (by decide) (by decide) (by decide) (by decide)
  revert h2
  decide

/-- C6, amended.  For an inventory with non-negative slot counts in which the counts
of the slots named `item` sum to at most `2^63 - 1`, and `count ≥ 1`,
`hasItem(item, count)` is true if and only if that sum is at least `count`. -/
theorem hasItem_iff_total_ge (item : String) (count : Int) (inv : Inventory)
    (hnn : NonNeg inv) (hfit : totalCount item inv ≤ 9223372036854775807)
    (hc : 1 ≤ count) :
    hasItem item count inv = true ↔ count ≤ totalCount item inv := by
  unfold hasItem
  rw [hasItemLoop_iff item count inv 0 (fun s hs _ => hnn s hs) (le_refl _) (by omega)
    (by omega)]
  omega

/-- C6, amended: an instance (8 Wood held in two stacks, 7 asked for). -/
theorem hasItem_iff_total_ge_witness :
    hasItem "Wood" 7 (⟨"Wood", 5⟩ :: ⟨"Fish", 2⟩ :: ⟨"Wood", 3⟩ :: List.replicate 61 zeroSlot)
        = true ↔
      7 ≤ totalCount "Wood"
        (⟨"Wood", 5⟩ :: ⟨"Fish", 2⟩ :: ⟨"Wood", 3⟩ :: List.replicate 61 zeroSlot) :=
  hasItem_iff_total_ge "Wood" 7
    (⟨"Wood", 5⟩ :: ⟨"Fish", 2⟩ :: ⟨"Wood", 3⟩ :: List.replicate 61 zeroSlot)
    (by decide) (by decide) (by decide)

/-! ## What `removeItem` takes -/

/-- C7. For an inventory with non-negative slot counts and `count ≥ 0`,
`removeItem(item, count)` lowers the total of `item` by exactly `min(count, total)`;
slot by slot it is row-major removal (`removedSlot`: each slot of `item` gives up what
is still owed after the slots before it); a slot it drains to zero becomes `{"", 0}`;
and no slot with a different name changes. -/
theorem removeItem_takes_row_major (item : String) (inv : Inventory) (count : Int)
    (hnn : NonNeg inv) (h0 : 0 ≤ count) :
    totalCount item (removeItem item inv count)
      = totalCount item inv - min count (totalCount item inv) ∧
    (removeItem item inv count).length = inv.length ∧
    (∀ (i : Nat) (s : InventorySlot), inv[i]? = some s →
      (removeItem item inv count)[i]?
        = some (removedSlot item count (totalCount item (inv.take i)) s)) ∧
    (∀ (i : Nat) (s t : InventorySlot), inv[i]? = some s →
      (removeItem item inv count)[i]? = some t → 0 < s.Count → t.Count = 0 → t = ⟨"", 0⟩) ∧
    (∀ (i : Nat) (s : InventorySlot), inv[i]? = some s → s.Item ≠ item →
      (removeItem item inv count)[i]? = some s) := by
  have hnn1 : NonNegOf item inv := fun s hs _ => hnn s hs
  have hstep := removeItem_step item inv count
  refine ⟨removeItem_totalCount item inv count hnn1 h0, hstep.length_eq.symm,
    fun i s hs => removeItem_getElem? item inv count hnn1 h0 i s hs, ?_, ?_⟩
  · intro i s t hs ht hpos hzero
    obtain ⟨u, hu, hsu⟩ := forall₂_getElem? hstep i s hs
    rw [hu] at ht
    cases ht
    rcases hsu with h | ⟨_, _, h | h⟩
    · rw [h] at hzero; omega
    · exact h
    · omega
  · intro i s hs hother
    obtain ⟨u, hu, hsu⟩ := forall₂_getElem? hstep i s hs
    rcases hsu with h | ⟨h, _⟩
    · rw [hu, h]
    · exact absurd h hother

/-- C7: an instance (4 Wood taken from stacks of 2, 5 and 3 with a Fish in between). -/
theorem removeItem_takes_row_major_witness :
    removeItem "Wood"
        (⟨"Wood", 2⟩ :: ⟨"Fish", 1⟩ :: ⟨"Wood", 5⟩ :: ⟨"Wood", 3⟩ :: List.replicate 60 zeroSlot) 4
      = ⟨"", 0⟩ :: ⟨"Fish", 1⟩ :: ⟨"Wood", 3⟩ :: ⟨"Wood", 3⟩ :: List.replicate 60 zeroSlot ∧
    totalCount "Wood" (removeItem "Wood"
        (⟨"Wood", 2⟩ :: ⟨"Fish", 1⟩ :: ⟨"Wood", 5⟩ :: ⟨"Wood", 3⟩ :: List.replicate 60 zeroSlot) 4)
      = totalCount "Wood"
          (⟨"Wood", 2⟩ :: ⟨"Fish", 1⟩ :: ⟨"Wood", 5⟩ :: ⟨"Wood", 3⟩ :: List.replicate 60 zeroSlot)
        - min 4 (totalCount "Wood"
          (⟨"Wood", 2⟩ :: ⟨"Fish", 1⟩ :: ⟨"Wood", 5⟩ :: ⟨"Wood", 3⟩ :: List.replicate 60 zeroSlot)) :=
  ⟨by decide,
    (removeItem_takes_row_major "Wood"
      (⟨"Wood", 2⟩ :: ⟨"Fish", 1⟩ :: ⟨"Wood", 5⟩ :: ⟨"Wood", 3⟩ :: List.replicate 60 zeroSlot) 4
      (by decide) (by decide)).1⟩

/-! ## The slot invariant -/

theorem removeStep_slotInv (item : String) (s t : InventorySlot) (hs : SlotInv s)
    (h : RemoveStep item s t) : SlotInv t := by
  rcases h with h | ⟨_, _, h | h⟩
  · rw [h]; exact hs
  · rw [h]; intro hne; exact absurd rfl hne
  · intro hne
    have := hs (h.1 ▸ hne)
    omega

theorem addToInventory_invOK (item : String) (count : Int) (inv : Inventory)
    (h0 : 0 ≤ count) (h1 : count ≤ 9223372036854775803) (hinv : InvOK inv) :
    InvOK (addToInventory item count inv) :=
  forall₂_transfer (addToInventory_step item count inv h0 h1) hinv
    (fun s t hs hst => addStep_slotInv item s t hs hst)

theorem removeItem_invOK (item : String) (count : Int) (inv : Inventory) (hinv : InvOK inv) :
    InvOK (removeItem item inv count) :=
  forall₂_transfer (removeItem_step item inv count) hinv
    (fun s t hs hst => removeStep_slotInv item s t hs hst)

/-- C8, counterexample.  The inventory after cutting one tree and taking one Wood,
`[{Wood,4}, {Wood,5}, empty ...]`, satisfies the slot invariant;
`addToInventory("Wood", 2^63 - 1)` wraps the count of the first slot to `-(2^63) + 3`,
which breaks it. -/
theorem slotInv_broken_by_wrapping_add :
    removeItem "Wood" (addToInventory "Wood" 10 initialInventory) 1
      = ⟨"Wood", 4⟩ :: ⟨"Wood", 5⟩ :: List.replicate 62 zeroSlot ∧
    InvOK (⟨"Wood", 4⟩ :: ⟨"Wood", 5⟩ :: List.replicate 62 zeroSlot) ∧
    addToInventory "Wood" 9223372036854775807
        (⟨"Wood", 4⟩ :: ⟨"Wood", 5⟩ :: List.replicate 62 zeroSlot)
      = ⟨"Wood", -9223372036854775805⟩ :: ⟨"Wood", 5⟩ :: List.replicate 62 zeroSlot ∧
    ¬ InvOK (addToInventory "Wood" 9223372036854775807
        (⟨"Wood", 4⟩ :: ⟨"Wood", 5⟩ :: List.replicate 62 zeroSlot)) := by
  refine ⟨by decide, by decide, by decide, by decide⟩

/-- C8, amended.  The slot invariant (a slot with a non-empty name has a count between
1 and 5) holds in the initial inventory, is preserved by `addToInventory` for every
item name and every count with `0 ≤ count ≤ 2^63 - 5`, is preserved by `removeItem`
for every item name and every count, and so holds in every inventory reachable by
such calls. -/
theorem slotInv_preserved :
    InvOK initialInventory ∧
    (∀ (item : String) (count : Int) (inv : Inventory), 0 ≤ count →
      count ≤ 9223372036854775803 → InvOK inv → InvOK (addToInventory item count inv)) ∧
    (∀ (item : String) (count : Int) (inv : Inventory), InvOK inv →
      InvOK (removeItem item inv count)) ∧
    (∀ inv : Inventory, Reachable inv → InvOK inv) := by
  have hinit : InvOK initialInventory := by decide
  refine ⟨hinit, addToInventory_invOK, removeItem_invOK, ?_⟩
  intro inv hr
  induction hr with
  | init => exact hinit
  | add item count inv _ h0 h1 ih => exact addToInventory_invOK item count inv h0 h1 ih
  | remove item count inv _ ih => exact removeItem_invOK item count inv ih

/-- C8, amended: an instance (cutting a tree, then taking one Wood). -/
theorem slotInv_preserved_witness :
    InvOK (addToInventory "Wood" 10 initialInventory) ∧
    InvOK (removeItem "Wood" (addToInventory "Wood" 10 initialInventory) 1) :=
  ⟨slotInv_preserved.2.1 "Wood" 10 initialInventory (by decide) (by decide)
      slotInv_preserved.1,
    slotInv_preserved.2.2.1 "Wood" 1 (addToInventory "Wood" 10 initialInventory)
      (slotInv_preserved.2.1 "Wood" 10 initialInventory (by decide) (by decide)
        slotInv_preserved.1)⟩

/-! ## Totals of the other items -/

theorem forall₂_totalCount {R : InventorySlot → InventorySlot → Prop} (other : String)
    {l l2 : Inventory} (h : List.Forall₂ R l l2)
    (hstep : ∀ s t, R s t →
      (if t.Item = other then t.Count else 0) = (if s.Item = other then s.Count else 0)) :
    totalCount other l2 = totalCount other l := by
  induction h with
  | nil => rfl
  | cons hab _ ih => simp only [totalCount, hstep _ _ hab, ih]

/-- Removing `item` does not change the total of another item. -/
theorem removeItem_totalCount_other (item other : String) (hne : other ≠ item)
    (inv : Inventory) (count : Int) :
    totalCount other (removeItem item inv count) = totalCount other inv := by
  refine forall₂_totalCount other (removeItem_step item inv count) ?_
  intro s t hst
  rcases hst with h | ⟨hs, _, h | h⟩
  · rw [h]
  · have hs2 : ¬ (s.Item = other) := fun e => hne (e.symm.trans hs)
    rw [h, if_neg hs2]
    split <;> rfl
  · rw [if_neg (fun e => hne (e.symm.trans (h.1.trans hs))),
      if_neg (fun e => hne (e.symm.trans hs))]

/-- Adding `item` does not change the total of another item with a non-empty name. -/
theorem addToInventory_totalCount_other (item other : String) (hne : other ≠ item)
    (hname : other ≠ "") (inv : Inventory) (count : Int) (h0 : 0 ≤ count)
    (h1 : count ≤ 9223372036854775803) :
    totalCount other (addToInventory item count inv) = totalCount other inv := by
  refine forall₂_totalCount other (addToInventory_step item count inv h0 h1) ?_
  intro s t hst
  obtain ⟨m, hsm, hmt⟩ := hst
  have e1 : (if m.Item = other then m.Count else 0)
      = (if s.Item = other then s.Count else 0) := by
    rcases hsm with h | h
    · rw [h]
    · rw [if_neg (fun e => hne (e.symm.trans h.2.1)), if_neg (fun e => hne (e.symm.trans h.1))]
  rw [← e1]
  rcases hmt with h | h
  · rw [h]
  · rw [if_neg (fun e => hne (e.symm.trans h.2.1))]
    rcases h.1 with he | he
    · rw [if_neg (fun e => hname (e.symm.trans he))]
    · rw [he]; split <;> rfl

theorem invOK_nonNegOf (item : String) (hname : item ≠ "") (inv : Inventory)
    (h : InvOK inv) : NonNegOf item inv := by
  intro s hs he
  have := h s hs (he ▸ hname)
  omega

theorem invOK_hasItem_one (item : String) (hname : item ≠ "") (inv : Inventory)
    (h : InvOK inv) : hasItem item 1 inv = true ↔ 1 ≤ totalCount item inv := by
  refine hasItem_one_iff item inv (invOK_nonNegOf item hname inv h) ?_
  intro s hs he
  have := h s hs (he ▸ hname)
  omega

/-! ## Cooking -/

/-- C9, counterexample.  After two Fish have been caught and 32 trees cut the
inventory is `{Fish,2}` followed by 63 full stacks of Wood, which satisfies the slot
invariant and holds Fish and Wood.  An accepted cook action takes one Fish and one
Wood, but no slot is empty and no Cooked Fish stack exists, so the Cooked Fish is
dropped: its total stays 0. -/
theorem cook_drops_the_fish_when_full :
    InvOK (⟨"Fish", 2⟩ :: List.replicate 63 ⟨"Wood", 5⟩) ∧
    1 ≤ totalCount "Fish" (⟨"Fish", 2⟩ :: List.replicate 63 ⟨"Wood", 5⟩) ∧
    1 ≤ totalCount "Wood" (⟨"Fish", 2⟩ :: List.replicate 63 ⟨"Wood", 5⟩) ∧
    cookAccepted ⟨⟨"Fish", 2⟩ :: List.replicate 63 ⟨"Wood", 5⟩, true, 0, 0, 1⟩
      ⟨false, true, false⟩ 1000000000 ∧
    Option.map Game.inventory
        (inventoryInteraction ⟨⟨"Fish", 2⟩ :: List.replicate 63 ⟨"Wood", 5⟩, true, 0, 0, 1⟩
          ⟨false, true, false⟩ 1000000000)
      = some (⟨"Fish", 1⟩ :: ⟨"Wood", 4⟩ :: List.replicate 62 ⟨"Wood", 5⟩) ∧
    totalCount "Cooked Fish" (⟨"Fish", 1⟩ :: ⟨"Wood", 4⟩ :: List.replicate 62 ⟨"Wood", 5⟩)
      = totalCount "Cooked Fish" (⟨"Fish", 2⟩ :: List.replicate 63 ⟨"Wood", 5⟩) := by
  refine ⟨by decide, by decide, by decide, by decide, by decide, by decide⟩

/-- C9, amended.  For an inventory satisfying the slot invariant, an accepted cook
action (inventory open, C pressed more than 200 ms after the last inventory action,
close branch not taken) with at least 1 Fish and 1 Wood held lowers the total Fish by
1 and the total Wood by 1, and raises the total Cooked Fish by `min(1, free)`, where
`free` is the room for Cooked Fish after the two removals: by 1 when a slot is then
empty or holds fewer than 5 Cooked Fish, by 0 otherwise.  When Fish or Wood is
missing the inventory is unchanged. -/
theorem cook_effect (g : Game) (keys : Keys) (now : Int) (hinv : InvOK g.inventory)
    (hacc : cookAccepted g keys now) :
    ∃ g2 : Game, inventoryInteraction g keys now = some g2 ∧
      (1 ≤ totalCount "Fish" g.inventory → 1 ≤ totalCount "Wood" g.inventory →
        totalCount "Fish" g2.inventory = totalCount "Fish" g.inventory - 1 ∧
        totalCount "Wood" g2.inventory = totalCount "Wood" g.inventory - 1 ∧
        totalCount "Cooked Fish" g2.inventory
          = totalCount "Cooked Fish" g.inventory
            + min 1 (freeRoom "Cooked Fish"
                (removeItem "Wood" (removeItem "Fish" g.inventory 1) 1))) ∧
      (totalCount "Fish" g.inventory < 1 ∨ totalCount "Wood" g.inventory < 1 →
        g2.inventory = g.inventory) := by
  obtain ⟨ho, hs, hc, ht⟩ := hacc
  have hres : inventoryInteraction g keys now = some (cook g now) := by
    unfold inventoryInteraction
    rw [if_pos ho, if_neg (by rw [hs]; simp), if_pos ⟨hc, ht⟩]
  have hF := invOK_hasItem_one "Fish" (by decide) g.inventory hinv
  have hW := invOK_hasItem_one "Wood" (by decide) g.inventory hinv
  refine ⟨cook g now, hres, ?_, ?_⟩
  · intro h1 h2
    have hcook : (cook g now).inventory
        = addToInventory "Cooked Fish" 1
            (removeItem "Wood" (removeItem "Fish" g.inventory 1) 1) := by
      unfold cook
      simp only
      rw [if_pos ⟨hF.2 h1, hW.2 h2⟩]
    have hinv1 : InvOK (removeItem "Fish" g.inventory 1) := removeItem_invOK "Fish" 1 _ hinv
    have hfish1 := removeItem_totalCount "Fish" g.inventory 1
      (invOK_nonNegOf "Fish" (by decide) _ hinv) (by decide)
    have hwood1 := removeItem_totalCount "Wood" (removeItem "Fish" g.inventory 1) 1
      (invOK_nonNegOf "Wood" (by decide) _ hinv1) (by decide)
    rw [hcook]
    refine ⟨?_, ?_, ?_⟩
    · rw [addToInventory_totalCount_other "Cooked Fish" "Fish" (by decide) (by decide) _ 1
        (by decide) (by decide),
        removeItem_totalCount_other "Wood" "Fish" (by decide), hfish1]
      omega
    · rw [addToInventory_totalCount_other "Cooked Fish" "Wood" (by decide) (by decide) _ 1
        (by decide) (by decide), hwood1,
        removeItem_totalCount_other "Fish" "Wood" (by decide)]
      omega
    · rw [addToInventory_totalCount "Cooked Fish" (by decide) 1 _ (by decide) (by decide),
        removeItem_totalCount_other "Wood" "Cooked Fish" (by decide),
        removeItem_totalCount_other "Fish" "Cooked Fish" (by decide)]
  · intro h
    have hno : ¬ (hasItem "Fish" 1 g.inventory = true ∧ hasItem "Wood" 1 g.inventory = true) := by
      intro hb
      have := hF.1 hb.1
      have := hW.1 hb.2
      omega
    unfold cook
    simp only
    rw [if_neg hno]

/-- C9, amended: an instance (one Fish and a stack of Wood, room to spare). -/
theorem cook_effect_witness :
    ∃ g2 : Game,
      inventoryInteraction ⟨⟨"Fish", 1⟩ :: ⟨"Wood", 5⟩ :: List.replicate 62 zeroSlot, true, 0, 0, 1⟩
        ⟨false, true, false⟩ 1000000000 = some g2 ∧
      (1 ≤ totalCount "Fish" (⟨"Fish", 1⟩ :: ⟨"Wood", 5⟩ :: List.replicate 62 zeroSlot) →
        1 ≤ totalCount "Wood" (⟨"Fish", 1⟩ :: ⟨"Wood", 5⟩ :: List.replicate 62 zeroSlot) →
        totalCount "Fish" g2.inventory
          = totalCount "Fish" (⟨"Fish", 1⟩ :: ⟨"Wood", 5⟩ :: List.replicate 62 zeroSlot) - 1 ∧
        totalCount "Wood" g2.inventory
          = totalCount "Wood" (⟨"Fish", 1⟩ :: ⟨"Wood", 5⟩ :: List.replicate 62 zeroSlot) - 1 ∧
        totalCount "Cooked Fish" g2.inventory
          = totalCount "Cooked Fish" (⟨"Fish", 1⟩ :: ⟨"Wood", 5⟩ :: List.replicate 62 zeroSlot)
            + min 1 (freeRoom "Cooked Fish"
                (removeItem "Wood" (removeItem "Fish"
                  (⟨"Fish", 1⟩ :: ⟨"Wood", 5⟩ :: List.replicate 62 zeroSlot) 1) 1))) ∧
      (totalCount "Fish" (⟨"Fish", 1⟩ :: ⟨"Wood", 5⟩ :: List.replicate 62 zeroSlot) < 1 ∨
        totalCount "Wood" (⟨"Fish", 1⟩ :: ⟨"Wood", 5⟩ :: List.replicate 62 zeroSlot) < 1 →
        g2.inventory = ⟨"Fish", 1⟩ :: ⟨"Wood", 5⟩ :: List.replicate 62 zeroSlot) :=
  cook_effect ⟨⟨"Fish", 1⟩ :: ⟨"Wood", 5⟩ :: List.replicate 62 zeroSlot, true, 0, 0, 1⟩
    ⟨false, true, false⟩ 1000000000 (by decide) (by decide)

/-! ## Eating -/

/-- C10, counterexample.  Slot counts are Go `int`s and a state may hold negative
ones.  With the slots `{Cooked Fish, 5}, {Cooked Fish, -10}` the total held is `-5`
(no Cooked Fish held), yet `hasItem` stops at the first slot with a running total of 5:
the accepted eat action takes one from the first slot and raises hunger from 1/2 to
3/5.  With the slots `{Cooked Fish, -2^63}, {Cooked Fish, -1}` the running total wraps
to `2^63 - 1`, `hasItem` is true, hunger is raised, and `removeItem` finds no slot with
a positive count: nothing is taken. -/
theorem eat_without_cooked_fish_held :
    totalCount "Cooked Fish"
      (⟨"Cooked Fish", 5⟩ :: ⟨"Cooked Fish", -10⟩ :: List.replicate 62 zeroSlot) = -5 ∧
    eatAccepted
      ⟨⟨"Cooked Fish", 5⟩ :: ⟨"Cooked Fish", -10⟩ :: List.replicate 62 zeroSlot, true, 0, 0, 1 / 2⟩
      ⟨false, false, true⟩ 1000000000 ∧
    Option.map Game.inventory (inventoryInteraction
      ⟨⟨"Cooked Fish", 5⟩ :: ⟨"Cooked Fish", -10⟩ :: List.replicate 62 zeroSlot, true, 0, 0, 1 / 2⟩
      ⟨false, false, true⟩ 1000000000)
      = some (⟨"Cooked Fish", 4⟩ :: ⟨"Cooked Fish", -10⟩ :: List.replicate 62 zeroSlot) ∧
    Option.map Game.hunger (inventoryInteraction
      ⟨⟨"Cooked Fish", 5⟩ :: ⟨"Cooked Fish", -10⟩ :: List.replicate 62 zeroSlot, true, 0, 0, 1 / 2⟩
      ⟨false, false, true⟩ 1000000000) = some (3 / 5) ∧
    IsInt64 (⟨"Cooked Fish", -9223372036854775808⟩ :: ⟨"Cooked Fish", -1⟩
      :: List.replicate 62 zeroSlot) ∧
    hasItem "Cooked Fish" 1 (⟨"Cooked Fish", -9223372036854775808⟩ :: ⟨"Cooked Fish", -1⟩
      :: List.replicate 62 zeroSlot) = true ∧
    Option.map Game.inventory (inventoryInteraction
      ⟨⟨"Cooked Fish", -9223372036854775808⟩ :: ⟨"Cooked Fish", -1⟩
        :: List.replicate 62 zeroSlot, true, 0, 0, 1 / 2⟩
      ⟨false, false, true⟩ 1000000000)
      = some (⟨"Cooked Fish", -9223372036854775808⟩ :: ⟨"Cooked Fish", -1⟩
        :: List.replicate 62 zeroSlot) ∧
    Option.map Game.hunger (inventoryInteraction
      ⟨⟨"Cooked Fish", -9223372036854775808⟩ :: ⟨"Cooked Fish", -1⟩
        :: List.replicate 62 zeroSlot, true, 0, 0, 1 / 2⟩
      ⟨false, false, true⟩ 1000000000) = some (3 / 5) := by
  have hA : hasItem "Cooked Fish" 1
      (⟨"Cooked Fish", 5⟩ :: ⟨"Cooked Fish", -10⟩ :: List.replicate 62 zeroSlot) = true := by
    decide
  have hB : hasItem "Cooked Fish" 1 (⟨"Cooked Fish", -9223372036854775808⟩
      :: ⟨"Cooked Fish", -1⟩ :: List.replicate 62 zeroSlot) = true := by
    decide
  refine ⟨by decide, by decide, by decide, ?_, by decide, hB, by decide, ?_⟩
  · simp only [inventoryInteraction, eat, hA, inventoryInputDelay]
    norm_num
  · simp only [inventoryInteraction, eat, hB, inventoryInputDelay]
    norm_num

/-- C10, amended.  For a state with the inventory open whose slot counts are
non-negative (64-bit) integers, an accepted eat action (E pressed more than 200 ms
after the last inventory action, close and cook branches not taken) with at least 1
Cooked Fish held lowers the total Cooked Fish by exactly 1 and sets hunger to
`min(hunger + 0.10, 1.0)`; with no Cooked Fish held, hunger and inventory are
unchanged. -/
theorem eat_effect (g : Game) (keys : Keys) (now : Int) (hnn : NonNeg g.inventory)
    (h64 : IsInt64 g.inventory) (hacc : eatAccepted g keys now) :
    ∃ g2 : Game, inventoryInteraction g keys now = some g2 ∧
      (1 ≤ totalCount "Cooked Fish" g.inventory →
        totalCount "Cooked Fish" g2.inventory = totalCount "Cooked Fish" g.inventory - 1 ∧
        g2.hunger = min (g.hunger + 1 / 10) 1) ∧
      (totalCount "Cooked Fish" g.inventory < 1 →
        g2.inventory = g.inventory ∧ g2.hunger = g.hunger) := by
  obtain ⟨ho, hs, hc, he, ht⟩ := hacc
  have hres : inventoryInteraction g keys now = some (eat g now) := by
    unfold inventoryInteraction
    rw [if_pos ho, if_neg (by rw [hs]; simp), if_neg (by rw [hc]; simp), if_pos ⟨he, ht⟩]
  have hnn1 : NonNegOf "Cooked Fish" g.inventory := fun s hs _ => hnn s hs
  have hhas := hasItem_one_iff "Cooked Fish" g.inventory hnn1 (fun s hs _ => (h64 s hs).2)
  refine ⟨eat g now, hres, ?_, ?_⟩
  · intro h1
    have htot := removeItem_totalCount "Cooked Fish" g.inventory 1 hnn1 (by decide)
    unfold eat
    simp only
    rw [if_pos (hhas.2 h1)]
    refine ⟨by simp only; rw [htot]; omega, ?_⟩
    simp only
    by_cases hgt : g.hunger + 1 / 10 > 1
    · rw [if_pos hgt, min_eq_right (le_of_lt hgt)]
    · rw [if_neg hgt, min_eq_left (not_lt.1 hgt)]
  · intro h0
    have hno : ¬ (hasItem "Cooked Fish" 1 g.inventory = true) := fun hb => by
      have := hhas.1 hb
      omega
    unfold eat
    simp only
    rw [if_neg hno]
    exact ⟨rfl, rfl⟩

/-- C10, amended: an instance (two Cooked Fish held, hunger at 95%). -/
theorem eat_effect_witness :
    ∃ g2 : Game,
      inventoryInteraction
        ⟨⟨"Cooked Fish", 2⟩ :: List.replicate 63 zeroSlot, true, 0, 0, 19 / 20⟩
        ⟨false, false, true⟩ 1000000000 = some g2 ∧
      (1 ≤ totalCount "Cooked Fish" (⟨"Cooked Fish", 2⟩ :: List.replicate 63 zeroSlot) →
        totalCount "Cooked Fish" g2.inventory
          = totalCount "Cooked Fish" (⟨"Cooked Fish", 2⟩ :: List.replicate 63 zeroSlot) - 1 ∧
        g2.hunger = min (19 / 20 + 1 / 10) 1) ∧
      (totalCount "Cooked Fish" (⟨"Cooked Fish", 2⟩ :: List.replicate 63 zeroSlot) < 1 →
        g2.inventory = ⟨"Cooked Fish", 2⟩ :: List.replicate 63 zeroSlot ∧
        g2.hunger = 19 / 20) :=
  eat_effect ⟨⟨"Cooked Fish", 2⟩ :: List.replicate 63 zeroSlot, true, 0, 0, 19 / 20⟩
    ⟨false, false, true⟩ 1000000000 (by decide) (by decide) (by decide)

/-! ## The clock -/

theorem timeSub_range (now t : Int) :
    -9223372036854775808 ≤ timeSub now t ∧ timeSub now t ≤ 9223372036854775807 := by
  unfold timeSub minInt maxInt
  omega

theorem tdiv_of_nonpos (a b : Int) (ha : a ≤ 0) (hb : 0 ≤ b) : Int.tdiv a b ≤ 0 := by
  have h1 : a = -(-a) := by omega
  rw [h1, Int.neg_tdiv]
  have := Int.tdiv_nonneg (a := -a) (b := b) (by omega) hb
  omega

/-- The minutes counted from a `time.Duration` are at most 55340232221, and when
positive they are `elapsed * 6 / 10^9`. -/
theorem gameMinAdvance_spec (e : Int) (h1 : -9223372036854775808 ≤ e)
    (h2 : e ≤ 9223372036854775807) :
    gameMinAdvance e ≤ 55340232221 ∧
    (0 < gameMinAdvance e → 0 ≤ e ∧ gameMinAdvance e = e * 6 / 1000000000) := by
  unfold gameMinAdvance
  by_cases he : 0 ≤ e
  · rw [Int.tdiv_eq_ediv (by omega) (by omega)]
    exact ⟨by omega, fun _ => ⟨he, rfl⟩⟩
  · have := tdiv_of_nonpos (e * 6) 1000000000 (by omega) (by omega)
    exact ⟨by omega, fun h => by omega⟩

theorem minutesAdvanced_le (now : Int) (g : GameState) : minutesAdvanced now g ≤ 55340232221 := by
  unfold minutesAdvanced
  exact (gameMinAdvance_spec _ (timeSub_range _ _).1 (timeSub_range _ _).2).1

theorem clockTick_eq (now : Int) (g : GameState) :
    clockTick now g
      = if minutesAdvanced now g > 0 then
          { g with
            gameMinutes := remInt (addInt g.gameMinutes (minutesAdvanced now g)) (24 * 60)
            lastTick := (if g.lastTick = zeroTime then now else g.lastTick)
              + Int.tdiv (minutesAdvanced now g * 1000000000) 6 }
        else { g with lastTick := if g.lastTick = zeroTime then now else g.lastTick } := rfl

/-- The minute counter after the clock part of `Update`. -/
theorem clockTick_gameMinutes (now : Int) (g : GameState) (h0 : 0 ≤ g.gameMinutes)
    (h1 : g.gameMinutes < 1440) :
    (clockTick now g).gameMinutes
      = if 0 < minutesAdvanced now g then (g.gameMinutes + minutesAdvanced now g) % 1440
        else g.gameMinutes := by
  have hle := minutesAdvanced_le now g
  rw [clockTick_eq]
  by_cases hpos : minutesAdvanced now g > 0
  · rw [if_pos hpos, if_pos hpos]
    simp only [remInt, addInt]
    rw [wrapInt_of_range _ (by omega) (by omega), Int.tmod_eq_emod (by omega) (by omega)]
    rfl
  · rw [if_neg hpos, if_neg hpos]

theorem clockTick_bars (now : Int) (g : GameState) :
    (clockTick now g).health = g.health ∧ (clockTick now g).social = g.social ∧
      (clockTick now g).hunger = g.hunger ∧ (clockTick now g).lastDrain = g.lastDrain ∧
      (clockTick now g).chatting = g.chatting := by
  rw [clockTick_eq]
  split <;> exact ⟨rfl, rfl, rfl, rfl, rfl⟩

/-! ## The drain loop -/

theorem drainPerMinute_pos : 0 < drainPerMinute := by
  unfold drainPerMinute; norm_num

theorem clamp_sub_bars (x : ℚ) (h : 0 ≤ x ∧ x ≤ 1) :
    0 ≤ (if x - drainPerMinute < 0 then 0 else x - drainPerMinute) ∧
      (if x - drainPerMinute < 0 then 0 else x - drainPerMinute) ≤ 1 := by
  have hd := drainPerMinute_pos
  split
  · exact ⟨le_refl _, by norm_num⟩
  · rename_i hlt
    exact ⟨not_lt.1 hlt, by linarith [h.2]⟩

theorem drainBody_bars (b : ℚ × ℚ × Int) :
    (0 ≤ b.1 ∧ b.1 ≤ 1 → 0 ≤ (drainBody b).1 ∧ (drainBody b).1 ≤ 1) ∧
    (0 ≤ b.2.1 ∧ b.2.1 ≤ 1 → 0 ≤ (drainBody b).2.1 ∧ (drainBody b).2.1 ≤ 1) :=
  ⟨fun h => clamp_sub_bars b.1 h, fun h => clamp_sub_bars b.2.1 h⟩

theorem drainLoop_bars (gm : Int) (fuel : Nat) (b c : ℚ × ℚ × Int)
    (h : drainLoop gm fuel b = some c) :
    (0 ≤ b.1 ∧ b.1 ≤ 1 → 0 ≤ c.1 ∧ c.1 ≤ 1) ∧
    (0 ≤ b.2.1 ∧ b.2.1 ≤ 1 → 0 ≤ c.2.1 ∧ c.2.1 ≤ 1) ∧ c.2.2 = gm := by
  induction fuel generalizing b with
  | zero =>
    simp only [drainLoop] at h
    split at h
    · rename_i he
      cases h
      exact ⟨id, id, he⟩
    · cases h
  | succ n ih =>
    simp only [drainLoop] at h
    split at h
    · rename_i he
      cases h
      exact ⟨id, id, he⟩
    · obtain ⟨i1, i2, i3⟩ := ih (drainBody b) h
      exact ⟨fun hb => i1 ((drainBody_bars b).1 hb), fun hb => i2 ((drainBody_bars b).2 hb), i3⟩

/-- With the minute counter and `lastDrain` in `0..1439` the drain loop ends within
1439 passes. -/
theorem drainLoop_returns (gm : Int) (h0 : 0 ≤ gm) (h1 : gm < 1440) (fuel : Nat)
    (b : ℚ × ℚ × Int) (hl0 : 0 ≤ b.2.2) (hl1 : b.2.2 < 1440)
    (hfuel : (gm - b.2.2) % 1440 ≤ fuel) : ∃ c, drainLoop gm fuel b = some c := by
  induction fuel generalizing b with
  | zero =>
    have he : b.2.2 = gm := by omega
    exact ⟨b, by simp only [drainLoop]; rw [if_pos he]⟩
  | succ n ih =>
    by_cases he : b.2.2 = gm
    · exact ⟨b, by simp only [drainLoop]; rw [if_pos he]⟩
    · simp only [drainLoop]
      rw [if_neg he]
      have hnext : (drainBody b).2.2 = (b.2.2 + 1) % 1440 := by
        simp only [drainBody, remInt, addInt]
        rw [wrapInt_of_range _ (by omega) (by omega), Int.tmod_eq_emod (by omega) (by omega)]
        rfl
      exact ih (drainBody b) (by rw [hnext]; omega) (by rw [hnext]; omega)
        (by rw [hnext]; omega)

theorem drain_eq (fuel : Nat) (g g2 : GameState) (h : drain fuel g = .ok g2) :
    ∃ b, drainLoop g.gameMinutes fuel
          (g.hunger, g.social, if g.lastDrain = 0 then g.gameMinutes else g.lastDrain) = some b ∧
      g2 = { g with hunger := b.1, social := b.2.1, lastDrain := b.2.2 } := by
  unfold drain at h
  simp only at h
  split at h
  · cases h
  · rename_i b hb
    cases h
    exact ⟨b, hb, rfl⟩

theorem tame_refl (g : GameState) : Tame g g := ⟨rfl, rfl, id, id⟩

theorem tame_trans {g1 g2 g3 : GameState} (h12 : Tame g1 g2) (h23 : Tame g2 g3) : Tame g1 g3 :=
  ⟨h23.1.trans h12.1, h23.2.1.trans h12.2.1, fun h => h23.2.2.1 (h12.2.2.1 h),
    fun h => h23.2.2.2 (h12.2.2.2 h)⟩

theorem drain_tame (fuel : Nat) (g g2 : GameState) (h : drain fuel g = .ok g2) :
    Tame g g2 ∧ g2.chatting = g.chatting := by
  obtain ⟨b, hb, rfl⟩ := drain_eq fuel g g2 h
  obtain ⟨i1, i2, _⟩ := drainLoop_bars _ _ _ _ hb
  exact ⟨⟨rfl, rfl, i2, i1⟩, rfl⟩

/-- The drain part returns when the minute counter and `lastDrain` lie in `0..1439`
and the fuel is at least 1440. -/
theorem drain_returns (fuel : Nat) (g : GameState) (hm : MinutesOK g)
    (hl : 0 ≤ g.lastDrain ∧ g.lastDrain < 1440) (hfuel : 1440 ≤ fuel) :
    ∃ g2, drain fuel g = .ok g2 := by
  obtain ⟨h0, h1⟩ := hm
  have hret : ∃ c, drainLoop g.gameMinutes fuel
      (g.hunger, g.social, if g.lastDrain = 0 then g.gameMinutes else g.lastDrain) = some c := by
    refine drainLoop_returns g.gameMinutes h0 h1 fuel _ ?_ ?_ ?_
    · simp only; split <;> omega
    · simp only; split <;> omega
    · simp only; omega
  obtain ⟨c, hc⟩ := hret
  refine ⟨{ g with hunger := c.1, social := c.2.1, lastDrain := c.2.2 }, ?_⟩
  unfold drain
  simp only [hc]

/-! ## Clock and bars through the parts of `Update` -/

theorem chatRepair_tame (nid : Nat) (node : ConversationNode) (g : GameState) :
    Tame g (chatRepair nid node g) := by
  unfold chatRepair
  split <;> exact ⟨rfl, rfl, id, id⟩

theorem chatUp_tame (inp : Input) (n : Int) (g : GameState) : Tame g (chatUp inp n g) := by
  unfold chatUp
  split <;> exact ⟨rfl, rfl, id, id⟩

theorem chatDown_tame (inp : Input) (n : Int) (g : GameState) : Tame g (chatDown inp n g) := by
  unfold chatDown
  split <;> exact ⟨rfl, rfl, id, id⟩

theorem treeEffect_tame (t : String) (c : ConversationChoice) (g g2 : GameState)
    (h : treeEffect t c g = .ok g2) : Tame g g2 := by
  unfold treeEffect at h
  split at h
  · cases h; exact tame_refl g
  · split at h
    · split at h
      · cases h
      · split at h
        · cases h
        · cases h; exact ⟨rfl, rfl, id, id⟩
    · cases h; exact tame_refl g

theorem fishEffect_tame (t : String) (c : ConversationChoice) (g : GameState) :
    Tame g (fishEffect t c g) := by
  unfold fishEffect
  split <;> exact ⟨rfl, rfl, id, id⟩

theorem chatAdvance_tame (now : Int) (c : ConversationChoice) (g : GameState) :
    Tame g (chatAdvance now c g) := by
  unfold chatAdvance
  split
  · refine ⟨rfl, rfl, ?_, id⟩
    intro hs
    simp only
    split
    · exact ⟨by norm_num, le_refl _⟩
    · rename_i hgt
      exact ⟨by linarith [hs.1], not_lt.1 hgt⟩
  · exact ⟨rfl, rfl, id, id⟩

theorem chatConfirm_tame (inp : Input) (t : String) (cs : List ConversationChoice)
    (g g2 : GameState) (h : chatConfirm inp t cs g = .ok g2) : Tame g g2 := by
  unfold chatConfirm at h
  split at h
  · split at h
    · cases h
    · rename_i choice _
      split at h
      · cases h
      · rename_i g1 hg1
        cases h
        have h1 := treeEffect_tame t choice g g1 hg1
        have h2 := fishEffect_tame t choice g1
        have h3 := chatAdvance_tame inp.chatNow choice (fishEffect t choice g1)
        have h4 := tame_trans h1 (tame_trans h2 h3)
        exact ⟨h4.1, h4.2.1, h4.2.2.1, h4.2.2.2⟩
  · cases h; exact tame_refl g

theorem chatStep_tame (inp : Input) (g g2 : GameState) (h : chatStep inp g = .ok g2) :
    Tame g g2 := by
  unfold chatStep at h
  split at h
  · cases h
  · rename_i nid _
    split at h
    · cases h
    · rename_i node _
      simp only at h
      split at h
      · exact tame_trans (chatRepair_tame nid node g)
          (tame_trans (chatUp_tame inp _ _)
            (tame_trans (chatDown_tame inp _ _) (chatConfirm_tame inp _ _ _ _ h)))
      · cases h; exact chatRepair_tame nid node g

theorem eat_hunger (gm : Game) (now : Int) (h : 0 ≤ gm.hunger ∧ gm.hunger ≤ 1) :
    0 ≤ (eat gm now).hunger ∧ (eat gm now).hunger ≤ 1 := by
  unfold eat
  simp only
  split
  · simp only
    split
    · exact ⟨by norm_num, le_refl _⟩
    · rename_i hgt
      exact ⟨by linarith [h.1], not_lt.1 hgt⟩
  · exact h

theorem cook_hunger (gm : Game) (now : Int) : (cook gm now).hunger = gm.hunger := by
  unfold cook
  simp only
  split <;> rfl

theorem inventoryInteraction_hunger (gm gm2 : Game) (keys : Keys) (now : Int)
    (h : inventoryInteraction gm keys now = some gm2) (hb : 0 ≤ gm.hunger ∧ gm.hunger ≤ 1) :
    0 ≤ gm2.hunger ∧ gm2.hunger ≤ 1 := by
  unfold inventoryInteraction at h
  split at h
  · split at h
    · cases h; exact hb
    · split at h
      · cases h; rw [cook_hunger]; exact hb
      · split at h
        · cases h; exact eat_hunger gm now hb
        · cases h; exact hb
  · cases h

theorem animatePlayer_tame (g : GameState) : Tame g (animatePlayer g) := by
  unfold animatePlayer
  split
  · simp only
    split <;> exact ⟨rfl, rfl, id, id⟩
  · exact ⟨rfl, rfl, id, id⟩

theorem moveStep_tame (inp : Input) (g g2 : GameState) (h : moveStep inp g = .ok g2) :
    Tame g g2 := by
  unfold moveStep at h
  simp only at h
  split at h
  · cases h
  · cases h
    refine tame_trans ?_ (animatePlayer_tame _)
    split <;> exact ⟨rfl, rfl, id, id⟩

theorem startChat_tame (inp : Input) (g : GameState) (i : Nat) (npc : NPC) :
    Tame g (startChat inp g i npc) := by
  unfold startChat
  simp only
  split <;> exact ⟨rfl, rfl, id, id⟩

theorem interactStep_tame (inp : Input) (g g2 : GameState) (h : interactStep inp g = .ok g2) :
    Tame g g2 := by
  unfold interactStep at h
  split at h
  · split at h
    · cases h; exact tame_refl g
    · split at h
      · cases h; exact startChat_tame inp g _ _
      · simp only at h
        split at h
        · cases h
        · cases h; exact ⟨rfl, rfl, id, id⟩
        · split at h
          · cases h
          · cases h; exact ⟨rfl, rfl, id, id⟩
          · cases h; exact tame_refl g
  · cases h; exact tame_refl g

theorem exploreStep_tame (inp : Input) (g g2 : GameState) (h : exploreStep inp g = .ok g2) :
    Tame g g2 := by
  unfold exploreStep at h
  split at h
  · cases h
  · cases h; exact ⟨rfl, rfl, id, id⟩
  · split at h
    · rename_i game hgame
      cases h
      exact ⟨rfl, rfl, id, fun hb => inventoryInteraction_hunger _ _ _ _ hgame hb⟩
    · split at h
      · cases h
      · rename_i g1 hg1
        exact tame_trans (moveStep_tame inp g g1 hg1) (interactStep_tame inp g1 g2 h)

/-! ## `Update` as a whole -/

/-- The shape of an `Update` step that returns: either the game is over, or the NPC
loop, the clock and the drain run and then the chat block or the exploring part. -/
theorem Update_cases (fuel : Nat) (inp : Input) (g g2 : GameState)
    (h : Update fuel inp g = .ok g2) :
    (g.gameOver = true ∧ (g2 = restart g ∨ g2 = g)) ∨
    (g.gameOver = false ∧ ∃ npcs g1,
      npcPhase inp (cacheTreesLayer g) = .ok npcs ∧
      drain fuel (clockTick inp.tickNow { cacheTreesLayer g with npcs := npcs }) = .ok g1 ∧
      ((g1.chatting = true ∧ chatStep inp g1 = .ok g2) ∨
        (g1.chatting = false ∧ exploreStep inp g1 = .ok g2))) := by
  unfold Update at h
  split at h
  · rename_i hgo
    left
    refine ⟨hgo, ?_⟩
    split at h
    · cases h; exact Or.inl rfl
    · cases h; exact Or.inr rfl
  · rename_i hgo
    right
    refine ⟨by simpa using hgo, ?_⟩
    simp only at h
    split at h
    · cases h
    · rename_i npcs hnpcs
      split at h
      · cases h
      · rename_i g1 hg1
        refine ⟨npcs, g1, hnpcs, hg1, ?_⟩
        split at h
        · rename_i hc
          exact Or.inl ⟨hc, h⟩
        · rename_i hc
          exact Or.inr ⟨by simpa using hc, h⟩

theorem cacheTreesLayer_fields (g : GameState) (npcs : List NPC) :
    ({ cacheTreesLayer g with npcs := npcs } : GameState).gameMinutes = g.gameMinutes ∧
    ({ cacheTreesLayer g with npcs := npcs } : GameState).lastTick = g.lastTick ∧
    ({ cacheTreesLayer g with npcs := npcs } : GameState).health = g.health ∧
    ({ cacheTreesLayer g with npcs := npcs } : GameState).social = g.social ∧
    ({ cacheTreesLayer g with npcs := npcs } : GameState).hunger = g.hunger ∧
    ({ cacheTreesLayer g with npcs := npcs } : GameState).lastDrain = g.lastDrain := by
  unfold cacheTreesLayer
  split <;> exact ⟨rfl, rfl, rfl, rfl, rfl, rfl⟩

theorem minutesAdvanced_congr (now : Int) (g g2 : GameState) (h : g2.lastTick = g.lastTick) :
    minutesAdvanced now g2 = minutesAdvanced now g := by
  unfold minutesAdvanced
  rw [h]

theorem clockTick_gameMinutes_congr (now : Int) (g g2 : GameState)
    (h1 : g2.gameMinutes = g.gameMinutes) (h2 : g2.lastTick = g.lastTick) :
    (clockTick now g2).gameMinutes = (clockTick now g).gameMinutes := by
  rw [clockTick_eq, clockTick_eq, minutesAdvanced_congr now g g2 h2]
  split
  · simp only [h1]
  · exact h1

theorem clockTick_minutesOK (now : Int) (g : GameState) (h : MinutesOK g) :
    MinutesOK (clockTick now g) := by
  unfold MinutesOK
  rw [clockTick_gameMinutes now g h.1 h.2]
  have hle := minutesAdvanced_le now g
  unfold MinutesOK at h
  split <;> omega

/-- What an `Update` step that returns does to the minute counter and to the bars.
When the game is not over the minute counter is the one the clock part leaves. -/
theorem Update_clock_bars (fuel : Nat) (inp : Input) (g g2 : GameState)
    (h : Update fuel inp g = .ok g2) :
    g2.gameMinutes = (if g.gameOver = true then g.gameMinutes
      else (clockTick inp.tickNow g).gameMinutes) ∧
    (BarsOK g → BarsOK g2) := by
  rcases Update_cases fuel inp g g2 h with ⟨hgo, hr | hr⟩ | ⟨hgo, npcs, g1, _, hdrain, hrest⟩
  · rw [if_pos hgo, hr]; exact ⟨rfl, id⟩
  · rw [if_pos hgo, hr]; exact ⟨rfl, id⟩
  · rw [if_neg (by rw [hgo]; simp)]
    obtain ⟨f1, f2, f3, f4, f5, _⟩ := cacheTreesLayer_fields g npcs
    obtain ⟨c1, c2, c3, _, _⟩ := clockTick_bars inp.tickNow { cacheTreesLayer g with npcs := npcs }
    obtain ⟨⟨d1, d2, d3, d4⟩, _⟩ := drain_tame fuel _ g1 hdrain
    have ht : Tame g1 g2 := by
      rcases hrest with ⟨_, hc⟩ | ⟨_, he⟩
      · exact chatStep_tame inp g1 g2 hc
      · exact exploreStep_tame inp g1 g2 he
    refine ⟨?_, ?_⟩
    · rw [ht.1, d1]
      exact clockTick_gameMinutes_congr inp.tickNow g _ f1 f2
    · intro hb
      obtain ⟨hh, hs, hu⟩ := hb
      refine ⟨?_, ?_, ?_⟩
      · rw [ht.2.1, d2, c1, f3]; exact hh
      · exact ht.2.2.1 (d3 (by rw [c2, f4]; exact hs))
      · exact ht.2.2.2 (d4 (by rw [c3, f5]; exact hu))

/-! ## `Update` returns on well-formed states -/

theorem sliceGet_ok {α : Type} (s : List α) (i : Int) (h0 : 0 ≤ i) (h1 : i < s.length) :
    ∃ a, sliceGet s i = .ok a := by
  have hlt : i.toNat < s.length := by omega
  refine ⟨s[i.toNat], ?_⟩
  unfold sliceGet
  rw [if_neg (by omega), List.getElem?_eq_getElem hlt]

theorem sliceSet_ok {α : Type} (s : List α) (i : Int) (a : α) (h0 : 0 ≤ i)
    (h1 : i < s.length) : sliceSet s i a = .ok (s.set i.toNat a) := by
  unfold sliceSet
  rw [if_neg (by omega), if_pos (by omega)]

theorem tileAt_ok (m : TiledMap) (hm : MapOK m) (layer : Layer)
    (hl : (layer.Tiles.length : Int) = m.Width * m.Height) (x y : Int)
    (hin : inMap m x y = true) : ∃ t, tileAt m layer x y = .ok t := by
  obtain ⟨hw, hh, hfit, _⟩ := hm
  simp only [inMap, Bool.and_eq_true, decide_eq_true_eq] at hin
  obtain ⟨⟨⟨hx0, hx1⟩, hy0⟩, hy1⟩ := hin
  have h1 : 0 ≤ y * m.Width := Int.mul_nonneg hy0 hw
  have h2 : y * m.Width + m.Width ≤ m.Width * m.Height := by
    have : (y + 1) * m.Width ≤ m.Height * m.Width :=
      Int.mul_le_mul_of_nonneg_right (by omega) hw
    have e1 : (y + 1) * m.Width = y * m.Width + m.Width := by ring
    have e2 : m.Height * m.Width = m.Width * m.Height := by ring
    omega
  unfold tileAt
  have e : addInt (mulInt y m.Width) x = y * m.Width + x := by
    unfold addInt mulInt
    rw [wrapInt_of_range (y * m.Width) (by omega) (by omega),
      wrapInt_of_range _ (by omega) (by omega)]
  rw [e]
  exact sliceGet_ok _ _ (by omega) (by omega)

theorem layersBlocked_ok (consult : Layer → Bool) (m : TiledMap) (hm : MapOK m) (x y : Int)
    (layers : List Layer)
    (hl : ∀ l ∈ layers, (l.Tiles.length : Int) = m.Width * m.Height) :
    ∃ b, layersBlocked consult m x y layers = .ok b := by
  induction layers with
  | nil => exact ⟨false, rfl⟩
  | cons layer rest ih =>
    have ih2 := ih (fun l h => hl l (List.mem_cons_of_mem _ h))
    simp only [layersBlocked]
    split
    · rename_i hc
      simp only [Bool.and_eq_true] at hc
      obtain ⟨t, ht⟩ := tileAt_ok m hm layer (hl layer (List.mem_cons_self _ _)) x y hc.2
      rw [ht]
      simp only
      split
      · exact ⟨true, rfl⟩
      · exact ih2
    · exact ih2

theorem findOccupied_ok (names : List String) (m : TiledMap) (hm : MapOK m) (x y : Int)
    (i : Nat) (layers : List Layer)
    (hl : ∀ l ∈ layers, (l.Tiles.length : Int) = m.Width * m.Height) :
    ∃ r, findOccupied names m x y i layers = .ok r := by
  induction layers generalizing i with
  | nil => exact ⟨none, rfl⟩
  | cons layer rest ih =>
    have ih2 := ih (i + 1) (fun l h => hl l (List.mem_cons_of_mem _ h))
    simp only [findOccupied]
    split
    · rename_i hc
      simp only [Bool.and_eq_true] at hc
      obtain ⟨t, ht⟩ := tileAt_ok m hm layer (hl layer (List.mem_cons_self _ _)) x y hc.2
      rw [ht]
      simp only
      split
      · exact ⟨some i, rfl⟩
      · exact ih2
    · exact ih2

theorem tryDirs_ok (g : GameState) (hm : MapOK g.mapData) (npcs : List NPC) (i : Nat)
    (npc : NPC) (dirs : List Dir) : ∃ r, tryDirs g npcs i npc dirs = .ok r := by
  induction dirs with
  | nil => exact ⟨none, rfl⟩
  | cons d rest ih =>
    simp only [tryDirs]
    split
    · exact ih
    · obtain ⟨b, hb⟩ := layersBlocked_ok npcConsults g.mapData hm
        (centerCell (addInt npc.pos.X d.dx) (addInt npc.pos.Y d.dy)).1
        (centerCell (addInt npc.pos.X d.dx) (addInt npc.pos.Y d.dy)).2 g.mapData.Layers hm.2.2.2
      rw [hb]
      simp only
      split
      · exact ih
      · exact ⟨_, rfl⟩

theorem npcTurn_ok (inp : Input) (g : GameState) (hm : MapOK g.mapData) (npcs : List NPC)
    (i : Nat) (npc : NPC) : ∃ r, npcTurn inp g npcs i npc = .ok r := by
  unfold npcTurn
  split
  · exact ⟨_, rfl⟩
  · split
    · simp only
      split
      · obtain ⟨r, hr⟩ := tryDirs_ok g hm npcs i npc (inp.rand.getD i ⟨0, wanderDirs⟩).dirs
        rw [hr]
        cases r with
        | none => exact ⟨_, rfl⟩
        | some td => exact ⟨_, rfl⟩
      · exact ⟨_, rfl⟩
    · exact ⟨_, rfl⟩

theorem npcLoop_ok (inp : Input) (g : GameState) (hm : MapOK g.mapData) (k i : Nat)
    (npcs : List NPC) : ∃ r, npcLoop inp g k i npcs = .ok r := by
  induction k generalizing i npcs with
  | zero => exact ⟨npcs, rfl⟩
  | succ k ih =>
    simp only [npcLoop]
    split
    · exact ⟨npcs, rfl⟩
    · rename_i npc _
      obtain ⟨r, hr⟩ := npcTurn_ok inp g hm npcs i npc
      rw [hr]
      exact ih (i + 1) _

theorem cacheTreesLayer_mapData (g : GameState) : (cacheTreesLayer g).mapData = g.mapData := by
  unfold cacheTreesLayer
  split <;> rfl

theorem npcPhase_ok (inp : Input) (g : GameState) (hm : MapOK g.mapData) :
    ∃ r, npcPhase inp (cacheTreesLayer g) = .ok r := by
  unfold npcPhase
  exact npcLoop_ok inp _ (by rw [cacheTreesLayer_mapData]; exact hm) _ _ _

theorem repairedChoices_ne_nil (node : ConversationNode) : repairedChoices node ≠ [] := by
  unfold repairedChoices
  split
  · simp
  · rename_i h
    intro he
    exact h (by rw [he]; rfl)

theorem repairedChoices_length_pos (node : ConversationNode) :
    (repairedChoices node).length > 0 :=
  List.length_pos.2 (repairedChoices_ne_nil node)

/-- The chat block on a state whose current node is `node` at `nid`. -/
theorem chatStep_eq (inp : Input) (g : GameState) (nid : Nat) (node : ConversationNode)
    (hc : g.convNode = some nid) (hn : g.nodes[nid]? = some node) :
    chatStep inp g
      = chatConfirm inp node.Text (repairedChoices node)
          (chatDown inp (repairedChoices node).length
            (chatUp inp (repairedChoices node).length (chatRepair nid node g))) := by
  unfold chatStep
  simp only [hc, hn]
  rw [if_pos (repairedChoices_length_pos node)]

/-- The up and down branches keep the highlighted index inside `0..n-1`. -/
theorem chatUp_index (inp : Input) (n : Int) (g : GameState) (hn : n ≤ 9223372036854775807)
    (h : 0 ≤ g.chatChoice ∧ g.chatChoice < n) :
    0 ≤ (chatUp inp n g).chatChoice ∧ (chatUp inp n g).chatChoice < n := by
  unfold chatUp
  split
  · simp only [subInt]
    rw [wrapInt_of_range _ (by omega) (by omega)]
    split <;> omega
  · exact h

theorem chatDown_index (inp : Input) (n : Int) (g : GameState) (hn : n ≤ 9223372036854775807)
    (h : 0 ≤ g.chatChoice ∧ g.chatChoice < n) :
    0 ≤ (chatDown inp n g).chatChoice ∧ (chatDown inp n g).chatChoice < n := by
  unfold chatDown
  split
  · simp only [addInt]
    rw [wrapInt_of_range _ (by omega) (by omega)]
    split <;> omega
  · exact h

theorem chatUp_pending (inp : Input) (n : Int) (g : GameState) :
    (chatUp inp n g).pendingTreeLayer = g.pendingTreeLayer ∧
    (chatUp inp n g).pendingTreeTileIdx = g.pendingTreeTileIdx ∧
    (chatUp inp n g).mapData = g.mapData ∧ (chatUp inp n g).inventory = g.inventory := by
  unfold chatUp
  split <;> exact ⟨rfl, rfl, rfl, rfl⟩

theorem chatDown_pending (inp : Input) (n : Int) (g : GameState) :
    (chatDown inp n g).pendingTreeLayer = g.pendingTreeLayer ∧
    (chatDown inp n g).pendingTreeTileIdx = g.pendingTreeTileIdx ∧
    (chatDown inp n g).mapData = g.mapData ∧ (chatDown inp n g).inventory = g.inventory := by
  unfold chatDown
  split <;> exact ⟨rfl, rfl, rfl, rfl⟩

theorem chatRepair_pending (nid : Nat) (node : ConversationNode) (g : GameState) :
    (chatRepair nid node g).pendingTreeLayer = g.pendingTreeLayer ∧
    (chatRepair nid node g).pendingTreeTileIdx = g.pendingTreeTileIdx ∧
    (chatRepair nid node g).mapData = g.mapData ∧
    (chatRepair nid node g).inventory = g.inventory := by
  unfold chatRepair
  split <;> exact ⟨rfl, rfl, rfl, rfl⟩

theorem chatRepair_index (nid : Nat) (node : ConversationNode) (g : GameState)
    (h : node.Choices ≠ [] → 0 ≤ g.chatChoice ∧ g.chatChoice < node.Choices.length) :
    0 ≤ (chatRepair nid node g).chatChoice ∧
      (chatRepair nid node g).chatChoice < (repairedChoices node).length := by
  unfold chatRepair repairedChoices
  split
  · simp [goodbyeChoice]
  · rename_i hlen
    exact h (fun he => hlen (by rw [he]; rfl))

theorem treeEffect_ok (t : String) (c : ConversationChoice) (g : GameState)
    (h : ∀ li, g.pendingTreeLayer = some li →
      ∃ layer, g.mapData.Layers[li]? = some layer ∧
        0 ≤ g.pendingTreeTileIdx ∧ g.pendingTreeTileIdx < layer.Tiles.length) :
    ∃ g2, treeEffect t c g = .ok g2 := by
  unfold treeEffect
  split
  · exact ⟨g, rfl⟩
  · rename_i li hli
    split
    · obtain ⟨layer, hl, h0, h1⟩ := h li hli
      simp only [hl, sliceSet_ok layer.Tiles _ none h0 h1]
      exact ⟨_, rfl⟩
    · exact ⟨g, rfl⟩

theorem chatConfirm_ok (inp : Input) (t : String) (cs : List ConversationChoice)
    (g : GameState) (hi : 0 ≤ g.chatChoice ∧ g.chatChoice < cs.length)
    (hp : ∀ li, g.pendingTreeLayer = some li →
      ∃ layer, g.mapData.Layers[li]? = some layer ∧
        0 ≤ g.pendingTreeTileIdx ∧ g.pendingTreeTileIdx < layer.Tiles.length) :
    ∃ g2, chatConfirm inp t cs g = .ok g2 := by
  unfold chatConfirm
  split
  · obtain ⟨choice, hch⟩ := sliceGet_ok cs g.chatChoice hi.1 hi.2
    obtain ⟨g1, hg1⟩ := treeEffect_ok t choice g hp
    simp only [hch, hg1]
    exact ⟨_, rfl⟩
  · exact ⟨g, rfl⟩

/-- The chat block returns on a state with valid chat references. -/
theorem chatStep_returns (inp : Input) (g : GameState) (h : ChatOK g) :
    ∃ g2, chatStep inp g = .ok g2 := by
  obtain ⟨⟨nid, node, hc, hn, hlen, hidx⟩, hp⟩ := h
  rw [chatStep_eq inp g nid node hc hn]
  have hlen2 : ((repairedChoices node).length : Int) ≤ 9223372036854775807 := by
    unfold repairedChoices
    split
    · simp
    · exact hlen
  have h1 := chatRepair_index nid node g hidx
  have h2 := chatUp_index inp _ _ hlen2 h1
  have h3 := chatDown_index inp _ _ hlen2 h2
  refine chatConfirm_ok inp _ _ _ h3 ?_
  intro li hli
  obtain ⟨d1, d2, d3, _⟩ := chatDown_pending inp (repairedChoices node).length
    (chatUp inp (repairedChoices node).length (chatRepair nid node g))
  obtain ⟨u1, u2, u3, _⟩ := chatUp_pending inp (repairedChoices node).length
    (chatRepair nid node g)
  obtain ⟨r1, r2, r3, _⟩ := chatRepair_pending nid node g
  rw [d1, u1, r1] at hli
  rw [d2, u2, r2, d3, u3, r3]
  exact hp li hli

theorem animatePlayer_mapData (g : GameState) :
    (animatePlayer g).mapData = g.mapData ∧ (animatePlayer g).chatting = g.chatting := by
  unfold animatePlayer
  split
  · simp only
    split <;> exact ⟨rfl, rfl⟩
  · exact ⟨rfl, rfl⟩

theorem moveStep_mapData (inp : Input) (g g2 : GameState) (h : moveStep inp g = .ok g2) :
    g2.mapData = g.mapData ∧ g2.chatting = g.chatting := by
  unfold moveStep at h
  simp only at h
  split at h
  · cases h
  · cases h
    rw [(animatePlayer_mapData _).1, (animatePlayer_mapData _).2]
    split <;> exact ⟨rfl, rfl⟩

theorem moveStep_ok (inp : Input) (g : GameState) (hm : MapOK g.mapData) :
    ∃ g2, moveStep inp g = .ok g2 := by
  unfold moveStep playerBlocked
  simp only
  obtain ⟨b, hb⟩ := layersBlocked_ok (playerConsults g.mapData) g.mapData hm
    (centerCell (clampPos g.mapData (intendedPos inp g.playerPos)).X
      (clampPos g.mapData (intendedPos inp g.playerPos)).Y).1
    (centerCell (clampPos g.mapData (intendedPos inp g.playerPos)).X
      (clampPos g.mapData (intendedPos inp g.playerPos)).Y).2 g.mapData.Layers hm.2.2.2
  rw [hb]
  exact ⟨_, rfl⟩

theorem interactStep_ok (inp : Input) (g : GameState) (hm : MapOK g.mapData) :
    ∃ g2, interactStep inp g = .ok g2 := by
  unfold interactStep
  split
  · split
    · exact ⟨g, rfl⟩
    · split
      · exact ⟨_, rfl⟩
      · simp only
        obtain ⟨r, hr⟩ := findOccupied_ok ["Water"] g.mapData hm
          (interactCell g.playerPos g.playerDir).1 (interactCell g.playerPos g.playerDir).2 0
          g.mapData.Layers hm.2.2.2
        rw [hr]
        cases r with
        | some w => exact ⟨_, rfl⟩
        | none =>
          obtain ⟨r2, hr2⟩ := findOccupied_ok ["Trees"] g.mapData hm
            (interactCell g.playerPos g.playerDir).1 (interactCell g.playerPos g.playerDir).2 0
            g.mapData.Layers hm.2.2.2
          simp only [hr2]
          cases r2 with
          | some li => exact ⟨_, rfl⟩
          | none => exact ⟨_, rfl⟩
  · exact ⟨g, rfl⟩

theorem exploreStep_ok (inp : Input) (g : GameState) (hm : MapOK g.mapData) :
    ∃ g2, exploreStep inp g = .ok g2 := by
  unfold exploreStep
  have hopen : ∃ b, inventoryOpens inp g = .ok b := by
    unfold inventoryOpens
    split
    · split
      · exact ⟨false, rfl⟩
      · simp only
        obtain ⟨r, hr⟩ := findOccupied_ok ["Water", "Trees", "Doors"] g.mapData hm
          (interactCell g.playerPos g.playerDir).1 (interactCell g.playerPos g.playerDir).2 0
          g.mapData.Layers hm.2.2.2
        rw [hr]
        exact ⟨_, rfl⟩
    · exact ⟨false, rfl⟩
  obtain ⟨b, hb⟩ := hopen
  rw [hb]
  cases b with
  | true => exact ⟨_, rfl⟩
  | false =>
    simp only
    split
    · exact ⟨_, rfl⟩
    · obtain ⟨g1, hg1⟩ := moveStep_ok inp g hm
      rw [hg1]
      simp only
      exact interactStep_ok inp g1 (by rw [(moveStep_mapData inp g g1 hg1).1]; exact hm)

theorem entry_same (fuel : Nat) (now : Int) (g g1 : GameState) (npcs : List NPC)
    (h : drain fuel (clockTick now { cacheTreesLayer g with npcs := npcs }) = .ok g1) :
    SameButClock g g1 ∧ g1.npcs = npcs := by
  obtain ⟨b, _, rfl⟩ := drain_eq fuel _ g1 h
  rw [clockTick_eq]
  unfold cacheTreesLayer SameButClock
  split <;> split <;>
    exact ⟨⟨rfl, rfl, rfl, rfl, rfl, rfl, rfl, rfl, rfl, rfl, rfl, rfl, rfl, rfl, rfl, rfl, rfl,
      rfl, rfl, rfl, rfl⟩, rfl⟩

/-- `Update` returns on every well-formed state, for every input, with 1440 units of
fuel for the drain loop. -/
theorem Update_returns (fuel : Nat) (inp : Input) (g : GameState) (hw : WellFormed g)
    (hfuel : 1440 ≤ fuel) : ∃ g2, Update fuel inp g = .ok g2 := by
  obtain ⟨hmap, hmin, hld, hchat⟩ := hw
  by_cases hgo : g.gameOver = true
  · unfold Update
    rw [if_pos hgo]
    exact ⟨_, rfl⟩
  · obtain ⟨npcs, hnpcs⟩ := npcPhase_ok inp g hmap
    obtain ⟨f1, f2, _, _, _, f6⟩ := cacheTreesLayer_fields g npcs
    have hmin1 : MinutesOK ({ cacheTreesLayer g with npcs := npcs } : GameState) := by
      unfold MinutesOK; rw [f1]; exact hmin
    have hmin2 := clockTick_minutesOK inp.tickNow _ hmin1
    have hld2 : 0 ≤ (clockTick inp.tickNow { cacheTreesLayer g with npcs := npcs }).lastDrain ∧
        (clockTick inp.tickNow { cacheTreesLayer g with npcs := npcs }).lastDrain < 1440 := by
      rw [(clockTick_bars inp.tickNow _).2.2.2.1, f6]; exact hld
    obtain ⟨g1, hg1⟩ := drain_returns fuel _ hmin2 hld2 hfuel
    obtain ⟨hsame, _⟩ := entry_same fuel inp.tickNow g g1 npcs hg1
    unfold Update
    rw [if_neg hgo]
    simp only [hnpcs, hg1]
    obtain ⟨s1, s2, s3, s4, s5, _, s7, s8, _⟩ := hsame
    split
    · rename_i hc
      refine chatStep_returns inp g1 ?_
      have hok := hchat (by rw [← s2]; exact hc)
      unfold ChatOK at hok ⊢
      rw [s3, s4, s5, s7, s8, s1]
      exact hok
    · exact exploreStep_ok inp g1 (by rw [s1]; exact hmap)

/-- C11. If health, social and hunger all lie in `[0, 1]` before an `Update` step they
all lie in `[0, 1]` after it, whatever the keys, the clock readings and the random
draws; and the step does return on every well-formed state (well-formed map, minute
counter and `lastDrain` in `0..1439`, valid chat references) given 1440 units of fuel
for the drain loop. -/
theorem bars_stay_in_unit_interval (fuel : Nat) (inp : Input) (g : GameState)
    (hb : BarsOK g) :
    (∀ g2, Update fuel inp g = .ok g2 → BarsOK g2) ∧
    (WellFormed g → 1440 ≤ fuel → ∃ g2, Update fuel inp g = .ok g2 ∧ BarsOK g2) := by
  refine ⟨fun g2 h => (Update_clock_bars fuel inp g g2 h).2 hb, ?_⟩
  intro hw hfuel
  obtain ⟨g2, hg2⟩ := Update_returns fuel inp g hw hfuel
  exact ⟨g2, hg2, (Update_clock_bars fuel inp g g2 hg2).2 hb⟩

theorem sampleGame_wellFormed : WellFormed sampleGame :=
  ⟨⟨by decide, by decide, by decide, by decide⟩, ⟨by decide, by decide⟩,
    ⟨by decide, by decide⟩, fun h => absurd h (by decide)⟩

theorem sampleGame_barsOK : BarsOK sampleGame := by
  unfold BarsOK sampleGame
  norm_num

/-- C11: an instance (the fresh game, no key pressed, one second on the clock). -/
theorem bars_stay_in_unit_interval_witness :
    ∃ g2, Update 1440 (idleInput 1000000000) sampleGame = .ok g2 ∧ BarsOK g2 :=
  (bars_stay_in_unit_interval 1440 (idleInput 1000000000) sampleGame sampleGame_barsOK).2
    sampleGame_wellFormed (by decide)

/-- C12, the failing input evaluated.  At midnight with the draining caught up
(`gameMinutes = lastDrain = 0`) a clock tick of 0.4 s advances 2 in-game minutes; the
line `if g.lastDrain == 0 { g.lastDrain = g.gameMinutes }` then moves `lastDrain` to 2
and the drain loop does not run: hunger and social are still 1 after the step, not
`1 - 2 * (0.5/1440)`. -/
theorem drain_skipped_after_midnight :
    midnightGame.lastDrain = midnightGame.gameMinutes ∧
    minutesAdvanced 400000000 midnightGame = 2 ∧
    (Update 1440 (idleInput 400000000) midnightGame).toOption.map
        (fun g => (g.gameMinutes, g.lastDrain, g.hunger, g.social))
      = some (2, 2, 1, 1) ∧
    (1 : ℚ) - 2 * drainPerMinute ≠ 1 := by
  refine ⟨by decide, by decide, by decide, ?_⟩
  unfold drainPerMinute
  norm_num

/-- C13. For a minute counter in `0..1439` and every advance `a ≥ 0` the clock counts
(the local `gameMinAdvance`), the clock part of `Update` sets `gameMinutes` to
`(gameMinutes + a) mod 1440`; every `Update` step that returns keeps the counter in
`0..1439`, and so does every sequence of such steps. -/
theorem clock_wraps_modulo_1440 (now : Int) (g : GameState) (h0 : 0 ≤ g.gameMinutes)
    (h1 : g.gameMinutes < 1440) (ha : 0 ≤ minutesAdvanced now g) :
    (clockTick now g).gameMinutes = (g.gameMinutes + minutesAdvanced now g) % 1440 ∧
    (0 ≤ (clockTick now g).gameMinutes ∧ (clockTick now g).gameMinutes < 1440) ∧
    (∀ (fuel : Nat) (inp : Input) (g1 g2 : GameState), MinutesOK g1 →
      Update fuel inp g1 = .ok g2 → MinutesOK g2) ∧
    (∀ g0 g2 : GameState, MinutesOK g0 → UpdateReachable g0 g2 → MinutesOK g2) := by
  have hstep : ∀ (fuel : Nat) (inp : Input) (g1 g2 : GameState), MinutesOK g1 →
      Update fuel inp g1 = .ok g2 → MinutesOK g2 := by
    intro fuel inp g1 g2 hm hu
    have he := (Update_clock_bars fuel inp g1 g2 hu).1
    unfold MinutesOK
    rw [he]
    split
    · exact hm
    · exact clockTick_minutesOK inp.tickNow g1 hm
  refine ⟨?_, clockTick_minutesOK now g ⟨h0, h1⟩, hstep, ?_⟩
  · rw [clockTick_gameMinutes now g h0 h1]
    split
    · rfl
    · have : minutesAdvanced now g = 0 := by omega
      rw [this]
      omega
  · intro g0 g2 hm hr
    induction hr with
    | start => exact hm
    | step fuel inp ga gb _ hu ih => exact hstep fuel inp ga gb ih hu

/-- C13: an instance (23:59 and 0.4 s on the clock: 2 minutes, to 00:01). -/
theorem clock_wraps_modulo_1440_witness :
    (clockTick 400000000 { midnightGame with gameMinutes := 1439 }).gameMinutes
      = (1439 + minutesAdvanced 400000000 { midnightGame with gameMinutes := 1439 }) % 1440 ∧
    (clockTick 400000000 { midnightGame with gameMinutes := 1439 }).gameMinutes = 1 :=
  ⟨(clock_wraps_modulo_1440 400000000 { midnightGame with gameMinutes := 1439 }
      (by decide) (by decide) (by decide)).1, by decide⟩

/-! ## The chat block in detail -/

theorem npcLoop_chatting (inp : Input) (g : GameState) (hc : g.chatting = true) (k i : Nat)
    (npcs : List NPC) : ∃ r, npcLoop inp g k i npcs = .ok r := by
  induction k generalizing i npcs with
  | zero => exact ⟨npcs, rfl⟩
  | succ k ih =>
    simp only [npcLoop]
    split
    · exact ⟨npcs, rfl⟩
    · rename_i npc _
      have hturn : npcTurn inp g npcs i npc = .ok { npc with moving := false } := by
        unfold npcTurn
        rw [if_pos hc]
      rw [hturn]
      exact ih (i + 1) _

theorem cacheTreesLayer_chatting (g : GameState) :
    (cacheTreesLayer g).chatting = g.chatting := by
  unfold cacheTreesLayer
  split <;> rfl

/-- For a chatting state with the game not over, `Update` is the chat block run on a
state that differs from the one before only in the NPCs, the cached trees layer, the
clock and the drained bars. -/
theorem Update_chatting (fuel : Nat) (inp : Input) (g : GameState) (hgo : g.gameOver = false)
    (hc : g.chatting = true) (hm : MinutesOK g)
    (hl : 0 ≤ g.lastDrain ∧ g.lastDrain < 1440) (hfuel : 1440 ≤ fuel) :
    ∃ g1, SameButClock g g1 ∧ Update fuel inp g = chatStep inp g1 := by
  obtain ⟨npcs, hnpcs⟩ : ∃ r, npcPhase inp (cacheTreesLayer g) = .ok r := by
    unfold npcPhase
    exact npcLoop_chatting inp _ (by rw [cacheTreesLayer_chatting]; exact hc) _ _ _
  obtain ⟨f1, _, _, _, _, f6⟩ := cacheTreesLayer_fields g npcs
  have hmin1 : MinutesOK ({ cacheTreesLayer g with npcs := npcs } : GameState) := by
    unfold MinutesOK; rw [f1]; exact hm
  have hmin2 := clockTick_minutesOK inp.tickNow _ hmin1
  have hld2 : 0 ≤ (clockTick inp.tickNow { cacheTreesLayer g with npcs := npcs }).lastDrain ∧
      (clockTick inp.tickNow { cacheTreesLayer g with npcs := npcs }).lastDrain < 1440 := by
    rw [(clockTick_bars inp.tickNow _).2.2.2.1, f6]; exact hl
  obtain ⟨g1, hg1⟩ := drain_returns fuel _ hmin2 hld2 hfuel
  obtain ⟨hsame, _⟩ := entry_same fuel inp.tickNow g g1 npcs hg1
  refine ⟨g1, hsame, ?_⟩
  unfold Update
  rw [if_neg (by rw [hgo]; simp)]
  simp only [hnpcs, hg1]
  rw [if_pos (by rw [hsame.2.1]; exact hc)]

theorem chatUp_of_not (inp : Input) (n : Int) (g : GameState)
    (h : ¬ (inp.arrowUp = true ∧ inp.chatNow - g.lastChoiceTime > chatInputDelay)) :
    chatUp inp n g = g := by
  unfold chatUp
  rw [if_neg h]

theorem chatDown_of_not (inp : Input) (n : Int) (g : GameState)
    (h : ¬ (inp.arrowDown = true ∧ inp.chatNow - g.lastChoiceTime > chatInputDelay)) :
    chatDown inp n g = g := by
  unfold chatDown
  rw [if_neg h]

theorem chatConfirm_of_not (inp : Input) (t : String) (cs : List ConversationChoice)
    (g : GameState)
    (h : ¬ (inp.space = true ∧ inp.chatNow - g.lastChoiceTime > chatInputDelay)) :
    chatConfirm inp t cs g = .ok g := by
  unfold chatConfirm
  rw [if_neg h]

theorem chatRepair_lastChoiceTime (nid : Nat) (node : ConversationNode) (g : GameState) :
    (chatRepair nid node g).lastChoiceTime = g.lastChoiceTime := by
  unfold chatRepair
  split <;> rfl

theorem chatRepair_of_ne_nil (nid : Nat) (node : ConversationNode) (g : GameState)
    (h : node.Choices ≠ []) : chatRepair nid node g = g ∧ repairedChoices node = node.Choices := by
  have hlen : ¬ (node.Choices.length = 0) := fun he => h (List.length_eq_zero.1 he)
  unfold chatRepair repairedChoices
  rw [if_neg hlen, if_neg hlen]
  exact ⟨rfl, rfl⟩

theorem not_late_after_now (now : Int) : ¬ (now - now > chatInputDelay) := by
  unfold chatInputDelay
  omega

/-- The chat block when the confirm input is accepted: the side effects and the
advance of the conversation on the highlighted choice of the (repaired) node. -/
theorem chatStep_commit (inp : Input) (g : GameState) (nid : Nat) (node : ConversationNode)
    (choice : ConversationChoice) (hc : g.convNode = some nid)
    (hn : g.nodes[nid]? = some node) (hacc : confirmAccepted inp g)
    (hchoice : sliceGet (repairedChoices node) (chatRepair nid node g).chatChoice = .ok choice) :
    chatStep inp g
      = match treeEffect node.Text choice (chatRepair nid node g) with
        | .error e => .error e
        | .ok g1 =>
          .ok { chatAdvance inp.chatNow choice (fishEffect node.Text choice g1) with
            lastChoiceTime := inp.chatNow } := by
  obtain ⟨hs, hu, hd, ht⟩ := hacc
  rw [chatStep_eq inp g nid node hc hn,
    chatUp_of_not inp _ _ (by rw [hu]; simp),
    chatDown_of_not inp _ _ (by rw [hd]; simp)]
  unfold chatConfirm
  rw [if_pos ⟨hs, by rw [chatRepair_lastChoiceTime]; exact ht⟩, hchoice]

theorem sameTalk_refl (g : GameState) : SameTalk g g :=
  ⟨rfl, rfl, rfl, rfl, rfl, rfl, rfl, rfl, rfl, rfl⟩

theorem chatUp_sameTalk (inp : Input) (n : Int) (g : GameState) :
    SameTalk g (chatUp inp n g) := by
  unfold chatUp
  split
  · exact ⟨rfl, rfl, rfl, rfl, rfl, rfl, rfl, rfl, rfl, rfl⟩
  · exact sameTalk_refl g

theorem chatDown_sameTalk (inp : Input) (n : Int) (g : GameState) :
    SameTalk g (chatDown inp n g) := by
  unfold chatDown
  split
  · exact ⟨rfl, rfl, rfl, rfl, rfl, rfl, rfl, rfl, rfl, rfl⟩
  · exact sameTalk_refl g

/-- After the two navigation branches the clock of the chat input is either untouched,
with nothing accepted, or stamped with `now`. -/
theorem nav_lastChoiceTime (inp : Input) (n : Int) (g : GameState) :
    (chatDown inp n (chatUp inp n g)).lastChoiceTime = inp.chatNow ∨
    ((chatDown inp n (chatUp inp n g)) = g ∧
      ¬ (inp.arrowUp = true ∧ inp.chatNow - g.lastChoiceTime > chatInputDelay) ∧
      ¬ (inp.arrowDown = true ∧ inp.chatNow - g.lastChoiceTime > chatInputDelay)) := by
  by_cases hu : inp.arrowUp = true ∧ inp.chatNow - g.lastChoiceTime > chatInputDelay
  · left
    have e : chatUp inp n g
        = { g with
            chatChoice := if subInt g.chatChoice 1 < 0 then n - 1 else subInt g.chatChoice 1
            lastChoiceTime := inp.chatNow } := by
      unfold chatUp
      rw [if_pos hu]
    rw [e, chatDown_of_not inp n _ (fun h => not_late_after_now inp.chatNow h.2)]
  · rw [chatUp_of_not inp n g hu]
    by_cases hd : inp.arrowDown = true ∧ inp.chatNow - g.lastChoiceTime > chatInputDelay
    · left
      unfold chatDown
      rw [if_pos hd]
    · right
      exact ⟨chatDown_of_not inp n g hd, hu, hd⟩

/-- The chat block when the confirm input is not accepted: only the navigation runs. -/
theorem chatStep_no_commit (inp : Input) (g : GameState) (nid : Nat) (node : ConversationNode)
    (hc : g.convNode = some nid) (hn : g.nodes[nid]? = some node)
    (hacc : ¬ confirmAccepted inp g) :
    chatStep inp g
      = .ok (chatDown inp (repairedChoices node).length
          (chatUp inp (repairedChoices node).length (chatRepair nid node g))) := by
  rw [chatStep_eq inp g nid node hc hn]
  apply chatConfirm_of_not
  intro hs
  rcases nav_lastChoiceTime inp (repairedChoices node).length (chatRepair nid node g) with
    h | ⟨he, hu, hd⟩
  · rw [h] at hs
    exact not_late_after_now inp.chatNow hs.2
  · rw [he, chatRepair_lastChoiceTime] at hs
    rw [chatRepair_lastChoiceTime] at hu hd
    apply hacc
    refine ⟨hs.1, ?_, ?_, hs.2⟩
    · cases hup : inp.arrowUp
      · rfl
      · exact absurd ⟨hup, hs.2⟩ hu
    · cases hdn : inp.arrowDown
      · rfl
      · exact absurd ⟨hdn, hs.2⟩ hd

theorem treeEffect_skip (t : String) (c : ConversationChoice) (g : GameState)
    (h : ¬ (t = "You cut down the tree." ∧ c.Text = "Okay")) : treeEffect t c g = .ok g := by
  unfold treeEffect
  split
  · rfl
  · rw [if_neg h]

theorem treeEffect_none (t : String) (c : ConversationChoice) (g : GameState)
    (h : g.pendingTreeLayer = none) : treeEffect t c g = .ok g := by
  unfold treeEffect
  simp only [h]

theorem treeEffect_apply (t : String) (c : ConversationChoice) (g : GameState) (li : Nat)
    (layer : Layer) (ht : t = "You cut down the tree.") (hcx : c.Text = "Okay")
    (hp : g.pendingTreeLayer = some li) (hl : g.mapData.Layers[li]? = some layer)
    (h0 : 0 ≤ g.pendingTreeTileIdx) (h1 : g.pendingTreeTileIdx < layer.Tiles.length) :
    treeEffect t c g
      = .ok { g with
          mapData := { g.mapData with
            Layers := g.mapData.Layers.set li
              { layer with Tiles := layer.Tiles.set g.pendingTreeTileIdx.toNat none } }
          pendingTreeLayer := none
          pendingTreeTileIdx := 0
          inventory := addToInventory "Wood" 10 g.inventory } := by
  unfold treeEffect
  simp only [hp]
  rw [if_pos ⟨ht, hcx⟩]
  simp only [hl, sliceSet_ok layer.Tiles _ none h0 h1]

/-- The fields of the conversation a tree side effect leaves untouched. -/
theorem treeEffect_talk (t : String) (c : ConversationChoice) (g g1 : GameState)
    (h : treeEffect t c g = .ok g1) :
    g1.nodes = g.nodes ∧ g1.convNode = g.convNode ∧ g1.chatting = g.chatting ∧
    g1.chatNPC = g.chatNPC ∧ g1.social = g.social ∧ g1.lastChatEnd = g.lastChatEnd ∧
    g1.chatChoice = g.chatChoice := by
  unfold treeEffect at h
  split at h
  · cases h; exact ⟨rfl, rfl, rfl, rfl, rfl, rfl, rfl⟩
  · split at h
    · split at h
      · cases h
      · split at h
        · cases h
        · cases h; exact ⟨rfl, rfl, rfl, rfl, rfl, rfl, rfl⟩
    · cases h; exact ⟨rfl, rfl, rfl, rfl, rfl, rfl, rfl⟩

theorem fishEffect_talk (t : String) (c : ConversationChoice) (g : GameState) :
    (fishEffect t c g).nodes = g.nodes ∧ (fishEffect t c g).convNode = g.convNode ∧
    (fishEffect t c g).chatting = g.chatting ∧ (fishEffect t c g).chatNPC = g.chatNPC ∧
    (fishEffect t c g).social = g.social ∧ (fishEffect t c g).lastChatEnd = g.lastChatEnd ∧
    (fishEffect t c g).chatChoice = g.chatChoice ∧ (fishEffect t c g).mapData = g.mapData ∧
    (fishEffect t c g).pendingTreeLayer = g.pendingTreeLayer ∧
    (fishEffect t c g).pendingTreeTileIdx = g.pendingTreeTileIdx := by
  unfold fishEffect
  split <;> exact ⟨rfl, rfl, rfl, rfl, rfl, rfl, rfl, rfl, rfl, rfl⟩

theorem chatAdvance_fields (now : Int) (c : ConversationChoice) (g : GameState) :
    (chatAdvance now c g).nodes = g.nodes ∧ (chatAdvance now c g).mapData = g.mapData ∧
    (chatAdvance now c g).inventory = g.inventory ∧
    (chatAdvance now c g).pendingTreeLayer = g.pendingTreeLayer ∧
    (chatAdvance now c g).pendingTreeTileIdx = g.pendingTreeTileIdx := by
  unfold chatAdvance
  split <;> exact ⟨rfl, rfl, rfl, rfl, rfl⟩

theorem chatRepair_talk (nid : Nat) (node : ConversationNode) (g : GameState) :
    (chatRepair nid node g).convNode = g.convNode ∧
    (chatRepair nid node g).chatting = g.chatting ∧
    (chatRepair nid node g).chatNPC = g.chatNPC ∧
    (chatRepair nid node g).social = g.social ∧
    (chatRepair nid node g).lastChatEnd = g.lastChatEnd := by
  unfold chatRepair
  split <;> exact ⟨rfl, rfl, rfl, rfl, rfl⟩

theorem chatAdvance_end (now : Int) (c : ConversationChoice) (g : GameState)
    (h : c.Text = "Goodbye" ∨ c.Next = none) :
    chatAdvance now c g
      = { g with
          chatting := false
          chatNPC := none
          convNode := none
          lastChatEnd := now
          social := if g.social + 1 / 10 > 1 then 1 else g.social + 1 / 10 } := by
  unfold chatAdvance
  rw [if_pos h]

theorem chatAdvance_next (now : Int) (c : ConversationChoice) (g : GameState)
    (h : ¬ (c.Text = "Goodbye" ∨ c.Next = none)) :
    chatAdvance now c g = { g with convNode := c.Next, chatChoice := 0 } := by
  unfold chatAdvance
  rw [if_neg h]

theorem clamp_eq_min (x : ℚ) : (if x > 1 then 1 else x) = min x 1 := by
  split
  · rename_i h
    rw [min_eq_right (le_of_lt h)]
  · rename_i h
    rw [min_eq_left (not_lt.1 h)]

theorem pendingValid_chatRepair (nid : Nat) (node : ConversationNode) (g : GameState)
    (h : PendingValid g) : PendingValid (chatRepair nid node g) := by
  obtain ⟨r1, r2, r3, _⟩ := chatRepair_pending nid node g
  unfold PendingValid
  rw [r1, r2, r3]
  exact h

/-- C15. In the chat block, for a chatting state with an accepted confirm input and
the highlighted choice `choice` of the current node, the commit ends the conversation
if and only if the choice has no next node or its text is "Goodbye".  Ending sets
`chatting` false, clears the NPC and node references, stamps `lastChatEnd` and sets
social to `min(social + 0.10, 1.0)`; otherwise the current node becomes the next node
of the choice, the highlighted index becomes 0, and `chatting`, social and
`lastChatEnd` are unchanged.  (Last part: for such a state `Update` is this block, run
after the NPC freeze, the clock and the drain.) -/
theorem commit_ends_or_advances (inp : Input) (g : GameState) (nid : Nat)
    (node : ConversationNode) (choice : ConversationChoice) (hchat : g.chatting = true)
    (hc : g.convNode = some nid) (hn : g.nodes[nid]? = some node)
    (hacc : confirmAccepted inp g)
    (hchoice : sliceGet (repairedChoices node) (chatRepair nid node g).chatChoice = .ok choice)
    (hp : PendingValid g) :
    (∃ g2, chatStep inp g = .ok g2 ∧
      (g2.chatting = false ↔ (choice.Next = none ∨ choice.Text = "Goodbye")) ∧
      (choice.Next = none ∨ choice.Text = "Goodbye" →
        g2.chatting = false ∧ g2.chatNPC = none ∧ g2.convNode = none ∧
        g2.lastChatEnd = inp.chatNow ∧ g2.social = min (g.social + 1 / 10) 1) ∧
      (¬ (choice.Next = none ∨ choice.Text = "Goodbye") →
        g2.convNode = choice.Next ∧ g2.chatChoice = 0 ∧ g2.chatting = true ∧
        g2.social = g.social ∧ g2.lastChatEnd = g.lastChatEnd)) ∧
    (∀ fuel : Nat, g.gameOver = false → MinutesOK g → 0 ≤ g.lastDrain ∧ g.lastDrain < 1440 →
      1440 ≤ fuel → ∃ g1, SameButClock g g1 ∧ Update fuel inp g = chatStep inp g1) := by
  refine ⟨?_, fun fuel hgo hm hl hf => Update_chatting fuel inp g hgo hchat hm hl hf⟩
  obtain ⟨g1, hg1⟩ := treeEffect_ok node.Text choice (chatRepair nid node g)
    (pendingValid_chatRepair nid node g hp)
  rw [chatStep_commit inp g nid node choice hc hn hacc hchoice, hg1]
  obtain ⟨_, t2, t3, t4, t5, t6, _⟩ := treeEffect_talk _ _ _ _ hg1
  obtain ⟨_, f2, f3, f4, f5, f6, _⟩ := fishEffect_talk node.Text choice g1
  obtain ⟨r1, r2, r3, r4, r5⟩ := chatRepair_talk nid node g
  have hch : (fishEffect node.Text choice g1).chatting = true := by rw [f3, t3, r2, hchat]
  have hso : (fishEffect node.Text choice g1).social = g.social := by rw [f5, t5, r4]
  have hle : (fishEffect node.Text choice g1).lastChatEnd = g.lastChatEnd := by rw [f6, t6, r5]
  by_cases hend : choice.Text = "Goodbye" ∨ choice.Next = none
  · have hend2 : choice.Next = none ∨ choice.Text = "Goodbye" := hend.symm
    refine ⟨_, rfl, ?_⟩
    rw [chatAdvance_end inp.chatNow choice _ hend]
    refine ⟨⟨fun _ => hend2, fun _ => rfl⟩, fun _ => ⟨rfl, rfl, rfl, rfl, ?_⟩,
      fun hno => absurd hend2 hno⟩
    simp only
    rw [hso, clamp_eq_min]
  · have hend2 : ¬ (choice.Next = none ∨ choice.Text = "Goodbye") := fun h => hend h.symm
    refine ⟨_, rfl, ?_⟩
    rw [chatAdvance_next inp.chatNow choice _ hend]
    refine ⟨⟨fun hf => ?_, fun h => absurd h hend2⟩, fun h => absurd h hend2,
      fun _ => ⟨rfl, rfl, hch, hso, hle⟩⟩
    have hf2 : (fishEffect node.Text choice g1).chatting = false := hf
    rw [hch] at hf2
    cases hf2

theorem pred_emod (i n : Int) (h0 : 0 ≤ i) (h1 : i < n) :
    (if i - 1 < 0 then n - 1 else i - 1) = (i - 1) % n := by
  split
  · have hi : i = 0 := by omega
    rw [hi]
    have e : (0 - 1 : Int) % n = (n - 1) % n := by
      have h := Int.add_mul_emod_self (a := (0 - 1 : Int)) (b := 1) (c := n)
      rw [← h]
      congr 1
      omega
    rw [e, Int.emod_eq_of_lt (by omega) (by omega)]
  · rw [Int.emod_eq_of_lt (by omega) (by omega)]

theorem succ_emod (i n : Int) (h0 : 0 ≤ i) (h1 : i < n) :
    (if i + 1 ≥ n then 0 else i + 1) = (i + 1) % n := by
  split
  · have hi : i + 1 = n := by omega
    rw [hi, Int.emod_self]
  · rw [Int.emod_eq_of_lt (by omega) (by omega)]

/-- C16. In the chat block, for a current node with `n ≥ 1` choices and a highlighted
index `i` in `[0, n)`: an accepted up input gives exactly the state with index
`(i - 1) mod n` and the input time stamped, and an accepted down input exactly the
state with index `(i + 1) mod n` and the input time stamped, so in either case no
second input (down, confirm) takes effect in the same step; an input arriving 200 ms
or less after the last accepted one leaves the whole state unchanged.  (Last part:
for a chatting state `Update` is this block, run after the NPC freeze, the clock and
the drain.) -/
theorem chat_navigation_wraps (inp : Input) (g : GameState) (nid : Nat)
    (node : ConversationNode) (hc : g.convNode = some nid) (hn : g.nodes[nid]? = some node)
    (hne : node.Choices ≠ []) (hfit : (node.Choices.length : Int) ≤ 9223372036854775807)
    (hi0 : 0 ≤ g.chatChoice) (hi1 : g.chatChoice < node.Choices.length) :
    (upAccepted inp g →
      chatStep inp g
        = .ok { g with
            chatChoice := (g.chatChoice - 1) % node.Choices.length
            lastChoiceTime := inp.chatNow }) ∧
    (downAccepted inp g →
      chatStep inp g
        = .ok { g with
            chatChoice := (g.chatChoice + 1) % node.Choices.length
            lastChoiceTime := inp.chatNow }) ∧
    (inp.chatNow - g.lastChoiceTime ≤ chatInputDelay → chatStep inp g = .ok g) ∧
    (∀ fuel : Nat, g.gameOver = false → g.chatting = true → MinutesOK g →
      0 ≤ g.lastDrain ∧ g.lastDrain < 1440 → 1440 ≤ fuel →
      ∃ g1, SameButClock g g1 ∧ Update fuel inp g = chatStep inp g1) := by
  obtain ⟨hrep, hcs⟩ := chatRepair_of_ne_nil nid node g hne
  refine ⟨?_, ?_, ?_, fun fuel hgo hchat hm hl hf => Update_chatting fuel inp g hgo hchat hm hl hf⟩
  · intro hup
    have hno : ¬ confirmAccepted inp g := fun h => by
      have h1 := hup.1
      rw [h.2.1] at h1
      cases h1
    rw [chatStep_no_commit inp g nid node hc hn hno, hrep, hcs]
    have e : chatUp inp node.Choices.length g
        = { g with
            chatChoice := (g.chatChoice - 1) % node.Choices.length
            lastChoiceTime := inp.chatNow } := by
      have hup2 : inp.arrowUp = true ∧ inp.chatNow - g.lastChoiceTime > chatInputDelay := hup
      unfold chatUp
      rw [if_pos hup2]
      simp only [subInt]
      rw [wrapInt_of_range _ (by omega) (by omega), pred_emod _ _ hi0 hi1]
    rw [e, chatDown_of_not inp _ _ (fun h => not_late_after_now inp.chatNow h.2)]
  · intro hdown
    have hno : ¬ confirmAccepted inp g := fun h => by
      have h1 := hdown.1
      rw [h.2.2.1] at h1
      cases h1
    rw [chatStep_no_commit inp g nid node hc hn hno, hrep, hcs,
      chatUp_of_not inp _ g (by rw [hdown.2.1]; simp)]
    unfold chatDown
    rw [if_pos ⟨hdown.1, hdown.2.2⟩]
    simp only [addInt]
    rw [wrapInt_of_range _ (by omega) (by omega), succ_emod _ _ hi0 hi1]
  · intro hsoon
    have hno : ¬ confirmAccepted inp g := fun h => by
      have := h.2.2.2
      omega
    rw [chatStep_no_commit inp g nid node hc hn hno, hrep, hcs,
      chatUp_of_not inp _ g (fun h => by have := h.2; omega),
      chatDown_of_not inp _ g (fun h => by have := h.2; omega)]

theorem fishEffect_skip (t : String) (c : ConversationChoice) (g : GameState)
    (h : ¬ (t = "You cast your line... (Nothing bites yet!)" ∧ c.Text = "Okay")) :
    fishEffect t c g = g := by
  unfold fishEffect
  rw [if_neg h]

theorem fishEffect_apply (t : String) (c : ConversationChoice) (g : GameState)
    (h : t = "You cast your line... (Nothing bites yet!)" ∧ c.Text = "Okay") :
    fishEffect t c g = { g with inventory := addToInventory "Fish" 1 g.inventory } := by
  unfold fishEffect
  rw [if_pos h]

/-- C17. In the chat block, with an accepted confirm input on the highlighted choice
`choice` of the current node: (1) on the node "You cut down the tree." with the choice
"Okay" and a pending tree recorded (layer `li`, tile index inside the layer), the step
returns a state whose map is the old one with that tile of that layer set to empty,
whose pending record is cleared and whose inventory is
`addToInventory "Wood" 10` of the old one; (2) on the node
"You cast your line... (Nothing bites yet!)" with the choice "Okay" the inventory is
`addToInventory "Fish" 1` of the old one and the map is unchanged; (3) on any other
(node text, choice text) pair the step returns with map and inventory unchanged.
(Last part: for a chatting state `Update` is this block, run after the NPC freeze, the
clock and the drain.) -/
theorem commit_side_effects (inp : Input) (g : GameState) (nid : Nat)
    (node : ConversationNode) (choice : ConversationChoice)
    (hc : g.convNode = some nid) (hn : g.nodes[nid]? = some node)
    (hacc : confirmAccepted inp g)
    (hchoice : sliceGet (repairedChoices node) (chatRepair nid node g).chatChoice = .ok choice) :
    (∀ (li : Nat) (layer : Layer), node.Text = "You cut down the tree." →
      choice.Text = "Okay" → g.pendingTreeLayer = some li →
      g.mapData.Layers[li]? = some layer → 0 ≤ g.pendingTreeTileIdx →
      g.pendingTreeTileIdx < layer.Tiles.length →
      ∃ g2, chatStep inp g = .ok g2 ∧
        g2.mapData = { g.mapData with
          Layers := g.mapData.Layers.set li
            { layer with Tiles := layer.Tiles.set g.pendingTreeTileIdx.toNat none } } ∧
        g2.pendingTreeLayer = none ∧ g2.pendingTreeTileIdx = 0 ∧
        g2.inventory = addToInventory "Wood" 10 g.inventory) ∧
    (node.Text = "You cast your line... (Nothing bites yet!)" → choice.Text = "Okay" →
      ∃ g2, chatStep inp g = .ok g2 ∧
        g2.inventory = addToInventory "Fish" 1 g.inventory ∧ g2.mapData = g.mapData) ∧
    (¬ (node.Text = "You cut down the tree." ∧ choice.Text = "Okay") →
      ¬ (node.Text = "You cast your line... (Nothing bites yet!)" ∧ choice.Text = "Okay") →
      ∃ g2, chatStep inp g = .ok g2 ∧ g2.mapData = g.mapData ∧ g2.inventory = g.inventory) ∧
    (∀ fuel : Nat, g.gameOver = false → g.chatting = true → MinutesOK g →
      0 ≤ g.lastDrain ∧ g.lastDrain < 1440 → 1440 ≤ fuel →
      ∃ g1, SameButClock g g1 ∧ Update fuel inp g = chatStep inp g1) := by
  obtain ⟨r1, r2, r3, r4⟩ := chatRepair_pending nid node g
  refine ⟨?_, ?_, ?_, fun fuel hgo hchat hm hl hf => Update_chatting fuel inp g hgo hchat hm hl hf⟩
  · intro li layer ht hok hp hl h0 h1
    have hnf : ¬ (node.Text = "You cast your line... (Nothing bites yet!)" ∧
        choice.Text = "Okay") := fun h => by
      have h2 := h.1
      rw [ht] at h2
      exact absurd h2 (by decide)
    rw [chatStep_commit inp g nid node choice hc hn hacc hchoice,
      treeEffect_apply node.Text choice (chatRepair nid node g) li layer ht hok
        (by rw [r1]; exact hp) (by rw [r3]; exact hl) (by rw [r2]; exact h0)
        (by rw [r2]; exact h1)]
    refine ⟨_, rfl, ?_⟩
    rw [fishEffect_skip _ _ _ hnf]
    obtain ⟨_, a2, a3, a4, a5⟩ := chatAdvance_fields inp.chatNow choice
      ({ chatRepair nid node g with
          mapData := { (chatRepair nid node g).mapData with
            Layers := (chatRepair nid node g).mapData.Layers.set li
              { layer with
                Tiles := layer.Tiles.set (chatRepair nid node g).pendingTreeTileIdx.toNat none } }
          pendingTreeLayer := none
          pendingTreeTileIdx := 0
          inventory := addToInventory "Wood" 10 (chatRepair nid node g).inventory } : GameState)
    refine ⟨?_, a4, a5, ?_⟩
    · refine a2.trans ?_
      simp only
      rw [r2, r3]
    · refine a3.trans ?_
      simp only
      rw [r4]
  · intro ht hok
    have hnt : ¬ (node.Text = "You cut down the tree." ∧ choice.Text = "Okay") := fun h => by
      have h2 := h.1
      rw [ht] at h2
      exact absurd h2 (by decide)
    rw [chatStep_commit inp g nid node choice hc hn hacc hchoice,
      treeEffect_skip _ _ _ hnt]
    refine ⟨_, rfl, ?_⟩
    rw [fishEffect_apply _ _ _ ⟨ht, hok⟩]
    obtain ⟨_, a2, a3, _, _⟩ := chatAdvance_fields inp.chatNow choice
      ({ chatRepair nid node g with
          inventory := addToInventory "Fish" 1 (chatRepair nid node g).inventory } : GameState)
    refine ⟨?_, ?_⟩
    · refine a3.trans ?_
      simp only
      rw [r4]
    · exact a2.trans r3
  · intro hnt hnf
    rw [chatStep_commit inp g nid node choice hc hn hacc hchoice,
      treeEffect_skip _ _ _ hnt]
    refine ⟨_, rfl, ?_⟩
    rw [fishEffect_skip _ _ _ hnf]
    obtain ⟨_, a2, a3, _, _⟩ := chatAdvance_fields inp.chatNow choice (chatRepair nid node g)
    exact ⟨a2.trans r3, a3.trans r4⟩

/-- For a chatting state with the game not over, `Update` is the chat block run on a
state that differs from the one before only in the NPCs, the cached trees layer, the
clock and the drained bars, and whose minute counter is in range and drained up to. -/
theorem Update_chatting_clock (fuel : Nat) (inp : Input) (g : GameState)
    (hgo : g.gameOver = false) (hc : g.chatting = true) (hm : MinutesOK g)
    (hl : 0 ≤ g.lastDrain ∧ g.lastDrain < 1440) (hfuel : 1440 ≤ fuel) :
    ∃ g1, SameButClock g g1 ∧ Update fuel inp g = chatStep inp g1 ∧ MinutesOK g1 ∧
      g1.lastDrain = g1.gameMinutes := by
  obtain ⟨npcs, hnpcs⟩ : ∃ r, npcPhase inp (cacheTreesLayer g) = .ok r := by
    unfold npcPhase
    exact npcLoop_chatting inp _ (by rw [cacheTreesLayer_chatting]; exact hc) _ _ _
  obtain ⟨f1, _, _, _, _, f6⟩ := cacheTreesLayer_fields g npcs
  have hmin1 : MinutesOK ({ cacheTreesLayer g with npcs := npcs } : GameState) := by
    unfold MinutesOK; rw [f1]; exact hm
  have hmin2 := clockTick_minutesOK inp.tickNow _ hmin1
  have hld2 : 0 ≤ (clockTick inp.tickNow { cacheTreesLayer g with npcs := npcs }).lastDrain ∧
      (clockTick inp.tickNow { cacheTreesLayer g with npcs := npcs }).lastDrain < 1440 := by
    rw [(clockTick_bars inp.tickNow _).2.2.2.1, f6]; exact hl
  obtain ⟨g1, hg1⟩ := drain_returns fuel _ hmin2 hld2 hfuel
  obtain ⟨hsame, _⟩ := entry_same fuel inp.tickNow g g1 npcs hg1
  obtain ⟨b, hb, hgb⟩ := drain_eq fuel _ g1 hg1
  obtain ⟨_, _, hb3⟩ := drainLoop_bars _ _ _ _ hb
  have hgm : g1.gameMinutes
      = (clockTick inp.tickNow { cacheTreesLayer g with npcs := npcs }).gameMinutes := by
    rw [hgb]
  have hld : g1.lastDrain = b.2.2 := by rw [hgb]
  refine ⟨g1, hsame, ?_, ?_, ?_⟩
  · unfold Update
    rw [if_neg (by rw [hgo]; simp)]
    simp only [hnpcs, hg1]
    rw [if_pos (by rw [hsame.2.1]; exact hc)]
  · unfold MinutesOK
    rw [hgm]
    exact hmin2
  · rw [hld, hb3, hgm]

theorem chatUp_clock (inp : Input) (n : Int) (g : GameState) :
    (chatUp inp n g).gameOver = g.gameOver ∧ (chatUp inp n g).gameMinutes = g.gameMinutes ∧
    (chatUp inp n g).lastDrain = g.lastDrain := by
  unfold chatUp
  split <;> exact ⟨rfl, rfl, rfl⟩

theorem chatDown_clock (inp : Input) (n : Int) (g : GameState) :
    (chatDown inp n g).gameOver = g.gameOver ∧
    (chatDown inp n g).gameMinutes = g.gameMinutes ∧
    (chatDown inp n g).lastDrain = g.lastDrain := by
  unfold chatDown
  split <;> exact ⟨rfl, rfl, rfl⟩

theorem getElem?_set_same {α : Type} (l : List α) (i : Nat) (a b : α) (h : l[i]? = some a) :
    (l.set i b)[i]? = some b := by
  induction l generalizing i with
  | nil => simp at h
  | cons x xs ih =>
    cases i with
    | zero => simp
    | succ k =>
      simp only [List.set_cons_succ, List.getElem?_cons_succ] at h ⊢
      exact ih k h

/-- On a current node with an empty choice list the chat block is the chat block on
the repaired state. -/
theorem chatStep_after_repair (inp : Input) (g : GameState) (nid : Nat)
    (node : ConversationNode) (hc : g.convNode = some nid) (hn : g.nodes[nid]? = some node)
    (he : node.Choices = []) :
    chatStep inp g
      = chatStep inp
          { g with nodes := g.nodes.set nid ⟨node.Text, [goodbyeChoice]⟩, chatChoice := 0 } := by
  have hlen : node.Choices.length = 0 := by rw [he]; rfl
  have hR : chatRepair nid node g
      = { g with nodes := g.nodes.set nid ⟨node.Text, [goodbyeChoice]⟩, chatChoice := 0 } := by
    unfold chatRepair
    rw [if_pos hlen]
  have hcs : repairedChoices node = [goodbyeChoice] := by
    unfold repairedChoices
    rw [if_pos hlen]
  have hne : (⟨node.Text, [goodbyeChoice]⟩ : ConversationNode).Choices ≠ [] :=
    List.cons_ne_nil _ _
  obtain ⟨hrep2, hcs2⟩ := chatRepair_of_ne_nil nid ⟨node.Text, [goodbyeChoice]⟩
    ({ g with nodes := g.nodes.set nid ⟨node.Text, [goodbyeChoice]⟩, chatChoice := 0 } :
      GameState) hne
  have e2 := chatStep_eq inp
    ({ g with nodes := g.nodes.set nid ⟨node.Text, [goodbyeChoice]⟩, chatChoice := 0 } :
      GameState) nid ⟨node.Text, [goodbyeChoice]⟩ hc
      (getElem?_set_same g.nodes nid node _ hn)
  rw [chatStep_eq inp g nid node hc hn, e2, hR, hcs, hrep2, hcs2]

/-- The chat block on a node whose only choice is the synthetic "Goodbye": an accepted
confirm ends the conversation, anything else leaves it on the node with index 0. -/
theorem goodbye_step (inp : Input) (g : GameState) (nid : Nat) (t : String)
    (hc : g.convNode = some nid) (hn : g.nodes[nid]? = some ⟨t, [goodbyeChoice]⟩)
    (hi : g.chatChoice = 0) (hchat : g.chatting = true) :
    ∃ g2, chatStep inp g = .ok g2 ∧ g2.nodes = g.nodes ∧ g2.chatChoice = 0 ∧
      g2.gameOver = g.gameOver ∧ g2.gameMinutes = g.gameMinutes ∧
      g2.lastDrain = g.lastDrain ∧
      (confirmAccepted inp g → g2.chatting = false ∧ g2.convNode = none ∧ g2.chatNPC = none) ∧
      (¬ confirmAccepted inp g → g2.chatting = true ∧ g2.convNode = some nid) := by
  have hne : (⟨t, [goodbyeChoice]⟩ : ConversationNode).Choices ≠ [] := List.cons_ne_nil _ _
  obtain ⟨hrep, hcs⟩ := chatRepair_of_ne_nil nid ⟨t, [goodbyeChoice]⟩ g hne
  have hcs1 : repairedChoices ⟨t, [goodbyeChoice]⟩ = [goodbyeChoice] := hcs
  by_cases hacc : confirmAccepted inp g
  · have hchoice : sliceGet (repairedChoices ⟨t, [goodbyeChoice]⟩)
        (chatRepair nid ⟨t, [goodbyeChoice]⟩ g).chatChoice = .ok goodbyeChoice := by
      rw [hrep, hcs1, hi]
      rfl
    have hnt : ¬ ((⟨t, [goodbyeChoice]⟩ : ConversationNode).Text = "You cut down the tree." ∧
        goodbyeChoice.Text = "Okay") := fun h => absurd h.2 (by decide)
    have hnf : ¬ ((⟨t, [goodbyeChoice]⟩ : ConversationNode).Text
          = "You cast your line... (Nothing bites yet!)" ∧
        goodbyeChoice.Text = "Okay") := fun h => absurd h.2 (by decide)
    rw [chatStep_commit inp g nid _ goodbyeChoice hc hn hacc hchoice, hrep,
      treeEffect_skip _ _ _ hnt]
    simp only
    rw [fishEffect_skip _ _ _ hnf, chatAdvance_end inp.chatNow goodbyeChoice g (Or.inl rfl)]
    exact ⟨_, rfl, rfl, hi, rfl, rfl, rfl, fun _ => ⟨rfl, rfl, rfl⟩, fun h => absurd hacc h⟩
  · rw [chatStep_no_commit inp g nid _ hc hn hacc, hrep, hcs1]
    refine ⟨_, rfl, ?_⟩
    have s1 := chatUp_sameTalk inp ([goodbyeChoice].length : Int) g
    have s2 := chatDown_sameTalk inp ([goodbyeChoice].length : Int)
      (chatUp inp ([goodbyeChoice].length : Int) g)
    have c1 := chatUp_clock inp ([goodbyeChoice].length : Int) g
    have c2 := chatDown_clock inp ([goodbyeChoice].length : Int)
      (chatUp inp ([goodbyeChoice].length : Int) g)
    have i1 := chatUp_index inp ([goodbyeChoice].length : Int) g (by simp)
      (by rw [hi]; simp)
    have i2 := chatDown_index inp ([goodbyeChoice].length : Int) _ (by simp) i1
    refine ⟨s2.1.trans s1.1, ?_, c2.1.trans c1.1, c2.2.1.trans c1.2.1,
      c2.2.2.trans c1.2.2, fun h => absurd h hacc, fun _ => ⟨?_, ?_⟩⟩
    · have hlen : (([goodbyeChoice] : List ConversationChoice).length : Int) = 1 := by simp
      omega
    · rw [s2.2.2.1, s1.2.2.1, hchat]
    · rw [s2.2.1, s1.2.1, hc]

/-- C14. For a chatting state (game not over, clock in range) whose current node exists
and has an empty choice list, one `Update` step with enough fuel returns a state in
which that node has exactly the one choice "Goodbye" with no next node and the
highlighted index is 0.  When the confirm input is accepted in that same step the
conversation is already over; otherwise the state is still chatting on that node and
every later `Update` step with an accepted confirm input ends the conversation. -/
theorem empty_choices_get_goodbye (fuel : Nat) (inp : Input) (g : GameState) (nid : Nat)
    (node : ConversationNode) (hgo : g.gameOver = false) (hchat : g.chatting = true)
    (hc : g.convNode = some nid) (hn : g.nodes[nid]? = some node)
    (he : node.Choices = []) (hm : MinutesOK g)
    (hl : 0 ≤ g.lastDrain ∧ g.lastDrain < 1440) (hfuel : 1440 ≤ fuel) :
    ∃ g2, Update fuel inp g = .ok g2 ∧
      g2.nodes = g.nodes.set nid ⟨node.Text, [⟨"Goodbye", none⟩]⟩ ∧
      g2.nodes[nid]? = some ⟨node.Text, [⟨"Goodbye", none⟩]⟩ ∧
      g2.chatChoice = 0 ∧
      (confirmAccepted inp g → g2.chatting = false ∧ g2.convNode = none) ∧
      (¬ confirmAccepted inp g → g2.chatting = true ∧ g2.convNode = some nid ∧
        ∀ inp2 : Input, confirmAccepted inp2 g2 →
          ∃ g3, Update fuel inp2 g2 = .ok g3 ∧ g3.chatting = false ∧ g3.convNode = none ∧
            g3.chatNPC = none) := by
  obtain ⟨g1, hsame, hupd, hm1, hld1⟩ := Update_chatting_clock fuel inp g hgo hchat hm hl hfuel
  obtain ⟨_, s2, s3, s4, _, s6, _, _, _, _, _, _, _, _, _, s16, _⟩ := hsame
  have hc1 : g1.convNode = some nid := s3.trans hc
  have hn1 : g1.nodes[nid]? = some node := by rw [s4]; exact hn
  have hacc1 : confirmAccepted inp g1 ↔ confirmAccepted inp g := by
    unfold confirmAccepted
    rw [s6]
  obtain ⟨g2, hg2, n2, i2, go2, gm2, ld2, a2, b2⟩ := goodbye_step inp
    ({ g1 with nodes := g1.nodes.set nid ⟨node.Text, [goodbyeChoice]⟩, chatChoice := 0 } :
      GameState) nid node.Text hc1 (getElem?_set_same g1.nodes nid node _ hn1) rfl
    (s2.trans hchat)
  have hn2 : g2.nodes = g.nodes.set nid ⟨node.Text, [goodbyeChoice]⟩ := by
    rw [n2]
    simp only
    rw [s4]
  have hn2get : g2.nodes[nid]? = some ⟨node.Text, [goodbyeChoice]⟩ := by
    rw [hn2]
    exact getElem?_set_same g.nodes nid node _ hn
  refine ⟨g2, ?_, hn2, hn2get, i2, ?_, ?_⟩
  · rw [hupd, chatStep_after_repair inp g1 nid node hc1 hn1 he]
    exact hg2
  · intro hacc
    obtain ⟨h1, h2, _⟩ := a2 (hacc1.2 hacc)
    exact ⟨h1, h2⟩
  · intro hacc
    obtain ⟨h1, h2⟩ := b2 (fun h => hacc (hacc1.1 h))
    refine ⟨h1, h2, ?_⟩
    intro inp2 hacc2
    have hgo2 : g2.gameOver = false := by rw [go2]; exact s16.trans hgo
    have hm2 : MinutesOK g2 := by
      unfold MinutesOK
      rw [gm2]
      exact hm1
    have hl2 : 0 ≤ g2.lastDrain ∧ g2.lastDrain < 1440 := by
      rw [ld2]
      simp only
      rw [hld1]
      exact hm1
    obtain ⟨g3, hsame3, hupd3, _, _⟩ :=
      Update_chatting_clock fuel inp2 g2 hgo2 h1 hm2 hl2 hfuel
    obtain ⟨_, t2, t3, t4, t5, t6, _⟩ := hsame3
    obtain ⟨g4, hg4, _, _, _, _, _, a4, _⟩ := goodbye_step inp2 g3 nid node.Text
      (t3.trans h2) (by rw [t4]; exact hn2get) (t5.trans i2) (t2.trans h1)
    have hacc3 : confirmAccepted inp2 g3 := by
      unfold confirmAccepted at hacc2 ⊢
      rw [t6]
      exact hacc2
    obtain ⟨e1, e2, e3⟩ := a4 hacc3
    exact ⟨g4, by rw [hupd3]; exact hg4, e1, e2, e3⟩

/-! ## Instances of the chat block theorems -/

/-- C14: an instance (a node with no choice, no key pressed: the node gets the one
choice "Goodbye" and the index is 0). -/
theorem empty_choices_get_goodbye_witness :
    ∃ g2, Update 1440 (idleInput 1000000000) emptyChat = .ok g2 ∧
      g2.nodes[0]? = some ⟨"...", [⟨"Goodbye", none⟩]⟩ ∧ g2.chatChoice = 0 := by
  obtain ⟨g2, h1, _, h3, h4, _⟩ := empty_choices_get_goodbye 1440 (idleInput 1000000000)
    emptyChat 0 ⟨"...", []⟩ (by decide) (by decide) (by decide) (by decide) rfl
    ⟨by decide, by decide⟩ ⟨by decide, by decide⟩ (by decide)
  exact ⟨g2, h1, h3, h4⟩

/-- C15: an instance (Space on "How interesting, ..." of the Kid's closing node: the
conversation moves to the root node 4 with index 0 and goes on). -/
theorem commit_ends_or_advances_witness :
    ∃ g2, chatStep (confirmInput 1000000000) kidChat = .ok g2 ∧
      g2.convNode = some 4 ∧ g2.chatChoice = 0 ∧ g2.chatting = true := by
  obtain ⟨⟨g2, h1, _, _, h4⟩, _⟩ := commit_ends_or_advances (confirmInput 1000000000) kidChat 0
    seeYouLater ⟨"How interesting, I wanted to ask you about something else...", some 4⟩
    (by decide) (by decide) (by decide) ⟨rfl, rfl, rfl, by decide⟩ rfl
    (fun _ h => Option.noConfusion ((by decide : kidChat.pendingTreeLayer = none).symm.trans h))
  obtain ⟨e1, e2, e3, _⟩ := h4 (by decide)
  exact ⟨g2, h1, e1, e2, e3⟩

/-- C16: an instance (Down on the last of the two choices of the Kid's closing node:
the index wraps from 1 to 0). -/
theorem chat_navigation_wraps_witness :
    ∃ g2, chatStep (downInput 1000000000) kidChat = .ok g2 ∧ g2.chatChoice = 0 :=
  ⟨_, (chat_navigation_wraps (downInput 1000000000) kidChat 0 seeYouLater (by decide)
      (by decide) (by decide) (by decide) (by decide) (by decide)).2.1
      ⟨rfl, rfl, by decide⟩, by decide⟩

/-- C17: an instance (Space on "Okay" of "You cut down the tree." with the tree of the
example map pending: the pending record is cleared and the Wood is added). -/
theorem commit_side_effects_witness :
    ∃ g2, chatStep (confirmInput 1000000000) treeChat = .ok g2 ∧
      g2.pendingTreeLayer = none ∧
      g2.inventory = addToInventory "Wood" 10 treeChat.inventory ∧
      g2.mapData.Layers[1]? = some ⟨"Trees", true, List.replicate 16 none⟩ := by
  obtain ⟨g2, h1, h2, h3, _, h5⟩ := (commit_side_effects (confirmInput 1000000000) treeChat 1
    ⟨"You cut down the tree.", [⟨"Okay", none⟩]⟩ ⟨"Okay", none⟩ (by decide) (by decide)
    ⟨rfl, rfl, rfl, by decide⟩ rfl).1 1 sampleTrees rfl rfl (by decide) (by decide)
    (by decide) (by decide)
  refine ⟨g2, h1, h3, h5, ?_⟩
  rw [h2]
  decide

/-! ## The exploring part of `Update` in detail -/

/-- For a state that is not chatting, with the game not over, `Update` is the exploring
part run on a state that has the NPCs the NPC loop leaves and differs from the one
before, besides them, only in the cached trees layer, the clock and the drained bars. -/
theorem Update_exploring (fuel : Nat) (inp : Input) (g : GameState)
    (hgo : g.gameOver = false) (hc : g.chatting = false) (hmap : MapOK g.mapData)
    (hm : MinutesOK g) (hl : 0 ≤ g.lastDrain ∧ g.lastDrain < 1440) (hfuel : 1440 ≤ fuel) :
    ∃ npcs g1, npcPhase inp (cacheTreesLayer g) = .ok npcs ∧ SameButClock g g1 ∧
      g1.npcs = npcs ∧ Update fuel inp g = exploreStep inp g1 := by
  obtain ⟨npcs, hnpcs⟩ := npcPhase_ok inp g hmap
  obtain ⟨f1, _, _, _, _, f6⟩ := cacheTreesLayer_fields g npcs
  have hmin1 : MinutesOK ({ cacheTreesLayer g with npcs := npcs } : GameState) := by
    unfold MinutesOK; rw [f1]; exact hm
  have hmin2 := clockTick_minutesOK inp.tickNow _ hmin1
  have hld2 : 0 ≤ (clockTick inp.tickNow { cacheTreesLayer g with npcs := npcs }).lastDrain ∧
      (clockTick inp.tickNow { cacheTreesLayer g with npcs := npcs }).lastDrain < 1440 := by
    rw [(clockTick_bars inp.tickNow _).2.2.2.1, f6]; exact hl
  obtain ⟨g1, hg1⟩ := drain_returns fuel _ hmin2 hld2 hfuel
  obtain ⟨hsame, hn⟩ := entry_same fuel inp.tickNow g g1 npcs hg1
  refine ⟨npcs, g1, hnpcs, hsame, hn, ?_⟩
  unfold Update
  rw [if_neg (by rw [hgo]; simp)]
  simp only [hnpcs, hg1]
  rw [if_neg (by rw [hsame.2.1, hc]; simp)]

theorem interactStep_no_space (inp : Input) (g : GameState) (hs : inp.space = false) :
    interactStep inp g = .ok g := by
  unfold interactStep
  rw [if_neg (by rw [hs]; simp)]

/-- With Space not pressed and the inventory closed the exploring part is the movement. -/
theorem exploreStep_no_space (inp : Input) (g : GameState) (hs : inp.space = false)
    (hio : g.inventoryOpen = false) : exploreStep inp g = moveStep inp g := by
  have h1 : inventoryOpens inp g = .ok false := by
    unfold inventoryOpens
    rw [if_neg (by rw [hs]; simp)]
  have h2 : inventoryInteraction g.toGame (inventoryKeys inp) inp.invNow = none := by
    unfold inventoryInteraction
    rw [if_neg (by rw [hio]; simp)]
  unfold exploreStep
  rw [h1]
  simp only [h2]
  cases hmv : moveStep inp g with
  | error e => rfl
  | ok g1 => exact interactStep_no_space inp g1 hs

theorem animatePlayer_fields (g : GameState) :
    (animatePlayer g).playerDir = g.playerDir ∧ (animatePlayer g).playerPos = g.playerPos ∧
    (animatePlayer g).npcs = g.npcs := by
  unfold animatePlayer
  split
  · simp only
    split <;> exact ⟨rfl, rfl, rfl⟩
  · exact ⟨rfl, rfl, rfl⟩

theorem playerBlocked_congr (g g2 : GameState) (p : Point) (hm : g2.mapData = g.mapData)
    (hn : g2.npcs = g.npcs) : playerBlocked g2 p = playerBlocked g p := by
  unfold playerBlocked
  rw [hm, hn]

theorem playerBlocked_ok (g : GameState) (p : Point) (hm : MapOK g.mapData) :
    ∃ b, playerBlocked g p = .ok b := by
  unfold playerBlocked
  simp only
  obtain ⟨b, hb⟩ := layersBlocked_ok (playerConsults g.mapData) g.mapData hm
    (centerCell p.X p.Y).1 (centerCell p.X p.Y).2 g.mapData.Layers hm.2.2.2
  rw [hb]
  exact ⟨_, rfl⟩

/-- The movement on a state whose blocking test gives `b`: the facing code is the one
the keys give, and the position is the clamped destination unless blocked. -/
theorem moveStep_eq (inp : Input) (g : GameState) (b : Bool)
    (hb : playerBlocked g (clampPos g.mapData (intendedPos inp g.playerPos)) = .ok b) :
    ∃ g2, moveStep inp g = .ok g2 ∧ g2.playerDir = facingAfterKeys inp g.playerDir ∧
      g2.playerPos
        = (if b = true then g.playerPos else clampPos g.mapData (intendedPos inp g.playerPos)) ∧
      g2.npcs = g.npcs := by
  have hb2 : playerBlocked
      ({ g with
        playerDir := facingAfterKeys inp g.playerDir
        moving := g.moving || inp.arrowLeft || inp.arrowRight || inp.arrowUp ||
          inp.arrowDown } : GameState)
      (clampPos g.mapData (intendedPos inp g.playerPos)) = .ok b := by
    exact (playerBlocked_congr g _ _ rfl rfl).trans hb
  unfold moveStep
  simp only
  rw [hb2]
  refine ⟨_, rfl, ?_⟩
  obtain ⟨a1, a2, a3⟩ := animatePlayer_fields
    (if b = true then
      ({ g with
        playerDir := facingAfterKeys inp g.playerDir
        moving := g.moving || inp.arrowLeft || inp.arrowRight || inp.arrowUp ||
          inp.arrowDown } : GameState)
    else
      { g with
        playerDir := facingAfterKeys inp g.playerDir
        moving := g.moving || inp.arrowLeft || inp.arrowRight || inp.arrowUp ||
          inp.arrowDown
        playerPos := clampPos g.mapData (intendedPos inp g.playerPos) })
  rw [a1, a2, a3]
  cases b <;> exact ⟨rfl, rfl, rfl⟩

theorem animateNPC_fields (n : NPC) :
    (animateNPC n).pos = n.pos ∧ (animateNPC n).name = n.name ∧
    (animateNPC n).dir = n.dir ∧ (animateNPC n).target = n.target ∧
    (animateNPC n).moving = n.moving := by
  unfold animateNPC
  simp only
  split <;> exact ⟨rfl, rfl, rfl, rfl, rfl⟩

/-- The loop body leaves an idle NPC where it is. -/
theorem npcTurn_idle (inp : Input) (g : GameState) (npcs : List NPC) (i : Nat) (npc npc2 : NPC)
    (hc : g.chatting = false) (hm : npc.moving = false)
    (h : npcTurn inp g npcs i npc = .ok npc2) :
    npc2.pos = npc.pos ∧ npc2.name = npc.name := by
  unfold npcTurn at h
  rw [if_neg (by rw [hc]; simp), if_pos hm] at h
  simp only at h
  split at h
  · split at h
    · cases h
    · cases h
      exact ⟨(animateNPC_fields _).1, (animateNPC_fields _).2.1⟩
    · cases h
      exact ⟨(animateNPC_fields _).1, (animateNPC_fields _).2.1⟩
  · cases h
    exact ⟨(animateNPC_fields _).1, (animateNPC_fields _).2.1⟩

theorem map_set_same {α β : Type} (f : α → β) (l : List α) (i : Nat) (a b : α)
    (h : l[i]? = some a) (hf : f b = f a) : (l.set i b).map f = l.map f := by
  induction l generalizing i with
  | nil => rfl
  | cons x xs ih =>
    cases i with
    | zero =>
      simp only [List.getElem?_cons_zero, Option.some.injEq] at h
      simp only [List.set_cons_zero, List.map_cons, hf, h]
    | succ k =>
      simp only [List.getElem?_cons_succ] at h
      simp only [List.set_cons_succ, List.map_cons, ih k h]

theorem getElem?_set_other {α : Type} (l : List α) (i j : Nat) (b : α) (h : i ≠ j) :
    (l.set i b)[j]? = l[j]? := by
  induction l generalizing i j with
  | nil => rfl
  | cons x xs ih =>
    cases i with
    | zero =>
      cases j with
      | zero => exact absurd rfl h
      | succ m => rfl
    | succ k =>
      cases j with
      | zero => simp only [List.set_cons_succ, List.getElem?_cons_zero]
      | succ m =>
        simp only [List.set_cons_succ, List.getElem?_cons_succ]
        exact ih k m (fun e => h (by rw [e]))

/-- When no NPC is moving and the game is not chatting, the NPC loop leaves every NPC
at its position, under its name. -/
theorem npcLoop_idle (inp : Input) (g : GameState) (hc : g.chatting = false) (k : Nat) :
    ∀ (i : Nat) (cur out : List NPC),
      (∀ (j : Nat) (n : NPC), i ≤ j → cur[j]? = some n → n.moving = false) →
      npcLoop inp g k i cur = .ok out →
      out.map (fun n => (n.pos, n.name)) = cur.map (fun n => (n.pos, n.name)) := by
  induction k with
  | zero =>
    intro i cur out _ h
    simp only [npcLoop] at h
    cases h
    rfl
  | succ k ih =>
    intro i cur out hidle h
    simp only [npcLoop] at h
    split at h
    · cases h
      rfl
    · rename_i npc hnpc
      split at h
      · cases h
      · rename_i npc2 hturn
        obtain ⟨hp, hn⟩ := npcTurn_idle inp g cur i npc npc2 hc (hidle i npc (Nat.le_refl i) hnpc)
          hturn
        have hrest := ih (i + 1) (cur.set i npc2) out
          (fun j n hj hjn => hidle j n (by omega)
            (by rw [getElem?_set_other cur i j npc2 (by omega)] at hjn; exact hjn)) h
        rw [hrest]
        exact map_set_same (fun n => (n.pos, n.name)) cur i npc npc2 hnpc (by simp only [hp, hn])

theorem isFacingNPC_pos (p : Point) (n n2 : NPC) (h : n2.pos = n.pos) :
    isFacingNPC p n2 = isFacingNPC p n := by
  unfold isFacingNPC
  rw [h]

/-- The first NPC within reach is at the same index in a list of NPCs with the same
positions and names. -/
theorem firstFacing_map (p : Point) (i : Nat) (npc : NPC) :
    ∀ (l l2 : List NPC) (s : Nat),
      l2.map (fun n => (n.pos, n.name)) = l.map (fun n => (n.pos, n.name)) →
      firstFacing p s l = some (i, npc) →
      ∃ npc2, firstFacing p s l2 = some (i, npc2) ∧ npc2.pos = npc.pos ∧
        npc2.name = npc.name := by
  intro l
  induction l with
  | nil =>
    intro l2 s _ h
    simp only [firstFacing] at h
    cases h
  | cons x xs ih =>
    intro l2 s hmap h
    cases l2 with
    | nil => simp at hmap
    | cons y ys =>
      simp only [List.map_cons, List.cons.injEq, Prod.mk.injEq] at hmap
      obtain ⟨⟨hp, hn⟩, hrest⟩ := hmap
      simp only [firstFacing] at h ⊢
      rw [isFacingNPC_pos p x y hp]
      split
      · rename_i hf
        rw [if_pos hf] at h
        simp only [Option.some.injEq, Prod.mk.injEq] at h
        obtain ⟨h1, h2⟩ := h
        refine ⟨y, by rw [h1], ?_, ?_⟩
        · rw [hp, h2]
        · rw [hn, h2]
      · rename_i hf
        rw [if_neg hf] at h
        exact ih ys (s + 1) hrest h

theorem firstFacing_any (p : Point) :
    ∀ (l : List NPC) (s : Nat) (x : Nat × NPC), firstFacing p s l = some x →
      l.any (isFacingNPC p) = true := by
  intro l
  induction l with
  | nil =>
    intro s x h
    simp only [firstFacing] at h
    cases h
  | cons a as ih =>
    intro s x h
    simp only [firstFacing] at h
    simp only [List.any_cons, Bool.or_eq_true]
    split at h
    · rename_i hf
      exact Or.inl hf
    · exact Or.inr (ih (s + 1) x h)

theorem firstFacing_getElem (p : Point) :
    ∀ (l : List NPC) (s i : Nat) (npc : NPC), firstFacing p s l = some (i, npc) →
      s ≤ i ∧ l[i - s]? = some npc := by
  intro l
  induction l with
  | nil =>
    intro s i npc h
    simp only [firstFacing] at h
    cases h
  | cons a as ih =>
    intro s i npc h
    simp only [firstFacing] at h
    split at h
    · simp only [Option.some.injEq, Prod.mk.injEq] at h
      obtain ⟨h1, h2⟩ := h
      rw [← h1, h2]
      simp
    · obtain ⟨h1, h2⟩ := ih (s + 1) i npc h
      refine ⟨by omega, ?_⟩
      have e : i - s = (i - (s + 1)) + 1 := by omega
      rw [e, List.getElem?_cons_succ]
      exact h2

theorem quoInt_tileSize_two : quoInt tileSize 2 = 7 := by decide

theorem quoInt_three_halves : quoInt (mulInt tileSize 3) 2 = 22 := by decide

/-- With the corners in order `image.Rect` swaps nothing. -/
theorem rect_of_le (x0 y0 x1 y1 : Int) (hx : x0 ≤ x1) (hy : y0 ≤ y1) :
    Rect x0 y0 x1 y1 = ⟨⟨x0, y0⟩, ⟨x1, y1⟩⟩ := by
  have hx2 : ¬ x0 > x1 := by omega
  have hy2 : ¬ y0 > y1 := by omega
  unfold Rect
  simp only [if_neg hx2, if_neg hy2]

/-- An NPC exactly one tile from the player along one axis is within reach. -/
theorem isFacingNPC_oneTileAway (p : Point) (n : NPC) (hp : SmallPoint p)
    (h : OneTileAway p n) : isFacingNPC p n = true := by
  obtain ⟨b1, b2, b3, b4⟩ := hp
  unfold OneTileAway tileSize at h
  unfold isFacingNPC actorRect
  rw [quoInt_tileSize_two, quoInt_three_halves]
  simp only [addInt, subInt, tileSize]
  rw [wrapInt_of_range (p.X + 15) (by omega) (by omega),
    wrapInt_of_range (p.Y + 15) (by omega) (by omega),
    wrapInt_of_range (n.pos.X - 7) (by omega) (by omega),
    wrapInt_of_range (n.pos.Y - 7) (by omega) (by omega),
    wrapInt_of_range (n.pos.X + 22) (by omega) (by omega),
    wrapInt_of_range (n.pos.Y + 22) (by omega) (by omega)]
  rw [rect_of_le p.X p.Y (p.X + 15) (p.Y + 15) (by omega) (by omega),
    rect_of_le (n.pos.X - 7) (n.pos.Y - 7) (n.pos.X + 22) (n.pos.Y + 22) (by omega) (by omega)]
  simp only [Rectangle.Overlaps, Rectangle.Empty, Bool.and_eq_true, Bool.not_eq_true',
    Bool.or_eq_false_iff, decide_eq_false_iff_not, decide_eq_true_eq]
  omega

theorem firstFacing_intro (p : Point) :
    ∀ (l : List NPC) (s i : Nat) (npc : NPC), l[i]? = some npc → isFacingNPC p npc = true →
      (∀ (j : Nat) (n : NPC), j < i → l[j]? = some n → isFacingNPC p n = false) →
      firstFacing p s l = some (s + i, npc) := by
  intro l
  induction l with
  | nil =>
    intro s i npc h
    simp at h
  | cons a as ih =>
    intro s i npc h hf hfirst
    simp only [firstFacing]
    cases i with
    | zero =>
      simp only [List.getElem?_cons_zero, Option.some.injEq] at h
      rw [h, if_pos hf]
      rfl
    | succ k =>
      have ha : isFacingNPC p a = false := hfirst 0 a (by omega) (List.getElem?_cons_zero)
      rw [if_neg (by rw [ha]; simp)]
      simp only [List.getElem?_cons_succ] at h
      have e : s + (k + 1) = (s + 1) + k := by omega
      rw [e]
      exact ih (s + 1) k npc h hf
        (fun j n hj hjn => hfirst (j + 1) n (by omega) (by simpa using hjn))

theorem cacheTreesLayer_npcs (g : GameState) : (cacheTreesLayer g).npcs = g.npcs := by
  unfold cacheTreesLayer
  split <;> rfl

theorem animatePlayer_talk (g : GameState) :
    (animatePlayer g).lastChatEnd = g.lastChatEnd ∧
    (animatePlayer g).conversations = g.conversations ∧
    (animatePlayer g).nodes = g.nodes ∧ (animatePlayer g).chatting = g.chatting := by
  unfold animatePlayer
  split
  · simp only
    split <;> exact ⟨rfl, rfl, rfl, rfl⟩
  · exact ⟨rfl, rfl, rfl, rfl⟩

theorem moveStep_talk (inp : Input) (g g2 : GameState) (h : moveStep inp g = .ok g2) :
    g2.lastChatEnd = g.lastChatEnd ∧ g2.conversations = g.conversations ∧
    g2.nodes = g.nodes ∧ g2.chatting = g.chatting := by
  unfold moveStep at h
  simp only at h
  split at h
  · cases h
  · cases h
    obtain ⟨a1, a2, a3, a4⟩ := animatePlayer_talk
      (if (_ : Bool) = true then (_ : GameState) else _)
    rw [a1, a2, a3, a4]
    split <;> exact ⟨rfl, rfl, rfl, rfl⟩

theorem intendedPos_no_keys (inp : Input) (p : Point) (h1 : inp.arrowLeft = false)
    (h2 : inp.arrowRight = false) (h3 : inp.arrowUp = false) (h4 : inp.arrowDown = false) :
    intendedPos inp p = p := by
  unfold intendedPos
  simp [h1, h2, h3, h4]

theorem facingAfterKeys_no_keys (inp : Input) (d : Int) (h1 : inp.arrowLeft = false)
    (h2 : inp.arrowRight = false) (h3 : inp.arrowUp = false) (h4 : inp.arrowDown = false) :
    facingAfterKeys inp d = d := by
  unfold facingAfterKeys
  simp [h1, h2, h3, h4]

/-- What the start of a conversation with the NPC `npc` at index `i` sets. -/
theorem startChat_fields (inp : Input) (g : GameState) (i : Nat) (npc : NPC) :
    (startChat inp g i npc).chatting = true ∧ (startChat inp g i npc).chatNPC = some i ∧
    (startChat inp g i npc).chatChoice = 0 ∧
    (startChat inp g i npc).playerDir = (faceEachOther g.playerPos g.playerDir npc).1 ∧
    (startChat inp g i npc).npcs
      = g.npcs.set i { npc with dir := (faceEachOther g.playerPos g.playerDir npc).2 } ∧
    (startChat inp g i npc).convNode
      = conversationRoot (startChat inp g i npc).conversations npc.name ∧
    (startChat inp g i npc).conversations
      = (if g.conversations = none then (initConversations g).conversations
          else g.conversations) ∧
    (startChat inp g i npc).playerPos = g.playerPos := by
  unfold startChat
  by_cases hnone : g.conversations = none
  · simp [hnone, initConversations]
  · simp [hnone]

theorem initConversations_conversations (g g2 : GameState) (h : g2.nodes = g.nodes) :
    (initConversations g2).conversations = (initConversations g).conversations := by
  unfold initConversations
  simp only [h]

/-- C18, as stated, fails when two NPCs are within reach.  On the example state with
the player at (15, 0), one tile right of the Kid and one tile left of the Merchant,
with Space pressed, `Update` starts the conversation with the Kid, the first NPC of
the list within reach: the current node is the Kid's root (node 4), not the Merchant's
(node 10), and the player's code is 1 (left), not 2 (right, toward the Merchant).  The
Kid's code becomes 2, the code the wander table gives the step to the left, away from
the player. -/
theorem chat_starts_with_first_npc_in_reach :
    betweenGame.npcs.map (fun n => (n.name, n.pos)) = [("Kid", ⟨0, 0⟩), ("Merchant", ⟨30, 0⟩)] ∧
    betweenGame.playerPos = ⟨15, 0⟩ ∧
    (Update 1440 (confirmInput 1000000000) betweenGame).toOption.map
        (fun g => (g.chatting, g.chatNPC, g.convNode, g.playerDir))
      = some (true, some 0, some 4, 1) ∧
    (Update 1440 (confirmInput 1000000000) betweenGame).toOption.map
        (fun g => (g.npcs.map (fun n => n.dir), conversationRoot g.conversations "Merchant"))
      = some ([2, 0], some 10) ∧
    (⟨-tileSize, 0, 2⟩ : Dir) ∈ wanderDirs := by
  refine ⟨by decide, by decide, by decide, by decide, by decide⟩

/-- C18, amended.  For every well-formed exploring state (game not over, not chatting,
inventory closed, chat cooldown elapsed) in which no NPC is moving, the player is
inside the map bounds, Space is pressed with no direction key, the NPC at index `i`
stands exactly one tile from the player along one axis and no NPC before it in the
list is within reach of the player (`isFacingNPC`): `Update` returns a state that is
chatting with that NPC, on the root node registered for its name, with index 0; the
player's code is the one its movement gives the step toward the NPC (right 2, left 1,
down 0, up 3); and when the NPC is below or above the player, the NPC's code is the
one the wander table gives its step toward the player (up 3, down 0). -/
theorem chat_starts_facing (fuel : Nat) (inp : Input) (g : GameState) (i : Nat) (npc : NPC)
    (hgo : g.gameOver = false) (hchat : g.chatting = false) (hinv : g.inventoryOpen = false)
    (hw : WellFormed g) (hfuel : 1440 ≤ fuel) (hspace : inp.space = true)
    (hkeys : inp.arrowLeft = false ∧ inp.arrowRight = false ∧ inp.arrowUp = false ∧
      inp.arrowDown = false)
    (hcool : ¬ (inp.sinceNow - g.lastChatEnd < 1000000000))
    (hidle : ∀ n ∈ g.npcs, n.moving = false)
    (hin : clampPos g.mapData g.playerPos = g.playerPos) (hsmall : SmallPoint g.playerPos)
    (hi : g.npcs[i]? = some npc) (hadj : OneTileAway g.playerPos npc)
    (hfirst : ∀ (j : Nat) (n : NPC), j < i → g.npcs[j]? = some n →
      isFacingNPC g.playerPos n = false) :
    ∃ g2 npc2, Update fuel inp g = .ok g2 ∧ g2.chatting = true ∧ g2.chatNPC = some i ∧
      g2.chatChoice = 0 ∧ g2.convNode = conversationRoot g2.conversations npc.name ∧
      g2.conversations
        = (if g.conversations = none then (initConversations g).conversations
            else g.conversations) ∧
      g2.playerPos = g.playerPos ∧
      g2.npcs[i]? = some npc2 ∧ npc2.pos = npc.pos ∧ npc2.name = npc.name ∧
      (npc.pos.X = g.playerPos.X + tileSize ∧ npc.pos.Y = g.playerPos.Y → g2.playerDir = 2) ∧
      (npc.pos.X = g.playerPos.X - tileSize ∧ npc.pos.Y = g.playerPos.Y → g2.playerDir = 1) ∧
      (npc.pos.X = g.playerPos.X ∧ npc.pos.Y = g.playerPos.Y + tileSize →
        g2.playerDir = 0 ∧ npc2.dir = 3) ∧
      (npc.pos.X = g.playerPos.X ∧ npc.pos.Y = g.playerPos.Y - tileSize →
        g2.playerDir = 3 ∧ npc2.dir = 0) := by
  obtain ⟨hmap, hmin, hld, _⟩ := hw
  obtain ⟨k1, k2, k3, k4⟩ := hkeys
  obtain ⟨npcs, g1, hnpcs, hsame, hn1, hupd⟩ :=
    Update_exploring fuel inp g hgo hchat hmap hmin hld hfuel
  obtain ⟨s1, s2, _, s4, _, _, _, _, _, _, s11, s12, s13, s14, _, _, s17, _⟩ := hsame
  have hkey : npcs.map (fun n => (n.pos, n.name)) = g.npcs.map (fun n => (n.pos, n.name)) := by
    unfold npcPhase at hnpcs
    rw [cacheTreesLayer_npcs] at hnpcs
    exact npcLoop_idle inp (cacheTreesLayer g) (by rw [cacheTreesLayer_chatting]; exact hchat)
      _ 0 g.npcs npcs (fun j n _ hj => hidle n (List.getElem?_mem hj)) hnpcs
  have hff : firstFacing g.playerPos 0 g.npcs = some (i, npc) := by
    have h := firstFacing_intro g.playerPos g.npcs 0 i npc hi
      (isFacingNPC_oneTileAway _ _ hsmall hadj) hfirst
    rw [Nat.zero_add] at h
    exact h
  obtain ⟨npc1, hff1, hpos1, hname1⟩ := firstFacing_map g.playerPos i npc g.npcs npcs 0 hkey hff
  have hget1 : npcs[i]? = some npc1 := by
    have h := (firstFacing_getElem g.playerPos npcs 0 i npc1 hff1).2
    rw [Nat.sub_zero] at h
    exact h
  -- the inventory does not open
  have hopen : inventoryOpens inp g1 = .ok false := by
    unfold inventoryOpens
    split
    · rw [if_pos (by rw [hn1, s12]; exact firstFacing_any g.playerPos npcs 0 _ hff1)]
    · rfl
  have hinter : inventoryInteraction g1.toGame (inventoryKeys inp) inp.invNow = none := by
    unfold inventoryInteraction
    rw [if_neg (by rw [show g1.toGame.inventoryOpen = g1.inventoryOpen from rfl, s14, hinv]; simp)]
  -- the movement leaves the player where it is
  obtain ⟨b, hb⟩ := playerBlocked_ok g1 (clampPos g1.mapData (intendedPos inp g1.playerPos))
    (by rw [s1]; exact hmap)
  obtain ⟨gm, hgm, d2, p2, n2⟩ := moveStep_eq inp g1 b hb
  obtain ⟨m1, m2, m3, m4⟩ := moveStep_talk inp g1 gm hgm
  rw [facingAfterKeys_no_keys inp _ k1 k2 k3 k4, s13] at d2
  rw [intendedPos_no_keys inp _ k1 k2 k3 k4, s1, s12, hin, ite_self] at p2
  rw [hn1] at n2
  -- the conversation starts with the NPC at index `i`
  have hstart : interactStep inp gm = .ok (startChat inp gm i npc1) := by
    unfold interactStep
    rw [if_pos ⟨hspace, by rw [m4, s2]; exact hchat⟩,
      if_neg (by rw [m1, s11]; exact hcool), p2, n2, hff1]
  have hres : Update fuel inp g = .ok (startChat inp gm i npc1) := by
    rw [hupd]
    unfold exploreStep
    rw [hopen]
    simp only [hinter, hgm]
    exact hstart
  obtain ⟨c1, c2, c3, c4, c5, c6, c7, c8⟩ := startChat_fields inp gm i npc1
  rw [p2, d2] at c4
  rw [p2, d2, n2] at c5
  refine ⟨_, { npc1 with dir := (faceEachOther g.playerPos g.playerDir npc1).2 }, hres, c1, c2,
    c3, ?_, ?_, c8.trans p2, ?_, hpos1, hname1, ?_, ?_, ?_, ?_⟩
  · rw [c6, hname1]
  · rw [c7, m2, s17, initConversations_conversations g gm (m3.trans s4)]
  · rw [c5]
    exact getElem?_set_same npcs i npc1 _ hget1
  · intro h
    rw [c4]
    unfold faceEachOther
    unfold tileSize at h
    rw [if_pos (by rw [hpos1]; omega)]
  · intro h
    rw [c4]
    unfold faceEachOther
    unfold tileSize at h
    rw [if_neg (by rw [hpos1]; omega), if_pos (by rw [hpos1]; omega)]
  · intro h
    rw [c4]
    unfold faceEachOther
    unfold tileSize at h
    rw [if_neg (by rw [hpos1]; omega), if_neg (by rw [hpos1]; omega),
      if_pos (by rw [hpos1]; omega)]
    exact ⟨rfl, rfl⟩
  · intro h
    rw [c4]
    unfold faceEachOther
    unfold tileSize at h
    rw [if_neg (by rw [hpos1]; omega), if_neg (by rw [hpos1]; omega),
      if_neg (by rw [hpos1]; omega), if_pos (by rw [hpos1]; omega)]
    exact ⟨rfl, rfl⟩

theorem belowKidGame_wellFormed : WellFormed belowKidGame :=
  ⟨⟨by decide, by decide, by decide, by decide⟩, ⟨by decide, by decide⟩,
    ⟨by decide, by decide⟩, fun h => absurd h (by decide)⟩

/-- C18: an instance (the player one tile below the Kid presses Space: the
conversation starts on the Kid's root node, the player faces up, the Kid down). -/
theorem chat_starts_facing_witness :
    ∃ g2 npc2, Update 1440 (confirmInput 1000000000) belowKidGame = .ok g2 ∧
      g2.chatting = true ∧ g2.chatNPC = some 0 ∧ g2.npcs[0]? = some npc2 ∧
      g2.playerDir = 3 ∧ npc2.dir = 0 := by
  obtain ⟨g2, npc2, h1, h2, h3, _, _, _, _, h8, _, _, _, _, _, h14⟩ :=
    chat_starts_facing 1440 (confirmInput 1000000000) belowKidGame 0
      ⟨⟨0, 0⟩, 0, "Kid", 0, 0, 0, ⟨0, 0⟩, false⟩ (by decide) (by decide) (by decide)
      belowKidGame_wellFormed (by decide) rfl ⟨rfl, rfl, rfl, rfl⟩ (by decide) (by decide)
      (by decide) ⟨by decide, by decide, by decide, by decide⟩ (by decide)
      (Or.inr (Or.inr (Or.inr ⟨by decide, by decide⟩))) (fun j n hj _ => absurd hj (by omega))
  obtain ⟨e1, e2⟩ := h14 ⟨by decide, by decide⟩
  exact ⟨g2, npc2, h1, h2, h3, h8, e1, e2⟩

/-- C20, the failing input evaluated.  On the example state (no two actors overlapping,
the Kid at (0, 0) and the Merchant at (30, 0) both idle, the cell (15, 0) between them
free) with shuffles that put the step toward that cell first for both, one `Update`
gives both NPCs the target (15, 0): the wander step tests the positions of the other
NPCs, not their targets, and the Kid has not moved yet when the Merchant chooses.
Four more `Update` steps bring them to (8, 0) and (22, 0), where their tile rectangles
overlap, and after nine steps both stand at (15, 0). -/
theorem two_npcs_take_the_same_cell :
    actorsApart crowdedGame = true ∧
    (Update 1440 (wanderInput 1000000000) crowdedGame).toOption.map
        (fun g => g.npcs.map (fun n => (n.pos, n.target, n.moving)))
      = some [(⟨0, 0⟩, ⟨15, 0⟩, true), (⟨30, 0⟩, ⟨15, 0⟩, true)] ∧
    (runUpdates 1440 (List.replicate 5 (wanderInput 1000000000)) crowdedGame).toOption.map
        (fun g => (g.npcs.map (fun n => n.pos), actorsApart g))
      = some ([⟨8, 0⟩, ⟨22, 0⟩], false) ∧
    (runUpdates 1440 (List.replicate 9 (wanderInput 1000000000)) crowdedGame).toOption.map
        (fun g => (g.npcs.map (fun n => n.pos), actorsApart g))
      = some ([⟨15, 0⟩, ⟨15, 0⟩], false) := by
  refine ⟨by decide, by decide, by decide, by decide⟩

/-! ## What each part of `Update` leaves untouched -/

theorem sameActors_refl (g : GameState) : SameActors g g :=
  ⟨rfl, rfl, rfl, rfl, rfl, rfl, rfl, rfl, rfl, rfl, rfl⟩

theorem sameActors_trans {g1 g2 g3 : GameState} (h12 : SameActors g1 g2)
    (h23 : SameActors g2 g3) : SameActors g1 g3 := by
  obtain ⟨a1, a2, a3, a4, a5, a6, a7, a8, a9, a10, a11⟩ := h12
  obtain ⟨b1, b2, b3, b4, b5, b6, b7, b8, b9, b10, b11⟩ := h23
  exact ⟨b1.trans a1, b2.trans a2, b3.trans a3, b4.trans a4, b5.trans a5, b6.trans a6,
    b7.trans a7, b8.trans a8, b9.trans a9, b10.trans a10, b11.trans a11⟩

theorem chatRepair_sameActors (nid : Nat) (node : ConversationNode) (g : GameState) :
    SameActors g (chatRepair nid node g) := by
  unfold chatRepair
  split
  · exact ⟨rfl, rfl, rfl, rfl, rfl, rfl, rfl, rfl, rfl, rfl, rfl⟩
  · exact sameActors_refl g

theorem chatUp_sameActors (inp : Input) (n : Int) (g : GameState) :
    SameActors g (chatUp inp n g) := by
  unfold chatUp
  split
  · exact ⟨rfl, rfl, rfl, rfl, rfl, rfl, rfl, rfl, rfl, rfl, rfl⟩
  · exact sameActors_refl g

theorem chatDown_sameActors (inp : Input) (n : Int) (g : GameState) :
    SameActors g (chatDown inp n g) := by
  unfold chatDown
  split
  · exact ⟨rfl, rfl, rfl, rfl, rfl, rfl, rfl, rfl, rfl, rfl, rfl⟩
  · exact sameActors_refl g

theorem treeEffect_sameActors (t : String) (c : ConversationChoice) (g g2 : GameState)
    (h : treeEffect t c g = .ok g2) : SameActors g g2 := by
  unfold treeEffect at h
  split at h
  · cases h; exact sameActors_refl g
  · split at h
    · split at h
      · cases h
      · split at h
        · cases h
        · cases h; exact ⟨rfl, rfl, rfl, rfl, rfl, rfl, rfl, rfl, rfl, rfl, rfl⟩
    · cases h; exact sameActors_refl g

theorem fishEffect_sameActors (t : String) (c : ConversationChoice) (g : GameState) :
    SameActors g (fishEffect t c g) := by
  unfold fishEffect
  split
  · exact ⟨rfl, rfl, rfl, rfl, rfl, rfl, rfl, rfl, rfl, rfl, rfl⟩
  · exact sameActors_refl g

theorem chatAdvance_sameActors (now : Int) (c : ConversationChoice) (g : GameState) :
    SameActors g (chatAdvance now c g) := by
  unfold chatAdvance
  split <;> exact ⟨rfl, rfl, rfl, rfl, rfl, rfl, rfl, rfl, rfl, rfl, rfl⟩

theorem chatConfirm_sameActors (inp : Input) (t : String) (cs : List ConversationChoice)
    (g g2 : GameState) (h : chatConfirm inp t cs g = .ok g2) : SameActors g g2 := by
  unfold chatConfirm at h
  split at h
  · split at h
    · cases h
    · rename_i choice _
      split at h
      · cases h
      · rename_i g1 hg1
        cases h
        have h1 := treeEffect_sameActors t choice g g1 hg1
        have h2 := fishEffect_sameActors t choice g1
        have h3 := chatAdvance_sameActors inp.chatNow choice (fishEffect t choice g1)
        have h4 := sameActors_trans h1 (sameActors_trans h2 h3)
        exact h4
  · cases h; exact sameActors_refl g

/-- The chat block touches neither the player nor the NPCs nor the inventory flags. -/
theorem chatStep_sameActors (inp : Input) (g g2 : GameState) (h : chatStep inp g = .ok g2) :
    SameActors g g2 := by
  unfold chatStep at h
  split at h
  · cases h
  · rename_i nid _
    split at h
    · cases h
    · rename_i node _
      simp only at h
      split at h
      · exact sameActors_trans (chatRepair_sameActors nid node g)
          (sameActors_trans (chatUp_sameActors inp _ _)
            (sameActors_trans (chatDown_sameActors inp _ _)
              (chatConfirm_sameActors inp _ _ _ _ h)))
      · cases h; exact chatRepair_sameActors nid node g

theorem npcTurn_chatting (inp : Input) (g : GameState) (npcs : List NPC) (i : Nat) (npc : NPC)
    (hc : g.chatting = true) : npcTurn inp g npcs i npc = .ok (frozen npc) := by
  unfold npcTurn frozen
  rw [if_pos hc]

/-- While chatting the NPC loop only clears the `moving` flag of the NPCs it visits. -/
theorem npcLoop_frozen (inp : Input) (g : GameState) (hc : g.chatting = true) (k : Nat) :
    ∀ (i : Nat) (cur out : List NPC), npcLoop inp g k i cur = .ok out →
      ∀ j : Nat, out[j]? = if i ≤ j ∧ j < i + k then (cur[j]?).map frozen else cur[j]? := by
  induction k with
  | zero =>
    intro i cur out h j
    simp only [npcLoop] at h
    cases h
    rw [if_neg (by omega)]
  | succ k ih =>
    intro i cur out h j
    simp only [npcLoop] at h
    split at h
    · rename_i hnone
      cases h
      split
      · rename_i hj
        have hlen : cur.length ≤ i := by
          rcases Nat.lt_or_ge i cur.length with hlt | hge
          · rw [List.getElem?_eq_getElem hlt] at hnone
            cases hnone
          · exact hge
        rw [List.getElem?_eq_none (by omega)]
        rfl
      · rfl
    · rename_i npc hnpc
      rw [npcTurn_chatting inp g cur i npc hc] at h
      simp only at h
      have hrec := ih (i + 1) (cur.set i (frozen npc)) out h j
      rw [hrec]
      by_cases hji : j = i
      · rw [hji, if_neg (by omega), if_pos (by omega), getElem?_set_same cur i npc _ hnpc, hnpc]
        rfl
      · rw [getElem?_set_other cur i j _ (fun e => hji e.symm)]
        by_cases hin : i + 1 ≤ j ∧ j < i + 1 + k
        · rw [if_pos hin, if_pos (by omega)]
        · rw [if_neg hin, if_neg (by omega)]

theorem npcPhase_frozen (inp : Input) (g : GameState) (hc : g.chatting = true)
    (npcs : List NPC) (h : npcPhase inp (cacheTreesLayer g) = .ok npcs) :
    npcs = g.npcs.map frozen := by
  unfold npcPhase at h
  rw [cacheTreesLayer_npcs] at h
  have hpt := npcLoop_frozen inp (cacheTreesLayer g)
    (by rw [cacheTreesLayer_chatting]; exact hc) g.npcs.length 0 g.npcs npcs h
  apply List.ext_getElem?
  intro j
  rw [hpt j, List.getElem?_map]
  split
  · rfl
  · rename_i hj
    rw [List.getElem?_eq_none (by omega)]
    rfl

/-- C24. For every `Update` step that starts in a chatting state (chatting true, game
not over), whatever the input: in the state the step returns, the player's position and
facing are those before, and the NPCs are those before with the `moving` flag cleared
(same position, target and facing, `moving` false); and on a well-formed state, with
1440 units of fuel for the drain loop, the step does return. -/
theorem chat_freezes_actors (fuel : Nat) (inp : Input) (g : GameState)
    (hgo : g.gameOver = false) (hchat : g.chatting = true) :
    (∀ g2, Update fuel inp g = .ok g2 →
      g2.playerPos = g.playerPos ∧ g2.playerDir = g.playerDir ∧
      g2.npcs = g.npcs.map frozen) ∧
    (∀ n : NPC, (frozen n).pos = n.pos ∧ (frozen n).target = n.target ∧
      (frozen n).dir = n.dir ∧ (frozen n).moving = false) ∧
    (WellFormed g → 1440 ≤ fuel → ∃ g2, Update fuel inp g = .ok g2) := by
  refine ⟨?_, fun n => ⟨rfl, rfl, rfl, rfl⟩, fun hw hf => Update_returns fuel inp g hw hf⟩
  intro g2 h
  rcases Update_cases fuel inp g g2 h with ⟨hgo2, _⟩ | ⟨_, npcs, g1, hnpcs, hdrain, hrest⟩
  · rw [hgo] at hgo2
    cases hgo2
  · obtain ⟨hsame, hn1⟩ := entry_same fuel inp.tickNow g g1 npcs hdrain
    obtain ⟨_, s2, _, _, _, _, _, _, _, _, _, s12, s13, _⟩ := hsame
    rcases hrest with ⟨_, hstep⟩ | ⟨hno, _⟩
    · obtain ⟨a1, a2, a3, _⟩ := chatStep_sameActors inp g1 g2 hstep
      exact ⟨a1.trans s12, a2.trans s13,
        by rw [a3, hn1]; exact npcPhase_frozen inp g hchat npcs hnpcs⟩
    · rw [s2, hchat] at hno
      cases hno

theorem kidChat_wellFormed : WellFormed kidChat :=
  ⟨⟨by decide, by decide, by decide, by decide⟩, ⟨by decide, by decide⟩,
    ⟨by decide, by decide⟩,
    fun _ => ⟨⟨0, seeYouLater, by decide, by decide, by decide,
      fun _ => ⟨by decide, by decide⟩⟩,
      fun _ h => Option.noConfusion
        ((by decide : kidChat.pendingTreeLayer = none).symm.trans h)⟩⟩

/-- C24: an instance (in the conversation with the Kid, with Left and Space pressed,
the player stays at (22, 22) facing down and the Kid stays at (0, 0)). -/
theorem chat_freezes_actors_witness :
    ∃ g2, Update 1440 (leftSpaceInput 1000000000) kidChat = .ok g2 ∧
      g2.playerPos = ⟨22, 22⟩ ∧ g2.playerDir = 0 ∧
      g2.npcs.map (fun n => (n.pos, n.moving)) = [(⟨0, 0⟩, false), (⟨30, 0⟩, false)] := by
  obtain ⟨hframe, _, hret⟩ := chat_freezes_actors 1440 (leftSpaceInput 1000000000) kidChat
    (by decide) (by decide)
  obtain ⟨g2, hg2⟩ := hret kidChat_wellFormed (by decide)
  obtain ⟨h1, h2, h3⟩ := hframe g2 hg2
  refine ⟨g2, hg2, ?_, ?_, ?_⟩
  · rw [h1]; decide
  · rw [h2]; decide
  · rw [h3]; decide

theorem inventoryInteraction_closed (gm : Game) (keys : Keys) (now : Int)
    (h : gm.inventoryOpen = false) : inventoryInteraction gm keys now = none := by
  unfold inventoryInteraction
  rw [if_neg (by rw [h]; simp)]

theorem inventoryInteraction_open (gm : Game) (keys : Keys) (now : Int)
    (h : gm.inventoryOpen = true) : ∃ gm2, inventoryInteraction gm keys now = some gm2 := by
  unfold inventoryInteraction
  rw [if_pos h]
  split
  · exact ⟨_, rfl⟩
  · split
    · exact ⟨_, rfl⟩
    · split <;> exact ⟨_, rfl⟩

theorem animatePlayer_toGame (g : GameState) : (animatePlayer g).toGame = g.toGame := by
  unfold animatePlayer
  split
  · simp only
    split <;> rfl
  · rfl

theorem moveStep_toGame (inp : Input) (g g2 : GameState) (h : moveStep inp g = .ok g2) :
    g2.toGame = g.toGame := by
  unfold moveStep at h
  simp only at h
  split at h
  · cases h
  · cases h
    rw [animatePlayer_toGame]
    split <;> rfl

theorem startChat_toGame (inp : Input) (g : GameState) (i : Nat) (npc : NPC) :
    (startChat inp g i npc).toGame = g.toGame := by
  unfold startChat
  simp only
  split <;> rfl

theorem interactStep_toGame (inp : Input) (g g2 : GameState) (h : interactStep inp g = .ok g2) :
    g2.toGame = g.toGame := by
  unfold interactStep at h
  split at h
  · split at h
    · cases h; rfl
    · split at h
      · cases h
        exact startChat_toGame inp g _ _
      · simp only at h
        split at h
        · cases h
        · cases h; rfl
        · split at h
          · cases h
          · cases h; rfl
          · cases h; rfl
  · cases h; rfl

/-- The three ways the exploring part of `Update` returns: the inventory opens; the
inventory block runs on the open inventory; or the movement runs, followed by the test
for an interaction. -/
theorem exploreStep_cases (inp : Input) (g g2 : GameState) (h : exploreStep inp g = .ok g2) :
    (inventoryOpens inp g = .ok true ∧
      g2 = { g with inventoryOpen := true, lastInventoryTime := inp.invNow }) ∨
    (inventoryOpens inp g = .ok false ∧ g.inventoryOpen = true ∧
      ∃ gm2, inventoryInteraction g.toGame (inventoryKeys inp) inp.invNow = some gm2 ∧
        g2 = { g with toGame := gm2 }) ∨
    (inventoryOpens inp g = .ok false ∧ g.inventoryOpen = false ∧
      ∃ gm, moveStep inp g = .ok gm ∧ interactStep inp gm = .ok g2) := by
  unfold exploreStep at h
  split at h
  · cases h
  · rename_i hopen
    cases h
    exact Or.inl ⟨hopen, rfl⟩
  · rename_i hopen
    right
    cases hio : g.inventoryOpen with
    | true =>
      left
      obtain ⟨gm2, hgm2⟩ := inventoryInteraction_open g.toGame (inventoryKeys inp) inp.invNow hio
      simp only [hgm2] at h
      cases h
      exact ⟨hopen, rfl, gm2, hgm2, rfl⟩
    | false =>
      right
      simp only [inventoryInteraction_closed g.toGame (inventoryKeys inp) inp.invNow hio] at h
      split at h
      · cases h
      · rename_i gm hgm
        exact ⟨hopen, rfl, gm, hgm, h⟩

theorem findOccupied_none (names : List String) (m : TiledMap) (x y : Int) :
    ∀ (layers : List Layer) (i : Nat), findOccupied names m x y i layers = .ok none →
      ∀ layer ∈ layers, layer.Name ∈ names → inMap m x y = true →
        ∃ t, tileAt m layer x y = .ok t ∧ occupied t = false := by
  intro layers
  induction layers with
  | nil =>
    intro i _ layer hl
    cases hl
  | cons l rest ih =>
    intro i h layer hl hname hin
    simp only [findOccupied] at h
    split at h
    · split at h
      · cases h
      · rename_i tile htile
        split at h
        · cases h
        · rename_i hocc
          rcases List.mem_cons.1 hl with he | hr
          · rw [he]
            exact ⟨tile, htile, by simpa using hocc⟩
          · exact ih (i + 1) h layer hr hname hin
    · rename_i hcond
      rcases List.mem_cons.1 hl with he | hr
      · rw [he] at hname
        exact absurd (by simp [hname, hin]) hcond
      · exact ih (i + 1) h layer hr hname hin

/-- What the test that opens the inventory requires. -/
theorem inventoryOpens_true (inp : Input) (g : GameState) (h : inventoryOpens inp g = .ok true) :
    inp.space = true ∧ g.inventoryOpen = false ∧
    inp.invNow - g.lastInventoryTime > inventoryInputDelay ∧
    ¬ (inp.invNow - g.lastChatEnd < inventoryBlockAfterAction) ∧
    g.npcs.any (isFacingNPC g.playerPos) = false ∧
    findOccupied ["Water", "Trees", "Doors"] g.mapData
      (interactCell g.playerPos g.playerDir).1 (interactCell g.playerPos g.playerDir).2 0
      g.mapData.Layers = .ok none := by
  unfold inventoryOpens at h
  split at h
  · rename_i hc
    obtain ⟨c1, c2, c3, c4⟩ := hc
    split at h
    · cases h
    · rename_i hany
      simp only at h
      split at h
      · cases h
      · rename_i found hfound
        refine ⟨c1, c2, c3, c4, by simpa using hany, ?_⟩
        rw [hfound]
        cases found with
        | none => rfl
        | some v =>
          simp only [Option.isNone_some, Except.ok.injEq] at h
          cases h
  · cases h

/-- C25. In every `Update` step that returns, if `inventoryOpen` is false before and
true after, then at that step: chatting is false; it is not the case that less than 1
second has passed since `lastChatEnd` (on the clock reading of the inventory code);
Space is pressed more than 200 ms after the last inventory action; no NPC, where the
NPC loop of the step has left it, satisfies `isFacingNPC`; and in every layer named
Water, Trees or Doors the cell in front of the player, when inside the map, holds no
occupied tile.  The player and the map are those before the step. -/
theorem inventory_opens_only_when_free (fuel : Nat) (inp : Input) (g g2 : GameState)
    (h : Update fuel inp g = .ok g2) (hclosed : g.inventoryOpen = false)
    (hopen : g2.inventoryOpen = true) :
    g.chatting = false ∧ ¬ (inp.invNow - g.lastChatEnd < 1000000000) ∧
    inp.space = true ∧ inp.invNow - g.lastInventoryTime > 200000000 ∧
    g2.playerPos = g.playerPos ∧ g2.playerDir = g.playerDir ∧ g2.mapData = g.mapData ∧
    npcPhase inp (cacheTreesLayer g) = .ok g2.npcs ∧
    (∀ n ∈ g2.npcs, isFacingNPC g.playerPos n = false) ∧
    (∀ layer ∈ g.mapData.Layers, layer.Name ∈ ["Water", "Trees", "Doors"] →
      inMap g.mapData (interactCell g.playerPos g.playerDir).1
        (interactCell g.playerPos g.playerDir).2 = true →
      ∃ t, tileAt g.mapData layer (interactCell g.playerPos g.playerDir).1
          (interactCell g.playerPos g.playerDir).2 = .ok t ∧ occupied t = false) := by
  have hne : ¬ (false = true) := fun e => Bool.noConfusion e
  rcases Update_cases fuel inp g g2 h with ⟨_, hr | hr⟩ | ⟨_, npcs, g1, hnpcs, hdrain, hrest⟩
  · rw [hr] at hopen
    exact absurd (hclosed.symm.trans hopen) hne
  · rw [hr] at hopen
    exact absurd (hclosed.symm.trans hopen) hne
  · obtain ⟨hsame, hn1⟩ := entry_same fuel inp.tickNow g g1 npcs hdrain
    obtain ⟨s1, s2, _, _, _, _, _, _, _, _, s11, s12, s13, s14, s15, _⟩ := hsame
    rcases hrest with ⟨_, hstep⟩ | ⟨hno, hstep⟩
    · obtain ⟨_, _, _, a4, _⟩ := chatStep_sameActors inp g1 g2 hstep
      rw [a4, s14] at hopen
      exact absurd (hclosed.symm.trans hopen) hne
    · rcases exploreStep_cases inp g1 g2 hstep with ⟨ho, hg2⟩ | ⟨_, hio, _⟩ | ⟨_, _, gm, hmv, hit⟩
      · obtain ⟨c1, _, c3, c4, c5, c6⟩ := inventoryOpens_true inp g1 ho
        rw [s12, s13, s1] at c6
        rw [s12, hn1] at c5
        rw [s11] at c4
        rw [s15] at c3
        have e1 : g2.playerPos = g.playerPos := by rw [hg2]; exact s12
        have e2 : g2.playerDir = g.playerDir := by rw [hg2]; exact s13
        have e3 : g2.mapData = g.mapData := by rw [hg2]; exact s1
        have e4 : g2.npcs = npcs := by rw [hg2]; exact hn1
        refine ⟨s2.symm.trans hno, c4, c1, c3, e1, e2, e3, by rw [e4]; exact hnpcs, ?_, ?_⟩
        · intro n hn
          rw [e4] at hn
          have hall := List.any_eq_false.1 c5 n hn
          simpa using hall
        · exact findOccupied_none _ g.mapData _ _ g.mapData.Layers 0 c6
      · rw [s14, hclosed] at hio
        exact absurd hio hne
      · have e : g2.toGame = g1.toGame :=
          (interactStep_toGame inp gm g2 hit).trans (moveStep_toGame inp g1 gm hmv)
        have e2 : g2.inventoryOpen = g1.inventoryOpen := by
          rw [show g2.inventoryOpen = g2.toGame.inventoryOpen from rfl, e]
        rw [e2, s14] at hopen
        exact absurd (hclosed.symm.trans hopen) hne

/-- C25: an instance (the fresh example game with Space pressed: the inventory opens,
and no NPC is within reach). -/
theorem inventory_opens_only_when_free_witness :
    ∃ g2, Update 1440 (confirmInput 1000000000) sampleGame = .ok g2 ∧
      g2.inventoryOpen = true ∧ sampleGame.chatting = false ∧
      (∀ n ∈ g2.npcs, isFacingNPC sampleGame.playerPos n = false) := by
  obtain ⟨g2, hg2⟩ := Update_returns 1440 (confirmInput 1000000000) sampleGame
    sampleGame_wellFormed (by decide)
  have hopen : g2.inventoryOpen = true := by
    have hd : (Update 1440 (confirmInput 1000000000) sampleGame).toOption.map
        (fun g => g.inventoryOpen) = some true := by decide
    rw [hg2] at hd
    simpa [Except.toOption] using hd
  obtain ⟨h1, _, _, _, _, _, _, _, h9, _⟩ := inventory_opens_only_when_free 1440
    (confirmInput 1000000000) sampleGame g2 hg2 (by decide) hopen
  exact ⟨g2, hg2, hopen, h1, h9⟩

/-- One `Update` step keeps `chatting` and `inventoryOpen` from both being true, and
runs exactly one of its three input blocks. -/
theorem Update_branches (fuel : Nat) (inp : Input) (g g2 : GameState)
    (hgo : g.gameOver = false) (h : Update fuel inp g = .ok g2) :
    ∃ g1, SameButClock g g1 ∧ npcPhase inp (cacheTreesLayer g) = .ok g1.npcs ∧
      ((g1.chatting = true ∧ chatStep inp g1 = .ok g2 ∧ SameActors g1 g2) ∨
       (g1.chatting = false ∧
         (inventoryOpens inp g1 = .ok true ∨ g1.inventoryOpen = true) ∧
         g2 = { g1 with toGame := g2.toGame }) ∨
       (g1.chatting = false ∧ inventoryOpens inp g1 = .ok false ∧
         g1.inventoryOpen = false ∧
         ∃ gm, moveStep inp g1 = .ok gm ∧ interactStep inp gm = .ok g2 ∧
           g2.toGame = g1.toGame)) := by
  rcases Update_cases fuel inp g g2 h with ⟨hgo2, _⟩ | ⟨_, npcs, g1, hnpcs, hdrain, hrest⟩
  · rw [hgo] at hgo2
    cases hgo2
  · obtain ⟨hsame, hn1⟩ := entry_same fuel inp.tickNow g g1 npcs hdrain
    refine ⟨g1, hsame, by rw [hn1]; exact hnpcs, ?_⟩
    rcases hrest with ⟨hc, hstep⟩ | ⟨hno, hstep⟩
    · exact Or.inl ⟨hc, hstep, chatStep_sameActors inp g1 g2 hstep⟩
    · right
      rcases exploreStep_cases inp g1 g2 hstep with ⟨ho, hg2⟩ | ⟨_, hio, gm2, _, hg2⟩ |
        ⟨ho, hio, gm, hmv, hit⟩
      · left
        refine ⟨hno, Or.inl ho, ?_⟩
        rw [hg2]
      · left
        refine ⟨hno, Or.inr hio, ?_⟩
        rw [hg2]
      · right
        exact ⟨hno, ho, hio, gm, hmv, hit,
          (interactStep_toGame inp gm g2 hit).trans (moveStep_toGame inp g1 gm hmv)⟩

/-- C22, the failing input evaluated.  On the fresh example game one `Update` with Left
pressed sets `moving`; nothing but `restart` clears it.  In the following `Update`
steps, exploring (not chatting, inventory closed) and with no key pressed, the
animation goes on instead of resetting: the tick counter is 2 after the first such
step, and after the tenth the frame is 1.  Without the earlier key press the same step
leaves frame and tick at 0.  The code is under the comment "Animation: advance frame if
moving, else reset to stand". -/
theorem animation_runs_on_without_keys :
    (runUpdates 1440 [leftInput 1000000000] sampleGame).toOption.map
        (fun g => (g.chatting, g.inventoryOpen, g.moving, g.playerAnim, g.playerAnimTick))
      = some (false, false, true, 0, 1) ∧
    (runUpdates 1440 [leftInput 1000000000, idleInput 1000000000] sampleGame).toOption.map
        (fun g => (g.playerAnim, g.playerAnimTick))
      = some (0, 2) ∧
    (runUpdates 1440 (leftInput 1000000000 :: List.replicate 10 (idleInput 1000000000))
        sampleGame).toOption.map (fun g => (g.playerAnim, g.playerAnimTick))
      = some (1, 0) ∧
    (runUpdates 1440 [idleInput 1000000000] sampleGame).toOption.map
        (fun g => (g.moving, g.playerAnim, g.playerAnimTick))
      = some (false, 0, 0) := by
  refine ⟨by decide, by decide, by decide, by decide⟩

/-! ## Music -/

theorem sliceGet_mem {α : Type} (s : List α) (i : Int) (a : α) (h : sliceGet s i = .ok a) :
    a ∈ s := by
  unfold sliceGet at h
  split at h
  · cases h
  · split at h
    · rename_i b hb
      cases h
      exact List.getElem?_mem hb
    · cases h

/-- A duplicate-free list is not exhausted by a shorter one. -/
theorem exists_not_mem_of_length_lt (files played : List String) (hf : files.Nodup)
    (hlt : played.length < files.length) : ∃ f ∈ files, f ∉ played := by
  by_contra hne
  have hsub : files ⊆ played := by
    intro f hfm
    by_contra hnot
    exact hne ⟨f, hfm, hnot⟩
  have hle := (List.subperm_of_subset hf hsub).length_le
  omega

/-- One call on a list of distinct names of which strictly fewer have been played. -/
theorem nextMusicFile_fresh (intn : Int → Int) (files played : List String) (hi : IntnOK intn)
    (hf : files.Nodup) (hlt : played.length < files.length) :
    ∃ next, nextMusicFile intn files played = .ok (next, played ++ [next]) ∧
      next ∈ files ∧ next ∉ played := by
  obtain ⟨f, hfm, hfn⟩ := exists_not_mem_of_length_lt files played hf hlt
  have hrem : f ∈ files.filter (fun f => decide (f ∉ played)) :=
    List.mem_filter.2 ⟨hfm, by simpa using hfn⟩
  have hpos : 0 < (files.filter (fun f => decide (f ∉ played))).length :=
    List.length_pos_of_mem hrem
  obtain ⟨r0, r1⟩ := hi (files.filter (fun f => decide (f ∉ played))).length (by omega)
  obtain ⟨next, hnext⟩ := sliceGet_ok (files.filter (fun f => decide (f ∉ played)))
    (intn (files.filter (fun f => decide (f ∉ played))).length) r0 r1
  have hmem := List.mem_filter.1 (sliceGet_mem _ _ _ hnext)
  refine ⟨next, ?_, hmem.1, by simpa using hmem.2⟩
  have h0 : ¬ files.length = 0 := by omega
  have h1 : ¬ played.length = files.length := by omega
  have h2 : ¬ (files.filter (fun f => decide (f ∉ played))).length = 0 := by omega
  unfold nextMusicFile
  simp only [if_neg h0, if_neg h1, if_neg h2, hnext]

/-- Calls in a row on a list of distinct names, as many as are still unplayed: the
names returned are appended to `played`, which stays duplicate-free inside `files`. -/
theorem musicRun_fresh (files : List String) (hf : files.Nodup) :
    ∀ (draws : List (Int → Int)) (played : List String),
      (∀ intn ∈ draws, IntnOK intn) → played.Nodup → played ⊆ files →
      played.length + draws.length ≤ files.length →
      ∃ out, musicRun files draws played = .ok (out, played ++ out) ∧
        (played ++ out).Nodup ∧ played ++ out ⊆ files ∧ out.length = draws.length := by
  intro draws
  induction draws with
  | nil =>
    intro played _ hn hs _
    exact ⟨[], by simp [musicRun], by simpa using hn, by simpa using hs, rfl⟩
  | cons intn rest ih =>
    intro played hd hn hs hlen
    simp only [List.length_cons] at hlen
    obtain ⟨next, hcall, hmem, hnot⟩ := nextMusicFile_fresh intn files played
      (hd intn (List.mem_cons_self _ _)) hf (by omega)
    have hn2 : (played ++ [next]).Nodup := by
      rw [List.nodup_append]
      refine ⟨hn, List.nodup_singleton next, ?_⟩
      intro a ha hb
      rw [List.mem_singleton] at hb
      rw [hb] at ha
      exact hnot ha
    have hs2 : played ++ [next] ⊆ files := by
      intro a ha
      rcases List.mem_append.1 ha with h1 | h1
      · exact hs h1
      · rw [List.mem_singleton] at h1
        rw [h1]
        exact hmem
    obtain ⟨out, hrun, hn3, hs3, hl3⟩ := ih (played ++ [next])
      (fun i hi => hd i (List.mem_cons_of_mem _ hi)) hn2 hs2
      (by simp only [List.length_append, List.length_singleton]; omega)
    refine ⟨next :: out, ?_, ?_, ?_, by simp [hl3]⟩
    · simp only [musicRun, hcall, hrun]
      simp
    · simpa using hn3
    · simpa using hs3

/-- C26. For every list `files` of distinct names: (1) for every `played` that is a
duplicate-free selection of strictly fewer of those names and every draw of
`rand.Intn`, `nextMusicFile` returns a name of `files` that is not in `played` and
appends it to `played`; (2) starting from an empty `played`, `len(files)` consecutive
calls, with any draws, return a rearrangement of `files`, every name exactly once, and
leave `played` equal to the names returned; (3) with an empty file list the call
returns "" and leaves `played` unchanged. -/
theorem nextMusicFile_plays_each_once (files : List String) (hf : files.Nodup) :
    (∀ (intn : Int → Int) (played : List String), IntnOK intn → played.Nodup →
      played ⊆ files → played.length < files.length →
      ∃ next, nextMusicFile intn files played = .ok (next, played ++ [next]) ∧
        next ∈ files ∧ next ∉ played) ∧
    (∀ draws : List (Int → Int), draws.length = files.length →
      (∀ intn ∈ draws, IntnOK intn) →
      ∃ out, musicRun files draws [] = .ok (out, out) ∧ out.Perm files) ∧
    (∀ (intn : Int → Int) (played : List String),
      nextMusicFile intn [] played = .ok ("", played)) := by
  refine ⟨fun intn played hi _ _ hlt => nextMusicFile_fresh intn files played hi hf hlt, ?_,
    fun intn played => rfl⟩
  intro draws hlen hd
  obtain ⟨out, hrun, hn, hs, hl⟩ := musicRun_fresh files hf draws [] hd List.nodup_nil
    (List.nil_subset _) (by simp [hlen])
  rw [List.nil_append] at hrun hn hs
  exact ⟨out, hrun, (List.subperm_of_subset hn hs).perm_of_length_le (by omega)⟩

/-- C26: an instance (two files, both draws 0: the first call returns "a.mp3", the
second "b.mp3"). -/
theorem nextMusicFile_plays_each_once_witness :
    ∃ out, musicRun ["a.mp3", "b.mp3"] [fun _ => 0, fun _ => 0] [] = .ok (out, out) ∧
      out.Perm ["a.mp3", "b.mp3"] :=
  (nextMusicFile_plays_each_once ["a.mp3", "b.mp3"] (by decide)).2.1
    [fun _ => 0, fun _ => 0] rfl
    (fun intn hi n hn => by
      have e : intn = fun _ => 0 := by
        rcases List.mem_cons.1 hi with h | h
        · exact h
        · exact List.mem_singleton.1 h
      rw [e]
      exact ⟨le_refl 0, hn⟩)

/-! ## The two layer tests -/

/-- C27, the failing input evaluated.  The NPC's test consults a layer exactly when its
name is not "Base ground" and it is visible; the player's test consults a layer exactly
when some layer of the map with the same name is such a layer (`collidableLayers` is
keyed by name).  On the example map, with a visible and an invisible layer both named
"Trees", the player's test consults the invisible layer: at cell (1, 0), where only
the invisible layer holds a tile, the player's test answers blocked and the NPC's test
answers free. -/
theorem player_test_consults_invisible_twin :
    (∀ l : Layer, npcConsults l = true ↔ (l.Name ≠ "Base ground" ∧ l.Visible = true)) ∧
    (∀ (m : TiledMap) (l : Layer), playerConsults m l = true ↔
      ∃ l2 ∈ m.Layers, l2.Name = l.Name ∧ l2.Name ≠ "Base ground" ∧ l2.Visible = true) ∧
    twinLayersMap.Layers[2]? = some ⟨"Trees", false, [none, some ⟨true⟩]⟩ ∧
    playerConsults twinLayersMap ⟨"Trees", false, [none, some ⟨true⟩]⟩ = true ∧
    npcConsults ⟨"Trees", false, [none, some ⟨true⟩]⟩ = false ∧
    layersBlocked (playerConsults twinLayersMap) twinLayersMap 1 0 twinLayersMap.Layers
      = .ok true ∧
    layersBlocked npcConsults twinLayersMap 1 0 twinLayersMap.Layers = .ok false := by
  refine ⟨?_, ?_, by decide, by decide, by decide, rfl, rfl⟩
  · intro l
    unfold npcConsults
    simp
  · intro m l
    unfold playerConsults collidableLayers
    simp only [decide_eq_true_eq, List.mem_map, List.mem_filter, Bool.and_eq_true, ne_eq,
      decide_not, Bool.not_eq_true', decide_eq_false_iff_not]
    constructor
    · rintro ⟨l2, ⟨hm, hn, hv⟩, he⟩
      exact ⟨l2, hm, he, hn, hv⟩
    · rintro ⟨l2, hm, he, hn, hv⟩
      exact ⟨l2, ⟨hm, hn, hv⟩, he⟩

/-! ## The NPC on its way to the target -/

theorem npcTurn_moving (inp : Input) (g : GameState) (npcs : List NPC) (i : Nat) (npc : NPC)
    (hc : g.chatting = false) (hm : npc.moving = true) :
    npcTurn inp g npcs i npc = .ok (npcAdvance npc) := by
  unfold npcTurn npcAdvance
  rw [if_neg (by rw [hc]; simp), if_neg (by rw [hm]; simp)]

/-- One coordinate of the move: the remaining distance drops by `min(2, remaining)` and
the new coordinate lies between the old one and the target. -/
theorem stepToward_spec (pos target : Int) (h1 : -9223372036854775808 ≤ pos)
    (h2 : pos ≤ 9223372036854775807) (h3 : -9223372036854775808 ≤ target)
    (h4 : target ≤ 9223372036854775807) (h5 : -9223372036854775807 ≤ target - pos)
    (h6 : target - pos ≤ 9223372036854775807) :
    (target - stepToward pos target).natAbs
      = (target - pos).natAbs - min 2 (target - pos).natAbs ∧
    min pos target ≤ stepToward pos target ∧ stepToward pos target ≤ max pos target := by
  have hd : subInt target pos = target - pos := wrapInt_of_range _ (by omega) (by omega)
  unfold stepToward
  simp only [hd]
  by_cases h0 : target - pos = 0
  · rw [if_neg (by simpa using h0)]
    omega
  · rw [if_pos h0]
    by_cases hneg : target - pos < 0
    · have ha : absInt (target - pos) = pos - target := by
        unfold absInt subInt
        rw [if_pos hneg, wrapInt_of_range _ (by omega) (by omega)]
        omega
      have hs : sign (target - pos) = -1 := by
        unfold sign
        rw [if_pos hneg]
      rw [ha, hs]
      unfold mulInt addInt
      rw [wrapInt_of_range (2 * -1) (by omega) (by omega)]
      split
      · omega
      · rw [wrapInt_of_range _ (by omega) (by omega)]
        omega
    · have ha : absInt (target - pos) = target - pos := by
        unfold absInt
        rw [if_neg hneg]
      have hs : sign (target - pos) = 1 := by
        unfold sign
        rw [if_neg hneg, if_pos (by omega)]
      rw [ha, hs]
      unfold mulInt addInt
      rw [wrapInt_of_range (2 * 1) (by omega) (by omega)]
      split
      · omega
      · rw [wrapInt_of_range _ (by omega) (by omega)]
        omega

theorem npcAdvance_fields (n : NPC) :
    (npcAdvance n).pos = ⟨stepToward n.pos.X n.target.X, stepToward n.pos.Y n.target.Y⟩ ∧
    (npcAdvance n).target = n.target ∧
    (npcAdvance n).moving
      = (if (⟨stepToward n.pos.X n.target.X, stepToward n.pos.Y n.target.Y⟩ : Point) = n.target
          then false else n.moving) := by
  unfold npcAdvance
  simp only
  exact ⟨(animateNPC_fields _).1, (animateNPC_fields _).2.2.2.1, (animateNPC_fields _).2.2.2.2⟩

theorem point_eq_iff (p q : Point) : p = q ↔ p.X = q.X ∧ p.Y = q.Y := by
  constructor
  · intro h
    rw [h]
    exact ⟨rfl, rfl⟩
  · intro h
    cases p
    cases q
    simp only at h
    rw [h.1, h.2]

theorem nat_drop_two (r a b k : Nat) (h1 : a = r - 2 * k) (h2 : b = a - min 2 a) :
    b = r - 2 * (k + 1) := by
  omega

/-- The NPC after `k` passes of the moving branch: on each axis the remaining distance
has dropped by `2 k`, stopping at 0, and the NPC is between its start and its target. -/
theorem npcAdvance_iterate (npc : NPC) (hfit : StepFits npc) (hm : npc.moving = true) :
    ∀ k : Nat,
      (npcAdvance^[k] npc).target = npc.target ∧
      (npc.target.X - (npcAdvance^[k] npc).pos.X).natAbs
        = (npc.target.X - npc.pos.X).natAbs - 2 * k ∧
      (npc.target.Y - (npcAdvance^[k] npc).pos.Y).natAbs
        = (npc.target.Y - npc.pos.Y).natAbs - 2 * k ∧
      (min npc.pos.X npc.target.X ≤ (npcAdvance^[k] npc).pos.X ∧
        (npcAdvance^[k] npc).pos.X ≤ max npc.pos.X npc.target.X) ∧
      (min npc.pos.Y npc.target.Y ≤ (npcAdvance^[k] npc).pos.Y ∧
        (npcAdvance^[k] npc).pos.Y ≤ max npc.pos.Y npc.target.Y) ∧
      ((npcAdvance^[k] npc).moving = false ↔ (1 ≤ k ∧ (npcAdvance^[k] npc).pos = npc.target)) := by
  obtain ⟨⟨f1, f2⟩, ⟨f3, f4⟩, ⟨f5, f6⟩, ⟨f7, f8⟩, ⟨f9, f10⟩, ⟨f11, f12⟩⟩ := hfit
  intro k
  induction k with
  | zero =>
    have e0 : npcAdvance^[0] npc = npc := rfl
    rw [e0, hm]
    refine ⟨rfl, by omega, by omega, ⟨by omega, by omega⟩, ⟨by omega, by omega⟩, ?_⟩
    constructor
    · intro h
      cases h
    · intro h
      omega
  | succ k ih =>
    rw [Function.iterate_succ_apply']
    generalize npcAdvance^[k] npc = n at ih ⊢
    obtain ⟨it, ix, iy, ⟨bx1, bx2⟩, ⟨by1, by2⟩, im⟩ := ih
    obtain ⟨a1, a2, a3⟩ := npcAdvance_fields n
    rw [it] at a1 a2 a3
    obtain ⟨sx, sx1, sx2⟩ := stepToward_spec n.pos.X npc.target.X
      (by omega) (by omega) f5 f6 (by omega) (by omega)
    obtain ⟨sy, sy1, sy2⟩ := stepToward_spec n.pos.Y npc.target.Y
      (by omega) (by omega) f7 f8 (by omega) (by omega)
    generalize stepToward n.pos.X npc.target.X = x2 at a1 a3 sx sx1 sx2
    generalize stepToward n.pos.Y npc.target.Y = y2 at a1 a3 sy sy1 sy2
    have ex : (npcAdvance n).pos.X = x2 := by rw [a1]
    have ey : (npcAdvance n).pos.Y = y2 := by rw [a1]
    rw [ex, ey, a2, a3]
    refine ⟨rfl, nat_drop_two _ _ _ k ix sx, nat_drop_two _ _ _ k iy sy,
      ⟨le_trans (le_min bx1 (min_le_right _ _)) sx1,
        le_trans sx2 (max_le bx2 (le_max_right _ _))⟩,
      ⟨le_trans (le_min by1 (min_le_right _ _)) sy1,
        le_trans sy2 (max_le by2 (le_max_right _ _))⟩,
      ?_⟩
    by_cases hreach : (⟨x2, y2⟩ : Point) = npc.target
    · rw [if_pos hreach, a1]
      exact ⟨fun _ => ⟨by omega, hreach⟩, fun _ => rfl⟩
    · rw [if_neg hreach, a1]
      constructor
      · intro hfalse
        obtain ⟨_, hat⟩ := im.1 hfalse
        exfalso
        apply hreach
        rw [point_eq_iff] at hat ⊢
        obtain ⟨hx, hy⟩ := hat
        constructor
        · show x2 = npc.target.X
          omega
        · show y2 = npc.target.Y
          omega
      · intro h
        exact absurd h.2 hreach

theorem abs_drop (a b : Int) (h : b.natAbs = a.natAbs - min 2 a.natAbs) :
    |b| = |a| - min 2 |a| := by
  rw [Int.abs_eq_natAbs, Int.abs_eq_natAbs]
  omega

theorem one_tile_reached (tx ty px py x y : Int)
    (hone : (px = tx + 15 ∧ py = ty) ∨ (px = tx - 15 ∧ py = ty) ∨
      (px = tx ∧ py = ty + 15) ∨ (px = tx ∧ py = ty - 15))
    (ix : (tx - x).natAbs = (tx - px).natAbs - 2 * 8)
    (iy : (ty - y).natAbs = (ty - py).natAbs - 2 * 8) : x = tx ∧ y = ty := by
  omega

theorem one_tile_on_the_way (tx ty px py : Int) (k : Nat) (hk : k < 8)
    (hone : (px = tx + 15 ∧ py = ty) ∨ (px = tx - 15 ∧ py = ty) ∨
      (px = tx ∧ py = ty + 15) ∨ (px = tx ∧ py = ty - 15))
    (ix : (tx - tx).natAbs = (tx - px).natAbs - 2 * k)
    (iy : (ty - ty).natAbs = (ty - py).natAbs - 2 * k) : False := by
  omega

/-- C28, as stated, fails for an NPC so far from its target that `target - pos` does
not fit an `int`.  For the moving NPC at `x = -6917529027641081856` with target
`x = 6917529027641081856` the difference wraps to a negative number, and the step of
a non-chatting `Update` moves the NPC 2 units away from the target: the remaining
distance grows from 13835058055282163712 to 13835058055282163714. -/
theorem npc_far_from_target_walks_away :
    sampleGame.chatting = false ∧ farNPC.moving = true ∧
    (npcTurn (idleInput 0) sampleGame [] 0 farNPC).toOption.map (fun n => (n.pos, n.moving))
      = some (⟨-6917529027641081858, 0⟩, true) ∧
    farNPC.target.X - farNPC.pos.X = 13835058055282163712 ∧
    farNPC.target.X - -6917529027641081858 = 13835058055282163714 := by
  refine ⟨by decide, by decide, by decide, by decide, by decide⟩

/-- C28, amended.  For every NPC with `moving` true whose coordinates and target are
`int` values at most `2^63 - 1` apart on each axis, in an `Update` step in which the
game is not chatting the loop body returns an NPC with the same target; on each axis
the remaining distance `|target - pos|` has dropped by exactly `min(2, remaining)` and
the new coordinate lies between the old one and the target (no overshoot); and the NPC
is idle afterwards exactly when its position equals the target.  When the NPC is one
tile (15 units on one axis) from its target, it is still moving and not at the target
after each of the first 7 such steps, and at the target and idle after the 8th.  (Each
such step is `npcAdvance`, whatever the input, the state and the other NPCs.) -/
theorem npc_step_toward_target (inp : Input) (g : GameState) (npcs : List NPC) (i : Nat)
    (npc : NPC) (hc : g.chatting = false) (hm : npc.moving = true) (hfit : StepFits npc) :
    ∃ npc2, npcTurn inp g npcs i npc = .ok npc2 ∧ npc2.target = npc.target ∧
      |npc.target.X - npc2.pos.X|
        = |npc.target.X - npc.pos.X| - min 2 |npc.target.X - npc.pos.X| ∧
      |npc.target.Y - npc2.pos.Y|
        = |npc.target.Y - npc.pos.Y| - min 2 |npc.target.Y - npc.pos.Y| ∧
      (min npc.pos.X npc.target.X ≤ npc2.pos.X ∧ npc2.pos.X ≤ max npc.pos.X npc.target.X) ∧
      (min npc.pos.Y npc.target.Y ≤ npc2.pos.Y ∧ npc2.pos.Y ≤ max npc.pos.Y npc.target.Y) ∧
      (npc2.moving = false ↔ npc2.pos = npc.target) ∧
      (OneTileAway npc.target npc →
        (∀ k : Nat, k < 8 → (npcAdvance^[k] npc).moving = true ∧
          (npcAdvance^[k] npc).pos ≠ npc.target) ∧
        (npcAdvance^[8] npc).pos = npc.target ∧ (npcAdvance^[8] npc).moving = false) ∧
      (∀ n : NPC, n.moving = true → npcTurn inp g npcs i n = .ok (npcAdvance n)) := by
  have hfit2 := hfit
  obtain ⟨⟨f1, f2⟩, ⟨f3, f4⟩, ⟨f5, f6⟩, ⟨f7, f8⟩, ⟨f9, f10⟩, ⟨f11, f12⟩⟩ := hfit2
  obtain ⟨a1, a2, a3⟩ := npcAdvance_fields npc
  obtain ⟨sx, sx1, sx2⟩ := stepToward_spec npc.pos.X npc.target.X f1 f2 f5 f6 f9 f10
  obtain ⟨sy, sy1, sy2⟩ := stepToward_spec npc.pos.Y npc.target.Y f3 f4 f7 f8 f11 f12
  have ex : (npcAdvance npc).pos.X = stepToward npc.pos.X npc.target.X := by rw [a1]
  have ey : (npcAdvance npc).pos.Y = stepToward npc.pos.Y npc.target.Y := by rw [a1]
  refine ⟨npcAdvance npc, npcTurn_moving inp g npcs i npc hc hm, a2, ?_, ?_, ?_, ?_, ?_, ?_,
    fun n hn => npcTurn_moving inp g npcs i n hc hn⟩
  · rw [ex]
    exact abs_drop _ _ sx
  · rw [ey]
    exact abs_drop _ _ sy
  · rw [ex]
    exact ⟨sx1, sx2⟩
  · rw [ey]
    exact ⟨sy1, sy2⟩
  · rw [a3, a1, hm]
    by_cases hreach : (⟨stepToward npc.pos.X npc.target.X,
        stepToward npc.pos.Y npc.target.Y⟩ : Point) = npc.target
    · rw [if_pos hreach]
      exact ⟨fun _ => hreach, fun _ => rfl⟩
    · rw [if_neg hreach]
      exact ⟨fun h => Bool.noConfusion h, fun h => absurd h hreach⟩
  · intro hone
    unfold OneTileAway tileSize at hone
    have hiter := npcAdvance_iterate npc hfit hm
    refine ⟨?_, ?_, ?_⟩
    · intro k hk
      obtain ⟨_, ix, iy, _, _, im⟩ := hiter k
      generalize npcAdvance^[k] npc = n at ix iy im ⊢
      have hne : n.pos ≠ npc.target := by
        intro he
        rw [he] at ix iy
        exact one_tile_on_the_way _ _ _ _ k hk hone ix iy
      refine ⟨?_, hne⟩
      cases hmv : n.moving with
      | true => rfl
      | false => exact absurd (im.1 hmv).2 hne
    · obtain ⟨_, ix, iy, _, _, _⟩ := hiter 8
      generalize npcAdvance^[8] npc = n at ix iy ⊢
      rw [point_eq_iff]
      exact one_tile_reached _ _ _ _ _ _ hone ix iy
    · obtain ⟨_, ix, iy, _, _, im⟩ := hiter 8
      generalize npcAdvance^[8] npc = n at ix iy im ⊢
      refine im.2 ⟨by omega, ?_⟩
      rw [point_eq_iff]
      exact one_tile_reached _ _ _ _ _ _ hone ix iy

/-- C28: an instance (the NPC at (0, 0) with the target (15, 0) is at the target and
idle after 8 steps). -/
theorem npc_step_toward_target_witness :
    (npcAdvance^[8] walker).pos = ⟨15, 0⟩ ∧ (npcAdvance^[8] walker).moving = false := by
  obtain ⟨_, _, _, _, _, _, _, _, h8, _⟩ := npc_step_toward_target (idleInput 0) sampleGame []
    0 walker (by decide) rfl
    ⟨⟨by decide, by decide⟩, ⟨by decide, by decide⟩, ⟨by decide, by decide⟩,
      ⟨by decide, by decide⟩, ⟨by decide, by decide⟩, ⟨by decide, by decide⟩⟩
  exact (h8 (Or.inr (Or.inl ⟨by decide, by decide⟩))).2

/-! ## What `isFacingNPC` decides -/

/-- The reach test on positions far from the ends of the `int` range, as inequalities. -/
theorem isFacingNPC_spec (p : Point) (n : NPC) (hp : SmallPoint p) (hn : SmallPoint n.pos) :
    isFacingNPC p n = true ↔
      (p.X - n.pos.X < 22 ∧ n.pos.X - p.X < 22 ∧ p.Y - n.pos.Y < 22 ∧ n.pos.Y - p.Y < 22) := by
  obtain ⟨b1, b2, b3, b4⟩ := hp
  obtain ⟨c1, c2, c3, c4⟩ := hn
  unfold isFacingNPC actorRect
  rw [quoInt_tileSize_two, quoInt_three_halves]
  simp only [addInt, subInt, tileSize]
  rw [wrapInt_of_range (p.X + 15) (by omega) (by omega),
    wrapInt_of_range (p.Y + 15) (by omega) (by omega),
    wrapInt_of_range (n.pos.X - 7) (by omega) (by omega),
    wrapInt_of_range (n.pos.Y - 7) (by omega) (by omega),
    wrapInt_of_range (n.pos.X + 22) (by omega) (by omega),
    wrapInt_of_range (n.pos.Y + 22) (by omega) (by omega)]
  rw [rect_of_le p.X p.Y (p.X + 15) (p.Y + 15) (by omega) (by omega),
    rect_of_le (n.pos.X - 7) (n.pos.Y - 7) (n.pos.X + 22) (n.pos.Y + 22) (by omega) (by omega)]
  simp only [Rectangle.Overlaps, Rectangle.Empty, Bool.and_eq_true, Bool.not_eq_true',
    Bool.or_eq_false_iff, decide_eq_false_iff_not, decide_eq_true_eq]
  omega

/-- The overlap test of two tile rectangles on positions far from the ends of the `int`
range, as inequalities. -/
theorem actorRect_overlaps_spec (p q : Point) (hp : SmallPoint p) (hq : SmallPoint q) :
    (actorRect p).Overlaps (actorRect q) = true ↔
      (p.X - q.X < 15 ∧ q.X - p.X < 15 ∧ p.Y - q.Y < 15 ∧ q.Y - p.Y < 15) := by
  obtain ⟨b1, b2, b3, b4⟩ := hp
  obtain ⟨c1, c2, c3, c4⟩ := hq
  unfold actorRect
  simp only [addInt, tileSize]
  rw [wrapInt_of_range (p.X + 15) (by omega) (by omega),
    wrapInt_of_range (p.Y + 15) (by omega) (by omega),
    wrapInt_of_range (q.X + 15) (by omega) (by omega),
    wrapInt_of_range (q.Y + 15) (by omega) (by omega)]
  rw [rect_of_le p.X p.Y (p.X + 15) (p.Y + 15) (by omega) (by omega),
    rect_of_le q.X q.Y (q.X + 15) (q.Y + 15) (by omega) (by omega)]
  simp only [Rectangle.Overlaps, Rectangle.Empty, Bool.and_eq_true, Bool.not_eq_true',
    Bool.or_eq_false_iff, decide_eq_false_iff_not, decide_eq_true_eq]
  omega

/-- C29, as stated, fails near the ends of the `int` range.  For the player at
`x = 9223372036854775800` the sum `x + tileSize` wraps, `image.Rect` swaps the corners,
and the player's rectangle spans almost the whole axis: `isFacingNPC` is true for the
NPC at the origin although the two are 9223372036854775800 units apart. -/
theorem isFacingNPC_wraps_at_the_edge :
    isFacingNPC edgePoint originNPC = true ∧
    ¬ (|edgePoint.X - originNPC.pos.X| < 22) := by
  refine ⟨by decide, ?_⟩
  rw [abs_lt]
  intro h
  exact absurd h.2 (by decide)

/-- C29, amended.  For all player and NPC positions with coordinates between `-2^62`
and `2^62`: `isFacingNPC` is true if and only if `|playerX - npcX| < 22` and
`|playerY - npcY| < 22`; the player's tile rectangle overlaps the NPC's if and only if
`|dx| < 15` and `|dy| < 15`, and then `isFacingNPC` is true; the result is the same for
any two states with the same player position and any two NPCs with the same position,
whatever the facing codes.  At distance 15 on one axis `isFacingNPC` is true and the
rectangles do not overlap. -/
theorem isFacingNPC_iff_within_22 (p : Point) (n : NPC) (hp : SmallPoint p)
    (hn : SmallPoint n.pos) :
    (isFacingNPC p n = true ↔ (|p.X - n.pos.X| < 22 ∧ |p.Y - n.pos.Y| < 22)) ∧
    ((actorRect p).Overlaps (actorRect n.pos) = true ↔
      (|p.X - n.pos.X| < 15 ∧ |p.Y - n.pos.Y| < 15)) ∧
    ((actorRect p).Overlaps (actorRect n.pos) = true → isFacingNPC p n = true) ∧
    (∀ (g g2 : GameState) (n2 : NPC), g.playerPos = p → g2.playerPos = p → n2.pos = n.pos →
      isFacingNPC g2.playerPos n2 = isFacingNPC g.playerPos n) ∧
    (isFacingNPC ⟨15, 0⟩ originNPC = true ∧
      (actorRect ⟨15, 0⟩).Overlaps (actorRect originNPC.pos) = false) := by
  have h1 := isFacingNPC_spec p n hp hn
  have h2 := actorRect_overlaps_spec p n.pos hp hn
  refine ⟨?_, ?_, ?_, ?_, by decide, by decide⟩
  · rw [h1, abs_lt, abs_lt]
    omega
  · rw [h2, abs_lt, abs_lt]
    omega
  · intro ho
    rw [h1]
    have := h2.1 ho
    omega
  · intro g g2 n2 e1 e2 e3
    rw [e1, e2]
    exact isFacingNPC_pos p n n2 e3

/-- C29: an instance (the player at (22, 22) and the Kid at (0, 0) are 22 apart on both
axes, and `isFacingNPC` is false). -/
theorem isFacingNPC_iff_within_22_witness :
    isFacingNPC ⟨22, 22⟩ originNPC = false ∧ ¬ (|(22 : Int) - 0| < 22 ∧ |(22 : Int) - 0| < 22) := by
  have h := (isFacingNPC_iff_within_22 ⟨22, 22⟩ originNPC
    ⟨by decide, by decide, by decide, by decide⟩
    ⟨by decide, by decide, by decide, by decide⟩).1
  have hno : ¬ (|(22 : Int) - 0| < 22 ∧ |(22 : Int) - 0| < 22) := by
    intro hh
    have := hh.1
    rw [abs_lt] at this
    omega
  refine ⟨?_, hno⟩
  cases hf : isFacingNPC ⟨22, 22⟩ originNPC with
  | false => rfl
  | true => exact absurd (h.1 hf) hno

/-! ## The cell in front of the player -/

theorem wrapInt_range (x : Int) :
    -9223372036854775808 ≤ wrapInt x ∧ wrapInt x ≤ 9223372036854775807 := by
  unfold wrapInt
  omega

theorem tdiv_tileSize_bound (a : Int) (h1 : -9223372036854775808 ≤ a)
    (h2 : a ≤ 9223372036854775807) :
    -1152921504606846976 ≤ Int.tdiv a 15 ∧ Int.tdiv a 15 ≤ 1152921504606846976 := by
  by_cases ha : 0 ≤ a
  · rw [Int.tdiv_eq_ediv ha (by omega)]
    omega
  · have e : a = -(-a) := by omega
    rw [e, Int.neg_tdiv, Int.tdiv_eq_ediv (by omega) (by omega)]
    omega

/-- The centre cell is far from the ends of the `int` range, whatever the position. -/
theorem centerCell_bound (x y : Int) :
    (-1152921504606846976 ≤ (centerCell x y).1 ∧ (centerCell x y).1 ≤ 1152921504606846976) ∧
    (-1152921504606846976 ≤ (centerCell x y).2 ∧ (centerCell x y).2 ≤ 1152921504606846976) := by
  unfold centerCell
  simp only [quoInt, tileSize]
  constructor
  · obtain ⟨r1, r2⟩ := wrapInt_range (addInt x (wrapInt (Int.tdiv (subInt 15 15) 2))
      + wrapInt (Int.tdiv 15 2))
    have hb := tdiv_tileSize_bound _ r1 r2
    unfold addInt at hb ⊢
    rw [wrapInt_of_range (Int.tdiv _ 15) (by omega) (by omega)]
    exact hb
  · obtain ⟨r1, r2⟩ := wrapInt_range (addInt y (wrapInt (Int.tdiv (subInt 15 15) 2))
      + wrapInt (Int.tdiv 15 2))
    have hb := tdiv_tileSize_bound _ r1 r2
    unfold addInt at hb ⊢
    rw [wrapInt_of_range (Int.tdiv _ 15) (by omega) (by omega)]
    exact hb

theorem guardCell_eq (p : Point) (d : Int) : guardCell p d = interactCell p d := by
  unfold guardCell interactCell
  simp only
  split
  · rfl
  · rfl
  · rfl
  · rfl
  · rename_i h0 h1 h2 h3
    rw [if_neg h0, if_neg h1, if_neg h2, if_neg h3]

/-- C30. The cell probed by the Water/Trees interaction is the player's centre cell
shifted by (0, +1) for facing code 0, (-1, 0) for code 1, (+1, 0) for code 2 and
(0, -1) for code 3, for every position; the inventory guard computes the same cell for
every position and code.  With exactly one direction key pressed, the movement code
sets the code whose shift points the way the key moves the player: Left gives code 1
and `x - 1`, Right code 2 and `x + 1`, Up code 3 and `y - 1`, Down code 0 and `y + 1`. -/
theorem interact_cell_matches_key (p : Point) :
    interactCell p 0 = ((centerCell p.X p.Y).1, (centerCell p.X p.Y).2 + 1) ∧
    interactCell p 1 = ((centerCell p.X p.Y).1 - 1, (centerCell p.X p.Y).2) ∧
    interactCell p 2 = ((centerCell p.X p.Y).1 + 1, (centerCell p.X p.Y).2) ∧
    interactCell p 3 = ((centerCell p.X p.Y).1, (centerCell p.X p.Y).2 - 1) ∧
    (∀ d : Int, guardCell p d = interactCell p d) ∧
    (∀ (inp : Input) (d : Int), inp.arrowLeft = true → inp.arrowRight = false →
      inp.arrowUp = false → inp.arrowDown = false →
      facingAfterKeys inp d = 1 ∧ intendedPos inp p = ⟨subInt p.X 1, p.Y⟩) ∧
    (∀ (inp : Input) (d : Int), inp.arrowLeft = false → inp.arrowRight = true →
      inp.arrowUp = false → inp.arrowDown = false →
      facingAfterKeys inp d = 2 ∧ intendedPos inp p = ⟨addInt p.X 1, p.Y⟩) ∧
    (∀ (inp : Input) (d : Int), inp.arrowLeft = false → inp.arrowRight = false →
      inp.arrowUp = true → inp.arrowDown = false →
      facingAfterKeys inp d = 3 ∧ intendedPos inp p = ⟨p.X, subInt p.Y 1⟩) ∧
    (∀ (inp : Input) (d : Int), inp.arrowLeft = false → inp.arrowRight = false →
      inp.arrowUp = false → inp.arrowDown = true →
      facingAfterKeys inp d = 0 ∧ intendedPos inp p = ⟨p.X, addInt p.Y 1⟩) := by
  obtain ⟨⟨x1, x2⟩, ⟨y1, y2⟩⟩ := centerCell_bound p.X p.Y
  refine ⟨?_, ?_, ?_, ?_, fun d => guardCell_eq p d, ?_, ?_, ?_, ?_⟩
  · have e : addInt (centerCell p.X p.Y).2 1 = (centerCell p.X p.Y).2 + 1 :=
      wrapInt_of_range _ (by omega) (by omega)
    unfold interactCell
    simp [e]
  · have e : subInt (centerCell p.X p.Y).1 1 = (centerCell p.X p.Y).1 - 1 :=
      wrapInt_of_range _ (by omega) (by omega)
    unfold interactCell
    simp [e]
  · have e : addInt (centerCell p.X p.Y).1 1 = (centerCell p.X p.Y).1 + 1 :=
      wrapInt_of_range _ (by omega) (by omega)
    unfold interactCell
    simp [e]
  · have e : subInt (centerCell p.X p.Y).2 1 = (centerCell p.X p.Y).2 - 1 :=
      wrapInt_of_range _ (by omega) (by omega)
    unfold interactCell
    simp [e]
  · intro inp d h1 h2 h3 h4
    unfold facingAfterKeys intendedPos
    simp [h1, h2, h3, h4]
  · intro inp d h1 h2 h3 h4
    unfold facingAfterKeys intendedPos
    simp [h1, h2, h3, h4]
  · intro inp d h1 h2 h3 h4
    unfold facingAfterKeys intendedPos
    simp [h1, h2, h3, h4]
  · intro inp d h1 h2 h3 h4
    unfold facingAfterKeys intendedPos
    simp [h1, h2, h3, h4]

/-- C30: an instance (the player at (22, 22), centre cell (1, 1), with Left pressed:
code 1 and the probed cell (0, 1)). -/
theorem interact_cell_matches_key_witness :
    facingAfterKeys (leftInput 0) 0 = 1 ∧ interactCell ⟨22, 22⟩ 1 = (0, 1) := by
  obtain ⟨_, h2, _, _, _, h6, _⟩ := interact_cell_matches_key ⟨22, 22⟩
  refine ⟨(h6 (leftInput 0) 0 rfl rfl rfl rfl).1, ?_⟩
  rw [h2]
  decide

/-! ## The player animation -/

theorem animatePlayer_idle (g : GameState) (hm : g.moving = false) :
    (animatePlayer g).playerAnim = 0 ∧ (animatePlayer g).playerAnimTick = 0 ∧
    (animatePlayer g).moving = false := by
  unfold animatePlayer
  rw [if_neg (by rw [hm]; simp)]
  exact ⟨rfl, rfl, hm⟩

theorem moveStep_anim_idle (inp : Input) (g g2 : GameState) (h1 : inp.arrowLeft = false)
    (h2 : inp.arrowRight = false) (h3 : inp.arrowUp = false) (h4 : inp.arrowDown = false)
    (hm : g.moving = false) (h : moveStep inp g = .ok g2) :
    g2.playerAnim = 0 ∧ g2.playerAnimTick = 0 ∧ g2.moving = false := by
  unfold moveStep at h
  simp only [h1, h2, h3, h4, hm, Bool.or_false] at h
  split at h
  · cases h
  · rename_i blocked _
    cases h
    cases blocked
    · exact animatePlayer_idle _ rfl
    · exact animatePlayer_idle _ rfl

/-- The step that opens the inventory returns before the animation code.  On the fresh
example game one `Update` with Left pressed moves the player and advances the tick
counter to 1.  In the next step the state is exploring and only Space is pressed: the
inventory opens and the tick counter is still 1. -/
theorem animation_kept_when_inventory_opens :
    (runUpdates 1440 [leftInput 1000000000] sampleGame).toOption.map
        (fun g => (g.chatting, g.inventoryOpen, g.playerAnim, g.playerAnimTick))
      = some (false, false, 0, 1) ∧
    (confirmInput 1300000000).arrowLeft = false ∧
    (confirmInput 1300000000).arrowRight = false ∧
    (confirmInput 1300000000).arrowUp = false ∧
    (confirmInput 1300000000).arrowDown = false ∧
    (runUpdates 1440 [leftInput 1000000000, confirmInput 1300000000] sampleGame).toOption.map
        (fun g => (g.inventoryOpen, g.playerAnim, g.playerAnimTick))
      = some (true, 0, 1) := by
  refine ⟨by decide, by decide, by decide, by decide, by decide, by decide⟩

/-- Before the first direction key the animation does reset.  For every well-formed
exploring state (game not over, not chatting, inventory closed) whose `moving` flag is
not set, and every input with neither a direction key nor Space pressed, `Update`
returns a state in which the player's animation frame and tick counter are both 0 (and
`moving` is still not set). -/
theorem animation_resets_before_first_move (fuel : Nat) (inp : Input) (g : GameState)
    (hgo : g.gameOver = false) (hchat : g.chatting = false) (hinv : g.inventoryOpen = false)
    (hspace : inp.space = false)
    (hkeys : inp.arrowLeft = false ∧ inp.arrowRight = false ∧ inp.arrowUp = false ∧
      inp.arrowDown = false)
    (hmov : g.moving = false) (hw : WellFormed g) (hfuel : 1440 ≤ fuel) :
    ∃ g2, Update fuel inp g = .ok g2 ∧ g2.playerAnim = 0 ∧ g2.playerAnimTick = 0 ∧
      g2.moving = false := by
  obtain ⟨hmap, hmin, hld, _⟩ := hw
  obtain ⟨k1, k2, k3, k4⟩ := hkeys
  obtain ⟨npcs, g1, _, hsame, _, hupd⟩ :=
    Update_exploring fuel inp g hgo hchat hmap hmin hld hfuel
  obtain ⟨s1, _, _, _, _, _, _, _, _, _, _, _, _, s14, _, _, _, s18, _⟩ := hsame
  obtain ⟨g2, hg2⟩ := moveStep_ok inp g1 (by rw [s1]; exact hmap)
  refine ⟨g2, ?_, moveStep_anim_idle inp g1 g2 k1 k2 k3 k4 (s18.trans hmov) hg2⟩
  rw [hupd, exploreStep_no_space inp g1 hspace (s14.trans hinv)]
  exact hg2

/-- An instance of the reset: the fresh example game, no key pressed. -/
theorem animation_resets_before_first_move_witness :
    ∃ g2, Update 1440 (idleInput 1000000000) sampleGame = .ok g2 ∧ g2.playerAnim = 0 ∧
      g2.playerAnimTick = 0 :=
  let ⟨g2, h1, h2, h3, _⟩ := animation_resets_before_first_move 1440 (idleInput 1000000000)
    sampleGame (by decide) (by decide) (by decide) rfl ⟨rfl, rfl, rfl, rfl⟩ (by decide)
    sampleGame_wellFormed (by decide)
  ⟨g2, h1, h2, h3⟩

/-! ## The drain loop ends (C33) -/

theorem drainBody_lastDrain (b : ℚ × ℚ × Int) (h0 : 0 ≤ b.2.2) (h1 : b.2.2 < 1440) :
    (drainBody b).2.2 = (b.2.2 + 1) % 1440 := by
  simp only [drainBody, remInt, addInt]
  rw [wrapInt_of_range _ (by omega) (by omega), Int.tmod_eq_emod (by omega) (by omega)]
  rfl

theorem lastDrainAfter_eq (k : Nat) (b : ℚ × ℚ × Int) (h0 : 0 ≤ b.2.2) (h1 : b.2.2 < 1440) :
    lastDrainAfter k b = (b.2.2 + k) % 1440 := by
  unfold lastDrainAfter
  induction k with
  | zero =>
    have e0 : drainBody^[0] b = b := rfl
    rw [e0]
    omega
  | succ n ih =>
    rw [Function.iterate_succ_apply', drainBody_lastDrain _ (by rw [ih]; omega) (by rw [ih]; omega),
      ih]
    omega

/-- The loop makes exactly `k` passes when `k` is the first pass count at which
`lastDrain` equals `gameMinutes`, given at least `k` units of fuel. -/
theorem drainLoop_iterate (gm : Int) (k : Nat) :
    ∀ (fuel : Nat) (b : ℚ × ℚ × Int), k ≤ fuel →
      (∀ j, j < k → lastDrainAfter j b ≠ gm) → lastDrainAfter k b = gm →
      drainLoop gm fuel b = some (drainBody^[k] b) := by
  induction k with
  | zero =>
    intro fuel b _ _ he
    have he2 : b.2.2 = gm := he
    cases fuel with
    | zero => simp only [drainLoop]; rw [if_pos he2]; rfl
    | succ f => simp only [drainLoop]; rw [if_pos he2]; rfl
  | succ n ih =>
    intro fuel b hk hn he
    cases fuel with
    | zero => omega
    | succ f =>
      have hne : b.2.2 ≠ gm := hn 0 (by omega)
      simp only [drainLoop]
      rw [if_neg hne, Function.iterate_succ_apply]
      refine ih f (drainBody b) (by omega) ?_ ?_
      · intro j hj
        have := hn (j + 1) (by omega)
        unfold lastDrainAfter at this ⊢
        rw [Function.iterate_succ_apply] at this
        exact this
      · unfold lastDrainAfter at he ⊢
        rw [Function.iterate_succ_apply] at he
        exact he

/-- C33. For every `lastDrain` and `gameMinutes` in `0..1439`, and whatever the bars,
the drain loop `for g.lastDrain != g.gameMinutes` makes `k` passes for some
`k ≤ 1439` (namely `(gameMinutes - lastDrain) mod 1440`): `lastDrain` differs from
`gameMinutes` before each of the `k` passes and equals it after the last, so the loop,
given 1439 passes or more, ends with the state of exactly `k` passes and with
`lastDrain = gameMinutes`. -/
theorem drain_loop_terminates (lastDrain gameMinutes : Int) (hunger social : ℚ)
    (hl : 0 ≤ lastDrain ∧ lastDrain < 1440) (hg : 0 ≤ gameMinutes ∧ gameMinutes < 1440) :
    ∃ k : Nat, k ≤ 1439 ∧ (k : Int) = (gameMinutes - lastDrain) % 1440 ∧
      (∀ j, j < k → lastDrainAfter j (hunger, social, lastDrain) ≠ gameMinutes) ∧
      lastDrainAfter k (hunger, social, lastDrain) = gameMinutes ∧
      ∀ fuel, 1439 ≤ fuel →
        ∃ c, drainLoop gameMinutes fuel (hunger, social, lastDrain) = some c ∧
          c = drainBody^[k] (hunger, social, lastDrain) ∧ c.2.2 = gameMinutes := by
  obtain ⟨l0, l1⟩ := hl
  obtain ⟨g0, g1⟩ := hg
  have hk0 : 0 ≤ (gameMinutes - lastDrain) % 1440 := Int.emod_nonneg _ (by omega)
  obtain ⟨k, hk⟩ := Int.eq_ofNat_of_zero_le hk0
  have hbefore : ∀ j, j < k → lastDrainAfter j (hunger, social, lastDrain) ≠ gameMinutes := by
    intro j hj
    rw [lastDrainAfter_eq j _ l0 l1]
    simp only
    omega
  have hafter : lastDrainAfter k (hunger, social, lastDrain) = gameMinutes := by
    rw [lastDrainAfter_eq k _ l0 l1]
    simp only
    omega
  refine ⟨k, by omega, hk.symm, hbefore, hafter, ?_⟩
  intro fuel hfuel
  exact ⟨_, drainLoop_iterate gameMinutes k fuel _ (by omega) hbefore hafter, rfl, hafter⟩

/-- C33: an instance (`lastDrain` 1439, `gameMinutes` 0 and 1438). -/
theorem drain_loop_terminates_witness :
    (∃ c, drainLoop 0 1439 (1, 1, 1439) = some c ∧ c.2.2 = 0) ∧
    (∃ k : Nat, k ≤ 1439 ∧ (k : Int) = 1439 ∧
      ∃ c, drainLoop 1438 1439 (1, 1, 1439) = some c ∧ c.2.2 = 1438) := by
  obtain ⟨_, _, _, _, _, h1⟩ := drain_loop_terminates 1439 0 1 1 (by decide) (by decide)
  obtain ⟨k, hk, hk2, _, _, h2⟩ := drain_loop_terminates 1439 1438 1 1 (by decide) (by decide)
  obtain ⟨c1, hc1, _, e1⟩ := h1 1439 (le_refl _)
  obtain ⟨c2, hc2, _, e2⟩ := h2 1439 (le_refl _)
  exact ⟨⟨c1, hc1, e1⟩, k, hk, by rw [hk2]; decide, c2, hc2, e2⟩

/-! ## The game-over flag and health (C34) -/

theorem animatePlayer_talkFields (g : GameState) :
    (animatePlayer g).nodes = g.nodes ∧ (animatePlayer g).conversations = g.conversations ∧
    (animatePlayer g).convNode = g.convNode ∧ (animatePlayer g).chatChoice = g.chatChoice ∧
    (animatePlayer g).gameOver = g.gameOver := by
  unfold animatePlayer
  split
  · simp only
    split <;> exact ⟨rfl, rfl, rfl, rfl, rfl⟩
  · exact ⟨rfl, rfl, rfl, rfl, rfl⟩

/-- The movement block leaves the dialogue fields, the NPCs and the game-over flag as
they are. -/
theorem moveStep_talkFields (inp : Input) (g g2 : GameState) (h : moveStep inp g = .ok g2) :
    g2.nodes = g.nodes ∧ g2.conversations = g.conversations ∧ g2.convNode = g.convNode ∧
    g2.chatChoice = g.chatChoice ∧ g2.gameOver = g.gameOver ∧ g2.npcs = g.npcs ∧
    g2.chatting = g.chatting := by
  unfold moveStep at h
  simp only at h
  split at h
  · cases h
  · cases h
    refine ⟨?_, ?_, ?_, ?_, ?_, ?_, ?_⟩
    · rw [(animatePlayer_talkFields _).1]; split <;> rfl
    · rw [(animatePlayer_talkFields _).2.1]; split <;> rfl
    · rw [(animatePlayer_talkFields _).2.2.1]; split <;> rfl
    · rw [(animatePlayer_talkFields _).2.2.2.1]; split <;> rfl
    · rw [(animatePlayer_talkFields _).2.2.2.2]; split <;> rfl
    · rw [(animatePlayer_fields _).2.2]; split <;> rfl
    · rw [(animatePlayer_mapData _).2]; split <;> rfl

theorem startChat_gameOver (inp : Input) (g : GameState) (i : Nat) (npc : NPC) :
    (startChat inp g i npc).gameOver = g.gameOver := by
  unfold startChat
  simp only
  split <;> rfl

theorem interactStep_gameOver (inp : Input) (g g2 : GameState)
    (h : interactStep inp g = .ok g2) : g2.gameOver = g.gameOver := by
  unfold interactStep at h
  split at h
  · split at h
    · cases h; rfl
    · split at h
      · cases h
        exact startChat_gameOver inp g _ _
      · simp only at h
        split at h
        · cases h
        · cases h; rfl
        · split at h
          · cases h
          · cases h; rfl
          · cases h; rfl
  · cases h; rfl

/-- One `Update` step of a game that is not over leaves the game-over flag false and
health as it is. -/
theorem Update_gameOver_health (fuel : Nat) (inp : Input) (g g2 : GameState)
    (hgo : g.gameOver = false) (h : Update fuel inp g = .ok g2) :
    g2.gameOver = false ∧ g2.health = g.health := by
  obtain ⟨g1, hsame, _, hrest⟩ := Update_branches fuel inp g g2 hgo h
  obtain ⟨_, _, _, _, _, _, _, _, _, _, _, _, _, _, _, s16, _, _, _, _, s21⟩ := hsame
  rcases hrest with ⟨_, hstep, hact⟩ | ⟨_, _, hg2⟩ | ⟨_, _, _, gm, hmv, hit, _⟩
  · obtain ⟨_, _, _, _, _, a6, _⟩ := hact
    exact ⟨by rw [a6, s16, hgo], by rw [(chatStep_tame inp g1 g2 hstep).2.1, s21]⟩
  · rw [hg2]
    exact ⟨s16.trans hgo, s21⟩
  · refine ⟨?_, ?_⟩
    · rw [interactStep_gameOver inp gm g2 hit, (moveStep_talkFields inp g1 gm hmv).2.2.2.2.1,
        s16, hgo]
    · rw [(interactStep_tame inp gm g2 hit).2.1, (moveStep_tame inp g1 gm hmv).2.1, s21]

/-- C34. No `Update` step sets `gameOver` to true or changes health.  In every state
reached by `Update` steps from a start with `gameOver` false (as the initial state of
`main` has it), `gameOver` is false and health is as at the start; and from such a
state every `Update` step that returns, whatever the keys, the clock readings, the
draws and the bars (hunger and social at 0 included), gives a state with `gameOver`
false and the same health, and is not the step of the game-over branch, the only
caller of `restart`. -/
theorem game_over_is_unreachable (g0 g : GameState) (h0 : g0.gameOver = false)
    (hr : UpdateReachable g0 g) :
    g.gameOver = false ∧ g.health = g0.health ∧
    ∀ (fuel : Nat) (inp : Input) (g2 : GameState), Update fuel inp g = .ok g2 →
      g2.gameOver = false ∧ g2.health = g.health ∧
      ¬ (g.gameOver = true ∧ (g2 = restart g ∨ g2 = g)) := by
  have hinv : g.gameOver = false ∧ g.health = g0.health := by
    induction hr with
    | start => exact ⟨h0, rfl⟩
    | step fuel inp g1 g2 _ hstep ih =>
      obtain ⟨e1, e2⟩ := Update_gameOver_health fuel inp g1 g2 ih.1 hstep
      exact ⟨e1, e2.trans ih.2⟩
  refine ⟨hinv.1, hinv.2, ?_⟩
  intro fuel inp g2 hstep
  obtain ⟨e1, e2⟩ := Update_gameOver_health fuel inp g g2 hinv.1 hstep
  refine ⟨e1, e2, ?_⟩
  rintro ⟨hgo, _⟩
  rw [hinv.1] at hgo
  cases hgo

/-- C34: an instance (the example game with hunger and social at 0, one step with
Space pressed). -/
theorem game_over_is_unreachable_witness :
    starvedGame.hunger = 0 ∧ starvedGame.social = 0 ∧
    ∃ g2, Update 1440 (confirmInput 1000000000) starvedGame = .ok g2 ∧
      g2.gameOver = false ∧ g2.health = 1 := by
  obtain ⟨g2, hg2⟩ := Update_returns 1440 (confirmInput 1000000000) starvedGame
    sampleGame_wellFormed (by decide)
  obtain ⟨_, _, hstep⟩ := game_over_is_unreachable starvedGame starvedGame (by decide)
    UpdateReachable.start
  obtain ⟨e1, e2, _⟩ := hstep 1440 (confirmInput 1000000000) g2 hg2
  exact ⟨rfl, rfl, g2, hg2, e1, e2.trans rfl⟩

/-! ## Word wrap (C35) -/

/-- The loop of `wrapText` keeps every line and the current line within `maxWidth`
runes when every word has at most `maxWidth` runes. -/
theorem wrapLoop_fits (maxWidth : Int) (words : List String) :
    ∀ (lines : List String) (current : String),
      (∀ w ∈ words, (w.length : Int) ≤ maxWidth) →
      (∀ l ∈ lines, (l.length : Int) ≤ maxWidth) → (current.length : Int) ≤ maxWidth →
      (∀ l ∈ (wrapLoop maxWidth words lines current).1, (l.length : Int) ≤ maxWidth) ∧
        ((wrapLoop maxWidth words lines current).2.length : Int) ≤ maxWidth := by
  induction words with
  | nil =>
    intro lines current _ hl hc
    exact ⟨hl, hc⟩
  | cons word rest ih =>
    intro lines current hw hl hc
    have hword := hw word (List.mem_cons_self _ _)
    have hrest : ∀ w ∈ rest, (w.length : Int) ≤ maxWidth :=
      fun w hmem => hw w (List.mem_cons_of_mem _ hmem)
    simp only [wrapLoop]
    split
    · refine ih _ _ hrest ?_ hword
      intro l hmem
      rcases List.mem_append.1 hmem with h1 | h1
      · exact hl l h1
      · rw [List.mem_singleton.1 h1]
        exact hc
    · rename_i hfit
      refine ih _ _ hrest hl ?_
      rw [String.length_append]
      split
      · rw [String.length_append]
        have e1 : (" " : String).length = 1 := rfl
        rw [e1]
        push_cast
        omega
      · push_cast
        omega

/-- What `wrapText` does keep: when no word of the text has more than `maxWidth` runes,
no line has. -/
theorem wrapText_lines_fit (text : String) (maxWidth : Int) (h1 : 1 ≤ maxWidth)
    (hw : ∀ w ∈ Fields text, (w.length : Int) ≤ maxWidth) :
    ∀ line ∈ wrapText text maxWidth, (line.length : Int) ≤ maxWidth := by
  have h0 : (("" : String).length : Int) ≤ maxWidth := by
    have e0 : ("" : String).length = 0 := rfl
    rw [e0]
    omega
  obtain ⟨hl, hc⟩ := wrapLoop_fits maxWidth (Fields text) [] "" hw
    (fun l hmem => absurd hmem (List.not_mem_nil l)) h0
  intro line hmem
  unfold wrapText at hmem
  simp only at hmem
  split at hmem
  · rcases List.mem_append.1 hmem with h2 | h2
    · exact hl line h2
    · rw [List.mem_singleton.1 h2]
      exact hc
  · exact hl line hmem

/-- C35, the failing input evaluated.  `wrapText("hello", 3)` returns the two lines
`""` and `"hello"`: the word is longer than the width and is kept whole, so the second
line has 5 runes, more than `maxWidth = 3` (and an empty line comes first).  At the
width 38 of the dialogue box a word of 40 runes gives a line of 40 runes.  The
function's comment promises "lines not exceeding maxWidth (in runes)". -/
theorem wrapText_line_exceeds_width :
    wrapText "hello" 3 = ["", "hello"] ∧
    (∃ line ∈ wrapText "hello" 3, (line.length : Int) > 3) ∧
    wrapText "go to 0123456789012345678901234567890123456789 now" 38
      = ["go to", "0123456789012345678901234567890123456789", "now"] ∧
    ("0123456789012345678901234567890123456789".length : Int) = 40 := by
  refine ⟨by decide, ⟨"hello", by decide, by decide⟩, by decide, by decide⟩

/-! ## The dialogue graphs (C31) -/

theorem conversationNodes_facts (b k : Nat) (node : ConversationNode)
    (h : (conversationNodes b)[k]? = some node) :
    k < 16 ∧ node.Choices ≠ [] ∧ (∃ c ∈ node.Choices, c.Text = "Goodbye") ∧
    (∀ c ∈ node.Choices, c.Text = somethingElse → c.Next = some (groupRoot b k)) ∧
    (∀ c ∈ node.Choices, ∀ m, c.Next = some m →
      b ≤ m ∧ m - b < 16 ∧ groupRoot b (m - b) = groupRoot b k) := by
  have hk : k < 16 := by
    by_contra hge
    have : (conversationNodes b)[k]? = none := by
      apply List.getElem?_eq_none
      simp [conversationNodes]
      omega
    rw [this] at h
    cases h
  refine ⟨hk, ?_⟩
  interval_cases k
  all_goals
    simp [conversationNodes] at h
    subst h
    simp [somethingElse, groupRoot]


theorem initConversations_node (g : GameState) (k : Nat) :
    (initConversations g).nodes[g.nodes.length + k]? = (conversationNodes g.nodes.length)[k]? := by
  unfold initConversations
  simp only
  rw [List.getElem?_append_right (Nat.le_add_right _ _), Nat.add_sub_cancel_left]

/-- The roots `initConversations` enters in the map. -/
theorem initConversations_root (g : GameState) (name : String) (root : Nat)
    (h : conversationRoot (initConversations g).conversations name = some root) :
    ∃ k, k < 16 ∧ root = g.nodes.length + k ∧ groupRoot g.nodes.length k = root ∧
      (name = "Kid" ∨ name = "Merchant" ∨ name = "Alchemist") := by
  unfold initConversations conversationRoot at h
  simp only [List.lookup] at h
  split at h
  · rename_i he
    cases h
    exact ⟨4, by omega, rfl, by simp [groupRoot], Or.inl (by simpa using he)⟩
  · split at h
    · rename_i he
      cases h
      exact ⟨10, by omega, rfl, by simp [groupRoot], Or.inr (Or.inl (by simpa using he))⟩
    · split at h
      · rename_i he
        cases h
        exact ⟨15, by omega, rfl, by simp [groupRoot], Or.inr (Or.inr (by simpa using he))⟩
      · cases h

/-- Every node reached from a root of `initConversations` is one of the new nodes of
the same dialogue. -/
theorem nodeReach_group (g : GameState) (root nid kr : Nat) (hkr : kr < 16)
    (hroot : root = g.nodes.length + kr) (hgr : groupRoot g.nodes.length kr = root)
    (hreach : NodeReach (initConversations g).nodes root nid) :
    ∃ k, k < 16 ∧ nid = g.nodes.length + k ∧ groupRoot g.nodes.length k = root := by
  induction hreach with
  | root => exact ⟨kr, hkr, hroot, hgr⟩
  | next n m node c _ hn hc hnext ih =>
    obtain ⟨k, _, hk, hg⟩ := ih
    rw [hk, initConversations_node] at hn
    obtain ⟨_, _, _, _, hclosed⟩ := conversationNodes_facts g.nodes.length k node hn
    obtain ⟨h1, h2, h3⟩ := hclosed c hc m hnext
    exact ⟨m - g.nodes.length, h2, by omega, h3.trans hg⟩

/-- C31. In the graphs built by `initConversations` (on any state, the new nodes
allocated after the existing ones), every node reached from the root the map holds for
a name (Kid, Merchant or Alchemist) by following `Next` references has a non-empty
choice list with a choice whose text is "Goodbye", a choice on which the commit ends
the conversation whatever the state and the time; and every choice of such a node with
the text "How interesting, I wanted to ask you about something else..." leads to this
root. -/
theorem dialogue_graphs_exitable (g : GameState) (name : String) (root nid : Nat)
    (hroot : conversationRoot (initConversations g).conversations name = some root)
    (hreach : NodeReach (initConversations g).nodes root nid) :
    ∃ node, (initConversations g).nodes[nid]? = some node ∧ node.Choices ≠ [] ∧
      (∃ c ∈ node.Choices, (c.Text = "Goodbye" ∨ c.Next = none) ∧
        ∀ (now : Int) (g2 : GameState),
          (chatAdvance now c g2).chatting = false ∧ (chatAdvance now c g2).convNode = none) ∧
      ∀ c ∈ node.Choices, c.Text = somethingElse → c.Next = some root := by
  obtain ⟨kr, hkr, hr1, hr2, _⟩ := initConversations_root g name root hroot
  obtain ⟨k, hk, hnid, hg⟩ := nodeReach_group g root nid kr hkr hr1 hr2 hreach
  have hlt : k < (conversationNodes g.nodes.length).length := by
    simp [conversationNodes]
    exact hk
  have hnode : (conversationNodes g.nodes.length)[k]?
      = some ((conversationNodes g.nodes.length)[k]) := List.getElem?_eq_getElem hlt
  obtain ⟨_, hne, ⟨c, hc, hbye⟩, hback, _⟩ :=
    conversationNodes_facts g.nodes.length k _ hnode
  refine ⟨_, by rw [hnid, initConversations_node]; exact hnode, hne, ⟨c, hc, Or.inl hbye, ?_⟩, ?_⟩
  · intro now g2
    unfold chatAdvance
    rw [if_pos (Or.inl hbye)]
    exact ⟨rfl, rfl⟩
  · intro c2 hc2 ht
    rw [hback c2 hc2 ht, hg]

/-- C31: an instance (the fresh example game; the Merchant's node "Mostly potions and
trinkets.", node 6, reached from the Merchant's root, node 10, through node 7). -/
theorem dialogue_graphs_exitable_witness :
    ∃ node, (initConversations sampleGame).nodes[6]? = some node ∧ node.Choices ≠ [] ∧
      (∃ c ∈ node.Choices, c.Text = "Goodbye" ∨ c.Next = none) ∧
      ∀ c ∈ node.Choices, c.Text = somethingElse → c.Next = some 10 := by
  have hreach : NodeReach (initConversations sampleGame).nodes 10 6 :=
    NodeReach.next 7 6 _ ⟨"What do you sell?", some 6⟩
      (NodeReach.next 10 7 _ ⟨"Can I buy something?", some 7⟩ NodeReach.root
        rfl (by decide) rfl)
      rfl (by decide) rfl
  obtain ⟨node, h1, h2, ⟨c, hc, hbye, _⟩, h4⟩ :=
    dialogue_graphs_exitable sampleGame "Merchant" 10 6 (by decide) hreach
  exact ⟨node, h1, h2, ⟨c, hc, hbye⟩, h4⟩

/-! ## The dialogue accesses (C32) -/

theorem sameDialogue_refl (g : GameState) : SameDialogue g g := ⟨rfl, rfl, rfl, rfl, rfl, rfl⟩

theorem sameDialogue_trans {g1 g2 g3 : GameState} (h12 : SameDialogue g1 g2)
    (h23 : SameDialogue g2 g3) : SameDialogue g1 g3 :=
  ⟨h23.1.trans h12.1, h23.2.1.trans h12.2.1, h23.2.2.1.trans h12.2.2.1,
    h23.2.2.2.1.trans h12.2.2.2.1, h23.2.2.2.2.1.trans h12.2.2.2.2.1,
    h23.2.2.2.2.2.trans h12.2.2.2.2.2⟩

theorem names_of_map (l1 l2 : List NPC)
    (h : l2.map (fun n => n.name) = l1.map (fun n => n.name))
    (h1 : ∀ npc ∈ l1, npc.name ∈ npcNames) : ∀ npc ∈ l2, npc.name ∈ npcNames := by
  intro npc hmem
  have hm : npc.name ∈ l2.map (fun n => n.name) := List.mem_map.2 ⟨npc, hmem, rfl⟩
  rw [h] at hm
  obtain ⟨npc1, hmem1, he⟩ := List.mem_map.1 hm
  have := h1 npc1 hmem1
  rw [← he]
  exact this

theorem talkInv_of_same (g g2 : GameState) (hs : SameDialogue g g2) (h : TalkInv g) :
    TalkInv g2 := by
  obtain ⟨s1, s2, s3, s4, s5, s6⟩ := hs
  obtain ⟨i1, i2, i3, i4⟩ := h
  unfold TalkInv
  rw [s1, s2, s4, s5, s6]
  exact ⟨i1, names_of_map _ _ s3 i2, i3, i4⟩

theorem animateNPC_name (npc : NPC) : (animateNPC npc).name = npc.name := by
  unfold animateNPC
  simp only
  split <;> rfl

theorem npcTurn_name (inp : Input) (g : GameState) (npcs : List NPC) (i : Nat) (npc npc2 : NPC)
    (h : npcTurn inp g npcs i npc = .ok npc2) : npc2.name = npc.name := by
  unfold npcTurn at h
  split at h
  · cases h; rfl
  · split at h
    · simp only at h
      split at h
      · split at h
        · cases h
        · cases h; exact animateNPC_name _
        · cases h; exact animateNPC_name _
      · cases h; exact animateNPC_name _
    · cases h; exact animateNPC_name _

theorem npcLoop_names (inp : Input) (g : GameState) (k : Nat) :
    ∀ (i : Nat) (npcs npcs2 : List NPC), npcLoop inp g k i npcs = .ok npcs2 →
      npcs2.map (fun n => n.name) = npcs.map (fun n => n.name) := by
  induction k with
  | zero =>
    intro i npcs npcs2 h
    simp only [npcLoop] at h
    cases h
    rfl
  | succ k ih =>
    intro i npcs npcs2 h
    simp only [npcLoop] at h
    split at h
    · cases h; rfl
    · rename_i npc hget
      split at h
      · cases h
      · rename_i npc2 hturn
        rw [ih _ _ _ h]
        exact map_set_same _ npcs i npc npc2 hget (npcTurn_name inp g npcs i npc npc2 hturn)

/-- The NPC loop, the clock and the drain leave the dialogue fields as they are. -/
theorem entry_sameDialogue (fuel : Nat) (inp : Input) (g g1 : GameState) (npcs : List NPC)
    (hn : npcPhase inp (cacheTreesLayer g) = .ok npcs)
    (h : drain fuel (clockTick inp.tickNow { cacheTreesLayer g with npcs := npcs }) = .ok g1) :
    SameDialogue g g1 := by
  obtain ⟨hsame, hnpcs⟩ := entry_same fuel inp.tickNow g g1 npcs h
  obtain ⟨_, s2, s3, s4, s5, _, _, _, _, _, _, _, _, _, _, _, s17, _⟩ := hsame
  refine ⟨s4, s17, ?_, s2, s3, s5⟩
  rw [hnpcs]
  unfold npcPhase at hn
  rw [npcLoop_names inp _ _ _ _ _ hn, cacheTreesLayer_npcs]

theorem chatRepair_dialogue (nid : Nat) (node : ConversationNode) (g : GameState)
    (hn : g.nodes[nid]? = some node) (hcl : NodesClosed g.nodes) :
    NodesClosed (chatRepair nid node g).nodes ∧
    (chatRepair nid node g).nodes.length = g.nodes.length ∧
    (∃ node2, (chatRepair nid node g).nodes[nid]? = some node2 ∧
      node2.Choices = repairedChoices node ∧ node2.Text = node.Text) ∧
    (chatRepair nid node g).conversations = g.conversations ∧
    (chatRepair nid node g).npcs = g.npcs ∧
    (chatRepair nid node g).chatting = g.chatting ∧
    (chatRepair nid node g).convNode = g.convNode := by
  unfold chatRepair repairedChoices
  split
  · refine ⟨?_, List.length_set _ _ _, ⟨_, getElem?_set_same _ _ _ _ hn, rfl, rfl⟩,
      rfl, rfl, rfl, rfl⟩
    intro n hmem
    simp only [List.length_set]
    rcases List.mem_or_eq_of_mem_set hmem with h1 | h1
    · exact hcl n h1
    · rw [h1]
      refine ⟨by simp, ?_⟩
      intro c hc m hm
      simp only [List.mem_singleton] at hc
      rw [hc] at hm
      cases hm
  · exact ⟨hcl, rfl, ⟨node, hn, rfl, rfl⟩, rfl, rfl, rfl, rfl⟩

theorem chatUp_dialogue (inp : Input) (n : Int) (g : GameState) :
    (chatUp inp n g).nodes = g.nodes ∧ (chatUp inp n g).conversations = g.conversations ∧
    (chatUp inp n g).npcs = g.npcs ∧ (chatUp inp n g).chatting = g.chatting ∧
    (chatUp inp n g).convNode = g.convNode := by
  unfold chatUp
  split <;> exact ⟨rfl, rfl, rfl, rfl, rfl⟩

theorem chatDown_dialogue (inp : Input) (n : Int) (g : GameState) :
    (chatDown inp n g).nodes = g.nodes ∧ (chatDown inp n g).conversations = g.conversations ∧
    (chatDown inp n g).npcs = g.npcs ∧ (chatDown inp n g).chatting = g.chatting ∧
    (chatDown inp n g).convNode = g.convNode := by
  unfold chatDown
  split <;> exact ⟨rfl, rfl, rfl, rfl, rfl⟩

theorem treeEffect_dialogue (t : String) (c : ConversationChoice) (g g1 : GameState)
    (h : treeEffect t c g = .ok g1) : SameDialogue g g1 := by
  unfold treeEffect at h
  split at h
  · cases h; exact sameDialogue_refl g
  · split at h
    · split at h
      · cases h
      · split at h
        · cases h
        · cases h; exact ⟨rfl, rfl, rfl, rfl, rfl, rfl⟩
    · cases h; exact sameDialogue_refl g

theorem fishEffect_dialogue (t : String) (c : ConversationChoice) (g : GameState) :
    SameDialogue g (fishEffect t c g) := by
  unfold fishEffect
  split
  · exact ⟨rfl, rfl, rfl, rfl, rfl, rfl⟩
  · exact sameDialogue_refl g

/-- The end of a commit keeps the invariant when the `Next` reference of the choice
points into the arena. -/
theorem chatAdvance_talkInv (now : Int) (c : ConversationChoice) (g : GameState)
    (h : TalkInv g) (hnext : ∀ m, c.Next = some m → m < g.nodes.length) :
    TalkInv (chatAdvance now c g) := by
  obtain ⟨i1, i2, i3, _⟩ := h
  unfold chatAdvance
  split
  · exact ⟨i1, i2, i3, fun hc => Bool.noConfusion hc⟩
  · rename_i hno
    refine ⟨i1, i2, i3, ?_⟩
    intro _
    cases hm : c.Next with
    | none => exact absurd (Or.inr hm) hno
    | some m =>
      have hlt := hnext m hm
      refine ⟨m, g.nodes[m], rfl, List.getElem?_eq_getElem hlt, ?_⟩
      intro hne
      have : 0 < (g.nodes[m]).Choices.length := List.length_pos.2 hne
      simp only
      omega

theorem talkInv_lastChoiceTime (g : GameState) (now : Int) (h : TalkInv g) :
    TalkInv { g with lastChoiceTime := now } := h

/-- The commit keeps the invariant. -/
theorem chatConfirm_talkInv (inp : Input) (t : String) (cs : List ConversationChoice)
    (g g2 : GameState) (nid : Nat) (node : ConversationNode) (hinv : TalkInv g)
    (hn : g.nodes[nid]? = some node) (hcs : node.Choices = cs)
    (h : chatConfirm inp t cs g = .ok g2) : TalkInv g2 := by
  subst hcs
  unfold chatConfirm at h
  split at h
  · split at h
    · cases h
    · rename_i choice hchoice
      split at h
      · cases h
      · rename_i g1 hg1
        cases h
        have hmem := sliceGet_mem _ _ _ hchoice
        have hs := sameDialogue_trans (treeEffect_dialogue t choice g g1 hg1)
          (fishEffect_dialogue t choice g1)
        have hinv2 := talkInv_of_same g _ hs hinv
        refine talkInv_lastChoiceTime _ _ (chatAdvance_talkInv _ choice _ hinv2 ?_)
        intro m hm
        rw [hs.1]
        exact (hinv.1 node (List.getElem?_mem hn)).2 choice hmem m hm
  · cases h
    exact hinv

/-- The chat block keeps the invariant. -/
theorem chatStep_talkInv (inp : Input) (g g2 : GameState) (hinv : TalkInv g)
    (hc : g.chatting = true) (h : chatStep inp g = .ok g2) : TalkInv g2 := by
  obtain ⟨i1, i2, i3, i4⟩ := hinv
  obtain ⟨nid, node, hconv, hn, hidx⟩ := i4 hc
  rw [chatStep_eq inp g nid node hconv hn] at h
  obtain ⟨r1, r2, ⟨node2, r3, r4, _⟩, r5, r6, r7, r8⟩ := chatRepair_dialogue nid node g hn i1
  obtain ⟨u1, u2, u3, u4, u5⟩ := chatUp_dialogue inp (repairedChoices node).length
    (chatRepair nid node g)
  obtain ⟨d1, d2, d3, d4, d5⟩ := chatDown_dialogue inp (repairedChoices node).length
    (chatUp inp (repairedChoices node).length (chatRepair nid node g))
  have hlen : ((repairedChoices node).length : Int) ≤ 9223372036854775807 := by
    have := (r1 node2 (List.getElem?_mem r3)).1
    rw [r4] at this
    omega
  have hi := chatDown_index inp _ _ hlen
    (chatUp_index inp _ _ hlen (chatRepair_index nid node g hidx))
  have hnode : (chatDown inp (repairedChoices node).length
      (chatUp inp (repairedChoices node).length (chatRepair nid node g))).nodes[nid]?
        = some node2 := by
    rw [d1, u1]; exact r3
  have hinvd : TalkInv (chatDown inp (repairedChoices node).length
      (chatUp inp (repairedChoices node).length (chatRepair nid node g))) := by
    unfold TalkInv
    rw [d1, u1, d2, u2, r5, d3, u3, r6, d4, u4, r7, d5, u5, r8, r2]
    refine ⟨r1, i2, i3, ?_⟩
    intro _
    refine ⟨nid, node2, hconv, r3, ?_⟩
    intro _
    rw [r4]
    exact hi
  exact chatConfirm_talkInv inp _ _ _ g2 nid node2 hinvd hnode r4 h

theorem nodesClosed_append (l extra : List ConversationNode) (h : NodesClosed l)
    (he : ∀ node ∈ extra, node.Choices.length ≤ 4 ∧
      ∀ c ∈ node.Choices, ∀ m, c.Next = some m → m < l.length + extra.length) :
    NodesClosed (l ++ extra) := by
  intro node hmem
  rw [List.length_append]
  rcases List.mem_append.1 hmem with h1 | h1
  · obtain ⟨a, b⟩ := h node h1
    exact ⟨a, fun c hc m hm => Nat.lt_of_lt_of_le (b c hc m hm) (Nat.le_add_right _ _)⟩
  · exact he node h1

theorem conversationNodes_closed (b : Nat) (node : ConversationNode)
    (h : node ∈ conversationNodes b) :
    node.Choices.length ≤ 4 ∧
      ∀ c ∈ node.Choices, ∀ m, c.Next = some m → m < b + (conversationNodes b).length := by
  have hlen : (conversationNodes b).length = 16 := by simp [conversationNodes]
  obtain ⟨k, hk⟩ := List.getElem?_of_mem h
  obtain ⟨hk16, _, _, _, hclosed⟩ := conversationNodes_facts b k node hk
  refine ⟨?_, ?_⟩
  · interval_cases k
    all_goals
      simp [conversationNodes] at hk
      subst hk
      simp
  · intro c hc m hm
    obtain ⟨h1, h2, _⟩ := hclosed c hc m hm
    omega

theorem initConversations_roots (g : GameState) (name : String) (h : name ∈ npcNames) :
    ∃ r, conversationRoot (initConversations g).conversations name = some r ∧
      r < (initConversations g).nodes.length := by
  have hlen : (initConversations g).nodes.length = g.nodes.length + 16 := by
    simp [initConversations, conversationNodes]
  rw [hlen]
  simp only [npcNames, List.mem_cons, List.mem_singleton, List.not_mem_nil, or_false] at h
  rcases h with h | h | h
  · exact ⟨g.nodes.length + 4, by rw [h]; rfl, by omega⟩
  · exact ⟨g.nodes.length + 10, by rw [h]; rfl, by omega⟩
  · exact ⟨g.nodes.length + 15, by rw [h]; rfl, by omega⟩

/-- A state that has just entered the dialogue of an NPC of one of the three names
satisfies the invariant. -/
theorem talkInv_at_root (g : GameState) (name : String) (hcl : NodesClosed g.nodes)
    (hnames : ∀ npc ∈ g.npcs, npc.name ∈ npcNames)
    (hroots : ∀ name ∈ npcNames,
      ∃ r, conversationRoot g.conversations name = some r ∧ r < g.nodes.length)
    (hname : name ∈ npcNames) (hconv : g.convNode = conversationRoot g.conversations name)
    (hchoice : g.chatChoice = 0) : TalkInv g := by
  refine ⟨hcl, hnames, fun _ => hroots, ?_⟩
  intro _
  obtain ⟨r, hr, hlt⟩ := hroots name hname
  refine ⟨r, g.nodes[r], by rw [hconv, hr], List.getElem?_eq_getElem hlt, ?_⟩
  intro hne
  have : 0 < (g.nodes[r]).Choices.length := List.length_pos.2 hne
  rw [hchoice]
  omega

theorem startChat_nodes (inp : Input) (g : GameState) (i : Nat) (npc : NPC) :
    (startChat inp g i npc).nodes
      = (if g.conversations = none then (initConversations g).nodes else g.nodes) := by
  unfold startChat
  by_cases hnone : g.conversations = none
  · simp [hnone, initConversations]
  · simp [hnone]

/-- Starting a conversation with an NPC of the list keeps the invariant. -/
theorem startChat_talkInv (inp : Input) (g : GameState) (i : Nat) (npc : NPC)
    (hinv : TalkInv g) (hget : g.npcs[i]? = some npc) : TalkInv (startChat inp g i npc) := by
  obtain ⟨i1, i2, i3, _⟩ := hinv
  obtain ⟨_, _, f3, _, f5, f6, f7, _⟩ := startChat_fields inp g i npc
  have fn := startChat_nodes inp g i npc
  have hname : npc.name ∈ npcNames := i2 npc (List.getElem?_mem hget)
  refine talkInv_at_root _ npc.name ?_ ?_ ?_ hname f6 f3
  · rw [fn]
    split
    · unfold initConversations
      exact nodesClosed_append _ _ i1 (fun node hmem => conversationNodes_closed _ node hmem)
    · exact i1
  · rw [f5]
    exact names_of_map g.npcs _ (map_set_same _ g.npcs i npc _ hget rfl) i2
  · rw [f7, fn]
    intro name hmem
    split
    · exact initConversations_roots g name hmem
    · rename_i hsome
      exact i3 hsome name hmem

/-- A state that has just entered a fresh two-node dialogue appended to the arena
satisfies the invariant. -/
theorem talkInv_fresh (g g2 : GameState) (a b : ConversationNode) (hinv : TalkInv g)
    (hnodes : g2.nodes = g.nodes ++ [a, b]) (hconvs : g2.conversations = g.conversations)
    (hnpcs : g2.npcs = g.npcs) (hconv : g2.convNode = some g.nodes.length)
    (hchoice : g2.chatChoice = 0)
    (ha : a.Choices.length ≤ 4 ∧
      ∀ c ∈ a.Choices, ∀ m, c.Next = some m → m < g.nodes.length + 2)
    (hb : b.Choices.length ≤ 4 ∧
      ∀ c ∈ b.Choices, ∀ m, c.Next = some m → m < g.nodes.length + 2) : TalkInv g2 := by
  obtain ⟨i1, i2, i3, _⟩ := hinv
  unfold TalkInv
  rw [hnodes, hconvs, hnpcs, hconv, hchoice]
  refine ⟨nodesClosed_append _ _ i1 ?_, i2, ?_, ?_⟩
  · intro node hmem
    simp only [List.mem_cons, List.mem_singleton, List.not_mem_nil, or_false] at hmem
    rcases hmem with h | h
    · rw [h]; exact ha
    · rw [h]; exact hb
  · intro hsome name hmem
    obtain ⟨r, hr, hlt⟩ := i3 hsome name hmem
    exact ⟨r, hr, by rw [List.length_append]; omega⟩
  · intro _
    refine ⟨g.nodes.length, a, rfl, ?_, ?_⟩
    · rw [List.getElem?_append_right (le_refl _), Nat.sub_self]
      rfl
    · intro hne
      have : 0 < a.Choices.length := List.length_pos.2 hne
      omega

theorem startFishing_talkInv (inp : Input) (g : GameState) (hinv : TalkInv g) :
    TalkInv (startFishing inp g) := by
  refine talkInv_fresh g _ _ _ hinv rfl rfl rfl rfl rfl ?_ ?_
  · refine ⟨by simp, ?_⟩
    intro c hc m hm
    simp only [List.mem_cons, List.mem_singleton, List.not_mem_nil, or_false] at hc
    rcases hc with h | h
    · rw [h] at hm
      simp only [Option.some.injEq] at hm
      omega
    · rw [h] at hm
      cases hm
  · refine ⟨by simp, ?_⟩
    intro c hc m hm
    simp only [List.mem_singleton] at hc
    rw [hc] at hm
    cases hm

theorem startTreeCut_talkInv (inp : Input) (g : GameState) (li : Nat) (tileIdx : Int)
    (hinv : TalkInv g) : TalkInv (startTreeCut inp g li tileIdx) := by
  refine talkInv_fresh g _ _ _ hinv rfl rfl rfl rfl rfl ?_ ?_
  · refine ⟨by simp, ?_⟩
    intro c hc m hm
    simp only [List.mem_cons, List.mem_singleton, List.not_mem_nil, or_false] at hc
    rcases hc with h | h
    · rw [h] at hm
      simp only [Option.some.injEq] at hm
      omega
    · rw [h] at hm
      cases hm
  · refine ⟨by simp, ?_⟩
    intro c hc m hm
    simp only [List.mem_singleton] at hc
    rw [hc] at hm
    cases hm

/-- The interaction test keeps the invariant. -/
theorem interactStep_talkInv (inp : Input) (g g2 : GameState) (hinv : TalkInv g)
    (h : interactStep inp g = .ok g2) : TalkInv g2 := by
  unfold interactStep at h
  split at h
  · split at h
    · cases h; exact hinv
    · split at h
      · rename_i i npc hfirst
        cases h
        obtain ⟨_, hget⟩ := firstFacing_getElem g.playerPos g.npcs 0 i npc hfirst
        exact startChat_talkInv inp g i npc hinv hget
      · simp only at h
        split at h
        · cases h
        · cases h; exact startFishing_talkInv inp g hinv
        · split at h
          · cases h
          · cases h; exact startTreeCut_talkInv inp g _ _ hinv
          · cases h; exact hinv
  · cases h; exact hinv

/-- One `Update` step keeps the invariant. -/
theorem Update_talkInv (fuel : Nat) (inp : Input) (g g2 : GameState) (hinv : TalkInv g)
    (h : Update fuel inp g = .ok g2) : TalkInv g2 := by
  rcases Update_cases fuel inp g g2 h with ⟨_, hr | hr⟩ | ⟨_, npcs, g1, hnpcs, hdrain, hrest⟩
  · rw [hr]; exact hinv
  · rw [hr]; exact hinv
  · have hinv1 := talkInv_of_same g g1 (entry_sameDialogue fuel inp g g1 npcs hnpcs hdrain) hinv
    rcases hrest with ⟨hc, hstep⟩ | ⟨_, hstep⟩
    · exact chatStep_talkInv inp g1 g2 hinv1 hc hstep
    · rcases exploreStep_cases inp g1 g2 hstep with ⟨_, hg2⟩ | ⟨_, _, gm2, _, hg2⟩ |
        ⟨_, _, gm, hmv, hit⟩
      · rw [hg2]; exact hinv1
      · rw [hg2]; exact hinv1
      · obtain ⟨m1, m2, m3, m4, _, m6, m7⟩ := moveStep_talkFields inp g1 gm hmv
        exact interactStep_talkInv inp gm g2
          (talkInv_of_same g1 gm ⟨m1, m2, by rw [m6], m7, m3, m4⟩ hinv1) hit

theorem initialGame_talkInv (m : TiledMap) (loads : String → Bool) :
    TalkInv (initialGame m loads) := by
  refine ⟨fun node hmem => absurd hmem (List.not_mem_nil node), ?_,
    fun hsome => absurd rfl hsome, fun hc => Bool.noConfusion hc⟩
  intro npc hmem
  obtain ⟨p, hp, rfl⟩ := List.mem_map.1 hmem
  have hp2 := List.mem_of_mem_filter hp
  simp only [spawnPositions, List.mem_cons, List.mem_singleton, List.not_mem_nil, or_false] at hp2
  rcases hp2 with h | h | h <;> rw [h] <;> decide

/-- Every state reached from the initial state satisfies the invariant. -/
theorem reachable_talkInv (m : TiledMap) (loads : String → Bool) (g : GameState)
    (hr : UpdateReachable (initialGame m loads) g) : TalkInv g := by
  induction hr with
  | start => exact initialGame_talkInv m loads
  | step fuel inp g1 g2 _ hstep ih => exact Update_talkInv fuel inp g1 g2 ih hstep

/-- C32. In every state reached by `Update` steps from the initial state of `main`
(any map, the NPCs of `spawnNPCs` whose sprites load), whenever `chatting` is true the
current conversation node is non-nil and, after the repair of an empty choice list,
the highlighted index satisfies `0 ≤ chatChoice < len(choices)`.  Hence the reads of
`g.convNode.Choices` succeed, the chat block is the commit code run after the repair
and the navigation, and for every input the read `g.convNode.Choices[g.chatChoice]` of
the commit, made after the navigation, is in range. -/
theorem chat_accesses_never_fail (m : TiledMap) (loads : String → Bool) (g : GameState)
    (hr : UpdateReachable (initialGame m loads) g) (hc : g.chatting = true) :
    ∃ nid node, g.convNode = some nid ∧ g.nodes[nid]? = some node ∧
      (∃ node2, (chatRepair nid node g).nodes[nid]? = some node2 ∧
        node2.Choices = repairedChoices node ∧
        0 ≤ (chatRepair nid node g).chatChoice ∧
        (chatRepair nid node g).chatChoice < node2.Choices.length) ∧
      ∀ inp : Input,
        chatStep inp g
          = chatConfirm inp node.Text (repairedChoices node)
              (chatDown inp (repairedChoices node).length
                (chatUp inp (repairedChoices node).length (chatRepair nid node g))) ∧
        ∃ choice, sliceGet (repairedChoices node)
          (chatDown inp (repairedChoices node).length
            (chatUp inp (repairedChoices node).length (chatRepair nid node g))).chatChoice
            = .ok choice := by
  obtain ⟨i1, _, _, i4⟩ := reachable_talkInv m loads g hr
  obtain ⟨nid, node, hconv, hn, hidx⟩ := i4 hc
  obtain ⟨r1, _, ⟨node2, r3, r4, _⟩, _⟩ := chatRepair_dialogue nid node g hn i1
  have hlen : ((repairedChoices node).length : Int) ≤ 9223372036854775807 := by
    have := (r1 node2 (List.getElem?_mem r3)).1
    rw [r4] at this
    omega
  have h0 := chatRepair_index nid node g hidx
  refine ⟨nid, node, hconv, hn, ⟨node2, r3, r4, h0.1, by rw [r4]; exact h0.2⟩, ?_⟩
  intro inp
  have hi := chatDown_index inp _ _ hlen (chatUp_index inp _ _ hlen h0)
  exact ⟨chatStep_eq inp g nid node hconv hn, sliceGet_ok _ _ hi.1 hi.2⟩

/-- C32: an instance (the initial state on a 10 by 10 map with every sprite loaded;
one `Update` with Space pressed starts the conversation with the Merchant, within
reach of the starting position). -/
theorem chat_accesses_never_fail_witness :
    ∃ g2, Update 1440 (confirmInput 1000000000) (initialGame openMap (fun _ => true)) = .ok g2 ∧
      g2.chatting = true ∧
      ∃ nid node, g2.convNode = some nid ∧ g2.nodes[nid]? = some node ∧
        ∀ inp : Input, ∃ choice, sliceGet (repairedChoices node)
          (chatDown inp (repairedChoices node).length
            (chatUp inp (repairedChoices node).length (chatRepair nid node g2))).chatChoice
            = .ok choice := by
  have hev : (Update 1440 (confirmInput 1000000000)
      (initialGame openMap (fun _ => true))).toOption.map (fun g => g.chatting)
        = some true := by decide
  cases hu : Update 1440 (confirmInput 1000000000) (initialGame openMap (fun _ => true)) with
  | error e =>
    rw [hu] at hev
    cases hev
  | ok g2 =>
    rw [hu] at hev
    have hc : g2.chatting = true := by simpa [Except.toOption] using hev
    obtain ⟨nid, node, h1, h2, _, h4⟩ := chat_accesses_never_fail openMap (fun _ => true) g2
      (UpdateReachable.step 1440 (confirmInput 1000000000) _ g2 UpdateReachable.start hu) hc
    exact ⟨g2, rfl, hc, nid, node, h1, h2, fun inp => (h4 inp).2⟩

/-! ## The actors and the map bounds (C21) -/

theorem playerBound_eq (w : Int) (h1 : 1 ≤ w) (h2 : w * tileSize ≤ 9223372036854775807) :
    subInt (mulInt w tileSize) tileSize = w * tileSize - tileSize ∧
    subInt (mulInt w tileSize) (quoInt tileSize 4) = w * tileSize - tileSize / 4 := by
  have e4 : quoInt tileSize 4 = 3 := by decide
  unfold subInt mulInt
  rw [e4]
  unfold tileSize at h2 ⊢
  rw [wrapInt_of_range (w * 15) (by omega) (by omega)]
  exact ⟨wrapInt_of_range _ (by omega) (by omega), wrapInt_of_range _ (by omega) (by omega)⟩

theorem clampPos_inside (m : TiledMap) (p : Point) (hm : MapFits m.Width m.Height) :
    InPlayerBounds m.Width m.Height (clampPos m p) := by
  obtain ⟨w1, h1, w2, h2⟩ := hm
  unfold clampPos InPlayerBounds
  simp only
  rw [(playerBound_eq m.Width w1 w2).1, (playerBound_eq m.Height h1 h2).1]
  unfold tileSize at w2 h2 ⊢
  refine ⟨?_, ?_, ?_, ?_⟩ <;> split <;> split <;> omega

theorem restart_inside (g : GameState) (hm : MapFits g.mapData.Width g.mapData.Height) :
    InPlayerBounds g.mapData.Width g.mapData.Height (restart g).playerPos := by
  obtain ⟨w1, h1, w2, h2⟩ := hm
  unfold restart InPlayerBounds
  simp only
  rw [(playerBound_eq g.mapData.Width w1 w2).1, (playerBound_eq g.mapData.Height h1 h2).1]
  unfold tileSize at w2 h2 ⊢
  unfold quoInt
  have ex : 0 ≤ Int.tdiv (g.mapData.Width * 15 - 15) 2 ∧
      Int.tdiv (g.mapData.Width * 15 - 15) 2 ≤ g.mapData.Width * 15 - 15 := by
    rw [Int.tdiv_eq_ediv (by omega) (by omega)]
    omega
  have ey : 0 ≤ Int.tdiv (g.mapData.Height * 15 - 15) 2 ∧
      Int.tdiv (g.mapData.Height * 15 - 15) 2 ≤ g.mapData.Height * 15 - 15 := by
    rw [Int.tdiv_eq_ediv (by omega) (by omega)]
    omega
  rw [wrapInt_of_range _ (by omega) (by omega), wrapInt_of_range _ (by omega) (by omega)]
  omega

/-- A target the wander step accepts lies within the bounds of its test. -/
theorem tryDirs_inside (g : GameState) (npcs : List NPC) (i : Nat) (npc : NPC)
    (hm : MapFits g.mapData.Width g.mapData.Height) (dirs : List Dir) (td : Point × Int)
    (h : tryDirs g npcs i npc dirs = .ok (some td)) :
    InNPCBounds g.mapData.Width g.mapData.Height td.1 := by
  obtain ⟨w1, h1, w2, h2⟩ := hm
  induction dirs with
  | nil =>
    simp only [tryDirs] at h
    cases h
  | cons d rest ih =>
    simp only [tryDirs] at h
    rw [(playerBound_eq g.mapData.Width w1 w2).2, (playerBound_eq g.mapData.Height h1 h2).2] at h
    split at h
    · exact ih h
    · rename_i hin
      split at h
      · cases h
      · split at h
        · exact ih h
        · cases h
          unfold InNPCBounds
          simp only
          omega

/-- One coordinate of a moving NPC stays between its position and its target. -/
theorem stepToward_inside (pos target b : Int) (hb : b ≤ 9223372036854775807)
    (hp : 0 ≤ pos ∧ pos ≤ b) (ht : 0 ≤ target ∧ target ≤ b) :
    0 ≤ stepToward pos target ∧ stepToward pos target ≤ b := by
  obtain ⟨_, s1, s2⟩ := stepToward_spec pos target (by omega) (by omega) (by omega) (by omega)
    (by omega) (by omega)
  omega

/-- The body of the NPC loop keeps an NPC, and its target while it is on its way,
within the bounds of the NPC test. -/
theorem npcTurn_inside (inp : Input) (g : GameState) (npcs : List NPC) (i : Nat)
    (npc npc2 : NPC) (hm : MapFits g.mapData.Width g.mapData.Height)
    (hin : InNPCBounds g.mapData.Width g.mapData.Height npc.pos ∧
      (npc.moving = true → InNPCBounds g.mapData.Width g.mapData.Height npc.target))
    (h : npcTurn inp g npcs i npc = .ok npc2) :
    InNPCBounds g.mapData.Width g.mapData.Height npc2.pos ∧
      (npc2.moving = true → InNPCBounds g.mapData.Width g.mapData.Height npc2.target) := by
  unfold npcTurn at h
  split at h
  · cases h
    exact ⟨hin.1, fun hmv => Bool.noConfusion hmv⟩
  · split at h
    · rename_i hidle
      simp only at h
      split at h
      · split at h
        · cases h
        · cases h
          obtain ⟨a1, _, _, a4, a5⟩ := animateNPC_fields { npc with moveTick := 0 }
          rw [a1, a4, a5]
          exact hin
        · rename_i td htd
          cases h
          obtain ⟨a1, _, _, a4, _⟩ := animateNPC_fields
            { npc with moveTick := 0, target := td.1, dir := td.2, moving := true }
          rw [a1, a4]
          exact ⟨hin.1, fun _ => tryDirs_inside g npcs i npc hm _ td htd⟩
      · cases h
        obtain ⟨a1, _, _, a4, a5⟩ := animateNPC_fields
          { npc with moveTick := addInt npc.moveTick 1 }
        rw [a1, a4, a5]
        exact hin
    · rename_i hmoving
      cases h
      have hmv : npc.moving = true := by simpa using hmoving
      obtain ⟨p1, p2, p3, p4⟩ := hin.1
      obtain ⟨t1, t2, t3, t4⟩ := hin.2 hmv
      obtain ⟨_, _, w2, h2⟩ := hm
      have bx : g.mapData.Width * tileSize - tileSize / 4 ≤ 9223372036854775807 := by
        unfold tileSize at w2 ⊢
        omega
      have by2 : g.mapData.Height * tileSize - tileSize / 4 ≤ 9223372036854775807 := by
        unfold tileSize at h2 ⊢
        omega
      have sx := stepToward_inside npc.pos.X npc.target.X _ bx ⟨p1, p2⟩ ⟨t1, t2⟩
      have sy := stepToward_inside npc.pos.Y npc.target.Y _ by2 ⟨p3, p4⟩ ⟨t3, t4⟩
      obtain ⟨a1, _, _, a4, _⟩ := animateNPC_fields
        { npc with
          pos := ⟨stepToward npc.pos.X npc.target.X, stepToward npc.pos.Y npc.target.Y⟩
          moving := if (⟨stepToward npc.pos.X npc.target.X,
            stepToward npc.pos.Y npc.target.Y⟩ : Point) = npc.target then false
            else npc.moving }
      rw [a1, a4]
      exact ⟨⟨sx.1, sx.2, sy.1, sy.2⟩, fun _ => ⟨t1, t2, t3, t4⟩⟩

theorem npcLoop_inside (inp : Input) (g : GameState)
    (hm : MapFits g.mapData.Width g.mapData.Height) (k : Nat) :
    ∀ (i : Nat) (npcs npcs2 : List NPC),
      (∀ npc ∈ npcs, InNPCBounds g.mapData.Width g.mapData.Height npc.pos ∧
        (npc.moving = true → InNPCBounds g.mapData.Width g.mapData.Height npc.target)) →
      npcLoop inp g k i npcs = .ok npcs2 →
      ∀ npc ∈ npcs2, InNPCBounds g.mapData.Width g.mapData.Height npc.pos ∧
        (npc.moving = true → InNPCBounds g.mapData.Width g.mapData.Height npc.target) := by
  induction k with
  | zero =>
    intro i npcs npcs2 hin h
    simp only [npcLoop] at h
    cases h
    exact hin
  | succ k ih =>
    intro i npcs npcs2 hin h
    simp only [npcLoop] at h
    split at h
    · cases h; exact hin
    · rename_i npc hget
      split at h
      · cases h
      · rename_i npc2 hturn
        refine ih _ _ _ ?_ h
        intro n hmem
        rcases List.mem_or_eq_of_mem_set hmem with h1 | h1
        · exact hin n h1
        · rw [h1]
          exact npcTurn_inside inp g npcs i npc npc2 hm (hin npc (List.getElem?_mem hget)) hturn

theorem moveStep_inside (inp : Input) (g g2 : GameState)
    (hm : MapFits g.mapData.Width g.mapData.Height)
    (hp : InPlayerBounds g.mapData.Width g.mapData.Height g.playerPos)
    (h : moveStep inp g = .ok g2) :
    InPlayerBounds g.mapData.Width g.mapData.Height g2.playerPos := by
  unfold moveStep at h
  simp only at h
  split at h
  · cases h
  · cases h
    rw [(animatePlayer_fields _).2.1]
    split
    · exact hp
    · exact clampPos_inside g.mapData _ hm

theorem startChat_mapData (inp : Input) (g : GameState) (i : Nat) (npc : NPC) :
    (startChat inp g i npc).mapData = g.mapData := by
  unfold startChat
  simp only
  split <;> rfl

/-- The interaction test leaves the map and the player where they are, and every NPC
at its position, with its target and its `moving` flag. -/
theorem interactStep_actors (inp : Input) (g g2 : GameState)
    (h : interactStep inp g = .ok g2) :
    g2.mapData = g.mapData ∧ g2.playerPos = g.playerPos ∧
    ∀ n ∈ g2.npcs, ∃ n0 ∈ g.npcs, n.pos = n0.pos ∧ n.target = n0.target ∧
      n.moving = n0.moving := by
  have hsame : ∀ n ∈ g.npcs, ∃ n0 ∈ g.npcs, n.pos = n0.pos ∧ n.target = n0.target ∧
      n.moving = n0.moving := fun n hn => ⟨n, hn, rfl, rfl, rfl⟩
  unfold interactStep at h
  split at h
  · split at h
    · cases h; exact ⟨rfl, rfl, hsame⟩
    · split at h
      · rename_i i npc hfirst
        cases h
        obtain ⟨_, hget⟩ := firstFacing_getElem g.playerPos g.npcs 0 i npc hfirst
        obtain ⟨_, _, _, _, f5, _, _, f8⟩ := startChat_fields inp g i npc
        refine ⟨startChat_mapData inp g i npc, f8, ?_⟩
        rw [f5]
        intro n hmem
        rcases List.mem_or_eq_of_mem_set hmem with h1 | h1
        · exact hsame n h1
        · exact ⟨npc, List.getElem?_mem hget, by rw [h1], by rw [h1], by rw [h1]⟩
      · simp only at h
        split at h
        · cases h
        · cases h; exact ⟨rfl, rfl, hsame⟩
        · split at h
          · cases h
          · cases h; exact ⟨rfl, rfl, hsame⟩
          · cases h; exact ⟨rfl, rfl, hsame⟩
  · cases h; exact ⟨rfl, rfl, hsame⟩

/-- One `Update` step keeps the actors inside the map. -/
theorem Update_inside (fuel : Nat) (inp : Input) (w h : Int) (g g2 : GameState)
    (hm : MapFits w h) (hin : ActorsInside w h g) (hstep : Update fuel inp g = .ok g2) :
    ActorsInside w h g2 := by
  obtain ⟨ew, eh, hp, hn⟩ := hin
  rcases Update_cases fuel inp g g2 hstep with ⟨_, hr | hr⟩ |
    ⟨_, npcs, g1, hnpcs, hdrain, hrest⟩
  · rw [hr]
    refine ⟨ew, eh, ?_, hn⟩
    have := restart_inside g (by rw [ew, eh]; exact hm)
    rw [ew, eh] at this
    exact this
  · rw [hr]; exact ⟨ew, eh, hp, hn⟩
  · obtain ⟨hsame, hn1⟩ := entry_same fuel inp.tickNow g g1 npcs hdrain
    obtain ⟨s1, _, _, _, _, _, _, _, _, _, _, s12, _⟩ := hsame
    have hin1 : ActorsInside w h g1 := by
      refine ⟨by rw [s1]; exact ew, by rw [s1]; exact eh, by rw [s12]; exact hp, ?_⟩
      rw [hn1]
      unfold npcPhase at hnpcs
      have hloop := npcLoop_inside inp (cacheTreesLayer g)
        (by rw [cacheTreesLayer_mapData, ew, eh]; exact hm) _ _ _ _
        (by rw [cacheTreesLayer_mapData, cacheTreesLayer_npcs, ew, eh]; exact hn) hnpcs
      rw [cacheTreesLayer_mapData, ew, eh] at hloop
      exact hloop
    obtain ⟨ew1, eh1, hp1, hnn1⟩ := hin1
    rcases hrest with ⟨_, hchat⟩ | ⟨_, hexp⟩
    · obtain ⟨a1, _, a3, _, _, _, a7, a8, _⟩ := chatStep_sameActors inp g1 g2 hchat
      exact ⟨a7.trans ew1, a8.trans eh1, by rw [a1]; exact hp1, by rw [a3]; exact hnn1⟩
    · rcases exploreStep_cases inp g1 g2 hexp with ⟨_, hg2⟩ | ⟨_, _, gm2, _, hg2⟩ |
        ⟨_, _, gm, hmv, hit⟩
      · rw [hg2]; exact ⟨ew1, eh1, hp1, hnn1⟩
      · rw [hg2]; exact ⟨ew1, eh1, hp1, hnn1⟩
      · have hpm := moveStep_inside inp g1 gm (by rw [ew1, eh1]; exact hm)
          (by rw [ew1, eh1]; exact hp1) hmv
        rw [ew1, eh1] at hpm
        obtain ⟨m1, _⟩ := moveStep_mapData inp g1 gm hmv
        obtain ⟨_, _, _, _, _, m6, _⟩ := moveStep_talkFields inp g1 gm hmv
        obtain ⟨t1, t2, t3⟩ := interactStep_actors inp gm g2 hit
        refine ⟨by rw [t1, m1]; exact ew1, by rw [t1, m1]; exact eh1, by rw [t2]; exact hpm, ?_⟩
        intro n hmem
        obtain ⟨n0, hmem0, e1, e2, e3⟩ := t3 n hmem
        rw [m6] at hmem0
        rw [e1, e2, e3]
        exact hnn1 n0 hmem0

theorem runUpdates_reachable (fuel : Nat) (g0 : GameState) (inputs : List Input) :
    ∀ (g g2 : GameState), UpdateReachable g0 g → runUpdates fuel inputs g = .ok g2 →
      UpdateReachable g0 g2 := by
  induction inputs with
  | nil =>
    intro g g2 hr h
    simp only [runUpdates] at h
    cases h
    exact hr
  | cons inp rest ih =>
    intro g g2 hr h
    simp only [runUpdates] at h
    split at h
    · cases h
    · rename_i g1 hg1
      exact ih g1 g2 (UpdateReachable.step fuel inp g g1 hr hg1) h

theorem alignedStart_inside (g : GameState) (h : AlignedStart g) :
    ActorsInside g.mapData.Width g.mapData.Height g := by
  obtain ⟨_, _, hp, hn⟩ := h
  refine ⟨rfl, rfl, hp, ?_⟩
  have hle : ∀ p : Point, InPlayerBounds g.mapData.Width g.mapData.Height p →
      InNPCBounds g.mapData.Width g.mapData.Height p := by
    intro p hb
    unfold InPlayerBounds at hb
    unfold InNPCBounds
    unfold tileSize at hb ⊢
    omega
  intro npc hmem
  obtain ⟨_, h2, h3⟩ := hn npc hmem
  exact ⟨hle _ h2, fun hmv => hle _ (h3 hmv).2⟩

/-- C21, as stated, fails for the NPCs, and for the player on a map too wide for an
`int`.  The example map is 4 by 4 tiles, so the bound claimed is `x ≤ 45`.  From a
start with the player and the Kid tile-aligned inside the map, the Kid picks the cell
to its right, the chat freeze stops it on its way at `x = 32`, and after the dialogue
it is idle there; 31 steps later its wander step accepts the target `x = 47` (its
bounds test allows up to `60 - 15/4 = 57`), and 8 steps after that it stands at
`x = 47`, idle.  On a map of 614891469123651722 tiles in a row the bound
`Width*tileSize - tileSize` of the clamp wraps to a negative value, and one step with
no key pressed takes the player from (0, 0) to a negative `x`. -/
theorem actors_leave_the_claimed_bounds :
    AlignedStart shoreGame ∧ shoreGame.mapData.Width = 4 ∧ shoreGame.mapData.Height = 4 ∧
    (runUpdates 1440 (shoreRun 0) shoreGame).toOption.map
        (fun g => (g.chatting, g.npcs.map (fun n => (n.pos, n.target, n.moving))))
      = some (false, [(⟨32, 0⟩, ⟨45, 0⟩, false)]) ∧
    (runUpdates 1440 (shoreRun 31) shoreGame).toOption.map
        (fun g => g.npcs.map (fun n => (n.pos, n.target, n.moving)))
      = some [(⟨32, 0⟩, ⟨47, 0⟩, true)] ∧
    (runUpdates 1440 (shoreRun 39) shoreGame).toOption.map
        (fun g => (g.playerPos, g.npcs.map (fun n => (n.pos, n.moving))))
      = some (⟨0, 30⟩, [(⟨47, 0⟩, false)]) ∧
    ¬ InPlayerBounds 4 4 ⟨47, 0⟩ ∧
    TileAligned wideGame.playerPos ∧
    InPlayerBounds wideGame.mapData.Width wideGame.mapData.Height wideGame.playerPos ∧
    wideGame.npcs = [] ∧
    (runUpdates 1440 [idleInput 1000000000] wideGame).toOption.map (fun g => g.playerPos)
      = some ⟨-9223372036854775801, 0⟩ := by
  refine ⟨?_, by decide, by decide, by decide, ?_, ?_, ?_, ?_, ?_, by decide, by decide⟩
  · unfold AlignedStart MapFits TileAligned InPlayerBounds
    decide
  · set_option maxRecDepth 100000 in decide
  · set_option maxRecDepth 100000 in decide
  · unfold InPlayerBounds
    decide
  · unfold TileAligned
    decide
  · unfold InPlayerBounds
    decide

/-- C21, amended.  In every state reached by `Update` steps from a start in which the
player and all NPCs (and the target of every NPC on its way) are tile-aligned inside a
W x H map with `W, H ≥ 1` whose size in units, `W*tileSize` by `H*tileSize`, fits an
`int`: the map still has W by H tiles, the position of the player satisfies
`0 ≤ x ≤ W*tileSize - tileSize` and `0 ≤ y ≤ H*tileSize - tileSize`, and the position
of every NPC satisfies `0 ≤ x ≤ W*tileSize - tileSize/4` and
`0 ≤ y ≤ H*tileSize - tileSize/4`, the bounds of the NPC test. -/
theorem actors_stay_inside (g0 g : GameState) (h0 : AlignedStart g0)
    (hr : UpdateReachable g0 g) :
    g.mapData.Width = g0.mapData.Width ∧ g.mapData.Height = g0.mapData.Height ∧
    InPlayerBounds g0.mapData.Width g0.mapData.Height g.playerPos ∧
    ∀ npc ∈ g.npcs, InNPCBounds g0.mapData.Width g0.mapData.Height npc.pos := by
  have hinv : ActorsInside g0.mapData.Width g0.mapData.Height g := by
    induction hr with
    | start => exact alignedStart_inside g0 h0
    | step fuel inp g1 g2 _ hstep ih => exact Update_inside fuel inp _ _ g1 g2 h0.1 ih hstep
  obtain ⟨e1, e2, hp, hn⟩ := hinv
  exact ⟨e1, e2, hp, fun npc hmem => (hn npc hmem).1⟩

/-- C21: an instance (the run of the example above: the Kid ends at `x = 47`, past
the bound 45 of the player and within the bound 57 of the NPC test). -/
theorem actors_stay_inside_witness :
    ∃ g, runUpdates 1440 (shoreRun 39) shoreGame = .ok g ∧
      g.npcs.map (fun n => n.pos) = [⟨47, 0⟩] ∧ InPlayerBounds 4 4 g.playerPos ∧
      ∀ npc ∈ g.npcs, InNPCBounds 4 4 npc.pos := by
  have hev : (runUpdates 1440 (shoreRun 39) shoreGame).toOption.map
      (fun g => g.npcs.map (fun n => n.pos)) = some [⟨47, 0⟩] := by
    set_option maxRecDepth 100000 in decide
  have hstart : AlignedStart shoreGame := by
    unfold AlignedStart MapFits TileAligned InPlayerBounds
    decide
  cases hu : runUpdates 1440 (shoreRun 39) shoreGame with
  | error e =>
    rw [hu] at hev
    cases hev
  | ok g =>
    rw [hu] at hev
    obtain ⟨_, _, h3, h4⟩ := actors_stay_inside shoreGame g hstart
      (runUpdates_reachable 1440 shoreGame _ shoreGame g UpdateReachable.start hu)
    exact ⟨g, rfl, by simpa [Except.toOption] using hev, h3, h4⟩

end SurvivalGame
